import Mathlib

/-!
# gen-dto: conversion planning engine

A shallow embedding of the Go sources of `seitarof/gen-dto`
(`internal/parser`, `internal/matcher`, `internal/resolver`) together with
theorems about the resolver and the record discovery.

Conventions of the embedding:

* Go strings are Lean `String`s; slices are `List`s; a nullable pointer
  `*T` is an `Option T`; a Go map used as a set is a duplicate-free list.
* Values of the external library `go/types` are handles: a `GoType` is the
  shape a type switch can observe, and everything the library computes
  (underlying types, struct fields, identity, convertibility, assignability,
  printing, method sets) is a field of the record `GoTypes`, which every
  definition that calls the library takes as a parameter. Theorems hold for
  every such record; closed examples use the instance `exampleTypes`.
-/

namespace GenDto

set_option linter.unnecessarySeqFocus false

/-! ## Go standard library: `unicode`, `strings`, `path` -/

/-- The functions of Go package `unicode` that the repository calls
(directly or through `strings`), as a classification of code points. -/
structure Unicode where
  IsLetter : Char → Bool
  IsDigit : Char → Bool
  IsSpace : Char → Bool
  ToUpper : Char → Char
  ToLower : Char → Char

/-- Go `strings.HasPrefix`. -/
def strings.HasPrefix (s pre : String) : Bool :=
  pre.data.isPrefixOf s.data

/-- Go `strings.TrimPrefix`. -/
def strings.TrimPrefix (s pre : String) : String :=
  if strings.HasPrefix s pre then String.mk (s.data.drop pre.data.length) else s

/-- Position-wise search used by `strings.Contains` and `strings.SplitN`:
the text before and after the first occurrence of `sep`. -/
def strings.cutChars (sep : List Char) : List Char → Option (List Char × List Char)
  | [] => if sep.isEmpty then some ([], []) else none
  | c :: cs =>
    if sep.isPrefixOf (c :: cs) then some ([], (c :: cs).drop sep.length)
    else match strings.cutChars sep cs with
      | some (a, b) => some (c :: a, b)
      | none => none

/-- Go `strings.Contains`. -/
def strings.Contains (s substr : String) : Bool :=
  (strings.cutChars substr.data s.data).isSome

/-- Go `strings.SplitN(s, sep, 2)` for a non-empty separator. -/
def strings.SplitN2 (s sep : String) : List String :=
  match strings.cutChars sep.data s.data with
  | some (a, b) => [String.mk a, String.mk b]
  | none => [s]

/-- Go `strings.TrimSpace`. -/
def strings.TrimSpace (U : Unicode) (s : String) : String :=
  String.mk ((s.data.dropWhile U.IsSpace).reverse.dropWhile U.IsSpace).reverse

/-- Loop of `strings.FieldsFunc`: `cur` is the field being read, reversed. -/
def strings.FieldsFunc.go (f : Char → Bool) : List Char → List Char → List String
  | [], cur => if cur.isEmpty then [] else [String.mk cur.reverse]
  | c :: cs, cur =>
    if f c then
      if cur.isEmpty then strings.FieldsFunc.go f cs []
      else String.mk cur.reverse :: strings.FieldsFunc.go f cs []
    else strings.FieldsFunc.go f cs (c :: cur)

/-- Go `strings.FieldsFunc`: the maximal runs of code points not satisfying
`f`. -/
def strings.FieldsFunc (s : String) (f : Char → Bool) : List String :=
  strings.FieldsFunc.go f s.data []

/-- Go `strings.ToLower`. -/
def strings.ToLower (U : Unicode) (s : String) : String :=
  String.mk (s.data.map U.ToLower)

/-- Go `strings.Join`. -/
def strings.Join (parts : List String) (sep : String) : String :=
  sep.intercalate parts

/-- Go `path.Base`. -/
def path.Base (p : String) : String :=
  if p = "" then "."
  else
    let stripped := (p.data.reverse.dropWhile (fun c => c == '/')).reverse
    let last := (stripped.reverse.takeWhile (fun c => c != '/')).reverse
    if last.isEmpty then "/" else String.mk last

/-! ## The go/types handles -/

/-- A `*types.Package`: import path and package name. -/
structure Pkg where
  Path : String
  Name : String
deriving DecidableEq, Repr

/-- A `*types.TypeName` object: the declaring package (nil for universe
objects) and the declared name. -/
structure TypeName where
  Pkg : Option Pkg
  Name : String
deriving DecidableEq, Repr

/-- The dynamic shape of a `types.Type` value, as far as a type switch of
this repository distinguishes it. `Struct` and `Interface` are handles; the
fields of a struct and the underlying type of a named type are obtained
through `GoTypes`, so that recursive declarations are representable. -/
inductive GoType where
  | Basic (name : String)
  | Pointer (elem : GoType)
  | Slice (elem : GoType)
  | Map (key : GoType) (elem : GoType)
  | Struct (id : Nat)
  | Interface (id : Nat)
  | Named (obj : TypeName)
  | Alias (obj : TypeName) (rhs : GoType)
  | Other (repr : String)
deriving DecidableEq, Repr

/-- A `*types.Var` that is a struct field. -/
structure Var where
  Name : String
  Embedded : Bool
  Exported : Bool
  Type_ : GoType
deriving DecidableEq, Repr

/-- A `*types.Signature`, reduced to parameter and result types. -/
structure Signature where
  Params : List GoType
  Results : List GoType
deriving DecidableEq, Repr

/-- A method-set entry: the name of the method object and its type when
that type is a signature. -/
structure Selection where
  Name : String
  Sig : Option Signature
deriving DecidableEq, Repr

/-- A `types.Qualifier`. -/
abbrev Qualifier := Option Pkg → String

/-- The functions of `go/types` that the repository calls. -/
structure GoTypes where
  /-- Method `(*types.Named).Underlying`. -/
  Underlying : TypeName → GoType
  /-- The fields of a struct handle, in declaration order. -/
  Fields : Nat → List Var
  Identical : GoType → GoType → Bool
  ConvertibleTo : GoType → GoType → Bool
  AssignableTo : GoType → GoType → Bool
  /-- Function `types.TypeString`; the qualifier is `none` for Go `nil`. -/
  TypeString : GoType → Option Qualifier → String
  NewMethodSet : GoType → List Selection

/-- Go `types.Unalias`. -/
def Unalias : GoType → GoType
  | .Alias _ rhs => Unalias rhs
  | t => t

/-! ## internal/parser: struct_info.go -/

/-- The coarse-grained type category `TypeKind`. -/
inductive TypeKind where
  | TypeKindBasic
  | TypeKindPointer
  | TypeKindStruct
  | TypeKindSlice
  | TypeKindMap
  | TypeKindInterface
  | TypeKindOther
deriving DecidableEq, Repr

open TypeKind

/-- The Go struct `TypeDetail`; `ElemType` and `KeyType` are nullable
pointers. -/
inductive TypeDetail where
  | mk (Kind : TypeKind) (PkgPath : String) (ElemType : Option TypeDetail)
      (KeyType : Option TypeDetail) (IsBasic : Bool) (BasicKind : String)
      (StructName : String) (TypeName : String)
deriving Repr

namespace TypeDetail

def Kind : TypeDetail → TypeKind
  | mk k _ _ _ _ _ _ _ => k

def PkgPath : TypeDetail → String
  | mk _ p _ _ _ _ _ _ => p

def ElemType : TypeDetail → Option TypeDetail
  | mk _ _ e _ _ _ _ _ => e

def KeyType : TypeDetail → Option TypeDetail
  | mk _ _ _ k _ _ _ _ => k

def IsBasic : TypeDetail → Bool
  | mk _ _ _ _ b _ _ _ => b

def BasicKind : TypeDetail → String
  | mk _ _ _ _ _ b _ _ => b

def StructName : TypeDetail → String
  | mk _ _ _ _ _ _ s _ => s

def TypeName : TypeDetail → String
  | mk _ _ _ _ _ _ _ t => t

/-- The zero value `TypeDetail{}`. -/
def zero : TypeDetail := mk TypeKindBasic "" none none false "" "" ""

end TypeDetail

/-- The Go struct `FieldInfo`. The field `Type_` (Go: `Type`) holds the `types.Type` of a
struct field, which go/types never reports as nil. -/
structure FieldInfo where
  Name : String
  AccessPath : String
  TypeStr : String
  TypeInfo : TypeDetail
  Type_ : GoType
  IsExported : Bool
  EmbedFrom : String

/-- The Go struct `StructInfo`. -/
structure StructInfo where
  Name : String
  PkgPath : String
  PkgName : String
  Fields : List FieldInfo

/-! ## internal/matcher: the pair types -/

/-- The Go struct `matcher.StructPair`. The two `*StructInfo` are the
records a matcher paired; they are never nil. -/
structure StructPair where
  Src : StructInfo
  Dst : StructInfo

/-- The Go struct `matcher.FieldPair`. -/
structure FieldPair where
  SrcField : FieldInfo
  DstField : FieldInfo

/-! ## internal/resolver: conversion.go -/

/-- The enumeration `ConversionStrategy`, in `iota` order. -/
inductive ConversionStrategy where
  | StrategyDirectAssign
  | StrategyBasicCast
  | StrategyPointerWrap
  | StrategyPointerUnwrap
  | StrategyNullableToValue
  | StrategyValueToNullable
  | StrategyTimeToString
  | StrategyStringToTime
  | StrategySliceConvert
  | StrategyNestedStruct
  | StrategyNestedStructPtr
  | StrategyNestedSlice
  | StrategyCustomFunc
  | StrategySkip
deriving DecidableEq, Repr

open ConversionStrategy

/-- The Go struct `ConversionPlan`. -/
structure ConversionPlan where
  SrcField : FieldInfo
  DstField : FieldInfo
  Strategy : ConversionStrategy
  Expression : String

/-- Go `toExportedToken`. -/
def toExportedToken (U : Unicode) (s : String) : String :=
  let parts := strings.FieldsFunc s (fun r => !U.IsLetter r && !U.IsDigit r)
  if parts.length = 0 then "Pkg"
  else
    let b := parts.foldl (fun b part =>
      if part = "" then b
      else
        match part.data with
        | [] => b
        | first :: rest =>
          let b1 := b ++ String.mk [U.ToUpper first]
          if 1 + rest.length > 1 then b1 ++ String.mk rest else b1) ""
    if b.length = 0 then "Pkg" else b

/-- Go `packageToken`. -/
def packageToken (U : Unicode) (pkgPath : String) : String :=
  let base := path.Base (strings.TrimSpace U pkgPath)
  if base = "" ∨ base = "." ∨ base = "/" then "Pkg"
  else toExportedToken U base

/-- Go `DefaultConverterName`. -/
def DefaultConverterName (U : Unicode) (srcPkgPath srcName dstPkgPath dstName : String) :
    String :=
  if srcName ≠ dstName then "Convert" ++ srcName ++ "To" ++ dstName
  else "Convert" ++ packageToken U srcPkgPath ++ srcName ++ "To" ++
    packageToken U dstPkgPath ++ dstName

/-! ## internal/resolver: nested_aware.go -/

/-- The Go struct `NestedPairKey`. -/
structure NestedPairKey where
  SrcPkgPath : String
  SrcName : String
  DstPkgPath : String
  DstName : String
deriving DecidableEq, Repr

/-- The Go map type `NestedSet`, a set of keys: `none` is the nil map, and
the list of a non-nil map holds each key once. -/
abbrev NestedSet := Option (List NestedPairKey)

/-- Go `len(m)` on a `NestedSet`. -/
def NestedSet.len : NestedSet → Nat
  | none => 0
  | some ks => ks.length

/-- Go `_, ok := m[k]` on a `NestedSet`. -/
def NestedSet.has : NestedSet → NestedPairKey → Bool
  | none, _ => false
  | some ks, k => decide (k ∈ ks)

/-- Go `m[k] = struct{}{}` on the entries of a non-nil `NestedSet`. -/
def NestedSet.insertKey (ks : List NestedPairKey) (k : NestedPairKey) : List NestedPairKey :=
  if k ∈ ks then ks else ks ++ [k]

/-! ## internal/resolver: builtin_rules.go, helpers -/

/-- Go `newPlan`. -/
def newPlan (src dst : FieldInfo) (strategy : ConversionStrategy) (expression : String) :
    ConversionPlan :=
  { SrcField := src, DstField := dst, Strategy := strategy, Expression := expression }

/-- Go `assign`. -/
def assign (dst src : String) : String :=
  dst ++ " = " ++ src

/-- Go `castAssign`. -/
def castAssign (dst dstType src : String) : String :=
  dst ++ " = (" ++ dstType ++ ")(" ++ src ++ ")"

/-- Go `isConvertibleFallbackKind`. -/
def isConvertibleFallbackKind : TypeKind → Bool
  | TypeKindBasic => true
  | TypeKindStruct => true
  | _ => false

/-- Go `srcSelector`. -/
def srcSelector (f : FieldInfo) : String :=
  "src." ++ f.AccessPath

/-- Go `dstSelector`. -/
def dstSelector (f : FieldInfo) : String :=
  "dst." ++ f.AccessPath

/-- Go `isIdenticalType`; `none` is a nil `types.Type`. -/
def isIdenticalType (T : GoTypes) (src dst : Option GoType) : Bool :=
  match src, dst with
  | some s, some d =>
    if T.Identical s d then true
    else
      let srcUnaliased := Unalias s
      let dstUnaliased := Unalias d
      if T.Identical srcUnaliased dstUnaliased then true
      else if T.TypeString srcUnaliased none = T.TypeString dstUnaliased none then true
      else decide (T.TypeString s none = T.TypeString d none)
  | _, _ => false

/-- Go `pointerElem`; the result is `none` when the Go function returns
`(nil, false)`. -/
def pointerElem (T : GoTypes) : GoType → Option GoType
  | .Alias _ rhs => pointerElem T rhs
  | .Pointer elem => some elem
  | .Named obj =>
    match T.Underlying obj with
    | .Pointer elem => some elem
    | _ => none
  | _ => none

/-- Go `sliceElem`. -/
def sliceElem (T : GoTypes) : GoType → Option GoType
  | .Alias _ rhs => sliceElem T rhs
  | .Slice elem => some elem
  | .Named obj =>
    match T.Underlying obj with
    | .Slice elem => some elem
    | _ => none
  | _ => none

/-- The Go struct `nullableMeta`. -/
structure nullableMeta where
  valueType : String
  valueField : String
  validExpr : String → String

/-- The Go table `nullableMapping`; `none` when the key is absent. -/
def nullableMapping (key : String) : Option nullableMeta :=
  if key = "database/sql.NullString" then
    some { valueType := "string", valueField := "String",
           validExpr := fun srcExpr => srcExpr ++ " != \"\"" }
  else if key = "database/sql.NullInt64" then
    some { valueType := "int64", valueField := "Int64", validExpr := fun _ => "true" }
  else if key = "database/sql.NullInt32" then
    some { valueType := "int32", valueField := "Int32", validExpr := fun _ => "true" }
  else if key = "database/sql.NullInt16" then
    some { valueType := "int16", valueField := "Int16", validExpr := fun _ => "true" }
  else if key = "database/sql.NullFloat64" then
    some { valueType := "float64", valueField := "Float64", validExpr := fun _ => "true" }
  else if key = "database/sql.NullBool" then
    some { valueType := "bool", valueField := "Bool", validExpr := fun _ => "true" }
  else if key = "database/sql.NullByte" then
    some { valueType := "byte", valueField := "Byte", validExpr := fun _ => "true" }
  else if key = "database/sql.NullTime" then
    some { valueType := "time.Time", valueField := "Time",
           validExpr := fun srcExpr => "!" ++ srcExpr ++ ".IsZero()" }
  else none

/-- Go `nullableTypeMeta`. -/
def nullableTypeMeta (detail : TypeDetail) : Option nullableMeta :=
  if detail.Kind ≠ TypeKindStruct ∨ detail.PkgPath = "" ∨ detail.StructName = "" then none
  else nullableMapping (detail.PkgPath ++ "." ++ detail.StructName)

/-- Go `typeMatchesCanonical`. -/
def typeMatchesCanonical (detail : TypeDetail) (canonical : String) : Bool :=
  if strings.Contains canonical "." then
    let parts := strings.SplitN2 canonical "."
    decide (detail.Kind = TypeKindStruct) && decide (detail.PkgPath = parts.getD 0 "") &&
      decide (detail.StructName = parts.getD 1 "")
  else if canonical = "byte" then
    detail.IsBasic && (decide (detail.BasicKind = "byte") || decide (detail.BasicKind = "uint8"))
  else detail.IsBasic && decide (detail.BasicKind = canonical)

/-- Go `isStringType`. -/
def isStringType (detail : TypeDetail) : Bool :=
  detail.IsBasic && decide (detail.BasicKind = "string")

/-- Go `isTimeType`. -/
def isTimeType (detail : TypeDetail) : Bool :=
  decide (detail.Kind = TypeKindStruct) && decide (detail.PkgPath = "time") &&
    decide (detail.StructName = "Time")

/-- The Go struct `structRef`. -/
structure structRef where
  pkgPath : String
  name : String
deriving DecidableEq, Repr

/-- Go `pairKey`. -/
def pairKey (src dst : structRef) : NestedPairKey :=
  { SrcPkgPath := src.pkgPath, SrcName := src.name,
    DstPkgPath := dst.pkgPath, DstName := dst.name }

/-- Go `structRefFromDetail`. -/
def structRefFromDetail (detail : TypeDetail) : Option structRef :=
  if detail.Kind ≠ TypeKindStruct ∨ detail.PkgPath = "" ∨ detail.StructName = "" then none
  else some { pkgPath := detail.PkgPath, name := detail.StructName }

/-- Go `ptrStructRef`. -/
def ptrStructRef (detail : TypeDetail) : Option structRef :=
  if detail.Kind ≠ TypeKindPointer ∨ detail.ElemType.isNone then none
  else
    match detail.ElemType with
    | some elem => structRefFromDetail elem
    | none => none

/-- Go `sliceStructRef`. -/
def sliceStructRef (detail : TypeDetail) : Option structRef :=
  if detail.Kind ≠ TypeKindSlice ∨ detail.ElemType.isNone then none
  else
    match detail.ElemType with
    | some elem =>
      match structRefFromDetail elem with
      | some ref => some ref
      | none => ptrStructRef elem
    | none => none

/-- Go `hasStringMethodOnType`. A `*types.Basic` of kind `types.String` is
the basic type whose name is `string`. -/
def hasStringMethodOnType (T : GoTypes) (t : GoType) : Bool :=
  (T.NewMethodSet t).any (fun sel =>
    if sel.Name ≠ "String" then false
    else
      match sel.Sig with
      | none => false
      | some sig =>
        if sig.Params.length ≠ 0 ∨ sig.Results.length ≠ 1 then false
        else
          match sig.Results.head? with
          | some (.Basic name) => decide (name = "string")
          | _ => false)

/-- Go `hasStringMethod`; `none` is a nil `types.Type`. -/
def hasStringMethod (T : GoTypes) (t : Option GoType) : Bool :=
  match t with
  | none => false
  | some t =>
    if hasStringMethodOnType T t then true
    else
      match t with
      | .Pointer _ => false
      | _ => hasStringMethodOnType T (.Pointer t)

/-! ## internal/resolver: resolver.go, the rule interface -/

/-- A value implementing the Go interface `Rule`. `Try` is the method as a
function of the nested set the rule holds; `Aware` tells whether the value
also implements `NestedAware`, in which case `SetNestedSet` stores its
argument in `nestedSet`. `none` stands for a result `(_, false)`. -/
structure Rule where
  Name : String
  Try : NestedSet → FieldInfo → FieldInfo → Option ConversionPlan
  Aware : Bool
  nestedSet : NestedSet

/-- The call `rule.Try(src, dst)`. -/
def Rule.call (rule : Rule) (src dst : FieldInfo) : Option ConversionPlan :=
  rule.Try rule.nestedSet src dst

/-- The statement `if aware, ok := rule.(NestedAware); ok { aware.SetNestedSet(s) }`. -/
def Rule.inject (rule : Rule) (s : NestedSet) : Rule :=
  if rule.Aware then { rule with nestedSet := s } else rule

/-! ## internal/resolver: builtin_rules.go, the ten rules -/

/-- Go `(*SameTypeRule).Try`. -/
def SameTypeRule.Try (T : GoTypes) (src dst : FieldInfo) : Option ConversionPlan :=
  if isIdenticalType T (some src.Type_) (some dst.Type_) then
    some (newPlan src dst StrategyDirectAssign (assign (dstSelector dst) (srcSelector src)))
  else none

/-- Go `(*BasicCastRule).Try`. -/
def BasicCastRule.Try (T : GoTypes) (src dst : FieldInfo) : Option ConversionPlan :=
  if !src.TypeInfo.IsBasic || !dst.TypeInfo.IsBasic then none
  else if isIdenticalType T (some src.Type_) (some dst.Type_) then none
  else if !T.ConvertibleTo src.Type_ dst.Type_ then none
  else
    let expr := castAssign (dstSelector dst) dst.TypeStr (srcSelector src)
    some (newPlan src dst StrategyBasicCast expr)

/-- The test `d.ElemType != nil && d.ElemType.Kind == parser.TypeKindStruct`. -/
def elemIsStruct (d : TypeDetail) : Bool :=
  match d.ElemType with
  | some e => decide (e.Kind = TypeKindStruct)
  | none => false

/-- The test `d.ElemType != nil && d.ElemType.IsBasic`. -/
def elemIsBasic (d : TypeDetail) : Bool :=
  match d.ElemType with
  | some e => e.IsBasic
  | none => false

/-- Go `(*PointerRule).Try`. -/
def PointerRule.Try (T : GoTypes) (src dst : FieldInfo) : Option ConversionPlan :=
  match pointerElem T src.Type_, pointerElem T dst.Type_ with
  | some srcElem, none =>
    if isIdenticalType T (some srcElem) (some dst.Type_) then
      let srcSel := srcSelector src
      let dstSel := dstSelector dst
      let expr := "if " ++ srcSel ++ " != nil \x7b\n" ++ dstSel ++ " = *" ++ srcSel ++ "\n\x7d"
      some (newPlan src dst StrategyPointerUnwrap expr)
    else if elemIsStruct src.TypeInfo then none
    else if T.ConvertibleTo srcElem dst.Type_ && elemIsBasic src.TypeInfo &&
        dst.TypeInfo.IsBasic then
      let srcSel := srcSelector src
      let dstSel := dstSelector dst
      let expr := "if " ++ srcSel ++ " != nil \x7b\n" ++ dstSel ++ " = " ++ dst.TypeStr ++
        "(*" ++ srcSel ++ ")\n\x7d"
      some (newPlan src dst StrategyPointerUnwrap expr)
    else none
  | none, some dstElem =>
    if isIdenticalType T (some src.Type_) (some dstElem) then
      let expr := assign (dstSelector dst) ("&" ++ srcSelector src)
      some (newPlan src dst StrategyPointerWrap expr)
    else if elemIsStruct dst.TypeInfo then none
    else if T.ConvertibleTo src.Type_ dstElem && src.TypeInfo.IsBasic &&
        elemIsBasic dst.TypeInfo then
      let dstElemType := strings.TrimPrefix dst.TypeStr "*"
      let srcSel := srcSelector src
      let dstSel := dstSelector dst
      let expr := "\x7b\nv := " ++ dstElemType ++ "(" ++ srcSel ++ ")\n" ++ dstSel ++
        " = &v\n\x7d"
      some (newPlan src dst StrategyPointerWrap expr)
    else none
  | _, _ => none

/-- Go `(*NullableRule).Try`. A condition `isNullable && matches(meta)` is
the filter of the optional table entry. -/
def NullableRule.Try (src dst : FieldInfo) : Option ConversionPlan :=
  let srcMeta := nullableTypeMeta src.TypeInfo
  let dstMeta := nullableTypeMeta dst.TypeInfo
  match srcMeta.filter (fun m => typeMatchesCanonical dst.TypeInfo m.valueType) with
  | some sm =>
    let srcSel := srcSelector src
    let dstSel := dstSelector dst
    let expr := "if " ++ srcSel ++ ".Valid \x7b\n" ++ dstSel ++ " = " ++ srcSel ++ "." ++
      sm.valueField ++ "\n\x7d"
    some (newPlan src dst StrategyNullableToValue expr)
  | none =>
    match dstMeta.filter (fun m => typeMatchesCanonical src.TypeInfo m.valueType) with
    | some dm =>
      let srcSel := srcSelector src
      let validExpr := dm.validExpr srcSel
      let expr := dstSelector dst ++ " = " ++ dst.TypeStr ++ "\x7b" ++ dm.valueField ++
        ": " ++ srcSel ++ ", Valid: " ++ validExpr ++ "\x7d"
      some (newPlan src dst StrategyValueToNullable expr)
    | none => none

/-- Go `(*TimeStringRule).Try`. -/
def TimeStringRule.Try (src dst : FieldInfo) : Option ConversionPlan :=
  if isTimeType src.TypeInfo && isStringType dst.TypeInfo then
    let expr := assign (dstSelector dst) (srcSelector src ++ ".Format(time.RFC3339)")
    some (newPlan src dst StrategyTimeToString expr)
  else if isStringType src.TypeInfo && isTimeType dst.TypeInfo then
    let srcSel := srcSelector src
    let dstSel := dstSelector dst
    let expr := "if parsed, err := time.Parse(time.RFC3339, " ++ srcSel ++
      "); err == nil \x7b\n" ++ dstSel ++ " = parsed\n\x7d"
    some (newPlan src dst StrategyStringToTime expr)
  else none

/-- The converter name of a pair of struct references, as every branch of
`(*NestedStructRule).Try` computes it. -/
def converterOf (U : Unicode) (srcRef dstRef : structRef) : String :=
  DefaultConverterName U srcRef.pkgPath srcRef.name dstRef.pkgPath dstRef.name

/-- Fifth block of `(*NestedStructRule).Try`: slice of struct to slice of
struct. -/
def NestedStructRule.trySlice (U : Unicode) (nestedSet : NestedSet) (src dst : FieldInfo) :
    Option ConversionPlan :=
  match sliceStructRef src.TypeInfo, sliceStructRef dst.TypeInfo with
  | some srcRef, some dstRef =>
    if !nestedSet.has (pairKey srcRef dstRef) then none
    else
      let fn := converterOf U srcRef dstRef
      let srcSel := srcSelector src
      let dstSel := dstSelector dst
      let expr := "if " ++ srcSel ++ " != nil \x7b\n" ++
        dstSel ++ " = make(" ++ dst.TypeStr ++ ", len(" ++ srcSel ++ "))\n" ++
        "for i := range " ++ srcSel ++ " \x7b\n" ++
        "if v := " ++ fn ++ "(&" ++ srcSel ++ "[i]); v != nil \x7b\n" ++
        dstSel ++ "[i] = *v\n\x7d\n\x7d\n\x7d"
      some (newPlan src dst StrategyNestedSlice expr)
  | _, _ => none

/-- Fourth block of `(*NestedStructRule).Try`: struct to pointer. -/
def NestedStructRule.tryStructPtr (U : Unicode) (nestedSet : NestedSet) (src dst : FieldInfo) :
    Option ConversionPlan :=
  match structRefFromDetail src.TypeInfo, ptrStructRef dst.TypeInfo with
  | some srcRef, some dstRef =>
    if !nestedSet.has (pairKey srcRef dstRef) then none
    else
      let fn := converterOf U srcRef dstRef
      let expr := assign (dstSelector dst) (fn ++ "(&" ++ srcSelector src ++ ")")
      some (newPlan src dst StrategyNestedStructPtr expr)
  | _, _ => NestedStructRule.trySlice U nestedSet src dst

/-- Third block of `(*NestedStructRule).Try`: pointer to struct. -/
def NestedStructRule.tryPtrStruct (U : Unicode) (nestedSet : NestedSet) (src dst : FieldInfo) :
    Option ConversionPlan :=
  match ptrStructRef src.TypeInfo, structRefFromDetail dst.TypeInfo with
  | some srcRef, some dstRef =>
    if !nestedSet.has (pairKey srcRef dstRef) then none
    else
      let fn := converterOf U srcRef dstRef
      let srcSel := srcSelector src
      let dstSel := dstSelector dst
      let expr := "if v := " ++ fn ++ "(" ++ srcSel ++ "); v != nil \x7b\n" ++ dstSel ++
        " = *v\n\x7d"
      some (newPlan src dst StrategyNestedStructPtr expr)
  | _, _ => NestedStructRule.tryStructPtr U nestedSet src dst

/-- Second block of `(*NestedStructRule).Try`: pointer to pointer. -/
def NestedStructRule.tryPtrPtr (U : Unicode) (nestedSet : NestedSet) (src dst : FieldInfo) :
    Option ConversionPlan :=
  match ptrStructRef src.TypeInfo, ptrStructRef dst.TypeInfo with
  | some srcRef, some dstRef =>
    if !nestedSet.has (pairKey srcRef dstRef) then none
    else
      let fn := converterOf U srcRef dstRef
      let expr := assign (dstSelector dst) (fn ++ "(" ++ srcSelector src ++ ")")
      some (newPlan src dst StrategyNestedStructPtr expr)
  | _, _ => NestedStructRule.tryPtrStruct U nestedSet src dst

/-- Go `(*NestedStructRule).Try`; `nestedSet` is the receiver's field. -/
def NestedStructRule.Try (U : Unicode) (nestedSet : NestedSet) (src dst : FieldInfo) :
    Option ConversionPlan :=
  if nestedSet.len = 0 then none
  else
    match structRefFromDetail src.TypeInfo, structRefFromDetail dst.TypeInfo with
    | some srcRef, some dstRef =>
      if !nestedSet.has (pairKey srcRef dstRef) then none
      else
        let fn := converterOf U srcRef dstRef
        let srcSel := srcSelector src
        let dstSel := dstSelector dst
        let expr := "if v := " ++ fn ++ "(&" ++ srcSel ++ "); v != nil \x7b\n" ++ dstSel ++
          " = *v\n\x7d"
        some (newPlan src dst StrategyNestedStruct expr)
    | _, _ => NestedStructRule.tryPtrPtr U nestedSet src dst

/-- Go `(*SliceConvertRule).Try`. -/
def SliceConvertRule.Try (T : GoTypes) (src dst : FieldInfo) : Option ConversionPlan :=
  match sliceElem T src.Type_ with
  | none => none
  | some srcElemType =>
    match sliceElem T dst.Type_ with
    | none => none
    | some dstElemType =>
      if src.TypeInfo.ElemType.isNone || dst.TypeInfo.ElemType.isNone then none
      else if elemIsStruct src.TypeInfo || elemIsStruct dst.TypeInfo then none
      else if !(T.Identical srcElemType dstElemType ||
          T.ConvertibleTo srcElemType dstElemType) then none
      else
        let dstElemTypeStr := strings.TrimPrefix dst.TypeStr "[]"
        let srcSel := srcSelector src
        let dstSel := dstSelector dst
        let assignExpr :=
          if !T.Identical srcElemType dstElemType then
            dstSel ++ "[i] = " ++ dstElemTypeStr ++ "(" ++ srcSel ++ "[i])"
          else dstSel ++ "[i] = " ++ srcSel ++ "[i]"
        let strategy :=
          if !T.Identical srcElemType dstElemType then StrategySliceConvert
          else StrategyDirectAssign
        let expr := "if " ++ srcSel ++ " != nil \x7b\n" ++
          dstSel ++ " = make(" ++ dst.TypeStr ++ ", len(" ++ srcSel ++ "))\n" ++
          "for i := range " ++ srcSel ++ " \x7b\n" ++
          assignExpr ++ "\n\x7d\n\x7d"
        some (newPlan src dst strategy expr)

/-- Go `(*StringerRule).Try`. -/
def StringerRule.Try (T : GoTypes) (src dst : FieldInfo) : Option ConversionPlan :=
  if !isStringType dst.TypeInfo || !hasStringMethod T (some src.Type_) then none
  else
    match pointerElem T src.Type_ with
    | some _ =>
      let srcSel := srcSelector src
      let dstSel := dstSelector dst
      let expr := "if " ++ srcSel ++ " != nil \x7b\n" ++ dstSel ++ " = " ++ srcSel ++
        ".String()\n\x7d"
      some (newPlan src dst StrategyCustomFunc expr)
    | none =>
      let expr := assign (dstSelector dst) (srcSelector src ++ ".String()")
      some (newPlan src dst StrategyCustomFunc expr)

/-- Go `(*AssignableRule).Try`. -/
def AssignableRule.Try (T : GoTypes) (src dst : FieldInfo) : Option ConversionPlan :=
  if T.AssignableTo src.Type_ dst.Type_ then
    some (newPlan src dst StrategyDirectAssign (assign (dstSelector dst) (srcSelector src)))
  else none

/-- Go `(*ConvertibleRule).Try`. -/
def ConvertibleRule.Try (T : GoTypes) (src dst : FieldInfo) : Option ConversionPlan :=
  if !isConvertibleFallbackKind src.TypeInfo.Kind ||
      !isConvertibleFallbackKind dst.TypeInfo.Kind then none
  else if T.ConvertibleTo src.Type_ dst.Type_ then
    let expr := castAssign (dstSelector dst) dst.TypeStr (srcSelector src)
    some (newPlan src dst StrategyBasicCast expr)
  else none

/-- The rule value `&SameTypeRule{}`. -/
def SameTypeRule (T : GoTypes) : Rule :=
  { Name := "same-type", Try := fun _ => SameTypeRule.Try T, Aware := false, nestedSet := none }

/-- The rule value `&BasicCastRule{}`. -/
def BasicCastRule (T : GoTypes) : Rule :=
  { Name := "basic-cast", Try := fun _ => BasicCastRule.Try T, Aware := false,
    nestedSet := none }

/-- The rule value `&PointerRule{}`. -/
def PointerRule (T : GoTypes) : Rule :=
  { Name := "pointer", Try := fun _ => PointerRule.Try T, Aware := false, nestedSet := none }

/-- The rule value `&NullableRule{}`. -/
def NullableRule : Rule :=
  { Name := "nullable", Try := fun _ => NullableRule.Try, Aware := false, nestedSet := none }

/-- The rule value `&TimeStringRule{}`. -/
def TimeStringRule : Rule :=
  { Name := "time-string", Try := fun _ => TimeStringRule.Try, Aware := false,
    nestedSet := none }

/-- The rule value `&NestedStructRule{}`: the only built-in rule with a
`SetNestedSet` method; its field `nestedSet` starts as the nil map. -/
def NestedStructRule (U : Unicode) : Rule :=
  { Name := "nested-struct", Try := NestedStructRule.Try U, Aware := true, nestedSet := none }

/-- The rule value `&SliceConvertRule{}`. -/
def SliceConvertRule (T : GoTypes) : Rule :=
  { Name := "slice-convert", Try := fun _ => SliceConvertRule.Try T, Aware := false,
    nestedSet := none }

/-- The rule value `&StringerRule{}`. -/
def StringerRule (T : GoTypes) : Rule :=
  { Name := "stringer", Try := fun _ => StringerRule.Try T, Aware := false, nestedSet := none }

/-- The rule value `&AssignableRule{}`. -/
def AssignableRule (T : GoTypes) : Rule :=
  { Name := "assignable", Try := fun _ => AssignableRule.Try T, Aware := false,
    nestedSet := none }

/-- The rule value `&ConvertibleRule{}`. -/
def ConvertibleRule (T : GoTypes) : Rule :=
  { Name := "convertible", Try := fun _ => ConvertibleRule.Try T, Aware := false,
    nestedSet := none }

/-- Go `DefaultRules`. -/
def DefaultRules (T : GoTypes) (U : Unicode) : List Rule :=
  [SameTypeRule T, BasicCastRule T, PointerRule T, NullableRule, TimeStringRule,
   NestedStructRule U, SliceConvertRule T, StringerRule T, AssignableRule T,
   ConvertibleRule T]

/-! ## internal/resolver: resolver.go -/

/-- The Go struct `resolverImpl`. -/
structure resolverImpl where
  rules : List Rule
  nestedSet : NestedSet

/-- Go `New`. -/
def New (rules : List Rule) : resolverImpl :=
  { rules := rules, nestedSet := none }

/-- The plan `resolveOne` returns when no rule accepts. -/
def skipPlan (pair : FieldPair) : ConversionPlan :=
  { SrcField := pair.SrcField, DstField := pair.DstField, Strategy := StrategySkip,
    Expression := "" }

/-- The loop of `resolveOne` over the remaining rules. -/
def resolveOne.loop (pair : FieldPair) : List Rule → ConversionPlan
  | [] => skipPlan pair
  | rule :: rest =>
    match rule.call pair.SrcField pair.DstField with
    | some plan => plan
    | none => resolveOne.loop pair rest

/-- Go `(*resolverImpl).resolveOne`. -/
def resolverImpl.resolveOne (r : resolverImpl) (pair : FieldPair) : ConversionPlan :=
  resolveOne.loop pair r.rules

/-- The key `buildNestedSet` stores for one struct pair. -/
def structPairKey (pair : StructPair) : NestedPairKey :=
  { SrcPkgPath := pair.Src.PkgPath, SrcName := pair.Src.Name,
    DstPkgPath := pair.Dst.PkgPath, DstName := pair.Dst.Name }

/-- Go `buildNestedSet`: a nil map is replaced by a fresh one, any other is
cleared; then the key of every struct pair is stored. -/
def buildNestedSet (reuse : NestedSet) (structPairs : List StructPair) : NestedSet :=
  let cleared : List NestedPairKey :=
    match reuse with
    | none => []
    | some _ => []
  some (structPairs.foldl (fun m pair => NestedSet.insertKey m (structPairKey pair)) cleared)

/-- Go `(*resolverImpl).Resolve`: the plans, and the resolver as the call
leaves it (its own nested set and that of its rules are overwritten). -/
def resolverImpl.Resolve (r : resolverImpl) (pairs : List FieldPair)
    (structPairs : List StructPair) : List ConversionPlan × resolverImpl :=
  let nestedSet := buildNestedSet r.nestedSet structPairs
  let r1 : resolverImpl :=
    { rules := r.rules.map (fun rule => rule.inject nestedSet), nestedSet := nestedSet }
  let plans := pairs.foldl (fun plans p => plans ++ [r1.resolveOne p]) []
  (plans, r1)

/-! ## internal/parser: parser.go, type analysis -/

/-- Go `analyzeType`. The Go function recurses through the underlying type
of named types, which need not be smaller than the type itself, so the
embedding counts the nesting of calls: `none` means that `fuel` nested calls
did not suffice. -/
def analyzeType (T : GoTypes) (U : Unicode) : Nat → GoType → Option TypeDetail
  | 0, _ => none
  | fuel + 1, t =>
    match t with
    | .Alias _ rhs => analyzeType T U fuel rhs
    | .Basic name => some (.mk TypeKindBasic "" none none true name "" name)
    | .Pointer e =>
      match analyzeType T U fuel e with
      | some elem =>
        some (.mk TypeKindPointer "" (some elem) none false "" "" ("*" ++ elem.TypeName))
      | none => none
    | .Slice e =>
      match analyzeType T U fuel e with
      | some elem =>
        some (.mk TypeKindSlice "" (some elem) none false "" "" ("[]" ++ elem.TypeName))
      | none => none
    | .Map k e =>
      match analyzeType T U fuel k with
      | some key =>
        match analyzeType T U fuel e with
        | some elem =>
          some (.mk TypeKindMap "" (some elem) (some key) false "" ""
            ("map[" ++ key.TypeName ++ "]" ++ elem.TypeName))
        | none => none
      | none => none
    | .Interface _ => some (.mk TypeKindInterface "" none none false "" "" "interface")
    | .Named obj =>
      let pkgPath := match obj.Pkg with
        | some pkg => pkg.Path
        | none => ""
      let typeName := match obj.Pkg with
        | some pkg => pkg.Path ++ "." ++ obj.Name
        | none => obj.Name
      match T.Underlying obj with
      | .Struct _ => some (.mk TypeKindStruct pkgPath none none false "" obj.Name typeName)
      | .Basic name => some (.mk TypeKindBasic pkgPath none none true name "" typeName)
      | .Pointer e =>
        match analyzeType T U fuel e with
        | some elem => some (.mk TypeKindPointer pkgPath (some elem) none false "" "" typeName)
        | none => none
      | .Slice e =>
        match analyzeType T U fuel e with
        | some elem => some (.mk TypeKindSlice pkgPath (some elem) none false "" "" typeName)
        | none => none
      | .Map k e =>
        match analyzeType T U fuel k with
        | some key =>
          match analyzeType T U fuel e with
          | some elem =>
            some (.mk TypeKindMap pkgPath (some elem) (some key) false "" "" typeName)
          | none => none
        | none => none
      | .Interface _ => some (.mk TypeKindInterface pkgPath none none false "" "" typeName)
      | _ => some (.mk TypeKindOther pkgPath none none false "" "" typeName)
    | t =>
      some (.mk TypeKindOther "" none none false "" ""
        (strings.TrimSpace U (T.TypeString t none)))

/-- A field as `collectFlattenedFields` builds it: the descriptor is the
analysis of the field's type. -/
def FieldInfo.analyzed (T : GoTypes) (U : Unicode) (f : FieldInfo) : Prop :=
  ∃ fuel, analyzeType T U fuel f.Type_ = some f.TypeInfo

/-! ## internal/parser: embed.go -/

/-- The Go struct `fieldCandidate`. -/
structure fieldCandidate where
  field : FieldInfo
  depth : Nat
  order : Nat
  ambiguous : Bool

/-- The Go map `map[string]fieldCandidate`: each key occurs once; the order
of the entries stands for the order in which a `range` visits them. -/
abbrev Candidates := List (String × fieldCandidate)

/-- Go `out[key]` with the comma-ok form. -/
def Candidates.get (out : Candidates) (key : String) : Option fieldCandidate :=
  (out.find? (fun e => e.1 == key)).map (fun e => e.2)

/-- Go `out[key] = cand`. -/
def Candidates.set (out : Candidates) (key : String) (cand : fieldCandidate) : Candidates :=
  if (out.find? (fun e => e.1 == key)).isSome then
    out.map (fun e => if e.1 == key then (key, cand) else e)
  else out ++ [(key, cand)]

/-- Go `addCandidate`; the counter `*order` is passed in and returned. -/
def addCandidate (U : Unicode) (out : Candidates) (field : FieldInfo) (depth : Nat)
    (order : Nat) : Candidates × Nat :=
  let key := strings.ToLower U field.Name
  match out.get key with
  | none => (out.set key { field := field, depth := depth, order := order, ambiguous := false },
      order + 1)
  | some cand =>
    if depth < cand.depth then
      (out.set key { field := field, depth := depth, order := order, ambiguous := false },
        order + 1)
    else if depth > cand.depth then (out, order)
    else if cand.field.AccessPath ≠ field.AccessPath then
      (out.set key { cand with ambiguous := true }, order)
    else (out, order)

/-- Go `appendPath`. -/
def appendPath (pfx : List String) (part : String) : List String :=
  pfx ++ [part]

/-- Go `buildAccessPath`. -/
def buildAccessPath (pfx : List String) (fieldName : String) : String :=
  if pfx.length = 0 then fieldName
  else strings.Join (appendPath pfx fieldName) "."

/-- Go `resolveEmbeddedStruct`: the struct handle and the name of the named
type, or `none` for the result `(nil, "")`. -/
def resolveEmbeddedStruct (T : GoTypes) : GoType → Option (Nat × String)
  | .Alias _ rhs => resolveEmbeddedStruct T rhs
  | .Named obj =>
    match T.Underlying obj with
    | .Struct st => some (st, obj.Name)
    | _ => none
  | .Pointer elem => resolveEmbeddedStruct T elem
  | _ => none

/-- The loop body of `collectFlattenedFields` over the fields that remain;
`recurse` is the recursive call on an embedded struct (at depth + 1) and
`analyze` the call of `analyzeType`. The state is the candidate map and the
counter `*order`; `none` means that a nested call did not return. -/
def collectFlattenedFields.loop (T : GoTypes) (U : Unicode)
    (recurse : Nat → List String → String → Candidates × Nat → Option (Candidates × Nat))
    (analyze : GoType → Option TypeDetail)
    (pfx : List String) (embedFrom : String) (depth : Nat) (qualifier : Qualifier) :
    List Var → Candidates × Nat → Option (Candidates × Nat)
  | [], acc => some acc
  | f :: fs, acc =>
    if f.Embedded then
      match resolveEmbeddedStruct T f.Type_ with
      | none => collectFlattenedFields.loop T U recurse analyze pfx embedFrom depth qualifier fs acc
      | some (embeddedStruct, embeddedName) =>
        let nextPfx := appendPath pfx f.Name
        let nextEmbedFrom := if embeddedName = "" then f.Name else embeddedName
        match recurse embeddedStruct nextPfx nextEmbedFrom acc with
        | none => none
        | some acc1 =>
          collectFlattenedFields.loop T U recurse analyze pfx embedFrom depth qualifier fs acc1
    else if !f.Exported then
      collectFlattenedFields.loop T U recurse analyze pfx embedFrom depth qualifier fs acc
    else
      match analyze f.Type_ with
      | none => none
      | some typeInfo =>
        let field : FieldInfo :=
          { Name := f.Name, AccessPath := buildAccessPath pfx f.Name,
            TypeStr := T.TypeString f.Type_ (some qualifier), TypeInfo := typeInfo,
            Type_ := f.Type_, IsExported := true, EmbedFrom := embedFrom }
        collectFlattenedFields.loop T U recurse analyze pfx embedFrom depth qualifier fs
          (addCandidate U acc.1 field depth acc.2)

/-- Go `collectFlattenedFields` on the struct handle `st`. The Go function
calls itself on every embedded struct without any guard, so the embedding
counts the nesting of calls: `none` means that `fuel` nested calls (of this
function and of `analyzeType`) did not suffice. -/
def collectFlattenedFields (T : GoTypes) (U : Unicode) (qualifier : Qualifier) :
    Nat → Nat → List String → String → Nat → Candidates × Nat → Option (Candidates × Nat)
  | 0, _, _, _, _, _ => none
  | fuel + 1, st, pfx, embedFrom, depth, acc =>
    collectFlattenedFields.loop T U
      (fun embeddedStruct nextPfx nextEmbedFrom acc1 =>
        collectFlattenedFields T U qualifier fuel embeddedStruct nextPfx nextEmbedFrom
          (depth + 1) acc1)
      (analyzeType T U fuel) pfx embedFrom depth qualifier (T.Fields st) acc

/-- The `less` function that `flattenFields` gives to `sort.Slice`. -/
def candidateLess (a b : fieldCandidate) : Bool :=
  if a.order = b.order then decide (a.field.Name < b.field.Name)
  else decide (a.order < b.order)

/-- The part of `flattenFields` after the collection: the candidates that
are not ambiguous, sorted with `candidateLess`, and their fields. -/
def flattenFields.finish (candidates : Candidates) : List FieldInfo :=
  let kept := (candidates.map (fun e => e.2)).filter (fun cand => !cand.ambiguous)
  let sorted := kept.insertionSort (fun a b => candidateLess b a = false)
  sorted.map (fun cand => cand.field)

/-- Go `flattenFields`; `none` when the collection does not return within
`fuel` nested calls. -/
def flattenFields (T : GoTypes) (U : Unicode) (fuel : Nat) (st : Nat)
    (qualifier : Qualifier) : Option (List FieldInfo) :=
  match collectFlattenedFields T U qualifier fuel st [] "" 0 ([], 0) with
  | none => none
  | some (candidates, _) => some (flattenFields.finish candidates)

/-! ## internal/parser: parser.go, loading and discovery -/

/-- A `*packages.Module`. -/
structure Module where
  Path : String

/-- The `*types.Package` of a loaded package: `Scope` is `none` for a nil
scope, and otherwise maps a name to the type of the object declared under
it (`Scope().Lookup(name)` followed by `obj.Type()`). -/
structure TypesPackage where
  Path : String
  Name : String
  Scope : Option (String → Option GoType)

/-- A `*packages.Package` as `packages.Load` returns it; `Errors` is the
number of errors `packages.PrintErrors` reports for it. -/
structure Package where
  Name : String
  Types : Option TypesPackage
  Module : Option Module
  Errors : Nat

/-- The type-introspection provider: `packages.Load` as a function of the
path it is asked to load. A cached package equals a reloaded one, so the
cache of `loadPackage` is not represented. -/
structure Loader where
  Load : String → Except String (List Package)

/-- The errors of the parser, one constructor per `fmt.Errorf` call. -/
inductive ParseError where
  | loadFailed (pkgPath : String) (err : String)
  | compilationErrors (pkgPath : String)
  | packageNotFound (pkgPath : String)
  | typeInfoUnavailable (pkgPath : String)
  | structNotFound (typeName : String) (pkgPath : String)
  | notAStruct (typeName : String) (pkgPath : String)
deriving DecidableEq, Repr

/-- Go `(*parserImpl).loadPackage`. -/
def loadPackage (W : Loader) (pkgPath : String) : Except ParseError Package :=
  match W.Load pkgPath with
  | .error err => .error (.loadFailed pkgPath err)
  | .ok pkgs =>
    if (pkgs.map (fun pkg => pkg.Errors)).sum > 0 then .error (.compilationErrors pkgPath)
    else
      match pkgs with
      | [] => .error (.packageNotFound pkgPath)
      | pkg :: _ => .ok pkg

/-- Go `extractStructType`. The underlying type of a named type is never a
named type or an alias, so the call on `v.Underlying()` ends at once. -/
def extractStructType (T : GoTypes) : GoType → Option Nat
  | .Alias _ rhs => extractStructType T rhs
  | .Named obj =>
    match T.Underlying obj with
    | .Struct st => some st
    | _ => none
  | .Struct st => some st
  | _ => none

/-- The qualifier closure of `parseWithCache`. -/
def parseQualifier (pkg : Package) : Qualifier := fun p =>
  match p with
  | none => ""
  | some p =>
    match pkg.Types with
    | some types => if p.Path = types.Path then "" else p.Name
    | none => p.Name

/-- Go `(*parserImpl).parseWithCache`; the outer `none` means that
`flattenFields` did not return within `fuel` nested calls. -/
def parseWithCache (W : Loader) (T : GoTypes) (U : Unicode) (fuel : Nat)
    (pkgPath typeName : String) : Option (Except ParseError StructInfo) :=
  match loadPackage W pkgPath with
  | .error err => some (.error err)
  | .ok pkg =>
    match pkg.Types with
    | none => some (.error (.typeInfoUnavailable pkgPath))
    | some types =>
      match types.Scope with
      | none => some (.error (.typeInfoUnavailable pkgPath))
      | some lookup =>
        match lookup typeName with
        | none => some (.error (.structNotFound typeName pkgPath))
        | some objType =>
          match extractStructType T objType with
          | none => some (.error (.notAStruct typeName pkgPath))
          | some st =>
            match flattenFields T U fuel st (parseQualifier pkg) with
            | none => none
            | some fields =>
              some (.ok { Name := typeName, PkgPath := types.Path, PkgName := pkg.Name,
                          Fields := fields })

/-- Go `nestedStructRef`. -/
def nestedStructRef : TypeDetail → Option (String × String)
  | .mk kind pkgPath elemType _ _ _ structName _ =>
    match kind with
    | TypeKindStruct =>
      if pkgPath = "" ∨ structName = "" then none else some (pkgPath, structName)
    | TypeKindPointer | TypeKindSlice =>
      match elemType with
      | none => none
      | some elem => nestedStructRef elem
    | _ => none

/-- Go `shouldRecurseNestedPackage`. -/
def shouldRecurseNestedPackage (nestedPkgPath currentPkgPath rootModulePath : String) : Bool :=
  if nestedPkgPath = "" then false
  else if nestedPkgPath = currentPkgPath then true
  else if rootModulePath = "" then false
  else decide (nestedPkgPath = rootModulePath) ||
    strings.HasPrefix nestedPkgPath (rootModulePath ++ "/")

/-- What `parseRec` reads and writes besides its arguments: the set
`visited`, the slice `*result`, and the names logged as skipped. -/
structure ParseState where
  visited : List String
  result : List StructInfo
  warnings : List String

/-- The key of a record in the set `visited`. -/
def StructInfo.key (info : StructInfo) : String :=
  info.PkgPath ++ "." ++ info.Name

/-- The loop of `parseRec` over the fields that remain; `recurse` is the
recursive call. `none` means that a nested call did not return. -/
def parseRec.loop
    (recurse : String → String → ParseState → Option (Except ParseError Unit × ParseState))
    (currentPkgPath rootModulePath : String) :
    List FieldInfo → ParseState → Option ParseState
  | [], st => some st
  | f :: fs, st =>
    match nestedStructRef f.TypeInfo with
    | none => parseRec.loop recurse currentPkgPath rootModulePath fs st
    | some (nestedPkg, nestedName) =>
      if !shouldRecurseNestedPackage nestedPkg currentPkgPath rootModulePath then
        parseRec.loop recurse currentPkgPath rootModulePath fs st
      else if (nestedPkg ++ "." ++ nestedName) ∈ st.visited then
        parseRec.loop recurse currentPkgPath rootModulePath fs st
      else
        match recurse nestedPkg nestedName st with
        | none => none
        | some (.error _, st1) =>
          parseRec.loop recurse currentPkgPath rootModulePath fs
            { st1 with warnings := st1.warnings ++ [nestedName] }
        | some (.ok _, st1) => parseRec.loop recurse currentPkgPath rootModulePath fs st1

/-- Go `(*parserImpl).parseRec`. `flatFuel` bounds the nested calls inside
one `parseWithCache`, `fuel` the nesting of `parseRec` itself; `none` means
that one of the bounds did not suffice. -/
def parseRec (W : Loader) (T : GoTypes) (U : Unicode) (flatFuel : Nat)
    (rootModulePath : String) :
    Nat → String → String → ParseState → Option (Except ParseError Unit × ParseState)
  | 0, _, _, _ => none
  | fuel + 1, pkgPath, typeName, st =>
    match parseWithCache W T U flatFuel pkgPath typeName with
    | none => none
    | some (.error err) => some (.error err, st)
    | some (.ok info) =>
      if info.key ∈ st.visited then some (.ok (), st)
      else
        match parseRec.loop (parseRec W T U flatFuel rootModulePath fuel) info.PkgPath
            rootModulePath info.Fields { st with visited := info.key :: st.visited } with
        | none => none
        | some st1 => some (.ok (), { st1 with result := st1.result ++ [info] })

/-- Go `(*parserImpl).ParseRecursive`. -/
def ParseRecursive (W : Loader) (T : GoTypes) (U : Unicode) (flatFuel fuel : Nat)
    (pkgPath typeName : String) : Option (Except ParseError (List StructInfo)) :=
  match loadPackage W pkgPath with
  | .error err => some (.error err)
  | .ok rootPkg =>
    let rootModulePath := match rootPkg.Module with
      | some m => m.Path
      | none => ""
    match parseRec W T U flatFuel rootModulePath fuel pkgPath typeName
        { visited := [], result := [], warnings := [] } with
    | none => none
    | some (.error err, _) => some (.error err)
    | some (.ok _, st) => some (.ok st.result)

/-! ## An example universe

A small universe of Go declarations on which closed examples are evaluated.
`exampleTypes` follows the Go specification on the types it is applied to:
predeclared basic types, pointers, slices and maps over them, and the named
types of `exampleUnderlying`. -/

/-- Package `unicode` on ASCII; other code points count as neither letters,
digits nor spaces and have no case. -/
def asciiUnicode : Unicode :=
  { IsLetter := Char.isAlpha
    IsDigit := Char.isDigit
    IsSpace := fun c => c == ' ' || (9 ≤ c.toNat && c.toNat ≤ 13)
    ToUpper := Char.toUpper
    ToLower := Char.toLower }

def pkgModel : Pkg := { Path := "example.com/model", Name := "model" }

def pkgDto : Pkg := { Path := "example.com/dto", Name := "dto" }

def pkgSrc : Pkg := { Path := "example.com/src", Name := "src" }

def pkgDst : Pkg := { Path := "example.com/dst", Name := "dst" }

def pkgNested : Pkg :=
  { Path := "github.com/seitarof/gen-dto/testdata/parsernested", Name := "parsernested" }

def pkgNode : Pkg := { Path := "github.com/seitarof/gen-dto/testdata/node", Name := "node" }

def pkgHolder : Pkg :=
  { Path := "github.com/seitarof/gen-dto/testdata/holder", Name := "holder" }

def pkgMissing : Pkg :=
  { Path := "github.com/seitarof/gen-dto/testdata/missing", Name := "missing" }

def pkgCycle : Pkg := { Path := "github.com/seitarof/gen-dto/testdata/cycle", Name := "cycle" }

def pkgEmbed : Pkg :=
  { Path := "github.com/seitarof/gen-dto/testdata/parserembed", Name := "parserembed" }

def pkgMutual : Pkg := { Path := "example.com/mutual", Name := "mutual" }

def pkgRec : Pkg := { Path := "example.com/rec", Name := "rec" }

/-- The declarations of the example universe:
`model.Address` and `dto.AddressDTO` are structs with different fields,
`src.Events` and `dst.Events` are both `struct{}`,
`model.Status` is `int` with a method `String() string`,
`parsernested.Leaf`, `Child` and `Root` are the records of
`testdata/parsernested/types.go`, `node.Node` is
`type Node struct { *Node; Val int }`,
`holder.Holder` is `type Holder struct { Dep missing.Thing; Name string }`,
`cycle.Ping` and `cycle.Pong` are `type Ping struct { Pong *Pong }` and
`type Pong struct { Ping *Ping }`, and `parserembed.Base`, `InnerA`,
`InnerB` and `User` are the records of `testdata/parserembed/types.go`,
`src.Node` and `dst.NodeDTO` are `type Node struct { Next *Node }` and
`type NodeDTO struct { Next *NodeDTO }`,
`mutual.Left` and `mutual.Right` are `type Left struct { Name string; *Right }`
and `type Right struct { *Left }`, and `rec.Tree`, `rec.M` and `rec.P` are
`type Tree []Tree`, `type M map[string]M` and `type P *P`. -/
def exampleUnderlying (obj : TypeName) : GoType :=
  if obj = { Pkg := some pkgModel, Name := "Address" } then .Struct 1
  else if obj = { Pkg := some pkgDto, Name := "AddressDTO" } then .Struct 2
  else if obj = { Pkg := some pkgSrc, Name := "Events" } then .Struct 0
  else if obj = { Pkg := some pkgDst, Name := "Events" } then .Struct 0
  else if obj = { Pkg := some pkgModel, Name := "Status" } then .Basic "int"
  else if obj = { Pkg := some pkgNested, Name := "Leaf" } then .Struct 10
  else if obj = { Pkg := some pkgNested, Name := "Child" } then .Struct 11
  else if obj = { Pkg := some pkgNested, Name := "Root" } then .Struct 12
  else if obj = { Pkg := some pkgNode, Name := "Node" } then .Struct 20
  else if obj = { Pkg := some pkgHolder, Name := "Holder" } then .Struct 30
  else if obj = { Pkg := some pkgMissing, Name := "Thing" } then .Struct 31
  else if obj = { Pkg := some pkgCycle, Name := "Ping" } then .Struct 40
  else if obj = { Pkg := some pkgCycle, Name := "Pong" } then .Struct 41
  else if obj = { Pkg := some pkgEmbed, Name := "Base" } then .Struct 50
  else if obj = { Pkg := some pkgEmbed, Name := "InnerA" } then .Struct 51
  else if obj = { Pkg := some pkgEmbed, Name := "InnerB" } then .Struct 52
  else if obj = { Pkg := some pkgEmbed, Name := "User" } then .Struct 53
  else if obj = { Pkg := some pkgSrc, Name := "Node" } then .Struct 60
  else if obj = { Pkg := some pkgDst, Name := "NodeDTO" } then .Struct 61
  else if obj = { Pkg := some pkgMutual, Name := "Left" } then .Struct 70
  else if obj = { Pkg := some pkgMutual, Name := "Right" } then .Struct 71
  else if obj = { Pkg := some pkgRec, Name := "Tree" } then
    .Slice (.Named { Pkg := some pkgRec, Name := "Tree" })
  else if obj = { Pkg := some pkgRec, Name := "M" } then
    .Map (.Basic "string") (.Named { Pkg := some pkgRec, Name := "M" })
  else if obj = { Pkg := some pkgRec, Name := "P" } then
    .Pointer (.Named { Pkg := some pkgRec, Name := "P" })
  else .Struct 0

/-- The struct types of the example universe; handle 0 is `struct{}`. -/
def exampleFields (id : Nat) : List Var :=
  if id = 1 then
    [{ Name := "Street", Embedded := false, Exported := true, Type_ := .Basic "string" }]
  else if id = 2 then
    [{ Name := "Street", Embedded := false, Exported := true, Type_ := .Basic "string" },
     { Name := "Zip", Embedded := false, Exported := true, Type_ := .Basic "string" }]
  else if id = 10 then
    [{ Name := "Value", Embedded := false, Exported := true, Type_ := .Basic "string" }]
  else if id = 11 then
    [{ Name := "Leaf", Embedded := false, Exported := true,
       Type_ := .Named { Pkg := some pkgNested, Name := "Leaf" } }]
  else if id = 12 then
    [{ Name := "Child", Embedded := false, Exported := true,
       Type_ := .Named { Pkg := some pkgNested, Name := "Child" } },
     { Name := "ChildPtr", Embedded := false, Exported := true,
       Type_ := .Pointer (.Named { Pkg := some pkgNested, Name := "Child" }) },
     { Name := "ChildList", Embedded := false, Exported := true,
       Type_ := .Slice (.Named { Pkg := some pkgNested, Name := "Child" }) },
     { Name := "Self", Embedded := false, Exported := true,
       Type_ := .Pointer (.Named { Pkg := some pkgNested, Name := "Root" }) }]
  else if id = 20 then
    [{ Name := "Node", Embedded := true, Exported := true,
       Type_ := .Pointer (.Named { Pkg := some pkgNode, Name := "Node" }) },
     { Name := "Val", Embedded := false, Exported := true, Type_ := .Basic "int" }]
  else if id = 30 then
    [{ Name := "Dep", Embedded := false, Exported := true,
       Type_ := .Named { Pkg := some pkgMissing, Name := "Thing" } },
     { Name := "Name", Embedded := false, Exported := true, Type_ := .Basic "string" }]
  else if id = 40 then
    [{ Name := "Pong", Embedded := false, Exported := true,
       Type_ := .Pointer (.Named { Pkg := some pkgCycle, Name := "Pong" }) }]
  else if id = 41 then
    [{ Name := "Ping", Embedded := false, Exported := true,
       Type_ := .Pointer (.Named { Pkg := some pkgCycle, Name := "Ping" }) }]
  else if id = 50 then
    [{ Name := "ID", Embedded := false, Exported := true, Type_ := .Basic "int" },
     { Name := "Name", Embedded := false, Exported := true, Type_ := .Basic "string" }]
  else if id = 51 then
    [{ Name := "Code", Embedded := false, Exported := true, Type_ := .Basic "string" }]
  else if id = 52 then
    [{ Name := "Code", Embedded := false, Exported := true, Type_ := .Basic "string" }]
  else if id = 53 then
    [{ Name := "Base", Embedded := true, Exported := true,
       Type_ := .Named { Pkg := some pkgEmbed, Name := "Base" } },
     { Name := "InnerA", Embedded := true, Exported := true,
       Type_ := .Named { Pkg := some pkgEmbed, Name := "InnerA" } },
     { Name := "InnerB", Embedded := true, Exported := true,
       Type_ := .Named { Pkg := some pkgEmbed, Name := "InnerB" } },
     { Name := "Name", Embedded := false, Exported := true, Type_ := .Basic "string" },
     { Name := "Email", Embedded := false, Exported := true, Type_ := .Basic "string" },
     { Name := "hidden", Embedded := false, Exported := false, Type_ := .Basic "string" }]
  else if id = 60 then
    [{ Name := "Next", Embedded := false, Exported := true,
       Type_ := .Pointer (.Named { Pkg := some pkgSrc, Name := "Node" }) }]
  else if id = 61 then
    [{ Name := "Next", Embedded := false, Exported := true,
       Type_ := .Pointer (.Named { Pkg := some pkgDst, Name := "NodeDTO" }) }]
  else if id = 70 then
    [{ Name := "Name", Embedded := false, Exported := true, Type_ := .Basic "string" },
     { Name := "Right", Embedded := true, Exported := true,
       Type_ := .Pointer (.Named { Pkg := some pkgMutual, Name := "Right" }) }]
  else if id = 71 then
    [{ Name := "Left", Embedded := true, Exported := true,
       Type_ := .Pointer (.Named { Pkg := some pkgMutual, Name := "Left" }) }]
  else []

/-- Aliases removed at every level, and the basic aliases `byte` and `rune`
replaced by `uint8` and `int32`: two types of the example universe are
identical when these normal forms are equal (struct and interface handles
are identical when their numbers are equal). -/
def normalForm : GoType → GoType
  | .Alias _ rhs => normalForm rhs
  | .Basic name => .Basic (if name = "byte" then "uint8" else if name = "rune" then "int32" else name)
  | .Pointer e => .Pointer (normalForm e)
  | .Slice e => .Slice (normalForm e)
  | .Map k e => .Map (normalForm k) (normalForm e)
  | t => t

def exampleIdentical (x y : GoType) : Bool :=
  decide (normalForm x = normalForm y)

/-- The underlying type in the example universe. -/
def exampleUnder (t : GoType) : GoType :=
  match Unalias t with
  | .Named obj => exampleUnderlying obj
  | u => u

def isNamedType (t : GoType) : Bool :=
  match Unalias t with
  | .Named _ => true
  | .Basic _ => true
  | _ => false

def isIntegerName (name : String) : Bool :=
  name ∈ ["int", "int8", "int16", "int32", "int64", "uint", "uint8", "uint16", "uint32",
    "uint64", "uintptr", "byte", "rune"]

def isFloatName (name : String) : Bool :=
  name ∈ ["float32", "float64"]

def isComplexName (name : String) : Bool :=
  name ∈ ["complex64", "complex128"]

/-- Assignability of the Go specification, without interfaces, channels and
untyped values: identical types, or identical underlying types when one side
is not a named type. -/
def exampleAssignableTo (v t : GoType) : Bool :=
  exampleIdentical v t ||
    (exampleIdentical (exampleUnder v) (exampleUnder t) && (!isNamedType v || !isNamedType t))

/-- Convertibility of the Go specification on the example universe:
assignable; identical underlying types; unnamed pointers whose base types
have identical underlying types; numeric to numeric; integer or byte/rune
slice to string; string to byte/rune slice. -/
def exampleConvertibleTo (v t : GoType) : Bool :=
  exampleAssignableTo v t ||
  exampleIdentical (exampleUnder v) (exampleUnder t) ||
  (match Unalias v, Unalias t with
    | .Pointer a, .Pointer b => exampleIdentical (exampleUnder a) (exampleUnder b)
    | _, _ => false) ||
  (match exampleUnder v, exampleUnder t with
    | .Basic a, .Basic b =>
      ((isIntegerName a || isFloatName a) && (isIntegerName b || isFloatName b)) ||
      (isComplexName a && isComplexName b) ||
      (isIntegerName a && b == "string")
    | .Slice (.Basic a), .Basic b => (a ∈ ["byte", "uint8", "rune", "int32"]) && b == "string"
    | .Basic a, .Slice (.Basic b) => a == "string" && (b ∈ ["byte", "uint8", "rune", "int32"])
    | _, _ => false)

/-- Printing of a type name under a qualifier. -/
def exampleObjString (obj : TypeName) (q : Option Qualifier) : String :=
  match obj.Pkg with
  | none => obj.Name
  | some pkg =>
    let qual := match q with
      | none => pkg.Path
      | some f => f (some pkg)
    if qual = "" then obj.Name else qual ++ "." ++ obj.Name

/-- Printing of the example universe; struct and interface literals print
as the empty literal, the only one the universe contains unnamed. -/
def exampleTypeString : GoType → Option Qualifier → String
  | .Basic name, _ => name
  | .Pointer e, q => "*" ++ exampleTypeString e q
  | .Slice e, q => "[]" ++ exampleTypeString e q
  | .Map k e, q => "map[" ++ exampleTypeString k q ++ "]" ++ exampleTypeString e q
  | .Struct _, _ => "struct\x7b\x7d"
  | .Interface _, _ => "interface\x7b\x7d"
  | .Named obj, q => exampleObjString obj q
  | .Alias obj _, q => exampleObjString obj q
  | .Other repr, _ => repr

/-- Method sets of the example universe: `model.Status` and `*model.Status`
have the method `String() string`. -/
def exampleMethodSet (t : GoType) : List Selection :=
  let status : GoType := .Named { Pkg := some pkgModel, Name := "Status" }
  if Unalias t = status ∨ Unalias t = .Pointer status then
    [{ Name := "String", Sig := some { Params := [], Results := [.Basic "string"] } }]
  else []

/-- The go/types functions on the example universe. -/
def exampleTypes : GoTypes :=
  { Underlying := exampleUnderlying
    Fields := exampleFields
    Identical := exampleIdentical
    ConvertibleTo := exampleConvertibleTo
    AssignableTo := exampleAssignableTo
    TypeString := exampleTypeString
    NewMethodSet := exampleMethodSet }

/-- The module of the example packages. -/
def exampleModule : Module := { Path := "github.com/seitarof/gen-dto" }

/-- The loaded package `testdata/parsernested`, declaring Leaf, Child and
Root. -/
def nestedPackage : Package :=
  { Name := pkgNested.Name,
    Types := some
      { Path := pkgNested.Path, Name := pkgNested.Name,
        Scope := some (fun name =>
          if name = "Leaf" ∨ name = "Child" ∨ name = "Root" then
            some (.Named { Pkg := some pkgNested, Name := name })
          else none) },
    Module := some exampleModule, Errors := 0 }

/-- The loaded package `testdata/node`, declaring Node. -/
def nodePackage : Package :=
  { Name := pkgNode.Name,
    Types := some
      { Path := pkgNode.Path, Name := pkgNode.Name,
        Scope := some (fun name =>
          if name = "Node" then some (.Named { Pkg := some pkgNode, Name := name })
          else none) },
    Module := some exampleModule, Errors := 0 }

/-- A loaded package of the example module that declares the named types
`names` of `pkg`. -/
def examplePackage (pkg : Pkg) (names : List String) : Package :=
  { Name := pkg.Name,
    Types := some
      { Path := pkg.Path, Name := pkg.Name,
        Scope := some (fun name =>
          if name ∈ names then some (.Named { Pkg := some pkg, Name := name }) else none) },
    Module := some exampleModule, Errors := 0 }

/-- The provider of the example universe: it loads the packages
`testdata/parsernested`, `testdata/node`, `testdata/holder`,
`testdata/cycle` and `testdata/parserembed` of the module, without errors,
and fails on any other path, `testdata/missing` included. -/
def exampleLoader : Loader :=
  { Load := fun pkgPath =>
      if pkgPath = pkgNested.Path then .ok [nestedPackage]
      else if pkgPath = pkgNode.Path then .ok [nodePackage]
      else if pkgPath = pkgHolder.Path then .ok [examplePackage pkgHolder ["Holder"]]
      else if pkgPath = pkgCycle.Path then .ok [examplePackage pkgCycle ["Ping", "Pong"]]
      else if pkgPath = pkgEmbed.Path then
        .ok [examplePackage pkgEmbed ["Base", "InnerA", "InnerB", "User"]]
      else .error "no such package" }

/-! ## Example fields -/

/-- A directly declared, exported field of the example universe named `name`
with type `t`, printed `typeStr`; the descriptor is the one `analyzeType`
computes (`TypeDetail{}` if ten nested calls did not suffice). -/
def exampleField (name typeStr : String) (t : GoType) : FieldInfo :=
  { Name := name, AccessPath := name, TypeStr := typeStr,
    TypeInfo := (analyzeType exampleTypes asciiUnicode 10 t).getD TypeDetail.zero,
    Type_ := t, IsExported := true, EmbedFrom := "" }

/-- The type `model.Status`: a named `int` with a method `String() string`. -/
def statusType : GoType := .Named { Pkg := some pkgModel, Name := "Status" }

/-- The pair `Status model.Status` to `Status string`. -/
def statusPair : FieldPair :=
  { SrcField := exampleField "Status" "model.Status" statusType,
    DstField := exampleField "Status" "string" (.Basic "string") }

/-- A user-defined rule that accepts every pair with a plan of strategy
Skip: `func (skipEverything) Try(src, dst) (ConversionPlan, bool)` returning
`ConversionPlan{SrcField: src, DstField: dst, Strategy: StrategySkip}, true`. -/
def skipEverything : Rule :=
  { Name := "skip-everything",
    Try := fun _ src dst =>
      some { SrcField := src, DstField := dst, Strategy := StrategySkip, Expression := "" },
    Aware := false, nestedSet := none }

/-- The pair `ID int` to `ID int64` of `TestResolver_BasicCast`. -/
def idPair : FieldPair :=
  { SrcField := exampleField "ID" "int" (.Basic "int"),
    DstField := exampleField "ID" "int64" (.Basic "int64") }

/-- The named struct type `model.Address`. -/
def addressType : GoType := .Named { Pkg := some pkgModel, Name := "Address" }

/-- The named struct type `dto.AddressDTO`. -/
def addressDTOType : GoType := .Named { Pkg := some pkgDto, Name := "AddressDTO" }

/-- The alias declaration `type Location = model.Address` of package `dto`. -/
def locationAlias : GoType := .Alias { Pkg := some pkgDto, Name := "Location" } addressType

/-- The pair `Home model.Address` to `Home Location`, the destination being
declared through the alias. -/
def aliasPair : FieldPair :=
  { SrcField := exampleField "Home" "model.Address" addressType,
    DstField := exampleField "Home" "Location" locationAlias }

/-- The pair `Address model.Address` to `Address dto.AddressDTO` of
`TestResolver_NestedStruct`. -/
def addressPair : FieldPair :=
  { SrcField := exampleField "Address" "model.Address" addressType,
    DstField := exampleField "Address" "dto.AddressDTO" addressDTOType }

/-- The struct pair (`model.Address`, `dto.AddressDTO`). -/
def addressStructPair : StructPair :=
  { Src := { Name := "Address", PkgPath := "example.com/model", PkgName := "model",
             Fields := [exampleField "Street" "string" (.Basic "string")] },
    Dst := { Name := "AddressDTO", PkgPath := "example.com/dto", PkgName := "dto",
             Fields := [exampleField "Street" "string" (.Basic "string"),
                        exampleField "Zip" "string" (.Basic "string")] } }

/-- The type is a map type: after its aliases, a map type or a named type
whose underlying type is a map type. -/
def IsMapType (T : GoTypes) (t : GoType) : Prop :=
  (∃ k e, Unalias t = .Map k e) ∨
    (∃ obj k e, Unalias t = .Named obj ∧ T.Underlying obj = .Map k e)

/-- The pair `Events *src.Events` to `Events *dst.Events` of
`TestResolver_DoesNotUseConvertibleForPointerStructs`, with the descriptors
the test builds by hand: pointer descriptors without type name whose element
descriptors carry kind, namespace and struct name only. -/
def eventsPair : FieldPair :=
  { SrcField :=
      { Name := "Events", AccessPath := "Events", TypeStr := "*src.Events",
        TypeInfo := .mk TypeKindPointer ""
          (some (.mk TypeKindStruct "example.com/src" none none false "" "Events" ""))
          none false "" "" "",
        Type_ := .Pointer (.Named { Pkg := some pkgSrc, Name := "Events" }),
        IsExported := false, EmbedFrom := "" },
    DstField :=
      { Name := "Events", AccessPath := "Events", TypeStr := "*dst.Events",
        TypeInfo := .mk TypeKindPointer ""
          (some (.mk TypeKindStruct "example.com/dst" none none false "" "Events" ""))
          none false "" "" "",
        Type_ := .Pointer (.Named { Pkg := some pkgDst, Name := "Events" }),
        IsExported := false, EmbedFrom := "" } }

/-- The pair `Metadata map[string]int` to `Metadata string` of
`TestResolver_UnsupportedBecomesSkip`, with the descriptors the test builds
by hand: the source descriptor is `TypeDetail{Kind: TypeKindMap}`, without
key and element descriptors, the destination that of `newBasicField`. -/
def metadataPair : FieldPair :=
  { SrcField :=
      { Name := "Metadata", AccessPath := "Metadata", TypeStr := "map[string]int",
        TypeInfo := .mk TypeKindMap "" none none false "" "" "",
        Type_ := .Map (.Basic "string") (.Basic "int"),
        IsExported := false, EmbedFrom := "" },
    DstField :=
      { Name := "Metadata", AccessPath := "Metadata", TypeStr := "string",
        TypeInfo := .mk TypeKindBasic "" none none true "string" "" "string",
        Type_ := .Basic "string", IsExported := false, EmbedFrom := "" } }

/-! ## Vocabulary of the theorems -/

/-- A resolver built by `New(DefaultRules()...)`, in the state in which the
nested set `s` was injected last (`none`: before the first `Resolve`). -/
def defaultResolver (T : GoTypes) (U : Unicode) (s : NestedSet) : resolverImpl :=
  { rules := (DefaultRules T U).map (fun rule => rule.inject s), nestedSet := s }

/-- A plan a rule may return for `src` and `dst`: it carries both fields,
a strategy other than Skip and a non-empty expression. -/
def PlanFor (src dst : FieldInfo) (p : ConversionPlan) : Prop :=
  p.SrcField = src ∧ p.DstField = dst ∧ p.Strategy ≠ StrategySkip ∧ p.Expression ≠ ""

/-- A rule all of whose accepted plans satisfy `PlanFor`, whatever nested
set it holds. -/
def Rule.Sound (rule : Rule) : Prop :=
  ∀ s src dst p, rule.Try s src dst = some p → PlanFor src dst p

/-- The resolver after a sequence of earlier `Resolve` calls, oldest first,
each given by its field pairs and its struct pairs. -/
def resolverImpl.after (r : resolverImpl)
    (history : List (List FieldPair × List StructPair)) : resolverImpl :=
  history.foldl (fun r0 call => (r0.Resolve call.1 call.2).2) r

/-- What C8 says of a pair and its plan. -/
def SkipIffEmpty (pair : FieldPair) (plan : ConversionPlan) : Prop :=
  (plan.Expression = "" ↔ plan.Strategy = StrategySkip) ∧
    plan.SrcField = pair.SrcField ∧ plan.DstField = pair.DstField

/-- The keys of a list that are not yet in `visited`. -/
def unvisited (keys visited : List String) : Nat :=
  keys.countP (fun x => decide (x ∉ visited))

/-- The keys of the records that the members of a universe parse to. -/
def universeKeys (W : Loader) (T : GoTypes) (U : Unicode) (flatFuel : Nat)
    (univ : List (String × String)) : List String :=
  univ.filterMap (fun pn =>
    match parseWithCache W T U flatFuel pn.1 pn.2 with
    | some (.ok info) => some info.key
    | _ => none)

/-- The records collected so far have pairwise different keys, all visited. -/
def ParseState.Inv (st : ParseState) : Prop :=
  (st.result.map StructInfo.key).Nodup ∧ ∀ info ∈ st.result, info.key ∈ st.visited

/-- What a run of `parseRec` does to the state: the visited set grows, the
invariant is kept, and every record in the result afterwards was there
before or has a key that was not visited before. -/
def ParseState.Step (st st1 : ParseState) : Prop :=
  (∀ x ∈ st.visited, x ∈ st1.visited) ∧ (st.Inv → st1.Inv) ∧
    ∀ info ∈ st1.result, info ∈ st.result ∨ info.key ∉ st.visited

/-- The records reachable from `parsernested.Root`, by namespace and name. -/
def nestedUniverse : List (String × String) :=
  [(pkgNested.Path, "Root"), (pkgNested.Path, "Child"), (pkgNested.Path, "Leaf")]

/-- The check that a list of records, given by namespace and name, is a
finite record graph for the provider: the per-record parse of every member
returns within `flatFuel` nested calls, and every struct reference in the
fields of a parsed member is a member again. -/
def recordsClosed (W : Loader) (T : GoTypes) (U : Unicode) (flatFuel : Nat)
    (univ : List (String × String)) : Bool :=
  univ.all (fun pn =>
    match parseWithCache W T U flatFuel pn.1 pn.2 with
    | none => false
    | some (.error _) => true
    | some (.ok info) =>
      info.Fields.all (fun f =>
        match nestedStructRef f.TypeInfo with
        | none => true
        | some ref => decide (ref ∈ univ)))

/-- The list `ParseRecursive` returns for `parsernested.Root` (Leaf, Child,
Root), or the empty list if it returned none. -/
def nestedInfos : List StructInfo :=
  match ParseRecursive exampleLoader exampleTypes asciiUnicode 10 4 pkgNested.Path "Root" with
  | some (.ok infos) => infos
  | _ => []

/-- The record `holder.Holder` as `parseWithCache` returns it. -/
def holderInfo : StructInfo :=
  match parseWithCache exampleLoader exampleTypes asciiUnicode 10 pkgHolder.Path "Holder" with
  | some (.ok info) => info
  | _ => { Name := "", PkgPath := "", PkgName := "", Fields := [] }

/-- The record `a` has a field that refers, inside the recursion boundary
for the root module `rm`, to a record that parses to `b`. -/
def RefersTo (W : Loader) (T : GoTypes) (U : Unicode) (k : Nat) (rm : String)
    (a b : StructInfo) : Prop :=
  ∃ f ∈ a.Fields, ∃ ref : String × String, nestedStructRef f.TypeInfo = some ref ∧
    shouldRecurseNestedPackage ref.1 a.PkgPath rm = true ∧
    parseWithCache W T U k ref.1 ref.2 = some (.ok b)

/-- The record `b` is `a` or is reached from `a` through a chain of
references. -/
def Reaches (W : Loader) (T : GoTypes) (U : Unicode) (k : Nat) (rm : String) :
    StructInfo → StructInfo → Prop :=
  Relation.ReflTransGen (RefersTo W T U k rm)

/-- The position of `X` between the records `before` and `after` respects
its references: every record `X` refers to has its key among `before`, or
among the keys `P` of the records still being visited, or at `X` or later
in a record from which `X` is reached. -/
def GoodAt (W : Loader) (T : GoTypes) (U : Unicode) (k : Nat) (rm : String)
    (P : List String) (before : List StructInfo) (X : StructInfo)
    (after : List StructInfo) : Prop :=
  ∀ Y, RefersTo W T U k rm X Y →
    (∃ Z ∈ before, Z.key = Y.key) ∨ Y.key ∈ P ∨
      ∃ Z ∈ X :: after, Z.key = Y.key ∧ Reaches W T U k rm Z X

/-- Every record of the segment is well placed, the segment following the
records `before`. -/
def GoodList (W : Loader) (T : GoTypes) (U : Unicode) (k : Nat) (rm : String)
    (P : List String) : List StructInfo → List StructInfo → Prop
  | _, [] => True
  | before, X :: rest =>
    GoodAt W T U k rm P before X rest ∧ GoodList W T U k rm P (before ++ [X]) rest

/-- Every visited key is pending (in `P`) or the key of a collected record. -/
def VisInv (P : List String) (st : ParseState) : Prop :=
  ∀ x ∈ st.visited, x ∈ P ∨ ∃ Z ∈ st.result, Z.key = x

/-- What a run of `parseRec`, or of its loop, does to the state when `P`
are the keys of the records being visited around it: it appends a segment of
records, each reached from a record satisfying `origin`, and the appended
records are well placed. -/
def Dfs (W : Loader) (T : GoTypes) (U : Unicode) (k : Nat) (rm : String)
    (P : List String) (origin : StructInfo → Prop) (st st1 : ParseState) : Prop :=
  st.Step st1 ∧ ∃ seg, st1.result = st.result ++ seg ∧
    (∀ X ∈ seg, ∃ o, origin o ∧ Reaches W T U k rm o X) ∧
    (VisInv P st → VisInv P st1 ∧ GoodList W T U k rm P st.result seg)

/-- The provider is canonical: the package it loads for a path has that
path, so that a record parsed for a namespace carries that namespace. This
holds of a provider that is only asked for import paths; a relative pattern
such as `./src` loads a package that carries its import path. -/
def Canonical (W : Loader) (T : GoTypes) (U : Unicode) (k : Nat) : Prop :=
  ∀ p n info, parseWithCache W T U k p n = some (.ok info) → info.PkgPath = p

/-- The namespaces that field descriptors name are import paths: when the
provider resolves a reference found in a field of a parsed record, the
record it returns carries the namespace that the reference names. Nothing is
said of the pattern by which a root is requested, which may be relative. -/
def RefsCanonical (W : Loader) (T : GoTypes) (U : Unicode) (k : Nat) : Prop :=
  ∀ p n info, parseWithCache W T U k p n = some (.ok info) →
    ∀ f ∈ info.Fields, ∀ (ref : String × String) (Y : StructInfo),
      nestedStructRef f.TypeInfo = some ref →
      parseWithCache W T U k ref.1 ref.2 = some (.ok Y) → Y.PkgPath = ref.1

/-- The provider returns for the import path of the root package the record
it returns for the pattern by which the root is requested. -/
def RootCoherent (W : Loader) (T : GoTypes) (U : Unicode) (k : Nat)
    (pkgPath typeName : String) : Prop :=
  ∀ root, parseWithCache W T U k pkgPath typeName = some (.ok root) →
    parseWithCache W T U k root.PkgPath typeName = some (.ok root)

/-- The root module path that `ParseRecursive` computes for a root
namespace: the path of the module of the loaded package, or the empty
string. -/
def rootModulePath (W : Loader) (pkgPath : String) : String :=
  match loadPackage W pkgPath with
  | .ok rootPkg =>
    match rootPkg.Module with
    | some m => m.Path
    | none => ""
  | .error _ => ""

/-- The namespace `p` lies in the module `rm`, or, when there is no module,
is the namespace `rootPath` of the root. -/
def Inside (rm rootPath p : String) : Prop :=
  (rm = "" ∧ p = rootPath) ∨
    (rm ≠ "" ∧ (p = rm ∨ strings.HasPrefix p (rm ++ "/") = true))

/-- The record `b` has a field whose type refers to the record `a`. -/
def References (b a : StructInfo) : Prop :=
  ∃ f ∈ b.Fields, nestedStructRef f.TypeInfo = some (a.PkgPath, a.Name)

/-- Leaf-first order as C11 states it: a record referenced by another
record of the list precedes that record. -/
def LeafFirst (infos : List StructInfo) : Prop :=
  ∀ l1 b l2, infos = l1 ++ b :: l2 → ∀ a ∈ infos, a ≠ b → References b a → a ∈ l1

/-- The names under which the provider resolves a record are identifiers:
they contain no dot. -/
def NoDot (W : Loader) (T : GoTypes) (U : Unicode) (k : Nat) : Prop :=
  ∀ p n info, parseWithCache W T U k p n = some (.ok info) → '.' ∉ n.data

/-- The records `cycle.Ping` and `cycle.Pong` as `parseWithCache` returns
them. -/
def pingInfo : StructInfo :=
  match parseWithCache exampleLoader exampleTypes asciiUnicode 10 pkgCycle.Path "Ping" with
  | some (.ok info) => info
  | _ => { Name := "", PkgPath := "", PkgName := "", Fields := [] }

def pongInfo : StructInfo :=
  match parseWithCache exampleLoader exampleTypes asciiUnicode 10 pkgCycle.Path "Pong" with
  | some (.ok info) => info
  | _ => { Name := "", PkgPath := "", PkgName := "", Fields := [] }

/-! ## internal/matcher: matcher.go -/

/-- A Go map with string keys: its entries, in the order the keys were
first set. -/
def GoMap (α : Type) : Type := List (String × α)

/-- Go `v, ok := m[key]`. -/
def GoMap.get {α : Type} (m : GoMap α) (key : String) : Option α :=
  (List.find? (fun e => e.1 == key) m).map (fun e => e.2)

/-- Go `m[key] = v`. -/
def GoMap.set {α : Type} (m : GoMap α) (key : String) (v : α) : GoMap α :=
  if (List.find? (fun e => e.1 == key) m).isSome then
    List.map (fun e => if e.1 == key then (key, v) else e) m
  else List.append m [(key, v)]

/-- Go `toIgnoreSet`. -/
def toIgnoreSet (U : Unicode) (ignoreFields : List String) : GoMap Bool :=
  ignoreFields.foldl (fun set f =>
    let f := strings.TrimSpace U (strings.ToLower U f)
    if f = "" then set else set.set f true) ([] : List (String × Bool))

/-- Go `(*fieldMatcherImpl).Match`. -/
def fieldMatcherImpl.Match (U : Unicode) (src dst : StructInfo) (ignoreFields : List String) :
    List FieldPair :=
  let ignoreSet := toIgnoreSet U ignoreFields
  let dstMap : GoMap FieldInfo :=
    dst.Fields.foldl (fun m f => m.set (strings.ToLower U f.Name) f) ([] : List (String × FieldInfo))
  src.Fields.foldl (fun pairs sf =>
    let lower := strings.ToLower U sf.Name
    if (ignoreSet.get lower).getD false then pairs
    else
      match dstMap.get lower with
      | none => pairs
      | some df => pairs ++ [{ SrcField := sf, DstField := df }]) []

/-- The ignore set in the words of C19: the entries lower-cased and
trimmed, blank entries dropped. -/
def ignoredNames (U : Unicode) (ignoreFields : List String) : List String :=
  (ignoreFields.map (fun f => strings.TrimSpace U (strings.ToLower U f))).filter
    (fun f => f ≠ "")

/-- The last destination field whose lower-cased name is `lower`. -/
def lastNamed (U : Unicode) (dst : StructInfo) (lower : String) : Option FieldInfo :=
  (dst.Fields.filter (fun f => strings.ToLower U f.Name = lower)).getLast?

/-- The pairs of `Match` in the words of C19: in source order, for each
source field whose lower-cased name is not ignored and is the lower-cased
name of some destination field, the pair with the last such destination
field. -/
def MatchSpec (U : Unicode) (src dst : StructInfo) (ignoreFields : List String) :
    List FieldPair :=
  src.Fields.filterMap (fun sf =>
    if strings.ToLower U sf.Name ∈ ignoredNames U ignoreFields then none
    else (lastNamed U dst (strings.ToLower U sf.Name)).map
      (fun df => { SrcField := sf, DstField := df }))

/-- No destination field occurs in two pairs. -/
def NoMultiMatch (pairs : List FieldPair) : Prop :=
  pairs.Pairwise (fun a b => a.DstField ≠ b.DstField)

/-- A hand-built source record with the fields `ID` and `Id`. -/
def twoCaseSource : StructInfo :=
  { Name := "Source", PkgPath := pkgSrc.Path, PkgName := pkgSrc.Name,
    Fields := [exampleField "ID" "int" (.Basic "int"), exampleField "Id" "int" (.Basic "int")] }

/-- A destination record with the single field `ID`. -/
def oneFieldDest : StructInfo :=
  { Name := "Dest", PkgPath := pkgDst.Path, PkgName := pkgDst.Name,
    Fields := [exampleField "ID" "int" (.Basic "int")] }

/-- The source record of `TestFieldMatcher_Match_CaseInsensitiveAndIgnore`,
with fields named `ID`, `Name`, `Password` (here all of type `int`). -/
def matchTestSource : StructInfo :=
  { Name := "User", PkgPath := pkgSrc.Path, PkgName := pkgSrc.Name,
    Fields := [exampleField "ID" "int" (.Basic "int"), exampleField "Name" "int" (.Basic "int"),
      exampleField "Password" "int" (.Basic "int")] }

/-- The destination record of that test, with fields named `id`, `NAME`,
`Email`. -/
def matchTestDest : StructInfo :=
  { Name := "UserDTO", PkgPath := pkgDst.Path, PkgName := pkgDst.Name,
    Fields := [exampleField "id" "int" (.Basic "int"), exampleField "NAME" "int" (.Basic "int"),
      exampleField "Email" "int" (.Basic "int")] }

/-! ## The calls of `addCandidate` made by a flattening -/

/-- One call of `addCandidate` by `collectFlattenedFields`: the field
offered and its depth, with the variable `var` it was built from and the
handle `owner` of the struct that declares it. -/
structure Offer where
  field : FieldInfo
  depth : Nat
  var : Var
  owner : Nat

/-- The loop of `collectFlattenedFields`, recording the calls of
`addCandidate` in order instead of running them; `recurse` gives the calls
recorded by the recursive call on an embedded struct. -/
def collectOffers.loop (T : GoTypes)
    (recurse : Nat → List String → String → Option (List Offer))
    (analyze : GoType → Option TypeDetail) (owner : Nat)
    (pfx : List String) (embedFrom : String) (depth : Nat) (qualifier : Qualifier) :
    List Var → Option (List Offer)
  | [] => some []
  | f :: fs =>
    if f.Embedded then
      match resolveEmbeddedStruct T f.Type_ with
      | none => collectOffers.loop T recurse analyze owner pfx embedFrom depth qualifier fs
      | some (embeddedStruct, embeddedName) =>
        let nextPfx := appendPath pfx f.Name
        let nextEmbedFrom := if embeddedName = "" then f.Name else embeddedName
        match recurse embeddedStruct nextPfx nextEmbedFrom with
        | none => none
        | some os1 =>
          (collectOffers.loop T recurse analyze owner pfx embedFrom depth qualifier fs).map
            (fun os => os1 ++ os)
    else if !f.Exported then
      collectOffers.loop T recurse analyze owner pfx embedFrom depth qualifier fs
    else
      match analyze f.Type_ with
      | none => none
      | some typeInfo =>
        let field : FieldInfo :=
          { Name := f.Name, AccessPath := buildAccessPath pfx f.Name,
            TypeStr := T.TypeString f.Type_ (some qualifier), TypeInfo := typeInfo,
            Type_ := f.Type_, IsExported := true, EmbedFrom := embedFrom }
        (collectOffers.loop T recurse analyze owner pfx embedFrom depth qualifier fs).map
          (fun os => { field := field, depth := depth, var := f, owner := owner } :: os)

/-- The calls of `addCandidate` that `collectFlattenedFields` makes on the
struct handle `st`, in order; `none` when `fuel` nested calls do not
suffice. -/
def collectOffers (T : GoTypes) (U : Unicode) (qualifier : Qualifier) :
    Nat → Nat → List String → String → Nat → Option (List Offer)
  | 0, _, _, _, _ => none
  | fuel + 1, st, pfx, embedFrom, depth =>
    collectOffers.loop T
      (fun embeddedStruct nextPfx nextEmbedFrom =>
        collectOffers T U qualifier fuel embeddedStruct nextPfx nextEmbedFrom (depth + 1))
      (analyzeType T U fuel) st pfx embedFrom depth qualifier (T.Fields st)

/-- The calls of `addCandidate` run one after the other on a candidate map
and counter. -/
def applyOffers (U : Unicode) (acc : Candidates × Nat) (os : List Offer) : Candidates × Nat :=
  os.foldl (fun acc o => addCandidate U acc.1 o.field o.depth acc.2) acc

/-- The key of an offer in the candidate map. -/
def Offer.key (U : Unicode) (o : Offer) : String :=
  strings.ToLower U o.field.Name

/-- The position in the offers `os` at which the candidate `c` was first
seen: that of the first offer of its key at its depth. -/
def seenAt (U : Unicode) (os : List Offer) (c : fieldCandidate) : Nat :=
  os.findIdx (fun o => decide (o.key U = strings.ToLower U c.field.Name ∧ o.depth = c.depth))

/-- What the candidate map and the counter hold after the offers `os`: the
keys are the lower-cased names offered; the candidate of a key is the first
offer of that key at the least depth offered, it is marked ambiguous when an
offer of that key at that depth has another access path, and the order
indices follow the positions at which the candidates were first seen. -/
structure Tracks (U : Unicode) (os : List Offer) (acc : Candidates × Nat) : Prop where
  keys : (acc.1.map (fun e => e.1)).Nodup
  offered : ∀ o ∈ os, ∃ c, acc.1.get (o.key U) = some c
  key_eq : ∀ k c, acc.1.get k = some c → strings.ToLower U c.field.Name = k
  below : ∀ k c, acc.1.get k = some c → c.order < acc.2
  seen : ∀ k c, acc.1.get k = some c → ∃ o, os[seenAt U os c]? = some o ∧ o.field = c.field
  shallowest : ∀ k c, acc.1.get k = some c → ∀ o ∈ os, o.key U = k → c.depth ≤ o.depth
  conflict : ∀ k c, acc.1.get k = some c → ∀ o ∈ os, o.key U = k → o.depth = c.depth →
    o.field.AccessPath ≠ c.field.AccessPath → c.ambiguous = true
  ordered : ∀ k1 c1 k2 c2, acc.1.get k1 = some c1 → acc.1.get k2 = some c2 →
    (c1.order < c2.order ↔ seenAt U os c1 < seenAt U os c2)

/-- The candidates that `flattenFields` keeps: those not marked
ambiguous, in the order in which the map is visited. -/
def keptCandidates (candidates : Candidates) : List fieldCandidate :=
  (candidates.map (fun e => e.2)).filter (fun cand => !cand.ambiguous)

/-- The struct `a` embeds the struct `b`: a field of `a` is embedded and
`resolveEmbeddedStruct` resolves its type to `b`. -/
def Embeds (T : GoTypes) (a b : Nat) : Prop :=
  ∃ v ∈ T.Fields a, v.Embedded = true ∧ ∃ name, resolveEmbeddedStruct T v.Type_ = some (b, name)

/-- The fields of `parserembed.User` as `flattenFields` returns them, or the
empty list if it did not return. -/
def userFields : List FieldInfo :=
  (flattenFields exampleTypes asciiUnicode 10 53
    (parseQualifier (examplePackage pkgEmbed ["Base", "InnerA", "InnerB", "User"]))).getD []

/-- The offers made while flattening `parserembed.User`. -/
def userOffers : List Offer :=
  (collectOffers exampleTypes asciiUnicode
    (parseQualifier (examplePackage pkgEmbed ["Base", "InnerA", "InnerB", "User"]))
    10 53 [] "" 0).getD []

/-- An offer is built from an exported, not embedded field of its owner,
and its owner is `root` or a struct that `root` embeds, directly or through
other embedded structs. -/
def Offer.Sound (T : GoTypes) (root : Nat) (o : Offer) : Prop :=
  o.var ∈ T.Fields o.owner ∧ o.var.Exported = true ∧ o.var.Embedded = false ∧
    o.field.Name = o.var.Name ∧ o.field.Type_ = o.var.Type_ ∧ o.field.IsExported = true ∧
    Relation.ReflTransGen (Embeds T) root o.owner

/-- The candidate map built while flattening `parserembed.User`. -/
def userCandidates : Candidates :=
  ((collectFlattenedFields exampleTypes asciiUnicode
    (parseQualifier (examplePackage pkgEmbed ["Base", "InnerA", "InnerB", "User"]))
    10 53 [] "" 0 ([], 0)).getD ([], 0)).1

/-! ## Vocabulary of the converter names -/

/-- What the claims about names assume of package `unicode`: upper-casing a
letter or digit gives a letter or digit, the letters of the placeholder
`Pkg` are letters, and the dot and the slash are neither letters nor
digits. -/
structure Unicode.Sane (U : Unicode) : Prop where
  upper : ∀ c, U.IsLetter c = true ∨ U.IsDigit c = true →
    U.IsLetter (U.ToUpper c) = true ∨ U.IsDigit (U.ToUpper c) = true
  placeholder : U.IsLetter 'P' = true ∧ U.IsLetter 'k' = true ∧ U.IsLetter 'g' = true
  dot : U.IsLetter '.' = false ∧ U.IsDigit '.' = false
  slash : U.IsLetter '/' = false ∧ U.IsDigit '/' = false

/-- A piece with its first rune upper-cased. -/
def capitalize (U : Unicode) (piece : String) : String :=
  match piece.data with
  | [] => ""
  | first :: rest => String.mk (U.ToUpper first :: rest)

/-- The pieces of a namespace in the words of C26: the last path segment of
the trimmed namespace, split at every rune that is neither a letter nor a
digit. -/
def tokenPieces (U : Unicode) (ns : String) : List String :=
  strings.FieldsFunc (path.Base (strings.TrimSpace U ns))
    (fun r => !U.IsLetter r && !U.IsDigit r)

/-- The token of a namespace in the words of C26: the pieces, each with its
first rune upper-cased, concatenated; the placeholder `Pkg` when there is no
piece. -/
def tokenSpec (U : Unicode) (ns : String) : String :=
  if tokenPieces U ns = [] then "Pkg"
  else String.join ((tokenPieces U ns).map (capitalize U))

/-! ## Vocabulary of the nullable shapes -/

/-- One of the nullable shapes of C30: the name of the `database/sql` type,
its payload kind and its payload field. -/
structure NullableShape where
  name : String
  payload : String
  field : String

/-- The eight known nullable shapes, in the words of C30. -/
def nullableShapes : List NullableShape :=
  [{ name := "NullString", payload := "string", field := "String" },
   { name := "NullInt64", payload := "int64", field := "Int64" },
   { name := "NullInt32", payload := "int32", field := "Int32" },
   { name := "NullInt16", payload := "int16", field := "Int16" },
   { name := "NullFloat64", payload := "float64", field := "Float64" },
   { name := "NullBool", payload := "bool", field := "Bool" },
   { name := "NullByte", payload := "byte", field := "Byte" },
   { name := "NullTime", payload := "time.Time", field := "Time" }]

/-- The descriptor is the struct type `database/sql.<name>`. -/
def IsShape (d : TypeDetail) (s : NullableShape) : Prop :=
  d.Kind = TypeKindStruct ∧ d.PkgPath = "database/sql" ∧ d.StructName = s.name

/-- The descriptor has the payload kind of the shape: the struct type
`time.Time` for NullTime, the basic kind `byte` (also spelled `uint8`) for
NullByte, and otherwise the basic kind named by the payload. -/
def HasPayloadKind (d : TypeDetail) (s : NullableShape) : Prop :=
  (s.payload = "time.Time" ∧ d.Kind = TypeKindStruct ∧ d.PkgPath = "time" ∧
      d.StructName = "Time") ∨
    (s.payload = "byte" ∧ d.IsBasic = true ∧ (d.BasicKind = "byte" ∨ d.BasicKind = "uint8")) ∨
    (s.payload ≠ "time.Time" ∧ s.payload ≠ "byte" ∧ d.IsBasic = true ∧
      d.BasicKind = s.payload)

/-- The validity expression in the words of C30: a non-empty-string test
for NullString, a non-zero-time test for NullTime, the constant true for
every other shape. -/
def validitySpec (s : NullableShape) (srcExpr : String) : String :=
  if s.name = "NullString" then srcExpr ++ " != \"\""
  else if s.name = "NullTime" then "!" ++ srcExpr ++ ".IsZero()"
  else "true"

/-- The field `Name sql.NullString` of `TestResolver_NullableToValue`. -/
def nullStringField : FieldInfo :=
  { Name := "Name", AccessPath := "Name", TypeStr := "sql.NullString",
    TypeInfo := .mk TypeKindStruct "database/sql" none none false "" "NullString"
      "database/sql.NullString",
    Type_ := .Named { Pkg := some { Path := "database/sql", Name := "sql" }, Name := "NullString" },
    IsExported := true, EmbedFrom := "" }

/-- The field `Name string` of `TestResolver_NullableToValue`. -/
def stringField : FieldInfo :=
  { Name := "Name", AccessPath := "Name", TypeStr := "string",
    TypeInfo := .mk TypeKindBasic "" none none true "string" "" "string",
    Type_ := .Basic "string", IsExported := true, EmbedFrom := "" }

/-- Go `(*structMatcherImpl).MatchStructs`. -/
def structMatcherImpl.MatchStructs (srcInfos dstInfos : List StructInfo) : List StructPair :=
  let dstMap : GoMap StructInfo :=
    dstInfos.foldl (fun m d => m.set d.Name d) ([] : List (String × StructInfo))
  let pairs := srcInfos.foldl (fun (pairs : List StructPair) s =>
    match dstMap.get s.Name with
    | some d => pairs ++ [{ Src := s, Dst := d }]
    | none => pairs) []
  pairs.reverse

/-- The last destination record named `name`. -/
def lastRecordNamed (dstInfos : List StructInfo) (name : String) : Option StructInfo :=
  (dstInfos.filter (fun d => d.Name = name)).getLast?

/-- The pairs of `MatchStructs` in the words of C21: one pair for each
source record that has a destination record of exactly the same name, in
the reverse of the source order. -/
def MatchStructsSpec (srcInfos dstInfos : List StructInfo) : List StructPair :=
  (srcInfos.filterMap (fun s =>
    (lastRecordNamed dstInfos s.Name).map (fun d => ({ Src := s, Dst := d } : StructPair)))).reverse

/-- A record with the given name and namespace and no fields. -/
def emptyRecord (pkgPath pkgName name : String) : StructInfo :=
  { Name := name, PkgPath := pkgPath, PkgName := pkgName, Fields := [] }

/-! ## internal/cli: config.go and runner.go -/

/-- The Go struct `Config`. -/
structure Config where
  SrcType : String
  SrcPath : String
  DstType : String
  DstPath : String
  Filename : String
  FuncName : String
  IgnoreFields : List String
  ShowVersion : Bool

/-- The Go struct `StructConversionPlan` of conversion.go. -/
structure StructConversionPlan where
  Src : StructInfo
  Dst : StructInfo
  FuncName : String
  Plans : List ConversionPlan

/-- The Go struct `runnerImpl`: the five layers it calls through interfaces.
Each is the one method the runner calls, as a function on the state `σ` of
the layers; the parser may not return (`none`). Errors have the type
`ε`. -/
structure runnerImpl (σ ε : Type) where
  parser : σ → String → String → Option (Except ε (List StructInfo) × σ)
  structMatch : σ → List StructInfo → List StructInfo → List StructPair × σ
  fieldMatch : σ → StructInfo → StructInfo → List String → List FieldPair × σ
  resolver : σ → List FieldPair → List StructPair → List ConversionPlan × σ
  generator : σ → Config → List StructConversionPlan → Option ε × σ

/-- The errors that `Run` builds with `fmt.Errorf`. -/
inductive RunError (ε : Type) where
  | parseSrc (err : ε)
  | parseDst (err : ε)
  | noMatchingStructs (srcType dstType : String)

/-- How a call of `Run` ends: with one of its own errors, the generator not
having been called; with the run-time panic of `srcInfos[len(srcInfos)-1]`
on an empty list; or with the call of the generator on a plan list, whose
result it returns. -/
inductive RunOutcome (ε : Type) where
  | failed (err : RunError ε)
  | panicked
  | generated (plans : List StructConversionPlan) (err : Option ε)

/-- Go `findStructByName`. -/
def findStructByName : List StructInfo → String → Option StructInfo
  | [], _ => none
  | info :: rest, name => if info.Name = name then some info else findStructByName rest name

/-- The key of a pair in `dedupePairs`. -/
def dedupeKey (p : StructPair) : String :=
  p.Src.PkgPath ++ "." ++ p.Src.Name ++ "->" ++ p.Dst.PkgPath ++ "." ++ p.Dst.Name

/-- Go `dedupePairs`; the state of the loop is the map `seen` and the slice
`out`. -/
def dedupePairs (pairs : List StructPair) : List StructPair :=
  (pairs.foldl (fun (acc : GoMap Bool × List StructPair) p =>
    if (acc.1.get (dedupeKey p)).getD false then acc
    else (acc.1.set (dedupeKey p) true, acc.2 ++ [p]))
    (([] : List (String × Bool)), [])).2

/-- Go `ensureRootPair`. -/
def ensureRootPair (cfg : Config) (srcInfos dstInfos : List StructInfo)
    (pairs : List StructPair) : List StructPair :=
  match findStructByName srcInfos cfg.SrcType, findStructByName dstInfos cfg.DstType with
  | some srcRoot, some dstRoot =>
    let rootFound := pairs.any (fun p =>
      decide (p.Src.Name = srcRoot.Name) && decide (p.Dst.Name = dstRoot.Name))
    if !rootFound then dedupePairs ({ Src := srcRoot, Dst := dstRoot } :: pairs)
    else pairs
  | _, _ => pairs

/-- Go `reverseStructPairs`; the pairs of the model are never nil. -/
def reverseStructPairs (forwardPairs : List StructPair) : List StructPair :=
  if forwardPairs.length = 0 then []
  else
    forwardPairs.foldl (fun (reverse : List StructPair) p =>
      if p.Src.PkgPath = p.Dst.PkgPath ∧ p.Src.Name = p.Dst.Name then reverse
      else reverse ++ [{ Src := p.Dst, Dst := p.Src }]) []

/-- Go `renderTypeForOutputPackage`; a field of the model always carries a
type, so the fallback for a nil type is not used. -/
def renderTypeForOutputPackage (T : GoTypes) (t : GoType) (outputPkgPath : String)
    (_fallback : String) : String :=
  T.TypeString t (some (fun pkg =>
    match pkg with
    | none => ""
    | some p => if outputPkgPath ≠ "" ∧ p.Path = outputPkgPath then "" else p.Name))

/-- Go `normalizePairTypeStrings`. -/
def normalizePairTypeStrings (T : GoTypes) (pairs : List FieldPair) (outputPkgPath : String) :
    List FieldPair :=
  if pairs.length = 0 then pairs
  else
    pairs.map (fun p =>
      { SrcField := { p.SrcField with
          TypeStr := renderTypeForOutputPackage T p.SrcField.Type_ outputPkgPath
            p.SrcField.TypeStr },
        DstField := { p.DstField with
          TypeStr := renderTypeForOutputPackage T p.DstField.Type_ outputPkgPath
            p.DstField.TypeStr } })

/-- The body of the loop of `appendPlans` for the pair `sp`; the log of the
skipped fields is not represented. -/
def appendPlans.step {σ ε : Type} (T : GoTypes) (U : Unicode) (r : runnerImpl σ ε)
    (structPairs : List StructPair) (cfg : Config)
    (rootSrcType rootDstType rootFuncName outputPkgPath : String)
    (acc : List StructConversionPlan × σ) (sp : StructPair) : List StructConversionPlan × σ :=
  let matched := r.fieldMatch acc.2 sp.Src sp.Dst cfg.IgnoreFields
  let pairs := normalizePairTypeStrings T matched.1 outputPkgPath
  let resolved := r.resolver matched.2 pairs structPairs
  let funcName := DefaultConverterName U sp.Src.PkgPath sp.Src.Name sp.Dst.PkgPath sp.Dst.Name
  let funcName :=
    if sp.Src.Name = rootSrcType ∧ sp.Dst.Name = rootDstType ∧ rootFuncName ≠ "" then
      rootFuncName
    else funcName
  (acc.1 ++ [{ Src := sp.Src, Dst := sp.Dst, FuncName := funcName, Plans := resolved.1 }],
    resolved.2)

/-- Go `(*runnerImpl).appendPlans`. -/
def runnerImpl.appendPlans {σ ε : Type} (T : GoTypes) (U : Unicode) (r : runnerImpl σ ε)
    (st : σ) (dst : List StructConversionPlan) (structPairs : List StructPair) (cfg : Config)
    (rootSrcType rootDstType rootFuncName outputPkgPath : String) :
    List StructConversionPlan × σ :=
  structPairs.foldl
    (appendPlans.step T U r structPairs cfg rootSrcType rootDstType rootFuncName outputPkgPath)
    (dst, st)

/-- The output namespace that `Run` computes: that of the first record named
`cfg.SrcType`, or else that of the last source record `last`. -/
def outputPkgPathOf (cfg : Config) (srcInfos : List StructInfo) (last : StructInfo) : String :=
  match findStructByName srcInfos cfg.SrcType with
  | some root => root.PkgPath
  | none => last.PkgPath

/-- The plan list `allPlans` that `Run` builds from the forward pairs: the
plans of the forward pairs, then those of the reverse pairs. -/
def runnerImpl.allPlans {σ ε : Type} (T : GoTypes) (U : Unicode) (r : runnerImpl σ ε) (st : σ)
    (forwardPairs : List StructPair) (cfg : Config) (outputPkgPath : String) :
    List StructConversionPlan × σ :=
  let forward := r.appendPlans T U st [] forwardPairs cfg cfg.SrcType cfg.DstType
    cfg.FuncName outputPkgPath
  let reversePairs := reverseStructPairs forwardPairs
  if reversePairs.length > 0 then
    r.appendPlans T U forward.2 forward.1 reversePairs cfg cfg.DstType cfg.SrcType ""
      outputPkgPath
  else forward

/-- The part of `Run` after the discovery: `matched` is what the struct
matcher returned. -/
def runnerImpl.finish {σ ε : Type} (T : GoTypes) (U : Unicode) (r : runnerImpl σ ε)
    (cfg : Config) (srcInfos dstInfos : List StructInfo) (matched : List StructPair × σ) :
    RunOutcome ε × σ :=
  let forwardPairs := ensureRootPair cfg srcInfos dstInfos matched.1
  if forwardPairs.length = 0 then
    (.failed (.noMatchingStructs cfg.SrcType cfg.DstType), matched.2)
  else
    match srcInfos.getLast? with
    | none => (.panicked, matched.2)
    | some last =>
      let all := r.allPlans T U matched.2 forwardPairs cfg (outputPkgPathOf cfg srcInfos last)
      let result := r.generator all.2 cfg all.1
      (.generated all.1 result.1, result.2)

/-- Go `(*runnerImpl).Run` from the state `st` of the layers; `none` when
the parser does not return. -/
def runnerImpl.Run {σ ε : Type} (T : GoTypes) (U : Unicode) (r : runnerImpl σ ε) (st : σ)
    (cfg : Config) : Option (RunOutcome ε × σ) :=
  match r.parser st cfg.SrcPath cfg.SrcType with
  | none => none
  | some (.error err, st1) => some (.failed (.parseSrc err), st1)
  | some (.ok srcInfos, st1) =>
    match r.parser st1 cfg.DstPath cfg.DstType with
    | none => none
    | some (.error err, st2) => some (.failed (.parseDst err), st2)
    | some (.ok dstInfos, st2) =>
      some (r.finish T U cfg srcInfos dstInfos (r.structMatch st2 srcInfos dstInfos))

/-! ## Vocabulary of the runner -/

/-- The discovery at the start of `Run`: both calls of the parser return
lists, and `matched` is what the struct matcher returns for them. -/
def Discovers {σ ε : Type} (r : runnerImpl σ ε) (st : σ) (cfg : Config)
    (srcInfos dstInfos : List StructInfo) (matched : List StructPair × σ) : Prop :=
  ∃ st1 st2, r.parser st cfg.SrcPath cfg.SrcType = some (.ok srcInfos, st1) ∧
    r.parser st1 cfg.DstPath cfg.DstType = some (.ok dstInfos, st2) ∧
    r.structMatch st2 srcInfos dstInfos = matched

/-- The pair with source and destination swapped. -/
def swapPair (p : StructPair) : StructPair :=
  { Src := p.Dst, Dst := p.Src }

/-- Source and destination are the same record: same namespace and name. -/
def sameRecord (p : StructPair) : Bool :=
  decide (p.Src.PkgPath = p.Dst.PkgPath) && decide (p.Src.Name = p.Dst.Name)

/-- The reverse pairs in the words of C23: the forward pairs swapped, in
the same order, without the pairs of a record with itself. -/
def reversePairsSpec (forwardPairs : List StructPair) : List StructPair :=
  (forwardPairs.filter (fun p => !sameRecord p)).map swapPair

/-- The name `appendPlans` gives the plan of the pair `sp`. -/
def planName (U : Unicode) (rootSrcType rootDstType rootFuncName : String) (sp : StructPair) :
    String :=
  if sp.Src.Name = rootSrcType ∧ sp.Dst.Name = rootDstType ∧ rootFuncName ≠ "" then rootFuncName
  else DefaultConverterName U sp.Src.PkgPath sp.Src.Name sp.Dst.PkgPath sp.Dst.Name

/-- The state of the mocks of runner_test.go: the numbers of calls of the
parser, of the field matcher and of the generator. -/
structure MockState where
  parserCalls : Nat
  fieldMatchCalls : Nat
  generatorCalls : Nat

/-- The mocks of runner_test.go: the parser returns `srcInfos` on its first
call and `dstInfos` afterwards, the struct matcher returns `pairs`, the
field matcher one pair of fields `Name string`, the resolver one
direct-assign plan for the first pair, the generator no error. -/
def mockRunner (srcInfos dstInfos : List StructInfo) (pairs : List StructPair) :
    runnerImpl MockState String :=
  { parser := fun st _ _ =>
      if st.parserCalls = 0 then some (.ok srcInfos, { st with parserCalls := 1 })
      else some (.ok dstInfos, st)
    structMatch := fun st _ _ => (pairs, st)
    fieldMatch := fun st _ _ _ =>
      ([{ SrcField := stringField, DstField := stringField }],
        { st with fieldMatchCalls := st.fieldMatchCalls + 1 })
    resolver := fun st fieldPairs _ =>
      (match fieldPairs with
        | [] => []
        | p :: _ =>
          [{ SrcField := p.SrcField, DstField := p.DstField, Strategy := StrategyDirectAssign,
             Expression := "dst.Name = src.Name" }], st)
    generator := fun st _ _ => (none, { st with generatorCalls := st.generatorCalls + 1 }) }

/-- The configuration of `TestRunner_Run_IncludesRootPairAndCustomFuncName`. -/
def rootPairCfg : Config :=
  { SrcType := "User", SrcPath := "src/path", DstType := "UserResponse", DstPath := "dst/path",
    Filename := "generated.go", FuncName := "BuildUserResponse", IgnoreFields := ["Password"],
    ShowVersion := false }

/-- The runner of `TestRunner_Run_IncludesRootPairAndCustomFuncName`: the
sources Address and User of `example.com/src`, the destinations
AddressResponse and UserResponse of `example.com/dst`, and a struct matcher
that returns the pair of the two addresses. -/
def rootPairRunner : runnerImpl MockState String :=
  mockRunner
    [emptyRecord "example.com/src" "model" "Address", emptyRecord "example.com/src" "model" "User"]
    [emptyRecord "example.com/dst" "dto" "AddressResponse",
      emptyRecord "example.com/dst" "dto" "UserResponse"]
    [{ Src := emptyRecord "example.com/src" "model" "Address",
       Dst := emptyRecord "example.com/dst" "dto" "AddressResponse" }]

/-- The plan list that the generator receives in
`TestRunner_Run_IncludesRootPairAndCustomFuncName`, or the empty list if the
run did not reach the generator. -/
def rootPairPlans : List StructConversionPlan :=
  match rootPairRunner.Run exampleTypes asciiUnicode
      { parserCalls := 0, fieldMatchCalls := 0, generatorCalls := 0 } rootPairCfg with
  | some (.generated plans _, _) => plans
  | _ => []

/-- The configuration of `TestRunner_Run_NoMatchingStructs`. -/
def noMatchCfg : Config :=
  { SrcType := "User", SrcPath := "src", DstType := "UserResponse", DstPath := "dst",
    Filename := "out.go", FuncName := "", IgnoreFields := [], ShowVersion := false }

/-- The mocks of runner_test.go with the struct matcher of the repository
in the place of the mock. -/
def nameMatchRunner (srcInfos dstInfos : List StructInfo) : runnerImpl MockState String :=
  { mockRunner srcInfos dstInfos [] with
    structMatch := fun st s d => (structMatcherImpl.MatchStructs s d, st) }

/-- A request for the root `User` of the package `example.com/model`, whose
field of the type `legacy.User` makes discovery return the record of
`example.com/legacy` before the root (leaf first, root last). -/
def shadowedRootCfg : Config :=
  { SrcType := "User", SrcPath := "./model", DstType := "UserDTO", DstPath := "./dto",
    Filename := "out.go", FuncName := "", IgnoreFields := [], ShowVersion := false }

/-- The source records of the request `shadowedRootCfg`, root last. -/
def shadowedRootSrc : List StructInfo :=
  [emptyRecord "example.com/legacy" "legacy" "User",
   emptyRecord "example.com/model" "model" "User"]

/-- The destination records of the request `shadowedRootCfg`. -/
def shadowedRootDst : List StructInfo := [emptyRecord "example.com/dto" "dto" "UserDTO"]

/-- The namespaces and names of a pair. -/
def pairIdentity (p : StructPair) : String × String × String × String :=
  (p.Src.PkgPath, p.Src.Name, p.Dst.PkgPath, p.Dst.Name)

/-- The runner as `main` wires it, over a parser that has discovered
`srcInfos` for the type name `srcType` and `dstInfos` for every other name:
the struct matcher, the field matcher and the resolver are those of the
repository, the generator reports no error. The state of the layers is the
resolver. -/
def wiredRunner (U : Unicode) (srcType : String) (srcInfos dstInfos : List StructInfo) :
    runnerImpl resolverImpl String :=
  { parser := fun st _ typeName =>
      some (.ok (if typeName = srcType then srcInfos else dstInfos), st)
    structMatch := fun st s d => (structMatcherImpl.MatchStructs s d, st)
    fieldMatch := fun st s d ignoreFields => (fieldMatcherImpl.Match U s d ignoreFields, st)
    resolver := fun st pairs structPairs => st.Resolve pairs structPairs
    generator := fun st _ _ => (none, st) }

/-- The record of `type Node struct { Next *Node }` of `example.com/src`. -/
def nodeRecord : StructInfo :=
  { Name := "Node", PkgPath := pkgSrc.Path, PkgName := pkgSrc.Name,
    Fields := [exampleField "Next" "*Node" (.Pointer (.Named { Pkg := some pkgSrc, Name := "Node" }))] }

/-- The record of `type NodeDTO struct { Next *NodeDTO }` of
`example.com/dst`. -/
def nodeDTORecord : StructInfo :=
  { Name := "NodeDTO", PkgPath := pkgDst.Path, PkgName := pkgDst.Name,
    Fields :=
      [exampleField "Next" "*NodeDTO" (.Pointer (.Named { Pkg := some pkgDst, Name := "NodeDTO" }))] }

/-- A request for the converter of Node to NodeDTO under the function name
`BuildNodeDTO`. -/
def customNameCfg : Config :=
  { SrcType := "Node", SrcPath := "./src", DstType := "NodeDTO", DstPath := "./dst",
    Filename := "out.go", FuncName := "BuildNodeDTO", IgnoreFields := [], ShowVersion := false }

/-- The plan list that the generator receives for the request
`customNameCfg`, or the empty list if the run did not reach the generator. -/
def customNamePlans : List StructConversionPlan :=
  match (wiredRunner asciiUnicode "Node" [nodeRecord] [nodeDTORecord]).Run exampleTypes
      asciiUnicode (New (DefaultRules exampleTypes asciiUnicode)) customNameCfg with
  | some (.generated plans _, _) => plans
  | _ => []

/-- The field `Name *string` of `TestResolver_PointerConversions`. -/
def stringPtrField : FieldInfo :=
  exampleField "Name" "*string" (.Pointer (.Basic "string"))

/-- The field `IDs []int` of `TestResolver_SliceConvert`. -/
def intSliceField : FieldInfo :=
  exampleField "IDs" "[]int" (.Slice (.Basic "int"))

/-- The field `IDs []int64` of `TestResolver_SliceConvert`. -/
def int64SliceField : FieldInfo :=
  exampleField "IDs" "[]int64" (.Slice (.Basic "int64"))

/-- What go/types guarantees of the declarations that `analyzeType` reads: a
named type whose underlying type is a struct is declared in a package with a
non-empty import path, under a non-empty name. (The universe scope, whose
objects have no package, declares no struct type.) -/
def GoTypes.StructsDeclared (T : GoTypes) : Prop :=
  ∀ obj id, T.Underlying obj = .Struct id →
    obj.Name ≠ "" ∧ ∃ pkg, obj.Pkg = some pkg ∧ pkg.Path ≠ ""

/-- A descriptor and the descriptors nested in it, at every level: the
element and key descriptors, theirs, and so on. -/
def subDescriptors : TypeDetail → List TypeDetail
  | .mk kind pkgPath elemType keyType isBasic basicKind structName typeName =>
    .mk kind pkgPath elemType keyType isBasic basicKind structName typeName ::
      ((match elemType with
        | some elem => subDescriptors elem
        | none => []) ++
       (match keyType with
        | some key => subDescriptors key
        | none => []))

/-- The declarations of the example universe without the type names that
go/types cannot hold: a name without package, with an empty import path or
an empty name is a universe interface. -/
def declaredUnderlying (obj : TypeName) : GoType :=
  match obj.Pkg with
  | some pkg => if pkg.Path ≠ "" ∧ obj.Name ≠ "" then exampleUnderlying obj else .Interface 0
  | none => .Interface 0

/-- The example universe over `declaredUnderlying`. -/
def declaredTypes : GoTypes :=
  { exampleTypes with Underlying := declaredUnderlying }

/-- The alias `type AddressAlias = model.Address` of `example.com/dto`. -/
def addressAlias : GoType :=
  .Alias { Pkg := some pkgDto, Name := "AddressAlias" }
    (.Named { Pkg := some pkgModel, Name := "Address" })

/-- The descriptor of `model.Address`. -/
def addressDetail : TypeDetail :=
  .mk TypeKindStruct "example.com/model" none none false "" "Address" "example.com/model.Address"

/-! ## internal/generator: generator.go -/

/-- Go `strings.TrimRight`. -/
def strings.TrimRight (s cutset : String) : String :=
  String.mk (s.data.reverse.dropWhile (fun c => cutset.data.contains c)).reverse

/-- Go `strings.Cut`: the text before and after the first occurrence of
`sep`, and whether `sep` occurs. -/
def strings.Cut (s sep : String) : String × String × Bool :=
  match strings.cutChars sep.data s.data with
  | some (before, after) => (String.mk before, String.mk after, true)
  | none => (s, "", false)

/-- Go `renderSkipComment`. -/
def renderSkipComment (plan : ConversionPlan) : String :=
  let dstName := plan.DstField.Name
  let dstName :=
    if dstName = "" then
      let dstName := plan.SrcField.Name
      if dstName = "" then "unknown" else dstName
    else dstName
  "\t// " ++ dstName ++ ": //TODO: couldn't auto-generate\n"

/-- The `for` loop of `renderPlan`: `b` is the builder, and `fuel` bounds the
number of iterations; every iteration but the last removes a line break from
`remaining`. -/
def renderPlan.loop (U : Unicode) : Nat → String → String → String
  | 0, _, b => b
  | fuel + 1, remaining, b =>
    let cut := strings.Cut remaining "\n"
    let trimmed := strings.TrimRight cut.1 " "
    let b := if strings.TrimSpace U trimmed ≠ "" then b ++ "\t" ++ trimmed ++ "\n" else b
    if !cut.2.2 then b else renderPlan.loop U fuel cut.2.1 b

/-- Go `renderPlan`. The loop is given one iteration more than the snippet
has characters, which it never uses up. -/
def renderPlan (U : Unicode) (plan : ConversionPlan) : String :=
  if plan.Strategy = StrategySkip then renderSkipComment plan
  else
    let snippet := strings.TrimSpace U plan.Expression
    if snippet = "" then ""
    else if !strings.Contains snippet "\n" then "\t" ++ snippet ++ "\n"
    else renderPlan.loop U (snippet.length + 1) snippet ""

/-- The name that the comment of a Skip plan shows: the destination field's
name, or the source field's name if that is empty, or `unknown` if both
are. -/
def skipCommentName (plan : ConversionPlan) : String :=
  if plan.DstField.Name ≠ "" then plan.DstField.Name
  else if plan.SrcField.Name ≠ "" then plan.SrcField.Name
  else "unknown"

/-- The Skip plan of `TestGenerate_WritesSkipCommentForUnsupportedConversion`:
`Metadata map[string]any` to `Metadata string`. The test leaves the
descriptors zero and the types nil; `renderPlan` reads neither. -/
def metadataSkipPlan : ConversionPlan :=
  { SrcField := { Name := "Metadata", AccessPath := "", TypeStr := "map[string]any",
                  TypeInfo := TypeDetail.zero, Type_ := .Map (.Basic "string") (.Interface 0),
                  IsExported := false, EmbedFrom := "" },
    DstField := { Name := "Metadata", AccessPath := "", TypeStr := "string",
                  TypeInfo := TypeDetail.zero, Type_ := .Basic "string",
                  IsExported := false, EmbedFrom := "" },
    Strategy := StrategySkip, Expression := "" }

/-- The descriptor found under all the pointer and slice levels of a
descriptor: the descriptor itself when it is neither a pointer nor a slice,
or has no element descriptor. -/
def indirectionCore : TypeDetail → TypeDetail
  | .mk kind pkgPath elemType keyType isBasic basicKind structName typeName =>
    match kind with
    | TypeKindPointer | TypeKindSlice =>
      match elemType with
      | none => .mk kind pkgPath none keyType isBasic basicKind structName typeName
      | some elem => indirectionCore elem
    | _ => .mk kind pkgPath elemType keyType isBasic basicKind structName typeName

/-- The descriptor of `*model.Address`. -/
def addressPtrDetail : TypeDetail :=
  .mk TypeKindPointer "" (some addressDetail) none false "" "" "*example.com/model.Address"

/-- The descriptor of `[]*model.Address`: a slice whose elements are
pointers to a struct. -/
def addressPtrSliceDetail : TypeDetail :=
  .mk TypeKindSlice "" (some addressPtrDetail) none false "" "" "[]*example.com/model.Address"

/-- The field `Items []*model.Address`. -/
def addressPtrSliceField : FieldInfo :=
  exampleField "Items" "[]*model.Address"
    (.Slice (.Pointer (.Named { Pkg := some pkgModel, Name := "Address" })))

/-- The field `Items []*dto.AddressDTO`. -/
def addressDTOPtrSliceField : FieldInfo :=
  exampleField "Items" "[]*dto.AddressDTO"
    (.Slice (.Pointer (.Named { Pkg := some pkgDto, Name := "AddressDTO" })))

/-- The types on which the recursion of `analyzeType` is finite: going from a
pointer, slice or map type to its element and key types, from an alias to
its right-hand side, and from a named type whose underlying type is a
pointer, slice or map to the element and key types of that underlying type,
ends after finitely many steps on every path. -/
inductive Analyzable (T : GoTypes) : GoType → Prop where
  | ofAlias (obj : TypeName) (rhs : GoType) : Analyzable T rhs → Analyzable T (.Alias obj rhs)
  | ofBasic (name : String) : Analyzable T (.Basic name)
  | ofPointer (e : GoType) : Analyzable T e → Analyzable T (.Pointer e)
  | ofSlice (e : GoType) : Analyzable T e → Analyzable T (.Slice e)
  | ofMap (k e : GoType) : Analyzable T k → Analyzable T e → Analyzable T (.Map k e)
  | ofStruct (id : Nat) : Analyzable T (.Struct id)
  | ofInterface (id : Nat) : Analyzable T (.Interface id)
  | ofOther (repr : String) : Analyzable T (.Other repr)
  | namedPointer (obj : TypeName) (e : GoType) : T.Underlying obj = .Pointer e →
      Analyzable T e → Analyzable T (.Named obj)
  | namedSlice (obj : TypeName) (e : GoType) : T.Underlying obj = .Slice e →
      Analyzable T e → Analyzable T (.Named obj)
  | namedMap (obj : TypeName) (k e : GoType) : T.Underlying obj = .Map k e →
      Analyzable T k → Analyzable T e → Analyzable T (.Named obj)
  | namedLeaf (obj : TypeName) : (∀ e, T.Underlying obj ≠ .Pointer e) →
      (∀ e, T.Underlying obj ≠ .Slice e) → (∀ k e, T.Underlying obj ≠ .Map k e) →
      Analyzable T (.Named obj)

/-- The provider as seen from the directory `testdata` of the module: the
relative patterns `./cycle` and `./holder` load the packages
`testdata/cycle` and `testdata/holder`, which carry their import paths, as
the import paths themselves do; every other path fails, `testdata/missing`
included. -/
def relativeLoader : Loader :=
  { Load := fun pkgPath =>
      if pkgPath = "./cycle" ∨ pkgPath = pkgCycle.Path then
        .ok [examplePackage pkgCycle ["Ping", "Pong"]]
      else if pkgPath = "./holder" ∨ pkgPath = pkgHolder.Path then
        .ok [examplePackage pkgHolder ["Holder"]]
      else .error "no such package" }

/-- The records reachable from `holder.Holder` requested by the relative
pattern `./holder`, by namespace and name; `missing.Thing` does not
resolve. -/
def holderUniverse : List (String × String) :=
  [("./holder", "Holder"), (pkgMissing.Path, "Thing")]

/-! # Theorems -/

/-! ## Strings -/

theorem str_ne_left {a : String} (b : String) (h : a ≠ "") : a ++ b ≠ "" := by
  intro hab
  apply h
  have h1 := congrArg String.data hab
  rw [String.data_append] at h1
  have h2 : a.data = [] := (List.append_eq_nil.mp h1).1
  exact String.ext h2

/-! ## Every built-in rule returns a plan for the pair it was asked about -/

theorem planFor_newPlan (src dst : FieldInfo) {strategy : ConversionStrategy} {expr : String}
    (hs : strategy ≠ StrategySkip) (he : expr ≠ "") :
    PlanFor src dst (newPlan src dst strategy expr) :=
  ⟨rfl, rfl, hs, he⟩

theorem SameTypeRule_Try_sound {T : GoTypes} {src dst : FieldInfo} {p : ConversionPlan}
    (h : SameTypeRule.Try T src dst = some p) : PlanFor src dst p := by
  unfold SameTypeRule.Try at h
  split_ifs at h <;> simp only [Option.some.injEq, reduceCtorEq] at h <;> subst h <;>
    apply planFor_newPlan <;>
    first
    | decide
    | (simp only [assign, castAssign, dstSelector, srcSelector]
       repeat (first | decide | apply str_ne_left))

theorem BasicCastRule_Try_sound {T : GoTypes} {src dst : FieldInfo} {p : ConversionPlan}
    (h : BasicCastRule.Try T src dst = some p) : PlanFor src dst p := by
  unfold BasicCastRule.Try at h
  split_ifs at h <;> simp only [Option.some.injEq, reduceCtorEq] at h <;> subst h <;>
    apply planFor_newPlan <;>
    first
    | decide
    | (simp only [assign, castAssign, dstSelector, srcSelector]
       repeat (first | decide | apply str_ne_left))

theorem PointerRule_Try_sound {T : GoTypes} {src dst : FieldInfo} {p : ConversionPlan}
    (h : PointerRule.Try T src dst = some p) : PlanFor src dst p := by
  unfold PointerRule.Try at h
  split at h
  · split_ifs at h <;> simp only [Option.some.injEq, reduceCtorEq] at h <;> subst h <;>
      apply planFor_newPlan <;>
      first
      | decide
      | (simp only [assign, castAssign, dstSelector, srcSelector]
         repeat (first | decide | apply str_ne_left))
  · split_ifs at h <;> simp only [Option.some.injEq, reduceCtorEq] at h <;> subst h <;>
      apply planFor_newPlan <;>
      first
      | decide
      | (simp only [assign, castAssign, dstSelector, srcSelector]
         repeat (first | decide | apply str_ne_left))
  · simp at h

theorem NullableRule_Try_sound {src dst : FieldInfo} {p : ConversionPlan}
    (h : NullableRule.Try src dst = some p) : PlanFor src dst p := by
  unfold NullableRule.Try at h
  simp only at h
  split at h
  · simp only [Option.some.injEq] at h
    subst h
    apply planFor_newPlan
    · decide
    · simp only [srcSelector]
      repeat (first | decide | apply str_ne_left)
  · split at h
    · simp only [Option.some.injEq] at h
      subst h
      apply planFor_newPlan
      · decide
      · simp only [dstSelector]
        repeat (first | decide | apply str_ne_left)
    · simp at h

theorem TimeStringRule_Try_sound {src dst : FieldInfo} {p : ConversionPlan}
    (h : TimeStringRule.Try src dst = some p) : PlanFor src dst p := by
  unfold TimeStringRule.Try at h
  split_ifs at h <;> simp only [Option.some.injEq, reduceCtorEq] at h <;> subst h <;>
    apply planFor_newPlan <;>
    first
    | decide
    | (simp only [assign, castAssign, dstSelector, srcSelector]
       repeat (first | decide | apply str_ne_left))

theorem NestedStructRule.trySlice_sound {U : Unicode} {s : NestedSet} {src dst : FieldInfo}
    {p : ConversionPlan} (h : NestedStructRule.trySlice U s src dst = some p) :
    PlanFor src dst p := by
  unfold NestedStructRule.trySlice at h
  split at h
  · split_ifs at h <;> simp only [Option.some.injEq, reduceCtorEq] at h <;> subst h <;>
      apply planFor_newPlan <;>
      first
      | decide
      | (simp only [assign, castAssign, dstSelector, srcSelector]
         repeat (first | decide | apply str_ne_left))
  · simp at h

theorem NestedStructRule.tryStructPtr_sound {U : Unicode} {s : NestedSet} {src dst : FieldInfo}
    {p : ConversionPlan} (h : NestedStructRule.tryStructPtr U s src dst = some p) :
    PlanFor src dst p := by
  unfold NestedStructRule.tryStructPtr at h
  split at h
  · split_ifs at h <;> simp only [Option.some.injEq, reduceCtorEq] at h <;> subst h <;>
      apply planFor_newPlan <;>
      first
      | decide
      | (simp only [assign, castAssign, dstSelector, srcSelector]
         repeat (first | decide | apply str_ne_left))
  · exact NestedStructRule.trySlice_sound h

theorem NestedStructRule.tryPtrStruct_sound {U : Unicode} {s : NestedSet} {src dst : FieldInfo}
    {p : ConversionPlan} (h : NestedStructRule.tryPtrStruct U s src dst = some p) :
    PlanFor src dst p := by
  unfold NestedStructRule.tryPtrStruct at h
  split at h
  · split_ifs at h <;> simp only [Option.some.injEq, reduceCtorEq] at h <;> subst h <;>
      apply planFor_newPlan <;>
      first
      | decide
      | (simp only [assign, castAssign, dstSelector, srcSelector]
         repeat (first | decide | apply str_ne_left))
  · exact NestedStructRule.tryStructPtr_sound h

theorem NestedStructRule.tryPtrPtr_sound {U : Unicode} {s : NestedSet} {src dst : FieldInfo}
    {p : ConversionPlan} (h : NestedStructRule.tryPtrPtr U s src dst = some p) :
    PlanFor src dst p := by
  unfold NestedStructRule.tryPtrPtr at h
  split at h
  · split_ifs at h <;> simp only [Option.some.injEq, reduceCtorEq] at h <;> subst h <;>
      apply planFor_newPlan <;>
      first
      | decide
      | (simp only [assign, castAssign, dstSelector, srcSelector]
         repeat (first | decide | apply str_ne_left))
  · exact NestedStructRule.tryPtrStruct_sound h

theorem NestedStructRule_Try_sound {U : Unicode} {s : NestedSet} {src dst : FieldInfo}
    {p : ConversionPlan} (h : NestedStructRule.Try U s src dst = some p) :
    PlanFor src dst p := by
  unfold NestedStructRule.Try at h
  split_ifs at h
  split at h
  · split_ifs at h <;> simp only [Option.some.injEq, reduceCtorEq] at h <;> subst h <;>
      apply planFor_newPlan <;>
      first
      | decide
      | (simp only [assign, castAssign, dstSelector, srcSelector]
         repeat (first | decide | apply str_ne_left))
  · exact NestedStructRule.tryPtrPtr_sound h

theorem SliceConvertRule_Try_sound {T : GoTypes} {src dst : FieldInfo} {p : ConversionPlan}
    (h : SliceConvertRule.Try T src dst = some p) : PlanFor src dst p := by
  unfold SliceConvertRule.Try at h
  split at h
  · simp at h
  · split at h
    · simp at h
    · split_ifs at h <;> simp only [Option.some.injEq, reduceCtorEq] at h <;> subst h <;>
        apply planFor_newPlan <;>
        first
        | decide
        | (simp only [assign, castAssign, dstSelector, srcSelector]
           repeat (first | decide | apply str_ne_left))

theorem StringerRule_Try_sound {T : GoTypes} {src dst : FieldInfo} {p : ConversionPlan}
    (h : StringerRule.Try T src dst = some p) : PlanFor src dst p := by
  unfold StringerRule.Try at h
  split_ifs at h
  split at h <;> simp only [Option.some.injEq, reduceCtorEq] at h <;> subst h <;>
    apply planFor_newPlan <;>
    first
    | decide
    | (simp only [assign, castAssign, dstSelector, srcSelector]
       repeat (first | decide | apply str_ne_left))

theorem AssignableRule_Try_sound {T : GoTypes} {src dst : FieldInfo} {p : ConversionPlan}
    (h : AssignableRule.Try T src dst = some p) : PlanFor src dst p := by
  unfold AssignableRule.Try at h
  split_ifs at h <;> simp only [Option.some.injEq, reduceCtorEq] at h <;> subst h <;>
    apply planFor_newPlan <;>
    first
    | decide
    | (simp only [assign, castAssign, dstSelector, srcSelector]
       repeat (first | decide | apply str_ne_left))

theorem ConvertibleRule_Try_sound {T : GoTypes} {src dst : FieldInfo} {p : ConversionPlan}
    (h : ConvertibleRule.Try T src dst = some p) : PlanFor src dst p := by
  unfold ConvertibleRule.Try at h
  split_ifs at h <;> simp only [Option.some.injEq, reduceCtorEq] at h <;> subst h <;>
    apply planFor_newPlan <;>
    first
    | decide
    | (simp only [assign, castAssign, dstSelector, srcSelector]
       repeat (first | decide | apply str_ne_left))

/-! ## The default rules are sound -/

theorem DefaultRules_sound (T : GoTypes) (U : Unicode) :
    ∀ rule ∈ DefaultRules T U, rule.Sound := by
  intro rule hrule s src dst p h
  simp only [DefaultRules, List.mem_cons, List.mem_singleton, List.not_mem_nil, or_false]
    at hrule
  rcases hrule with rfl | rfl | rfl | rfl | rfl | rfl | rfl | rfl | rfl | rfl
  · exact SameTypeRule_Try_sound h
  · exact BasicCastRule_Try_sound h
  · exact PointerRule_Try_sound h
  · exact NullableRule_Try_sound h
  · exact TimeStringRule_Try_sound h
  · exact NestedStructRule_Try_sound h
  · exact SliceConvertRule_Try_sound h
  · exact StringerRule_Try_sound h
  · exact AssignableRule_Try_sound h
  · exact ConvertibleRule_Try_sound h

theorem Rule.inject_Try (rule : Rule) (s : NestedSet) : (rule.inject s).Try = rule.Try := by
  unfold Rule.inject
  split_ifs <;> rfl

theorem Rule.inject_sound {rule : Rule} (h : rule.Sound) (s : NestedSet) :
    (rule.inject s).Sound := by
  intro s1 src dst p hp
  rw [Rule.inject_Try] at hp
  exact h s1 src dst p hp

theorem defaultResolver_sound (T : GoTypes) (U : Unicode) (s : NestedSet) :
    ∀ rule ∈ (defaultResolver T U s).rules, rule.Sound := by
  intro rule hrule
  simp only [defaultResolver, List.mem_map] at hrule
  obtain ⟨r0, hr0, rfl⟩ := hrule
  exact Rule.inject_sound (DefaultRules_sound T U r0 hr0) s

/-! ## resolveOne and Resolve -/

theorem resolveOne_loop_nil (pair : FieldPair) : resolveOne.loop pair [] = skipPlan pair := rfl

theorem resolveOne_loop_accept {pair : FieldPair} {rule : Rule} {plan : ConversionPlan}
    (rest : List Rule) (h : rule.call pair.SrcField pair.DstField = some plan) :
    resolveOne.loop pair (rule :: rest) = plan := by
  simp only [resolveOne.loop, h]

theorem resolveOne_loop_reject {pair : FieldPair} {rule : Rule}
    (rest : List Rule) (h : rule.call pair.SrcField pair.DstField = none) :
    resolveOne.loop pair (rule :: rest) = resolveOne.loop pair rest := by
  simp only [resolveOne.loop, h]

/-- The loop skips a prefix of rules that all decline. -/
theorem resolveOne_loop_skip_prefix (pair : FieldPair) (pre rest : List Rule)
    (h : ∀ rule ∈ pre, rule.call pair.SrcField pair.DstField = none) :
    resolveOne.loop pair (pre ++ rest) = resolveOne.loop pair rest := by
  induction pre with
  | nil => rfl
  | cons r pre ih =>
    rw [List.cons_append, resolveOne_loop_reject _ (h r (List.mem_cons_self _ _))]
    exact ih (fun rule hrule => h rule (List.mem_cons_of_mem _ hrule))

/-- The result of the loop is the skip plan or a plan some rule of the list
returned. -/
theorem resolveOne_loop_result (pair : FieldPair) (rules : List Rule) :
    resolveOne.loop pair rules = skipPlan pair ∨
      ∃ rule ∈ rules, rule.call pair.SrcField pair.DstField =
        some (resolveOne.loop pair rules) := by
  induction rules with
  | nil => exact Or.inl rfl
  | cons r rest ih =>
    cases h : r.call pair.SrcField pair.DstField with
    | some plan =>
      right
      exact ⟨r, List.mem_cons_self _ _, by rw [resolveOne_loop_accept rest h, h]⟩
    | none =>
      rw [resolveOne_loop_reject rest h]
      rcases ih with h1 | ⟨rule, hrule, h1⟩
      · exact Or.inl h1
      · exact Or.inr ⟨rule, List.mem_cons_of_mem _ hrule, h1⟩

/-- The accumulating loop of `Resolve` is a map. -/
theorem foldl_append_singleton {α β : Type} (f : α → β) (xs : List α) (acc : List β) :
    xs.foldl (fun plans p => plans ++ [f p]) acc = acc ++ xs.map f := by
  induction xs generalizing acc with
  | nil => simp
  | cons x xs ih => simp [ih]

/-- The resolver a `Resolve` call leaves behind. -/
theorem Resolve_state (r : resolverImpl) (pairs : List FieldPair)
    (structPairs : List StructPair) :
    (r.Resolve pairs structPairs).2 =
      { rules := r.rules.map (fun rule => rule.inject (buildNestedSet r.nestedSet structPairs)),
        nestedSet := buildNestedSet r.nestedSet structPairs } := rfl

/-- The plans of a `Resolve` call: `resolveOne` of the refreshed resolver on
each pair, in order. -/
theorem Resolve_plans (r : resolverImpl) (pairs : List FieldPair)
    (structPairs : List StructPair) :
    (r.Resolve pairs structPairs).1 =
      pairs.map (r.Resolve pairs structPairs).2.resolveOne := by
  simp only [resolverImpl.Resolve]
  rw [foldl_append_singleton]
  simp

theorem buildNestedSet_reuse (reuse : NestedSet) (structPairs : List StructPair) :
    buildNestedSet reuse structPairs = buildNestedSet none structPairs := by
  unfold buildNestedSet
  cases reuse <;> rfl

theorem Rule.inject_inject (rule : Rule) (s t : NestedSet) :
    (rule.inject s).inject t = rule.inject t := by
  unfold Rule.inject
  split_ifs <;> simp_all

/-- Resolving with a default resolver in any state is resolving with the
default rules into which the freshly built nested set was injected. -/
theorem defaultResolver_Resolve (T : GoTypes) (U : Unicode) (s : NestedSet)
    (pairs : List FieldPair) (structPairs : List StructPair) :
    ((defaultResolver T U s).Resolve pairs structPairs).2 =
      defaultResolver T U (buildNestedSet none structPairs) := by
  have hcomp : ((fun rule : Rule => rule.inject (buildNestedSet none structPairs)) ∘
      fun rule : Rule => rule.inject s) =
      fun rule : Rule => rule.inject (buildNestedSet none structPairs) := by
    funext rule
    exact Rule.inject_inject rule s _
  rw [Resolve_state]
  simp only [defaultResolver, List.map_map]
  rw [buildNestedSet_reuse, hcomp]

theorem resolveOne_planFor_or_skip {r : resolverImpl} (h : ∀ rule ∈ r.rules, rule.Sound)
    (pair : FieldPair) :
    r.resolveOne pair = skipPlan pair ∨ PlanFor pair.SrcField pair.DstField (r.resolveOne pair) := by
  rcases resolveOne_loop_result pair r.rules with h1 | ⟨rule, hrule, h1⟩
  · exact Or.inl h1
  · exact Or.inr (h rule hrule _ _ _ _ h1)

theorem resolveOne_fields {r : resolverImpl} (h : ∀ rule ∈ r.rules, rule.Sound)
    (pair : FieldPair) :
    (r.resolveOne pair).SrcField = pair.SrcField ∧
      (r.resolveOne pair).DstField = pair.DstField := by
  rcases resolveOne_planFor_or_skip h pair with h1 | h1
  · rw [h1]
    exact ⟨rfl, rfl⟩
  · exact ⟨h1.1, h1.2.1⟩

/-! ## C1: one plan per pair -/

/-- C1. `Resolve` with the default rule chain, in any state of the resolver,
returns as many plans as there are field pairs, and the plan at each index
carries the source and destination `FieldInfo` of the pair at that index. -/
theorem Resolve_one_plan_per_pair (T : GoTypes) (U : Unicode) (s : NestedSet)
    (pairs : List FieldPair) (structPairs : List StructPair) :
    ((defaultResolver T U s).Resolve pairs structPairs).1.length = pairs.length ∧
    ∀ i : Nat,
      (((defaultResolver T U s).Resolve pairs structPairs).1[i]?).map ConversionPlan.SrcField =
          (pairs[i]?).map FieldPair.SrcField ∧
      (((defaultResolver T U s).Resolve pairs structPairs).1[i]?).map ConversionPlan.DstField =
          (pairs[i]?).map FieldPair.DstField := by
  rw [Resolve_plans, defaultResolver_Resolve]
  refine ⟨by simp, fun i => ?_⟩
  have hs := defaultResolver_sound T U (buildNestedSet none structPairs)
  rw [List.getElem?_map]
  cases pairs[i]? with
  | none => simp
  | some pair =>
    simp only [Option.map_some']
    exact ⟨congrArg some (resolveOne_fields hs pair).1,
      congrArg some (resolveOne_fields hs pair).2⟩

/-! ## C2: rule priority -/

theorem resolveOne_loop_index (pair : FieldPair) :
    ∀ (rules : List Rule) (i : Nat) (rule : Rule) (plan : ConversionPlan),
      rules[i]? = some rule →
      rule.call pair.SrcField pair.DstField = some plan →
      (∀ j q, j < i → rules[j]? = some q → q.call pair.SrcField pair.DstField = none) →
      resolveOne.loop pair rules = plan := by
  intro rules
  induction rules with
  | nil => intro i rule plan h; simp at h
  | cons r rest ih =>
    intro i rule plan hi hacc hlow
    cases i with
    | zero =>
      simp only [List.getElem?_cons_zero, Option.some.injEq] at hi
      subst hi
      exact resolveOne_loop_accept rest hacc
    | succ i =>
      have hr : r.call pair.SrcField pair.DstField = none :=
        hlow 0 r (Nat.succ_pos i) (by simp)
      rw [resolveOne_loop_reject rest hr]
      apply ih i rule plan
      · simpa using hi
      · exact hacc
      · intro j q hj hq
        exact hlow (j + 1) q (Nat.succ_lt_succ hj) (by simpa using hq)

theorem resolveOne_loop_all_reject (pair : FieldPair) (rules : List Rule)
    (h : ∀ rule ∈ rules, rule.call pair.SrcField pair.DstField = none) :
    resolveOne.loop pair rules = skipPlan pair := by
  have := resolveOne_loop_skip_prefix pair rules [] h
  simpa using this

/-- Some rule accepts exactly when a lowest accepting index exists. -/
theorem exists_first_accepting (pair : FieldPair) (rules : List Rule) :
    (∀ rule ∈ rules, rule.call pair.SrcField pair.DstField = none) ∨
    ∃ (i : Nat) (rule : Rule) (plan : ConversionPlan), rules[i]? = some rule ∧
      rule.call pair.SrcField pair.DstField = some plan ∧
      ∀ (j : Nat) (q : Rule), j < i → rules[j]? = some q → q.call pair.SrcField pair.DstField = none := by
  induction rules with
  | nil => left; simp
  | cons r rest ih =>
    cases hr : r.call pair.SrcField pair.DstField with
    | some plan =>
      right
      exact ⟨0, r, plan, by simp, hr, fun j q hj _ => absurd hj (Nat.not_lt_zero j)⟩
    | none =>
      rcases ih with h | ⟨i, rule, plan, hi, hacc, hlow⟩
      · left
        intro rule hrule
        rcases List.mem_cons.mp hrule with rfl | h1
        · exact hr
        · exact h rule h1
      · right
        refine ⟨i + 1, rule, plan, by simpa using hi, hacc, ?_⟩
        intro j q hj hq
        cases j with
        | zero =>
          simp only [List.getElem?_cons_zero, Option.some.injEq] at hq
          subst hq
          exact hr
        | succ j =>
          exact hlow j q (Nat.lt_of_succ_lt_succ hj) (by simpa using hq)

/-- C2, as the code has it. For every resolver (any rule list) and every
field pair: (1) if the rule at index `i` accepts with `plan` and every rule
at a lower index declines, `resolveOne` returns `plan`; (2) if no rule
accepts, `resolveOne` returns the Skip plan of the pair; (3) one of the two
cases always applies; (4) when no rule of the list ever accepts with a plan
of strategy Skip, as is the case for the default rules, a result of strategy
Skip means that no rule accepted. -/
theorem resolveOne_first_accepting_rule (r : resolverImpl) (pair : FieldPair) :
    (∀ (i : Nat) (rule : Rule) (plan : ConversionPlan), r.rules[i]? = some rule →
      rule.call pair.SrcField pair.DstField = some plan →
      (∀ (j : Nat) (q : Rule), j < i → r.rules[j]? = some q → q.call pair.SrcField pair.DstField = none) →
      r.resolveOne pair = plan) ∧
    ((∀ rule ∈ r.rules, rule.call pair.SrcField pair.DstField = none) →
      r.resolveOne pair = skipPlan pair) ∧
    ((∀ rule ∈ r.rules, rule.call pair.SrcField pair.DstField = none) ∨
      ∃ (i : Nat) (rule : Rule) (plan : ConversionPlan), r.rules[i]? = some rule ∧
        rule.call pair.SrcField pair.DstField = some plan ∧
        ∀ (j : Nat) (q : Rule), j < i → r.rules[j]? = some q →
          q.call pair.SrcField pair.DstField = none) ∧
    ((∀ rule ∈ r.rules, ∀ plan, rule.call pair.SrcField pair.DstField = some plan →
        plan.Strategy ≠ StrategySkip) →
      (r.resolveOne pair).Strategy = StrategySkip →
      ∀ rule ∈ r.rules, rule.call pair.SrcField pair.DstField = none) ∧
    (∀ T U s, ∀ rule ∈ (defaultResolver T U s).rules, ∀ plan,
      rule.call pair.SrcField pair.DstField = some plan → plan.Strategy ≠ StrategySkip) := by
  refine ⟨resolveOne_loop_index pair r.rules, resolveOne_loop_all_reject pair r.rules,
    exists_first_accepting pair r.rules, ?_, ?_⟩
  · intro hfree hskip
    rcases exists_first_accepting pair r.rules with h | ⟨i, rule, plan, hi, hacc, hlow⟩
    · exact h
    · exfalso
      have hres : r.resolveOne pair = plan :=
        resolveOne_loop_index pair r.rules i rule plan hi hacc hlow
      rw [hres] at hskip
      exact hfree rule (List.getElem?_mem hi) plan hacc hskip
  · intro T U s rule hrule plan hplan
    exact (defaultResolver_sound T U s rule hrule _ _ _ _ hplan).2.2.1

/-- C2, witness. With the default rules, the pair `model.Status` (a named
`int` with a `String` method) to `string` is accepted by BasicCast at index
1 after SameType at index 0 declined, so `resolveOne` returns the BasicCast
plan although Stringer, at index 7, accepts the pair as well. -/
theorem resolveOne_first_accepting_rule_witness :
    (New (DefaultRules exampleTypes asciiUnicode)).resolveOne statusPair =
      newPlan statusPair.SrcField statusPair.DstField StrategyBasicCast
        "dst.Status = (string)(src.Status)" ∧
    (StringerRule.Try exampleTypes statusPair.SrcField statusPair.DstField).isSome = true :=
  ⟨(resolveOne_first_accepting_rule (New (DefaultRules exampleTypes asciiUnicode))
      statusPair).1 1 (BasicCastRule exampleTypes) _ rfl rfl
      (fun j q hj hq => by
        have hj0 : j = 0 := by omega
        subst hj0
        have hq0 : q = SameTypeRule exampleTypes := by
          have : (New (DefaultRules exampleTypes asciiUnicode)).rules[0]? =
              some (SameTypeRule exampleTypes) := rfl
          rw [this] at hq
          exact (Option.some.inj hq).symm
        subst hq0
        rfl),
    rfl⟩

/-- C2, counterexample. The rule list `[skipEverything]` accepts the pair
`model.Status` to `string`, and `resolveOne` returns a plan of strategy Skip
(the Skip plan of the pair itself): a Skip result does not imply that no
rule accepted. -/
theorem resolveOne_skip_iff_no_rule_counterexample :
    ¬ (((New [skipEverything]).resolveOne statusPair).Strategy = StrategySkip ↔
        ∀ rule ∈ (New [skipEverything]).rules,
          rule.call statusPair.SrcField statusPair.DstField = none) ∧
    (New [skipEverything]).resolveOne statusPair = skipPlan statusPair := by
  refine ⟨?_, rfl⟩
  intro h
  have h1 := h.mp rfl skipEverything (by simp [New])
  simp [Rule.call, skipEverything] at h1

/-! ## The default chain, unfolded -/

/-- The plan at index `i` of a `Resolve` call of a default resolver. -/
theorem defaultResolver_Resolve_getElem? (T : GoTypes) (U : Unicode) (s : NestedSet)
    (pairs : List FieldPair) (structPairs : List StructPair) (i : Nat) :
    ((defaultResolver T U s).Resolve pairs structPairs).1[i]? =
      (pairs[i]?).map (defaultResolver T U (buildNestedSet none structPairs)).resolveOne := by
  rw [Resolve_plans, defaultResolver_Resolve, List.getElem?_map]

/-- The ten tries of `resolveOne` with the default rules, in order. -/
theorem defaultResolver_resolveOne (T : GoTypes) (U : Unicode) (s : NestedSet)
    (pair : FieldPair) :
    (defaultResolver T U s).resolveOne pair =
      match SameTypeRule.Try T pair.SrcField pair.DstField with
      | some p => p
      | none =>
      match BasicCastRule.Try T pair.SrcField pair.DstField with
      | some p => p
      | none =>
      match PointerRule.Try T pair.SrcField pair.DstField with
      | some p => p
      | none =>
      match NullableRule.Try pair.SrcField pair.DstField with
      | some p => p
      | none =>
      match TimeStringRule.Try pair.SrcField pair.DstField with
      | some p => p
      | none =>
      match NestedStructRule.Try U s pair.SrcField pair.DstField with
      | some p => p
      | none =>
      match SliceConvertRule.Try T pair.SrcField pair.DstField with
      | some p => p
      | none =>
      match StringerRule.Try T pair.SrcField pair.DstField with
      | some p => p
      | none =>
      match AssignableRule.Try T pair.SrcField pair.DstField with
      | some p => p
      | none =>
      match ConvertibleRule.Try T pair.SrcField pair.DstField with
      | some p => p
      | none => skipPlan pair := rfl

/-! ## C3: BasicCast -/

theorem SameTypeRule_Try_none {T : GoTypes} {src dst : FieldInfo}
    (h : isIdenticalType T (some src.Type_) (some dst.Type_) = false) :
    SameTypeRule.Try T src dst = none := by
  simp [SameTypeRule.Try, h]

/-- C3. For every field pair of a `Resolve` call with the default rules
whose descriptors are both basic, whose types are not identical (in the sense
of `isIdenticalType`) and whose source type is convertible to the destination
type, the plan at the pair's index has strategy BasicCast and the expression
`dst.<dstAccessPath> = (<dstTypeStr>)(src.<srcAccessPath>)`. -/
theorem Resolve_basic_cast (T : GoTypes) (U : Unicode) (s : NestedSet)
    (pairs : List FieldPair) (structPairs : List StructPair) (i : Nat) (pair : FieldPair)
    (hi : pairs[i]? = some pair)
    (hsrc : pair.SrcField.TypeInfo.IsBasic = true)
    (hdst : pair.DstField.TypeInfo.IsBasic = true)
    (hid : isIdenticalType T (some pair.SrcField.Type_) (some pair.DstField.Type_) = false)
    (hconv : T.ConvertibleTo pair.SrcField.Type_ pair.DstField.Type_ = true) :
    ((defaultResolver T U s).Resolve pairs structPairs).1[i]? =
      some { SrcField := pair.SrcField, DstField := pair.DstField,
             Strategy := StrategyBasicCast,
             Expression := "dst." ++ pair.DstField.AccessPath ++ " = (" ++
               pair.DstField.TypeStr ++ ")(src." ++ pair.SrcField.AccessPath ++ ")" } := by
  rw [defaultResolver_Resolve_getElem?, hi, Option.map_some', defaultResolver_resolveOne,
    SameTypeRule_Try_none hid]
  have h2 : BasicCastRule.Try T pair.SrcField pair.DstField =
      some (newPlan pair.SrcField pair.DstField StrategyBasicCast
        (castAssign (dstSelector pair.DstField) pair.DstField.TypeStr
          (srcSelector pair.SrcField))) := by
    simp [BasicCastRule.Try, hsrc, hdst, hid, hconv]
  rw [h2]
  simp only [newPlan, castAssign, dstSelector, srcSelector, String.append_assoc]
  rfl

/-- C3, witness: field `ID` of type `int` converted to `int64` gets
`dst.ID = (int64)(src.ID)`. -/
theorem Resolve_basic_cast_witness :
    ((defaultResolver exampleTypes asciiUnicode none).Resolve [idPair] []).1[0]? =
      some { SrcField := idPair.SrcField, DstField := idPair.DstField,
             Strategy := StrategyBasicCast, Expression := "dst.ID = (int64)(src.ID)" } :=
  Resolve_basic_cast exampleTypes asciiUnicode none [idPair] [] 0 idPair rfl rfl rfl rfl rfl

/-! ## C4: SameType -/

/-- Types that are identical after unwrapping aliases are identical for
`isIdenticalType`. -/
theorem isIdenticalType_of_Unalias (T : GoTypes) (s d : GoType)
    (h : T.Identical (Unalias s) (Unalias d) = true) :
    isIdenticalType T (some s) (some d) = true := by
  simp [isIdenticalType, h]

/-- C4. For every field pair of a `Resolve` call with the default rules
whose types are identical in the sense of `isIdenticalType` (identical, or
identical after unwrapping aliases, or printed alike), the plan at the
pair's index has strategy DirectAssign and the expression
`dst.<dstAccessPath> = src.<srcAccessPath>`, for every list of struct pairs
and every earlier state of the nested set. -/
theorem Resolve_same_type (T : GoTypes) (U : Unicode) (s : NestedSet)
    (pairs : List FieldPair) (structPairs : List StructPair) (i : Nat) (pair : FieldPair)
    (hi : pairs[i]? = some pair)
    (hid : isIdenticalType T (some pair.SrcField.Type_) (some pair.DstField.Type_) = true) :
    ((defaultResolver T U s).Resolve pairs structPairs).1[i]? =
      some { SrcField := pair.SrcField, DstField := pair.DstField,
             Strategy := StrategyDirectAssign,
             Expression := "dst." ++ pair.DstField.AccessPath ++ " = src." ++
               pair.SrcField.AccessPath } := by
  rw [defaultResolver_Resolve_getElem?, hi, Option.map_some', defaultResolver_resolveOne]
  have h1 : SameTypeRule.Try T pair.SrcField pair.DstField =
      some (newPlan pair.SrcField pair.DstField StrategyDirectAssign
        (assign (dstSelector pair.DstField) (srcSelector pair.SrcField))) := by
    simp [SameTypeRule.Try, hid]
  rw [h1]
  simp only [newPlan, assign, dstSelector, srcSelector, String.append_assoc]
  rfl

/-- C4, witness: a field of type `model.Address` and a field declared
through the alias `Location = model.Address` are assigned directly, also
when the nested set contains the pair (`model.Address`, `dto.AddressDTO`). -/
theorem Resolve_same_type_witness :
    ((defaultResolver exampleTypes asciiUnicode none).Resolve [aliasPair]
        [addressStructPair]).1[0]? =
      some { SrcField := aliasPair.SrcField, DstField := aliasPair.DstField,
             Strategy := StrategyDirectAssign, Expression := "dst.Home = src.Home" } :=
  Resolve_same_type exampleTypes asciiUnicode none [aliasPair] [addressStructPair] 0 aliasPair
    rfl (isIdenticalType_of_Unalias exampleTypes _ _ rfl)

/-! ## Descriptors that are the analysis of a type -/

/-- What the descriptor computed by `analyzeType` says about the type: it is
marked basic exactly when its kind is Basic, and its kind is Pointer (Slice)
exactly when `pointerElem` (`sliceElem`) succeeds on the type. -/
theorem analyzeType_shape (T : GoTypes) (U : Unicode) :
    ∀ (fuel : Nat) (t : GoType) (d : TypeDetail), analyzeType T U fuel t = some d →
      (d.IsBasic = true ↔ d.Kind = TypeKindBasic) ∧
      ((pointerElem T t).isSome = true ↔ d.Kind = TypeKindPointer) ∧
      ((sliceElem T t).isSome = true ↔ d.Kind = TypeKindSlice) := by
  intro fuel
  induction fuel with
  | zero => intro t d h; simp [analyzeType] at h
  | succ n ih =>
    intro t d h
    cases t with
    | Alias obj rhs =>
      simp only [analyzeType] at h
      simpa [pointerElem, sliceElem] using ih rhs d h
    | Named obj =>
      simp only [analyzeType] at h
      split at h <;> rename_i hu
      · simp only [Option.some.injEq] at h
        subst h
        simp [pointerElem, sliceElem, hu, TypeDetail.IsBasic, TypeDetail.Kind]
      · simp only [Option.some.injEq] at h
        subst h
        simp [pointerElem, sliceElem, hu, TypeDetail.IsBasic, TypeDetail.Kind]
      · split at h
        · simp only [Option.some.injEq] at h
          subst h
          simp [pointerElem, sliceElem, hu, TypeDetail.IsBasic, TypeDetail.Kind]
        · simp at h
      · split at h
        · simp only [Option.some.injEq] at h
          subst h
          simp [pointerElem, sliceElem, hu, TypeDetail.IsBasic, TypeDetail.Kind]
        · simp at h
      · split at h
        · split at h
          · simp only [Option.some.injEq] at h
            subst h
            simp [pointerElem, sliceElem, hu, TypeDetail.IsBasic, TypeDetail.Kind]
          · simp at h
        · simp at h
      · simp only [Option.some.injEq] at h
        subst h
        simp [pointerElem, sliceElem, hu, TypeDetail.IsBasic, TypeDetail.Kind]
      · simp only [Option.some.injEq] at h
        subst h
        rename_i h1 h2 h3 h4 h5 h6
        simp only [TypeDetail.IsBasic, TypeDetail.Kind, pointerElem, sliceElem]
        refine ⟨by simp, ?_, ?_⟩
        · cases hu2 : T.Underlying obj <;> simp_all
        · cases hu2 : T.Underlying obj <;> simp_all
    | Basic name =>
      simp only [analyzeType, Option.some.injEq] at h
      subst h
      simp [pointerElem, sliceElem, TypeDetail.IsBasic, TypeDetail.Kind]
    | Pointer e =>
      simp only [analyzeType] at h
      split at h
      · simp only [Option.some.injEq] at h
        subst h
        simp [pointerElem, sliceElem, TypeDetail.IsBasic, TypeDetail.Kind]
      · simp at h
    | Slice e =>
      simp only [analyzeType] at h
      split at h
      · simp only [Option.some.injEq] at h
        subst h
        simp [pointerElem, sliceElem, TypeDetail.IsBasic, TypeDetail.Kind]
      · simp at h
    | Map k e =>
      simp only [analyzeType] at h
      split at h
      · split at h
        · simp only [Option.some.injEq] at h
          subst h
          simp [pointerElem, sliceElem, TypeDetail.IsBasic, TypeDetail.Kind]
        · simp at h
      · simp at h
    | Interface id =>
      simp only [analyzeType, Option.some.injEq] at h
      subst h
      simp [pointerElem, sliceElem, TypeDetail.IsBasic, TypeDetail.Kind]
    | Struct id =>
      simp only [analyzeType, Option.some.injEq] at h
      subst h
      simp [pointerElem, sliceElem, TypeDetail.IsBasic, TypeDetail.Kind]
    | Other repr =>
      simp only [analyzeType, Option.some.injEq] at h
      subst h
      simp [pointerElem, sliceElem, TypeDetail.IsBasic, TypeDetail.Kind]

theorem FieldInfo.analyzed_shape {T : GoTypes} {U : Unicode} {f : FieldInfo}
    (h : f.analyzed T U) :
    (f.TypeInfo.IsBasic = true ↔ f.TypeInfo.Kind = TypeKindBasic) ∧
    ((pointerElem T f.Type_).isSome = true ↔ f.TypeInfo.Kind = TypeKindPointer) ∧
    ((sliceElem T f.Type_).isSome = true ↔ f.TypeInfo.Kind = TypeKindSlice) := by
  obtain ⟨fuel, hf⟩ := h
  exact analyzeType_shape T U fuel _ _ hf

theorem FieldInfo.analyzed_not_basic {T : GoTypes} {U : Unicode} {f : FieldInfo}
    (h : f.analyzed T U) (hk : f.TypeInfo.Kind ≠ TypeKindBasic) :
    f.TypeInfo.IsBasic = false := by
  have h1 := (FieldInfo.analyzed_shape h).1
  cases hb : f.TypeInfo.IsBasic with
  | false => rfl
  | true => exact absurd (h1.mp hb) hk

theorem FieldInfo.analyzed_not_pointer {T : GoTypes} {U : Unicode} {f : FieldInfo}
    (h : f.analyzed T U) (hk : f.TypeInfo.Kind ≠ TypeKindPointer) :
    pointerElem T f.Type_ = none := by
  have h1 := (FieldInfo.analyzed_shape h).2.1
  cases hp : pointerElem T f.Type_ with
  | none => rfl
  | some e => exact absurd (h1.mp (by simp [hp])) hk

theorem FieldInfo.analyzed_not_slice {T : GoTypes} {U : Unicode} {f : FieldInfo}
    (h : f.analyzed T U) (hk : f.TypeInfo.Kind ≠ TypeKindSlice) :
    sliceElem T f.Type_ = none := by
  have h1 := (FieldInfo.analyzed_shape h).2.2
  cases hp : sliceElem T f.Type_ with
  | none => rfl
  | some e => exact absurd (h1.mp (by simp [hp])) hk

/-! ## The nested set built by `buildNestedSet` -/

theorem foldl_insertKey_mem (k : NestedPairKey) (structPairs : List StructPair) :
    ∀ acc : List NestedPairKey,
      k ∈ structPairs.foldl (fun m pair => NestedSet.insertKey m (structPairKey pair)) acc ↔
        k ∈ acc ∨ ∃ sp ∈ structPairs, structPairKey sp = k := by
  induction structPairs with
  | nil => intro acc; simp
  | cons sp rest ih =>
    intro acc
    rw [List.foldl_cons, ih]
    unfold NestedSet.insertKey
    split_ifs with hmem
    · constructor
      · rintro (h | ⟨q, hq, rfl⟩)
        · exact Or.inl h
        · exact Or.inr ⟨q, List.mem_cons_of_mem _ hq, rfl⟩
      · rintro (h | ⟨q, hq, rfl⟩)
        · exact Or.inl h
        · rcases List.mem_cons.mp hq with rfl | hq1
          · exact Or.inl hmem
          · exact Or.inr ⟨q, hq1, rfl⟩
    · constructor
      · rintro (h | ⟨q, hq, rfl⟩)
        · rcases List.mem_append.mp h with h1 | h1
          · exact Or.inl h1
          · exact Or.inr ⟨sp, List.mem_cons_self _ _, (List.mem_singleton.mp h1).symm⟩
        · exact Or.inr ⟨q, List.mem_cons_of_mem _ hq, rfl⟩
      · rintro (h | ⟨q, hq, rfl⟩)
        · exact Or.inl (List.mem_append_left _ h)
        · rcases List.mem_cons.mp hq with rfl | hq1
          · exact Or.inl (List.mem_append_right _ (List.mem_singleton.mpr rfl))
          · exact Or.inr ⟨q, hq1, rfl⟩

theorem foldl_insertKey_nodup (structPairs : List StructPair) :
    ∀ acc : List NestedPairKey, acc.Nodup →
      (structPairs.foldl (fun m pair => NestedSet.insertKey m (structPairKey pair)) acc).Nodup := by
  induction structPairs with
  | nil => intro acc h; simpa using h
  | cons sp rest ih =>
    intro acc h
    rw [List.foldl_cons]
    apply ih
    unfold NestedSet.insertKey
    split_ifs with hmem
    · exact h
    · exact List.Nodup.append h (List.nodup_singleton _) (by simpa using hmem)

/-- The set `buildNestedSet` returns holds exactly the keys of the struct
pairs, whatever map it was given to reuse. -/
theorem buildNestedSet_has (reuse : NestedSet) (structPairs : List StructPair)
    (k : NestedPairKey) :
    (buildNestedSet reuse structPairs).has k = true ↔
      ∃ sp ∈ structPairs, structPairKey sp = k := by
  rw [buildNestedSet_reuse]
  simp only [buildNestedSet, NestedSet.has, decide_eq_true_eq]
  rw [foldl_insertKey_mem]
  simp

theorem NestedSet.len_ne_zero_of_has {s : NestedSet} {k : NestedPairKey}
    (h : s.has k = true) : s.len ≠ 0 := by
  cases s with
  | none => simp [NestedSet.has] at h
  | some ks =>
    simp only [NestedSet.has, decide_eq_true_eq] at h
    simp only [NestedSet.len]
    intro h0
    rw [List.length_eq_zero] at h0
    rw [h0] at h
    simp at h

/-! ## C5: nested struct -/

theorem structRefFromDetail_of_named {d : TypeDetail} (hk : d.Kind = TypeKindStruct)
    (hp : d.PkgPath ≠ "") (hn : d.StructName ≠ "") :
    structRefFromDetail d = some { pkgPath := d.PkgPath, name := d.StructName } := by
  simp [structRefFromDetail, hk, hp, hn]

theorem structRefFromDetail_of_kind {d : TypeDetail} (hk : d.Kind ≠ TypeKindStruct) :
    structRefFromDetail d = none := by
  simp [structRefFromDetail, hk]

theorem nullableTypeMeta_of_kind {d : TypeDetail} (hk : d.Kind ≠ TypeKindStruct) :
    nullableTypeMeta d = none := by
  simp [nullableTypeMeta, hk]

theorem ptrStructRef_of_kind {d : TypeDetail} (hk : d.Kind ≠ TypeKindPointer) :
    ptrStructRef d = none := by
  simp [ptrStructRef, hk]

theorem sliceStructRef_of_kind {d : TypeDetail} (hk : d.Kind ≠ TypeKindSlice) :
    sliceStructRef d = none := by
  simp [sliceStructRef, hk]

theorem NullableRule_Try_none {src dst : FieldInfo}
    (hs : nullableTypeMeta src.TypeInfo = none) (hd : nullableTypeMeta dst.TypeInfo = none) :
    NullableRule.Try src dst = none := by
  simp [NullableRule.Try, hs, hd]

theorem TimeStringRule_Try_none {src dst : FieldInfo}
    (hs : src.TypeInfo.IsBasic = false)
    (hd : dst.TypeInfo.IsBasic = false ∨ src.TypeInfo.Kind ≠ TypeKindStruct) :
    TimeStringRule.Try src dst = none := by
  rcases hd with hd | hd
  · simp [TimeStringRule.Try, isStringType, hs, hd]
  · simp [TimeStringRule.Try, isStringType, isTimeType, hs, hd]

theorem PointerRule_Try_none {T : GoTypes} {src dst : FieldInfo}
    (hs : pointerElem T src.Type_ = none) (hd : pointerElem T dst.Type_ = none) :
    PointerRule.Try T src dst = none := by
  simp [PointerRule.Try, hs, hd]

theorem BasicCastRule_Try_none {T : GoTypes} {src dst : FieldInfo}
    (h : src.TypeInfo.IsBasic = false ∨ dst.TypeInfo.IsBasic = false) :
    BasicCastRule.Try T src dst = none := by
  rcases h with h | h <;> simp [BasicCastRule.Try, h]

/-- C5. For every field pair of a `Resolve` call with the default rules
whose descriptors (the analysis of the field types) are both of kind Struct
with non-empty namespace and name, whose types are not identical, neither
side being a known nullable box, and whose key (source namespace, source
name, destination namespace, destination name) is the key of one of the
struct pairs passed to `Resolve`: the plan has strategy NestedStruct and its
expression calls `DefaultConverterName` of the key on the address of the
source field and assigns the dereferenced result when it is not nil. -/
theorem Resolve_nested_struct (T : GoTypes) (U : Unicode) (s : NestedSet)
    (pairs : List FieldPair) (structPairs : List StructPair) (i : Nat) (pair : FieldPair)
    (hi : pairs[i]? = some pair)
    (hsrcA : pair.SrcField.analyzed T U) (hdstA : pair.DstField.analyzed T U)
    (hsrcK : pair.SrcField.TypeInfo.Kind = TypeKindStruct)
    (hsrcP : pair.SrcField.TypeInfo.PkgPath ≠ "")
    (hsrcN : pair.SrcField.TypeInfo.StructName ≠ "")
    (hdstK : pair.DstField.TypeInfo.Kind = TypeKindStruct)
    (hdstP : pair.DstField.TypeInfo.PkgPath ≠ "")
    (hdstN : pair.DstField.TypeInfo.StructName ≠ "")
    (hid : isIdenticalType T (some pair.SrcField.Type_) (some pair.DstField.Type_) = false)
    (hsrcNull : nullableTypeMeta pair.SrcField.TypeInfo = none)
    (hdstNull : nullableTypeMeta pair.DstField.TypeInfo = none)
    (hkey : ∃ sp ∈ structPairs, structPairKey sp =
      { SrcPkgPath := pair.SrcField.TypeInfo.PkgPath,
        SrcName := pair.SrcField.TypeInfo.StructName,
        DstPkgPath := pair.DstField.TypeInfo.PkgPath,
        DstName := pair.DstField.TypeInfo.StructName }) :
    ((defaultResolver T U s).Resolve pairs structPairs).1[i]? =
      some { SrcField := pair.SrcField, DstField := pair.DstField,
             Strategy := StrategyNestedStruct,
             Expression := "if v := " ++
               DefaultConverterName U pair.SrcField.TypeInfo.PkgPath
                 pair.SrcField.TypeInfo.StructName pair.DstField.TypeInfo.PkgPath
                 pair.DstField.TypeInfo.StructName ++
               "(&src." ++ pair.SrcField.AccessPath ++ "); v != nil \x7b\ndst." ++
               pair.DstField.AccessPath ++ " = *v\n\x7d" } := by
  have hsrcB : pair.SrcField.TypeInfo.IsBasic = false :=
    FieldInfo.analyzed_not_basic hsrcA (by rw [hsrcK]; decide)
  have hdstB : pair.DstField.TypeInfo.IsBasic = false :=
    FieldInfo.analyzed_not_basic hdstA (by rw [hdstK]; decide)
  have hsrcPtr : pointerElem T pair.SrcField.Type_ = none :=
    FieldInfo.analyzed_not_pointer hsrcA (by rw [hsrcK]; decide)
  have hdstPtr : pointerElem T pair.DstField.Type_ = none :=
    FieldInfo.analyzed_not_pointer hdstA (by rw [hdstK]; decide)
  have hhas := (buildNestedSet_has none structPairs _).mpr hkey
  have hlen := NestedSet.len_ne_zero_of_has hhas
  rw [defaultResolver_Resolve_getElem?, hi, Option.map_some', defaultResolver_resolveOne,
    SameTypeRule_Try_none hid, BasicCastRule_Try_none (Or.inl hsrcB),
    PointerRule_Try_none hsrcPtr hdstPtr, NullableRule_Try_none hsrcNull hdstNull,
    TimeStringRule_Try_none hsrcB (Or.inl hdstB)]
  have h6 : NestedStructRule.Try U (buildNestedSet none structPairs) pair.SrcField
      pair.DstField =
      some (newPlan pair.SrcField pair.DstField StrategyNestedStruct
        ("if v := " ++ DefaultConverterName U pair.SrcField.TypeInfo.PkgPath
            pair.SrcField.TypeInfo.StructName pair.DstField.TypeInfo.PkgPath
            pair.DstField.TypeInfo.StructName ++
          "(&" ++ srcSelector pair.SrcField ++ "); v != nil \x7b\n" ++
          dstSelector pair.DstField ++ " = *v\n\x7d")) := by
    unfold NestedStructRule.Try
    rw [if_neg hlen, structRefFromDetail_of_named hsrcK hsrcP hsrcN,
      structRefFromDetail_of_named hdstK hdstP hdstN]
    simp only [pairKey, hhas, converterOf]
    rfl
  rw [h6]
  simp only [newPlan, dstSelector, srcSelector, String.append_assoc]
  rfl

/-- C5, witness: for `model.Address` to `dto.AddressDTO`, with that struct
pair passed to `Resolve`, the expression calls `ConvertAddressToAddressDTO`. -/
theorem Resolve_nested_struct_witness :
    ((defaultResolver exampleTypes asciiUnicode none).Resolve [addressPair]
        [addressStructPair]).1[0]? =
      some { SrcField := addressPair.SrcField, DstField := addressPair.DstField,
             Strategy := StrategyNestedStruct,
             Expression :=
               "if v := ConvertAddressToAddressDTO(&src.Address); v != nil \x7b\ndst.Address = *v\n\x7d" } :=
  Resolve_nested_struct exampleTypes asciiUnicode none [addressPair] [addressStructPair] 0
    addressPair rfl ⟨10, rfl⟩ ⟨10, rfl⟩ rfl (by decide) (by decide) rfl (by decide) (by decide)
    rfl rfl rfl ⟨addressStructPair, List.mem_singleton.mpr rfl, rfl⟩

/-! ## C6: pointers to distinct structs -/

theorem NestedStructRule.Try_none_of_pointers {U : Unicode} {s : NestedSet}
    {src dst : FieldInfo}
    (hsrcK : src.TypeInfo.Kind = TypeKindPointer) (hdstK : dst.TypeInfo.Kind = TypeKindPointer)
    (hkey : ∀ srcRef dstRef, ptrStructRef src.TypeInfo = some srcRef →
      ptrStructRef dst.TypeInfo = some dstRef → s.has (pairKey srcRef dstRef) = false) :
    NestedStructRule.Try U s src dst = none := by
  have h1 : structRefFromDetail src.TypeInfo = none :=
    structRefFromDetail_of_kind (by rw [hsrcK]; decide)
  have h2 : structRefFromDetail dst.TypeInfo = none :=
    structRefFromDetail_of_kind (by rw [hdstK]; decide)
  have h3 : sliceStructRef src.TypeInfo = none :=
    sliceStructRef_of_kind (by rw [hsrcK]; decide)
  unfold NestedStructRule.Try
  split_ifs
  · rfl
  · rw [h1]
    simp only
    unfold NestedStructRule.tryPtrPtr
    cases hs : ptrStructRef src.TypeInfo with
    | none =>
      simp only
      unfold NestedStructRule.tryPtrStruct
      rw [hs]
      simp only
      unfold NestedStructRule.tryStructPtr
      rw [h1]
      simp only
      unfold NestedStructRule.trySlice
      rw [h3]
    | some srcRef =>
      cases hd : ptrStructRef dst.TypeInfo with
      | none =>
        simp only
        unfold NestedStructRule.tryPtrStruct
        rw [hs, h2]
        simp only
        unfold NestedStructRule.tryStructPtr
        rw [h1]
        simp only
        unfold NestedStructRule.trySlice
        rw [h3]
      | some dstRef =>
        simp [hkey srcRef dstRef hs hd]

theorem pointerElem_Unalias (T : GoTypes) :
    ∀ t : GoType, pointerElem T t = pointerElem T (Unalias t) := by
  intro t
  induction t with
  | Alias obj rhs ih => simp only [pointerElem, Unalias]; exact ih
  | _ => simp only [Unalias]

theorem sliceElem_Unalias (T : GoTypes) :
    ∀ t : GoType, sliceElem T t = sliceElem T (Unalias t) := by
  intro t
  induction t with
  | Alias obj rhs ih => simp only [sliceElem, Unalias]; exact ih
  | _ => simp only [Unalias]

theorem Unalias_not_alias : ∀ (t : GoType) (obj : TypeName) (rhs : GoType),
    Unalias t ≠ .Alias obj rhs := by
  intro t
  induction t with
  | Alias obj1 rhs1 ih => intro obj rhs; simp only [Unalias]; exact ih obj rhs
  | _ => intro obj rhs; simp [Unalias]

/-- A pointer type is not a slice type. -/
theorem sliceElem_none_of_pointer {T : GoTypes} {t : GoType}
    (h : (pointerElem T t).isSome = true) : sliceElem T t = none := by
  rw [pointerElem_Unalias] at h
  rw [sliceElem_Unalias]
  cases hu : Unalias t with
  | Alias obj rhs => exact absurd hu (Unalias_not_alias t obj rhs)
  | Named obj =>
    rw [hu] at h
    simp only [pointerElem] at h
    simp only [sliceElem]
    cases hund : T.Underlying obj <;> simp_all
  | Pointer e => simp [sliceElem]
  | Slice e => rw [hu] at h; simp [pointerElem] at h
  | _ => simp [sliceElem]

/-- A map type is neither a pointer type nor a slice type. -/
theorem IsMapType_not_pointer_slice {T : GoTypes} {t : GoType} (h : IsMapType T t) :
    pointerElem T t = none ∧ sliceElem T t = none := by
  rw [pointerElem_Unalias, sliceElem_Unalias]
  rcases h with ⟨k, e, hu⟩ | ⟨obj, k, e, hu, hund⟩
  · rw [hu]
    simp [pointerElem, sliceElem]
  · rw [hu]
    simp [pointerElem, sliceElem, hund]

/-- A descriptor that is neither basic nor of kind Struct matches no
canonical value type. -/
theorem typeMatchesCanonical_false {d : TypeDetail} (hk : d.Kind ≠ TypeKindStruct)
    (hb : d.IsBasic = false) (canonical : String) : typeMatchesCanonical d canonical = false := by
  unfold typeMatchesCanonical
  split_ifs <;> simp [hk, hb]

/-- C6. For every field pair of a `Resolve` call with the default rules in
which both descriptors are of kind Pointer and both types are pointer types,
the destination descriptor not being marked basic, whose types are neither
identical nor assignable, and for which the pair of pointed-to structs is
not the key of any struct pair passed to `Resolve`: the plan is the Skip
plan of the pair, whether or not the source type is convertible to the
destination type. Nothing is assumed of how the descriptors were built. -/
theorem Resolve_pointer_structs_skip (T : GoTypes) (U : Unicode) (s : NestedSet)
    (pairs : List FieldPair) (structPairs : List StructPair) (i : Nat) (pair : FieldPair)
    (hi : pairs[i]? = some pair)
    (hsrcK : pair.SrcField.TypeInfo.Kind = TypeKindPointer)
    (hdstK : pair.DstField.TypeInfo.Kind = TypeKindPointer)
    (hsrcPtr : (pointerElem T pair.SrcField.Type_).isSome = true)
    (hdstPtr : (pointerElem T pair.DstField.Type_).isSome = true)
    (hdstB : pair.DstField.TypeInfo.IsBasic = false)
    (hid : isIdenticalType T (some pair.SrcField.Type_) (some pair.DstField.Type_) = false)
    (hassign : T.AssignableTo pair.SrcField.Type_ pair.DstField.Type_ = false)
    (hkey : ∀ srcRef dstRef, ptrStructRef pair.SrcField.TypeInfo = some srcRef →
      ptrStructRef pair.DstField.TypeInfo = some dstRef →
      ¬ ∃ sp ∈ structPairs, structPairKey sp = pairKey srcRef dstRef) :
    ((defaultResolver T U s).Resolve pairs structPairs).1[i]? =
      some { SrcField := pair.SrcField, DstField := pair.DstField,
             Strategy := StrategySkip, Expression := "" } := by
  have hsrcSl : sliceElem T pair.SrcField.Type_ = none := sliceElem_none_of_pointer hsrcPtr
  have h3 : PointerRule.Try T pair.SrcField pair.DstField = none := by
    unfold PointerRule.Try
    cases h1 : pointerElem T pair.SrcField.Type_ with
    | none => simp [h1] at hsrcPtr
    | some a =>
      cases h2 : pointerElem T pair.DstField.Type_ with
      | none => simp [h2] at hdstPtr
      | some b => rfl
  have h5 : TimeStringRule.Try pair.SrcField pair.DstField = none := by
    simp [TimeStringRule.Try, isTimeType, hsrcK, hdstK]
  have h6 : NestedStructRule.Try U (buildNestedSet none structPairs) pair.SrcField
      pair.DstField = none := by
    apply NestedStructRule.Try_none_of_pointers hsrcK hdstK
    intro srcRef dstRef h1 h2
    have := hkey srcRef dstRef h1 h2
    rw [← buildNestedSet_has none] at this
    simpa using this
  have h7 : SliceConvertRule.Try T pair.SrcField pair.DstField = none := by
    simp [SliceConvertRule.Try, hsrcSl]
  have h8 : StringerRule.Try T pair.SrcField pair.DstField = none := by
    simp [StringerRule.Try, isStringType, hdstB]
  have h9 : AssignableRule.Try T pair.SrcField pair.DstField = none := by
    simp [AssignableRule.Try, hassign]
  have h10 : ConvertibleRule.Try T pair.SrcField pair.DstField = none := by
    simp [ConvertibleRule.Try, hsrcK, isConvertibleFallbackKind]
  rw [defaultResolver_Resolve_getElem?, hi, Option.map_some', defaultResolver_resolveOne,
    SameTypeRule_Try_none hid, BasicCastRule_Try_none (Or.inr hdstB), h3,
    NullableRule_Try_none (nullableTypeMeta_of_kind (by rw [hsrcK]; decide))
      (nullableTypeMeta_of_kind (by rw [hdstK]; decide)),
    h5, h6, h7, h8, h9, h10]
  rfl

/-- C6, witness: the pair of `TestResolver_DoesNotUseConvertibleForPointerStructs`
as the test builds it, `*src.Events` to `*dst.Events`, two pointers to
distinct named structs with identical underlying types, with no struct pair:
the source type is convertible to the destination type and the plan is
Skip. -/
theorem Resolve_pointer_structs_skip_witness :
    exampleTypes.ConvertibleTo eventsPair.SrcField.Type_ eventsPair.DstField.Type_ = true ∧
    ((defaultResolver exampleTypes asciiUnicode none).Resolve [eventsPair] []).1[0]? =
      some { SrcField := eventsPair.SrcField, DstField := eventsPair.DstField,
             Strategy := StrategySkip, Expression := "" } :=
  ⟨rfl, Resolve_pointer_structs_skip exampleTypes asciiUnicode none [eventsPair] [] 0
    eventsPair rfl rfl rfl rfl rfl rfl rfl rfl (fun _ _ _ _ h => by simp at h)⟩

/-! ## C7: an unsupported pair becomes Skip -/

/-- C7. For every field pair of a `Resolve` call with the default rules
whose source descriptor is of kind Map and not marked basic, whose source
type is a map type and whose destination type is the basic type `string`,
with types neither identical nor assignable and a source type without a
`String` method: each of the ten default rules declines the pair, and the
plan at the pair's index is the Skip plan of the pair. Nothing is assumed of
how the descriptors were built. -/
theorem Resolve_map_to_string_skip (T : GoTypes) (U : Unicode) (s : NestedSet)
    (pairs : List FieldPair) (structPairs : List StructPair) (i : Nat) (pair : FieldPair)
    (hi : pairs[i]? = some pair)
    (hsrcK : pair.SrcField.TypeInfo.Kind = TypeKindMap)
    (hsrcB : pair.SrcField.TypeInfo.IsBasic = false)
    (hsrcT : IsMapType T pair.SrcField.Type_)
    (hdstT : pair.DstField.Type_ = .Basic "string")
    (hid : isIdenticalType T (some pair.SrcField.Type_) (some pair.DstField.Type_) = false)
    (hassign : T.AssignableTo pair.SrcField.Type_ pair.DstField.Type_ = false)
    (hstr : hasStringMethod T (some pair.SrcField.Type_) = false) :
    (∀ rule ∈ (defaultResolver T U (buildNestedSet none structPairs)).rules,
      rule.call pair.SrcField pair.DstField = none) ∧
    ((defaultResolver T U s).Resolve pairs structPairs).1[i]? =
      some { SrcField := pair.SrcField, DstField := pair.DstField,
             Strategy := StrategySkip, Expression := "" } := by
  obtain ⟨hsrcPtr, hsrcSl⟩ := IsMapType_not_pointer_slice hsrcT
  have hdstPtr : pointerElem T pair.DstField.Type_ = none := by
    rw [hdstT]
    rfl
  have h1 := SameTypeRule_Try_none hid
  have h2 : BasicCastRule.Try T pair.SrcField pair.DstField = none :=
    BasicCastRule_Try_none (Or.inl hsrcB)
  have h3 := PointerRule_Try_none hsrcPtr hdstPtr
  have hm : ∀ c, typeMatchesCanonical pair.SrcField.TypeInfo c = false :=
    typeMatchesCanonical_false (by rw [hsrcK]; decide) hsrcB
  have h4 : NullableRule.Try pair.SrcField pair.DstField = none := by
    unfold NullableRule.Try
    rw [nullableTypeMeta_of_kind (by rw [hsrcK]; decide)]
    cases hd : nullableTypeMeta pair.DstField.TypeInfo with
    | none => rfl
    | some m => simp [Option.filter, hm]
  have h5 : TimeStringRule.Try pair.SrcField pair.DstField = none := by
    simp [TimeStringRule.Try, isTimeType, isStringType, hsrcK, hsrcB]
  have hr1 : structRefFromDetail pair.SrcField.TypeInfo = none :=
    structRefFromDetail_of_kind (by rw [hsrcK]; decide)
  have hr2 : ptrStructRef pair.SrcField.TypeInfo = none :=
    ptrStructRef_of_kind (by rw [hsrcK]; decide)
  have hr3 : sliceStructRef pair.SrcField.TypeInfo = none :=
    sliceStructRef_of_kind (by rw [hsrcK]; decide)
  have h6 : ∀ ns, NestedStructRule.Try U ns pair.SrcField pair.DstField = none := by
    intro ns
    simp [NestedStructRule.Try, NestedStructRule.tryPtrPtr, NestedStructRule.tryPtrStruct,
      NestedStructRule.tryStructPtr, NestedStructRule.trySlice, hr1, hr2, hr3]
  have h7 : SliceConvertRule.Try T pair.SrcField pair.DstField = none := by
    simp [SliceConvertRule.Try, hsrcSl]
  have h8 : StringerRule.Try T pair.SrcField pair.DstField = none := by
    simp [StringerRule.Try, hstr]
  have h9 : AssignableRule.Try T pair.SrcField pair.DstField = none := by
    simp [AssignableRule.Try, hassign]
  have h10 : ConvertibleRule.Try T pair.SrcField pair.DstField = none := by
    simp [ConvertibleRule.Try, hsrcK, isConvertibleFallbackKind]
  constructor
  · intro rule hrule
    simp only [defaultResolver, DefaultRules, List.map_cons, List.map_nil, List.mem_cons,
      List.mem_singleton, List.not_mem_nil, or_false] at hrule
    rcases hrule with rfl | rfl | rfl | rfl | rfl | rfl | rfl | rfl | rfl | rfl
    · exact h1
    · exact h2
    · exact h3
    · exact h4
    · exact h5
    · exact h6 _
    · exact h7
    · exact h8
    · exact h9
    · exact h10
  · rw [defaultResolver_Resolve_getElem?, hi, Option.map_some', defaultResolver_resolveOne,
      h1, h2, h3, h4, h5, h6, h7, h8, h9, h10]
    rfl

/-- C7, witness: the pair of `TestResolver_UnsupportedBecomesSkip` as the
test builds it, `map[string]int` to `string`, the source descriptor being
`TypeDetail{Kind: TypeKindMap}`. -/
theorem Resolve_map_to_string_skip_witness :
    ((defaultResolver exampleTypes asciiUnicode none).Resolve [metadataPair] []).1[0]? =
      some { SrcField := metadataPair.SrcField, DstField := metadataPair.DstField,
             Strategy := StrategySkip, Expression := "" } :=
  (Resolve_map_to_string_skip exampleTypes asciiUnicode none [metadataPair] [] 0
    metadataPair rfl rfl rfl (Or.inl ⟨_, _, rfl⟩) rfl rfl rfl rfl).2

/-! ## C8: Skip carries no expression -/

theorem resolveOne_skipIffEmpty {r : resolverImpl} (h : ∀ rule ∈ r.rules, rule.Sound)
    (pair : FieldPair) : SkipIffEmpty pair (r.resolveOne pair) := by
  rcases resolveOne_planFor_or_skip h pair with h1 | h1
  · rw [h1]
    exact ⟨⟨fun _ => rfl, fun _ => rfl⟩, rfl, rfl⟩
  · exact ⟨⟨fun he => absurd he h1.2.2.2, fun hs => absurd hs h1.2.2.1⟩, h1.1, h1.2.1⟩

/-- C8. In every `Resolve` call with the default rules, pairs and plans
correspond one to one and in order, and for each pair and its plan: the
plan's expression is empty if and only if its strategy is Skip, and the
plan (a Skip plan in particular) carries both `FieldInfo`s of the pair. -/
theorem Resolve_expression_empty_iff_skip (T : GoTypes) (U : Unicode) (s : NestedSet)
    (pairs : List FieldPair) (structPairs : List StructPair) :
    List.Forall₂ SkipIffEmpty pairs
      ((defaultResolver T U s).Resolve pairs structPairs).1 := by
  rw [Resolve_plans, defaultResolver_Resolve, List.forall₂_map_right_iff]
  apply List.forall₂_same.mpr
  intro pair _
  exact resolveOne_skipIffEmpty (defaultResolver_sound T U _) pair

/-! ## C9: the nested set is rebuilt by every call -/

theorem Resolve_plans_eq (r : resolverImpl) (pairs : List FieldPair)
    (structPairs : List StructPair) :
    (r.Resolve pairs structPairs).1 =
      pairs.map (fun pair => resolveOne.loop pair
        (r.rules.map (fun rule => rule.inject (buildNestedSet none structPairs)))) := by
  rw [Resolve_plans, Resolve_state, buildNestedSet_reuse]
  rfl

theorem after_rules_inject (s : NestedSet)
    (history : List (List FieldPair × List StructPair)) :
    ∀ r : resolverImpl,
      (r.after history).rules.map (fun rule => rule.inject s) =
        r.rules.map (fun rule => rule.inject s) := by
  induction history with
  | nil => intro r; rfl
  | cons call rest ih =>
    intro r
    have h1 : r.after (call :: rest) = ((r.Resolve call.1 call.2).2).after rest := rfl
    rw [h1, ih, Resolve_state]
    simp only [List.map_map]
    apply List.map_congr_left
    intro rule _
    exact Rule.inject_inject rule _ s

/-- C9. After every call `Resolve(pairs, structPairs)`, on any resolver in
any state: (1) the resolver's nested set contains a key exactly when it is
the key (Src.PkgPath, Src.Name, Dst.PkgPath, Dst.Name) of one of
`structPairs`; (2) every nested-aware rule of the resolver holds that very
set; (3) the plans returned are those the same resolver returns for the same
arguments after any sequence of earlier `Resolve` calls. -/
theorem Resolve_rebuilds_nested_set (r : resolverImpl) (pairs : List FieldPair)
    (structPairs : List StructPair) :
    (∀ k : NestedPairKey, (r.Resolve pairs structPairs).2.nestedSet.has k = true ↔
      ∃ sp ∈ structPairs, structPairKey sp = k) ∧
    (∀ rule ∈ (r.Resolve pairs structPairs).2.rules, rule.Aware = true →
      rule.nestedSet = (r.Resolve pairs structPairs).2.nestedSet) ∧
    (∀ history : List (List FieldPair × List StructPair),
      ((r.after history).Resolve pairs structPairs).1 = (r.Resolve pairs structPairs).1) := by
  refine ⟨fun k => ?_, ?_, fun history => ?_⟩
  · rw [Resolve_state]
    exact buildNestedSet_has _ _ k
  · intro rule hrule haware
    rw [Resolve_state] at hrule ⊢
    simp only [List.mem_map] at hrule
    obtain ⟨r0, _, rfl⟩ := hrule
    unfold Rule.inject at haware ⊢
    split_ifs at haware ⊢ with h0
    · rfl
    · exact absurd haware h0
  · rw [Resolve_plans_eq, Resolve_plans_eq, after_rules_inject]

/-- C9, witness: a default resolver that first resolved the address pair
with the struct pair (`model.Address`, `dto.AddressDTO`) and is then called
without struct pairs holds the empty nested set, also in its nested-struct
rule, and skips the address pair as a fresh resolver does. -/
theorem Resolve_rebuilds_nested_set_witness :
    (∀ k : NestedPairKey,
      ((((New (DefaultRules exampleTypes asciiUnicode)).after
        [([addressPair], [addressStructPair])]).Resolve [addressPair] []).2.nestedSet.has k
          = true) ↔ ∃ sp ∈ ([] : List StructPair), structPairKey sp = k) ∧
    (((New (DefaultRules exampleTypes asciiUnicode)).after
        [([addressPair], [addressStructPair])]).Resolve [addressPair] []).1 =
      [skipPlan addressPair] :=
  ⟨(Resolve_rebuilds_nested_set _ [addressPair] []).1,
   ((Resolve_rebuilds_nested_set (New (DefaultRules exampleTypes asciiUnicode))
      [addressPair] []).2.2 [([addressPair], [addressStructPair])]).trans rfl⟩

/-! ## C10: discovery on cyclic record graphs -/

/-- A struct whose first field embeds (a pointer to, or an alias of) the
struct itself: `collectFlattenedFields` does not return for any bound. -/
theorem collectFlattenedFields_self_embedded (T : GoTypes) (U : Unicode) (q : Qualifier)
    (st : Nat) (f : Var) (rest : List Var) (name : String)
    (hfields : T.Fields st = f :: rest) (hemb : f.Embedded = true)
    (hres : resolveEmbeddedStruct T f.Type_ = some (st, name)) :
    ∀ (fuel : Nat) (pfx : List String) (embedFrom : String) (depth : Nat)
      (acc : Candidates × Nat),
      collectFlattenedFields T U q fuel st pfx embedFrom depth acc = none := by
  intro fuel
  induction fuel with
  | zero => intro pfx embedFrom depth acc; rfl
  | succ n ih =>
    intro pfx embedFrom depth acc
    simp only [collectFlattenedFields, hfields, collectFlattenedFields.loop, hemb, hres,
      if_true, ih]

theorem flattenFields_node_diverges (k : Nat) (q : Qualifier) :
    flattenFields exampleTypes asciiUnicode k 20 q = none := by
  unfold flattenFields
  rw [collectFlattenedFields_self_embedded exampleTypes asciiUnicode q 20
    { Name := "Node", Embedded := true, Exported := true,
      Type_ := .Pointer (.Named { Pkg := some pkgNode, Name := "Node" }) }
    [{ Name := "Val", Embedded := false, Exported := true, Type_ := .Basic "int" }]
    "Node" rfl rfl rfl]

theorem parseWithCache_node_diverges (k : Nat) :
    parseWithCache exampleLoader exampleTypes asciiUnicode k pkgNode.Path "Node" = none := by
  have hload : loadPackage exampleLoader pkgNode.Path = .ok nodePackage := rfl
  have hex : extractStructType exampleTypes (.Named { Pkg := some pkgNode, Name := "Node" }) =
      some 20 := rfl
  unfold parseWithCache
  rw [hload]
  simp [nodePackage, hex, flattenFields_node_diverges]

theorem countP_lt_of_mem {α : Type} (p q : α → Bool) :
    ∀ (l : List α), (∀ x ∈ l, p x = true → q x = true) →
      ∀ x ∈ l, q x = true → p x = false → l.countP p < l.countP q := by
  intro l
  induction l with
  | nil => intro _ x hx; simp at hx
  | cons k ks ih =>
    intro hpq x hx hq hp
    have hmono : ks.countP p ≤ ks.countP q :=
      List.countP_mono_left (fun y hy h => hpq y (List.mem_cons_of_mem _ hy) h)
    rw [List.countP_cons, List.countP_cons]
    rcases List.mem_cons.mp hx with rfl | hx1
    · rw [hq, hp]
      simp only [if_true, Bool.false_eq_true, if_false]
      omega
    · have hlt := ih (fun y hy h => hpq y (List.mem_cons_of_mem _ hy) h) x hx1 hq hp
      have hk := hpq k (List.mem_cons_self _ _)
      cases hpk : p k with
      | false =>
        simp only [Bool.false_eq_true, if_false]
        split_ifs <;> omega
      | true =>
        rw [hk hpk]
        simp only [if_true]
        omega

theorem unvisited_mono (keys : List String) {v v1 : List String}
    (h : ∀ x ∈ v, x ∈ v1) : unvisited keys v1 ≤ unvisited keys v := by
  unfold unvisited
  apply List.countP_mono_left
  intro x _ hx
  rw [decide_eq_true_eq] at hx ⊢
  exact fun hv => hx (h x hv)

theorem unvisited_cons_lt (keys : List String) {v : List String} {x : String}
    (hx : x ∈ keys) (hv : x ∉ v) : unvisited keys (x :: v) < unvisited keys v := by
  unfold unvisited
  apply countP_lt_of_mem _ _ keys _ x hx
  · exact decide_eq_true hv
  · exact decide_eq_false (fun h => h (List.mem_cons_self _ _))
  · intro y _ hy
    rw [decide_eq_true_eq] at hy ⊢
    exact fun h => hy (List.mem_cons_of_mem _ h)

theorem unvisited_le_length (keys visited : List String) :
    unvisited keys visited ≤ keys.length := by
  unfold unvisited
  exact List.countP_le_length _

theorem ParseState.Step.refl (st : ParseState) : st.Step st :=
  ⟨fun _ h => h, fun h => h, fun _ h => Or.inl h⟩

theorem ParseState.Step.trans {a b c : ParseState} (h1 : a.Step b) (h2 : b.Step c) :
    a.Step c := by
  refine ⟨fun x hx => h2.1 x (h1.1 x hx), fun hi => h2.2.1 (h1.2.1 hi), ?_⟩
  intro info hinfo
  rcases h2.2.2 info hinfo with h | h
  · exact h1.2.2 info h
  · exact Or.inr (fun hv => h (h1.1 _ hv))

theorem ParseState.Step.warn {a b : ParseState} (h : a.Step b) (w : List String) :
    a.Step { b with warnings := w } := h

theorem universeKeys_mem {W : Loader} {T : GoTypes} {U : Unicode} {k : Nat}
    {univ : List (String × String)} {pn : String × String} {info : StructInfo}
    (hpn : pn ∈ univ) (hparse : parseWithCache W T U k pn.1 pn.2 = some (.ok info)) :
    info.key ∈ universeKeys W T U k univ := by
  unfold universeKeys
  rw [List.mem_filterMap]
  exact ⟨pn, hpn, by rw [hparse]⟩

theorem universeKeys_length_le (W : Loader) (T : GoTypes) (U : Unicode) (k : Nat)
    (univ : List (String × String)) :
    (universeKeys W T U k univ).length ≤ univ.length := by
  unfold universeKeys
  exact List.length_filterMap_le _ _

/-- The loop of `parseRec` returns when every recursive call it can make
returns, and composes their effects on the state. -/
theorem parseRec_loop_returns (keys : List String) (univ : List (String × String))
    (recurse : String → String → ParseState → Option (Except ParseError Unit × ParseState))
    (bound : Nat)
    (hrec : ∀ pn ∈ univ, ∀ st : ParseState, unvisited keys st.visited < bound →
      ∃ res st1, recurse pn.1 pn.2 st = some (res, st1) ∧ st.Step st1)
    (cur rm : String) :
    ∀ (fs : List FieldInfo) (st : ParseState),
      (∀ f ∈ fs, ∀ ref, nestedStructRef f.TypeInfo = some ref → ref ∈ univ) →
      unvisited keys st.visited < bound →
      ∃ st1, parseRec.loop recurse cur rm fs st = some st1 ∧ st.Step st1 := by
  intro fs
  induction fs with
  | nil => intro st _ _; exact ⟨st, rfl, ParseState.Step.refl st⟩
  | cons f fs ih =>
    intro st hfs hlt
    have hfs1 : ∀ g ∈ fs, ∀ ref, nestedStructRef g.TypeInfo = some ref → ref ∈ univ :=
      fun g hg => hfs g (List.mem_cons_of_mem _ hg)
    unfold parseRec.loop
    cases href : nestedStructRef f.TypeInfo with
    | none => exact ih st hfs1 hlt
    | some ref =>
      obtain ⟨nestedPkg, nestedName⟩ := ref
      simp only
      split_ifs with h1 h2
      · exact ih st hfs1 hlt
      · exact ih st hfs1 hlt
      · have hmem : (nestedPkg, nestedName) ∈ univ := hfs f (List.mem_cons_self _ _) _ href
        obtain ⟨res, st1, hcall, hstep⟩ := hrec _ hmem st hlt
        have hlt1 : unvisited keys st1.visited < bound :=
          Nat.lt_of_le_of_lt (unvisited_mono keys hstep.1) hlt
        simp only at hcall
        rw [hcall]
        cases res with
        | error e =>
          simp only
          obtain ⟨st2, hloop, hstep2⟩ :=
            ih { st1 with warnings := st1.warnings ++ [nestedName] } hfs1 hlt1
          exact ⟨st2, hloop, ParseState.Step.trans hstep hstep2⟩
        | ok u =>
          simp only
          obtain ⟨st2, hloop, hstep2⟩ := ih st1 hfs1 hlt1
          exact ⟨st2, hloop, ParseState.Step.trans hstep hstep2⟩

/-- On a finite set of records, closed under reference, each of whose
per-record parses returns, `parseRec` returns as soon as its bound exceeds
the number of records not yet visited. -/
theorem parseRec_returns (W : Loader) (T : GoTypes) (U : Unicode) (k : Nat) (rm : String)
    (univ : List (String × String))
    (hret : ∀ pn ∈ univ, parseWithCache W T U k pn.1 pn.2 ≠ none)
    (hclosed : ∀ pn ∈ univ, ∀ info, parseWithCache W T U k pn.1 pn.2 = some (.ok info) →
      ∀ f ∈ info.Fields, ∀ ref, nestedStructRef f.TypeInfo = some ref → ref ∈ univ) :
    ∀ (fuel : Nat), ∀ pn ∈ univ, ∀ st : ParseState,
      unvisited (universeKeys W T U k univ) st.visited < fuel →
      ∃ res st1, parseRec W T U k rm fuel pn.1 pn.2 st = some (res, st1) ∧ st.Step st1 := by
  intro fuel
  induction fuel with
  | zero => intro pn _ st h; exact absurd h (Nat.not_lt_zero _)
  | succ n ih =>
    intro pn hpn st hlt
    unfold parseRec
    cases hparse : parseWithCache W T U k pn.1 pn.2 with
    | none => exact absurd hparse (hret pn hpn)
    | some r =>
      cases r with
      | error e => exact ⟨_, st, rfl, ParseState.Step.refl st⟩
      | ok info =>
        simp only
        split_ifs with hvis
        · exact ⟨_, st, rfl, ParseState.Step.refl st⟩
        · have hkey : info.key ∈ universeKeys W T U k univ := universeKeys_mem hpn hparse
          have hlt1 : unvisited (universeKeys W T U k univ) (info.key :: st.visited) < n := by
            have := unvisited_cons_lt (universeKeys W T U k univ) hkey hvis
            omega
          obtain ⟨st2, hloop, hstep⟩ :=
            parseRec_loop_returns (universeKeys W T U k univ) univ
              (parseRec W T U k rm n) n ih info.PkgPath rm info.Fields
              { st with visited := info.key :: st.visited }
              (hclosed pn hpn info hparse) hlt1
          rw [hloop]
          refine ⟨_, _, rfl, ?_, ?_, ?_⟩
          · intro x hx
            exact hstep.1 x (List.mem_cons_of_mem _ hx)
          · intro hinv
            have hinv1 : ParseState.Inv { st with visited := info.key :: st.visited } :=
              ⟨hinv.1, fun i hi => List.mem_cons_of_mem _ (hinv.2 i hi)⟩
            have hinv2 := hstep.2.1 hinv1
            have hnew : ∀ i ∈ st2.result, i.key ≠ info.key := by
              intro i hi heq
              rcases hstep.2.2 i hi with h | h
              · exact hvis (heq ▸ hinv.2 i h)
              · exact h (heq ▸ List.mem_cons_self _ _)
            constructor
            · simp only [List.map_append, List.map_cons, List.map_nil]
              apply List.Nodup.append hinv2.1 (List.nodup_singleton _)
              intro x hx1 hx2
              rw [List.mem_singleton] at hx2
              rw [List.mem_map] at hx1
              obtain ⟨i, hi, rfl⟩ := hx1
              exact hnew i hi hx2
            · intro i hi
              simp only [List.mem_append, List.mem_singleton] at hi
              rcases hi with hi | rfl
              · exact hinv2.2 i hi
              · exact hstep.1 _ (List.mem_cons_self _ _)
          · intro i hi
            simp only [List.mem_append, List.mem_singleton] at hi
            rcases hi with hi | rfl
            · rcases hstep.2.2 i hi with h | h
              · exact Or.inl h
              · exact Or.inr (fun hv => h (List.mem_cons_of_mem _ hv))
            · exact Or.inr hvis

/-- On a finite set of records, closed under reference, each of whose
per-record parses (flattening and type analysis) returns, and which contains
the requested root: `ParseRecursive` returns for every bound above the
number of records, and a returned list holds no two records with the same
namespace and name. Reference cycles, direct or mutual, are allowed. -/
theorem ParseRecursive_returns_once (W : Loader) (T : GoTypes) (U : Unicode) (k : Nat)
    (univ : List (String × String)) (pkgPath typeName : String)
    (hroot : (pkgPath, typeName) ∈ univ)
    (hret : ∀ pn ∈ univ, parseWithCache W T U k pn.1 pn.2 ≠ none)
    (hclosed : ∀ pn ∈ univ, ∀ info, parseWithCache W T U k pn.1 pn.2 = some (.ok info) →
      ∀ f ∈ info.Fields, ∀ ref, nestedStructRef f.TypeInfo = some ref → ref ∈ univ)
    (fuel : Nat) (hfuel : univ.length < fuel) :
    ∃ r, ParseRecursive W T U k fuel pkgPath typeName = some r ∧
      ∀ infos, r = .ok infos →
        (infos.map (fun info : StructInfo => (info.PkgPath, info.Name))).Nodup := by
  unfold ParseRecursive
  cases hload : loadPackage W pkgPath with
  | error e => exact ⟨_, rfl, fun infos h => by simp at h⟩
  | ok rootPkg =>
    simp only
    have hlt : unvisited (universeKeys W T U k univ)
        ({ visited := [], result := [], warnings := [] } : ParseState).visited < fuel :=
      Nat.lt_of_le_of_lt
        (Nat.le_trans (unvisited_le_length _ _) (universeKeys_length_le W T U k univ)) hfuel
    obtain ⟨res, st1, hcall, hstep⟩ :=
      parseRec_returns W T U k
        (match rootPkg.Module with
          | some m => m.Path
          | none => "") univ hret hclosed fuel (pkgPath, typeName) hroot
        { visited := [], result := [], warnings := [] } hlt
    simp only at hcall
    rw [hcall]
    cases res with
    | error e => exact ⟨_, rfl, fun infos h => by simp at h⟩
    | ok u =>
      refine ⟨_, rfl, fun infos h => ?_⟩
      simp only [Except.ok.injEq] at h
      subst h
      have hinv : st1.Inv := hstep.2.1 ⟨List.nodup_nil, fun _ h => by simp at h⟩
      have hkeys : st1.result.map StructInfo.key =
          (st1.result.map (fun info : StructInfo => (info.PkgPath, info.Name))).map
            (fun pn => pn.1 ++ "." ++ pn.2) := by
        rw [List.map_map]
        rfl
      have hnodup := hinv.1
      rw [hkeys] at hnodup
      exact List.Nodup.of_map _ hnodup

/-- The records of `testdata/parsernested`: Root references Child three
times and itself through `Self *Root`; discovery returns Leaf, Child, Root,
each once. -/
theorem ParseRecursive_nested_root :
    (ParseRecursive exampleLoader exampleTypes asciiUnicode 10 4 pkgNested.Path "Root").map
      (fun r => r.map (fun infos => infos.map (fun info : StructInfo => info.Name))) =
      some (.ok ["Leaf", "Child", "Root"]) := by
  rfl

/-- C10, failing input. In the package that declares
`type Node struct { *Node; Val int }`, `ParseRecursive` on `Node` returns
for no bounds: `flattenFields` descends into the embedded `*Node` again and
again, and `parseRec` never gets to use its visited set. -/
theorem ParseRecursive_self_embedding_diverges :
    ¬ ∃ (flatFuel fuel : Nat) (r : Except ParseError (List StructInfo)),
      ParseRecursive exampleLoader exampleTypes asciiUnicode flatFuel fuel pkgNode.Path
        "Node" = some r := by
  rintro ⟨k, fuel, r, h⟩
  have hload : loadPackage exampleLoader pkgNode.Path = .ok nodePackage := rfl
  unfold ParseRecursive at h
  rw [hload] at h
  simp only at h
  cases fuel with
  | zero => simp [parseRec] at h
  | succ n => simp [parseRec, parseWithCache_node_diverges] at h

theorem recordsClosed_spec {W : Loader} {T : GoTypes} {U : Unicode} {k : Nat}
    {univ : List (String × String)} (h : recordsClosed W T U k univ = true) :
    (∀ pn ∈ univ, parseWithCache W T U k pn.1 pn.2 ≠ none) ∧
    (∀ pn ∈ univ, ∀ info, parseWithCache W T U k pn.1 pn.2 = some (.ok info) →
      ∀ f ∈ info.Fields, ∀ ref, nestedStructRef f.TypeInfo = some ref → ref ∈ univ) := by
  unfold recordsClosed at h
  rw [List.all_eq_true] at h
  constructor
  · intro pn hpn hnone
    have := h pn hpn
    rw [hnone] at this
    simp at this
  · intro pn hpn info hinfo f hf ref href
    have := h pn hpn
    rw [hinfo] at this
    simp only [List.all_eq_true] at this
    have := this f hf
    rw [href] at this
    simpa using this

/-- The hypotheses of `ParseRecursive_returns_once` hold for the records of
`testdata/parsernested`, whose Root references itself. -/
theorem ParseRecursive_returns_once_witness :
    ∃ r, ParseRecursive exampleLoader exampleTypes asciiUnicode 10 4 pkgNested.Path "Root" =
        some r ∧
      ∀ infos, r = .ok infos →
        (infos.map (fun info : StructInfo => (info.PkgPath, info.Name))).Nodup :=
  ParseRecursive_returns_once exampleLoader exampleTypes asciiUnicode 10 nestedUniverse
    pkgNested.Path "Root" (List.mem_cons_self _ _)
    (recordsClosed_spec (by rfl : recordsClosed exampleLoader exampleTypes asciiUnicode 10
      nestedUniverse = true)).1
    (recordsClosed_spec (by rfl : recordsClosed exampleLoader exampleTypes asciiUnicode 10
      nestedUniverse = true)).2
    4 (by decide)

/-! ## C12: the root record comes last -/

theorem parseWithCache_Name {W : Loader} {T : GoTypes} {U : Unicode} {k : Nat}
    {pkgPath typeName : String} {info : StructInfo}
    (h : parseWithCache W T U k pkgPath typeName = some (.ok info)) :
    info.Name = typeName := by
  unfold parseWithCache at h
  repeat' split at h
  all_goals first | (simp at h; done) | skip
  simp only [Option.some.injEq, Except.ok.injEq] at h
  subst h
  rfl

theorem parseRec_zero (W : Loader) (T : GoTypes) (U : Unicode) (k : Nat) (rm p t : String)
    (st : ParseState) : parseRec W T U k rm 0 p t st = none := rfl

theorem parseRec_diverged {W : Loader} {T : GoTypes} {U : Unicode} {k : Nat} {rm p t : String}
    (n : Nat) (st : ParseState) (h : parseWithCache W T U k p t = none) :
    parseRec W T U k rm (n + 1) p t st = none := by
  simp only [parseRec, h]

theorem parseRec_error {W : Loader} {T : GoTypes} {U : Unicode} {k : Nat} {rm p t : String}
    {e : ParseError} (n : Nat) (st : ParseState)
    (h : parseWithCache W T U k p t = some (.error e)) :
    parseRec W T U k rm (n + 1) p t st = some (.error e, st) := by
  simp only [parseRec, h]

theorem parseRec_visited {W : Loader} {T : GoTypes} {U : Unicode} {k : Nat} {rm p t : String}
    {info : StructInfo} (n : Nat) {st : ParseState}
    (h : parseWithCache W T U k p t = some (.ok info)) (hv : info.key ∈ st.visited) :
    parseRec W T U k rm (n + 1) p t st = some (.ok (), st) := by
  simp only [parseRec, h, hv, if_true]

theorem parseRec_new {W : Loader} {T : GoTypes} {U : Unicode} {k : Nat} {rm p t : String}
    {info : StructInfo} (n : Nat) {st : ParseState}
    (h : parseWithCache W T U k p t = some (.ok info)) (hv : info.key ∉ st.visited) :
    parseRec W T U k rm (n + 1) p t st =
      (parseRec.loop (parseRec W T U k rm n) info.PkgPath rm info.Fields
        { st with visited := info.key :: st.visited }).map
        (fun st1 => (.ok (), { st1 with result := st1.result ++ [info] })) := by
  simp only [parseRec, h, hv, if_false]
  cases parseRec.loop (parseRec W T U k rm n) info.PkgPath rm info.Fields
    { st with visited := info.key :: st.visited } <;> rfl

/-- A list returned by `ParseRecursive` is the records collected below the
root followed by the parse of the root. -/
theorem ParseRecursive_ok_split {W : Loader} {T : GoTypes} {U : Unicode} {k fuel : Nat}
    {pkgPath typeName : String} {infos : List StructInfo}
    (h : ParseRecursive W T U k fuel pkgPath typeName = some (.ok infos)) :
    ∃ init root, infos = init ++ [root] ∧
      parseWithCache W T U k pkgPath typeName = some (.ok root) := by
  unfold ParseRecursive at h
  cases hload : loadPackage W pkgPath with
  | error e => simp [hload] at h
  | ok rootPkg =>
    simp only [hload] at h
    cases fuel with
    | zero => simp [parseRec_zero] at h
    | succ n =>
      cases hparse : parseWithCache W T U k pkgPath typeName with
      | none => simp [parseRec_diverged n _ hparse] at h
      | some r =>
        cases r with
        | error e => simp [parseRec_error n _ hparse] at h
        | ok info =>
          rw [parseRec_new n hparse (by simp)] at h
          cases hloop : parseRec.loop (parseRec W T U k
              (match rootPkg.Module with
                | some m => m.Path
                | none => "") n) info.PkgPath
              (match rootPkg.Module with
                | some m => m.Path
                | none => "") info.Fields
              { visited := [info.key], result := [], warnings := [] } with
          | none => simp [hloop] at h
          | some st1 =>
            simp only [hloop, Option.map_some', Option.some.injEq, Except.ok.injEq] at h
            subst h
            exact ⟨st1.result, info, rfl, rfl⟩

/-- C12. Whenever `ParseRecursive` succeeds, the returned list ends with the
requested root record: it is `init ++ [root]`, where `root` is the parse of
the requested package and type name and carries the requested name; every
other record of the list comes before it. -/
theorem ParseRecursive_root_last (W : Loader) (T : GoTypes) (U : Unicode) (k fuel : Nat)
    (pkgPath typeName : String) (infos : List StructInfo)
    (h : ParseRecursive W T U k fuel pkgPath typeName = some (.ok infos)) :
    infos ≠ [] ∧
    ∃ init root, infos = init ++ [root] ∧ infos.getLast? = some root ∧
      root.Name = typeName ∧
      parseWithCache W T U k pkgPath typeName = some (.ok root) := by
  obtain ⟨init, root, hsplit, hroot⟩ := ParseRecursive_ok_split h
  subst hsplit
  exact ⟨by simp, init, root, rfl, by simp, parseWithCache_Name hroot, hroot⟩

/-- C12, witness: the list for `parsernested.Root` is not empty and ends
with the record named Root. -/
theorem ParseRecursive_root_last_witness :
    nestedInfos ≠ [] ∧
    ∃ init root, nestedInfos = init ++ [root] ∧ nestedInfos.getLast? = some root ∧
      root.Name = "Root" ∧
      parseWithCache exampleLoader exampleTypes asciiUnicode 10 pkgNested.Path "Root" =
        some (.ok root) :=
  ParseRecursive_root_last exampleLoader exampleTypes asciiUnicode 10 4 pkgNested.Path "Root"
    nestedInfos rfl

/-! ## C14: provider failures -/

theorem parseWithCache_of_load_error {W : Loader} {T : GoTypes} {U : Unicode} (k : Nat)
    {pkgPath : String} (typeName : String) {e : ParseError}
    (h : loadPackage W pkgPath = .error e) :
    parseWithCache W T U k pkgPath typeName = some (.error e) := by
  simp only [parseWithCache, h]

/-- The loop of `parseRec` does not fail: it returns a state or does not
return. -/
theorem parseRec_result_of_root_ok {W : Loader} {T : GoTypes} {U : Unicode} {k : Nat}
    {rm p t : String} {info : StructInfo} (fuel : Nat) (st : ParseState)
    (h : parseWithCache W T U k p t = some (.ok info))
    {res : Except ParseError Unit} {st1 : ParseState}
    (hres : parseRec W T U k rm fuel p t st = some (res, st1)) : res = .ok () := by
  cases fuel with
  | zero => simp [parseRec_zero] at hres
  | succ n =>
    by_cases hv : info.key ∈ st.visited
    · rw [parseRec_visited n h hv] at hres
      simp only [Option.some.injEq, Prod.mk.injEq] at hres
      exact hres.1.symm
    · rw [parseRec_new n h hv] at hres
      cases hloop : parseRec.loop (parseRec W T U k rm n) info.PkgPath rm info.Fields
          { st with visited := info.key :: st.visited } with
      | none => simp [hloop] at hres
      | some st2 =>
        simp only [hloop, Option.map_some', Option.some.injEq, Prod.mk.injEq] at hres
        exact hres.1.symm

/-- C14, as the code has it. A failure of the provider on the namespace of
the root makes `ParseRecursive` return that error, for every bound. A
failure on any other namespace is not fatal: whenever the root itself
parses, `ParseRecursive` returns no error at all (a nested reference whose
parse fails, for whatever reason, is skipped). -/
theorem ParseRecursive_provider_failure (W : Loader) (T : GoTypes) (U : Unicode)
    (k fuel : Nat) (pkgPath typeName : String) :
    (∀ e, loadPackage W pkgPath = .error e →
      ParseRecursive W T U k fuel pkgPath typeName = some (.error e)) ∧
    (∀ info, parseWithCache W T U k pkgPath typeName = some (.ok info) →
      ∀ r, ParseRecursive W T U k fuel pkgPath typeName = some r → ∃ infos, r = .ok infos) := by
  constructor
  · intro e he
    simp only [ParseRecursive, he]
  · intro info hinfo r hr
    unfold ParseRecursive at hr
    cases hload : loadPackage W pkgPath with
    | error e =>
      rw [parseWithCache_of_load_error k typeName hload] at hinfo
      simp at hinfo
    | ok rootPkg =>
      simp only [hload] at hr
      cases hrec : parseRec W T U k
          (match rootPkg.Module with
            | some m => m.Path
            | none => "") fuel pkgPath typeName
          { visited := [], result := [], warnings := [] } with
      | none => simp [hrec] at hr
      | some out =>
        obtain ⟨res, st1⟩ := out
        have hok := parseRec_result_of_root_ok fuel _ hinfo hrec
        subst hok
        simp only [hrec, Option.some.injEq] at hr
        exact ⟨st1.result, hr.symm⟩

/-- C14, witness: the provider fails on `testdata/missing`; asked for that
namespace as the root, `ParseRecursive` returns the error; asked for
`holder.Holder`, whose field `Dep` has the type `missing.Thing`, it returns
a list. -/
theorem ParseRecursive_provider_failure_witness :
    ParseRecursive exampleLoader exampleTypes asciiUnicode 10 4 pkgMissing.Path "Thing" =
      some (.error (.loadFailed pkgMissing.Path "no such package")) ∧
    ∃ infos, (Except.ok [holderInfo] : Except ParseError (List StructInfo)) = .ok infos :=
  ⟨(ParseRecursive_provider_failure exampleLoader exampleTypes asciiUnicode 10 4
      pkgMissing.Path "Thing").1 _ rfl,
   (ParseRecursive_provider_failure exampleLoader exampleTypes asciiUnicode 10 4
      pkgHolder.Path "Holder").2 holderInfo rfl (.ok [holderInfo]) rfl⟩

/-- C14, counterexample. `holder.Holder` has a field of type
`missing.Thing`; the namespace `testdata/missing` lies inside the recursion
boundary of the root module and the provider fails to load it; yet
`ParseRecursive` succeeds and returns the record Holder. -/
theorem ParseRecursive_nested_provider_failure_counterexample :
    loadPackage exampleLoader pkgMissing.Path =
      .error (.loadFailed pkgMissing.Path "no such package") ∧
    holderInfo.Fields.map (fun f => nestedStructRef f.TypeInfo) =
      [some (pkgMissing.Path, "Thing"), none] ∧
    shouldRecurseNestedPackage pkgMissing.Path holderInfo.PkgPath exampleModule.Path = true ∧
    ParseRecursive exampleLoader exampleTypes asciiUnicode 10 4 pkgHolder.Path "Holder" =
      some (.ok [holderInfo]) :=
  ⟨rfl, rfl, rfl, rfl⟩

/-! ## Discovery as a depth-first traversal -/

theorem GoodAt_mono {W : Loader} {T : GoTypes} {U : Unicode} {k : Nat} {rm : String}
    {P : List String} {before : List StructInfo} {X : StructInfo} {after : List StructInfo}
    (more : List StructInfo) (h : GoodAt W T U k rm P before X after) :
    GoodAt W T U k rm P before X (after ++ more) := by
  intro Y hY
  rcases h Y hY with h1 | h1 | ⟨Z, hZ, hk, hr⟩
  · exact Or.inl h1
  · exact Or.inr (Or.inl h1)
  · refine Or.inr (Or.inr ⟨Z, ?_, hk, hr⟩)
    rcases List.mem_cons.mp hZ with rfl | hZ1
    · exact List.mem_cons_self _ _
    · exact List.mem_cons_of_mem _ (List.mem_append_left _ hZ1)

theorem GoodList_append {W : Loader} {T : GoTypes} {U : Unicode} {k : Nat} {rm : String}
    {P : List String} :
    ∀ (s1 : List StructInfo) (b s2 : List StructInfo),
      GoodList W T U k rm P b s1 → GoodList W T U k rm P (b ++ s1) s2 →
      GoodList W T U k rm P b (s1 ++ s2) := by
  intro s1
  induction s1 with
  | nil => intro b s2 _ h2; simpa using h2
  | cons X rest ih =>
    intro b s2 h1 h2
    refine ⟨GoodAt_mono s2 h1.1, ih (b ++ [X]) s2 h1.2 ?_⟩
    simpa using h2

/-- Closing a call: once the record `info` whose key was pending is
appended, the records collected during its call are well placed without it
being pending. -/
theorem GoodList_close {W : Loader} {T : GoTypes} {U : Unicode} {k : Nat} {rm : String}
    {P : List String} (info : StructInfo) :
    ∀ (s b : List StructInfo),
      GoodList W T U k rm (info.key :: P) b s →
      (∀ X ∈ s, Reaches W T U k rm info X) →
      GoodAt W T U k rm P (b ++ s) info [] →
      GoodList W T U k rm P b (s ++ [info]) := by
  intro s
  induction s with
  | nil => intro b _ _ h; exact ⟨by simpa using h, trivial⟩
  | cons X rest ih =>
    intro b h1 hreach hinfo
    refine ⟨?_, ih (b ++ [X]) h1.2 (fun Y hY => hreach Y (List.mem_cons_of_mem _ hY))
      (by simpa using hinfo)⟩
    intro Y hY
    rcases h1.1 Y hY with h2 | h2 | ⟨Z, hZ, hk, hr⟩
    · exact Or.inl h2
    · rcases List.mem_cons.mp h2 with h3 | h3
      · refine Or.inr (Or.inr ⟨info, ?_, h3.symm, hreach X (List.mem_cons_self _ _)⟩)
        exact List.mem_cons_of_mem _ (List.mem_append_right _ (List.mem_singleton.mpr rfl))
      · exact Or.inr (Or.inl h3)
    · refine Or.inr (Or.inr ⟨Z, ?_, hk, hr⟩)
      rcases List.mem_cons.mp hZ with rfl | hZ1
      · exact List.mem_cons_self _ _
      · exact List.mem_cons_of_mem _ (List.mem_append_left _ hZ1)

theorem GoodList_at {W : Loader} {T : GoTypes} {U : Unicode} {k : Nat} {rm : String}
    {P : List String} :
    ∀ (l1 : List StructInfo) (b : List StructInfo) (X : StructInfo) (l2 : List StructInfo),
      GoodList W T U k rm P b (l1 ++ X :: l2) → GoodAt W T U k rm P (b ++ l1) X l2 := by
  intro l1
  induction l1 with
  | nil => intro b X l2 h; simpa using h.1
  | cons Y rest ih =>
    intro b X l2 h
    have := ih (b ++ [Y]) X l2 h.2
    simpa using this

theorem Dfs_refl (W : Loader) (T : GoTypes) (U : Unicode) (k : Nat) (rm : String)
    (P : List String) (origin : StructInfo → Prop) (st : ParseState) :
    Dfs W T U k rm P origin st st :=
  ⟨ParseState.Step.refl st, [], by simp, by simp, fun h => ⟨h, trivial⟩⟩

theorem Dfs_trans {W : Loader} {T : GoTypes} {U : Unicode} {k : Nat} {rm : String}
    {P : List String} {origin : StructInfo → Prop} {a b c : ParseState}
    (h1 : Dfs W T U k rm P origin a b) (h2 : Dfs W T U k rm P origin b c) :
    Dfs W T U k rm P origin a c := by
  obtain ⟨s1, seg1, hr1, ho1, hg1⟩ := h1
  obtain ⟨s2, seg2, hr2, ho2, hg2⟩ := h2
  refine ⟨ParseState.Step.trans s1 s2, seg1 ++ seg2, ?_, ?_, ?_⟩
  · rw [hr2, hr1, List.append_assoc]
  · intro X hX
    rcases List.mem_append.mp hX with h | h
    · exact ho1 X h
    · exact ho2 X h
  · intro hv
    obtain ⟨hv1, g1⟩ := hg1 hv
    obtain ⟨hv2, g2⟩ := hg2 hv1
    rw [hr1] at g2
    exact ⟨hv2, GoodList_append seg1 a.result seg2 g1 g2⟩

theorem Dfs_origin {W : Loader} {T : GoTypes} {U : Unicode} {k : Nat} {rm : String}
    {P : List String} {origin origin1 : StructInfo → Prop} {a b : ParseState}
    (h : Dfs W T U k rm P origin a b)
    (ho : ∀ X o, origin o → Reaches W T U k rm o X →
      ∃ o1, origin1 o1 ∧ Reaches W T U k rm o1 X) :
    Dfs W T U k rm P origin1 a b := by
  obtain ⟨s1, seg1, hr1, ho1, hg1⟩ := h
  refine ⟨s1, seg1, hr1, ?_, hg1⟩
  intro X hX
  obtain ⟨o, h1, h2⟩ := ho1 X hX
  exact ho X o h1 h2

theorem Dfs_warn {W : Loader} {T : GoTypes} {U : Unicode} {k : Nat} {rm : String}
    {P : List String} {origin : StructInfo → Prop} {a b : ParseState}
    (h : Dfs W T U k rm P origin a b) (w : List String) :
    Dfs W T U k rm P origin a { b with warnings := w } := h

/-- Closing a call on the state: the record whose key was marked before the
loop is appended after it. -/
theorem Step_close {st st2 : ParseState} {info : StructInfo}
    (hvis : info.key ∉ st.visited)
    (hstep : ParseState.Step { st with visited := info.key :: st.visited } st2) :
    st.Step { st2 with result := st2.result ++ [info] } := by
  refine ⟨?_, ?_, ?_⟩
  · intro x hx
    exact hstep.1 x (List.mem_cons_of_mem _ hx)
  · intro hinv
    have hinv1 : ParseState.Inv { st with visited := info.key :: st.visited } :=
      ⟨hinv.1, fun i hi => List.mem_cons_of_mem _ (hinv.2 i hi)⟩
    have hinv2 := hstep.2.1 hinv1
    have hnew : ∀ i ∈ st2.result, i.key ≠ info.key := by
      intro i hi heq
      rcases hstep.2.2 i hi with h | h
      · exact hvis (heq ▸ hinv.2 i h)
      · exact h (heq ▸ List.mem_cons_self _ _)
    constructor
    · simp only [List.map_append, List.map_cons, List.map_nil]
      apply List.Nodup.append hinv2.1 (List.nodup_singleton _)
      intro x hx1 hx2
      rw [List.mem_singleton] at hx2
      rw [List.mem_map] at hx1
      obtain ⟨i, hi, rfl⟩ := hx1
      exact hnew i hi hx2
    · intro i hi
      simp only [List.mem_append, List.mem_singleton] at hi
      rcases hi with hi | rfl
      · exact hinv2.2 i hi
      · exact hstep.1 _ (List.mem_cons_self _ _)
  · intro i hi
    simp only [List.mem_append, List.mem_singleton] at hi
    rcases hi with hi | rfl
    · rcases hstep.2.2 i hi with h | h
      · exact Or.inl h
      · exact Or.inr (fun hv => h (List.mem_cons_of_mem _ hv))
    · exact Or.inr hvis

theorem key_of_ref {W : Loader} {T : GoTypes} {U : Unicode} {k : Nat}
    (hrefs : RefsCanonical W T U k) {cur : StructInfo}
    (hcur : ∃ p n, parseWithCache W T U k p n = some (.ok cur)) {f : FieldInfo}
    (hf : f ∈ cur.Fields) {ref : String × String} {Y : StructInfo}
    (href : nestedStructRef f.TypeInfo = some ref)
    (h : parseWithCache W T U k ref.1 ref.2 = some (.ok Y)) :
    Y.key = ref.1 ++ "." ++ ref.2 := by
  obtain ⟨p, n, hp⟩ := hcur
  unfold StructInfo.key
  rw [hrefs p n cur hp f hf ref Y href h, parseWithCache_Name h]

/-- The loop of `parseRec` over fields of the record `cur`, when every
recursive call behaves as a traversal. -/
theorem parseRec_loop_dfs {W : Loader} {T : GoTypes} {U : Unicode} {k : Nat} {rm : String}
    (hrefs : RefsCanonical W T U k)
    (recurse : String → String → ParseState → Option (Except ParseError Unit × ParseState))
    (hrec : ∀ p n st res st1, recurse p n st = some (res, st1) → ∀ P,
      Dfs W T U k rm P (fun o => parseWithCache W T U k p n = some (.ok o)) st st1 ∧
      ∀ info, parseWithCache W T U k p n = some (.ok info) → info.key ∈ st1.visited)
    (cur : StructInfo) (hcur : ∃ p n, parseWithCache W T U k p n = some (.ok cur)) :
    ∀ (fs : List FieldInfo) (st st1 : ParseState), (∀ f ∈ fs, f ∈ cur.Fields) →
      parseRec.loop recurse cur.PkgPath rm fs st = some st1 → ∀ P,
      Dfs W T U k rm P (RefersTo W T U k rm cur) st st1 ∧
      ∀ f ∈ fs, ∀ (ref : String × String) (Y : StructInfo),
        nestedStructRef f.TypeInfo = some ref →
        shouldRecurseNestedPackage ref.1 cur.PkgPath rm = true →
        parseWithCache W T U k ref.1 ref.2 = some (.ok Y) → Y.key ∈ st1.visited := by
  intro fs
  induction fs with
  | nil =>
    intro st st1 _ h P
    simp only [parseRec.loop, Option.some.injEq] at h
    subst h
    exact ⟨Dfs_refl W T U k rm P _ st, fun f hf => absurd hf (List.not_mem_nil f)⟩
  | cons f fs ih =>
    intro st st1 hfs h P
    have hfs1 : ∀ g ∈ fs, g ∈ cur.Fields := fun g hg => hfs g (List.mem_cons_of_mem _ hg)
    have hf : f ∈ cur.Fields := hfs f (List.mem_cons_self _ _)
    unfold parseRec.loop at h
    cases href : nestedStructRef f.TypeInfo with
    | none =>
      rw [href] at h
      obtain ⟨hd, hv⟩ := ih st st1 hfs1 h P
      refine ⟨hd, ?_⟩
      intro g hg ref Y hr hb hp
      rcases List.mem_cons.mp hg with rfl | hg1
      · rw [href] at hr
        simp at hr
      · exact hv g hg1 ref Y hr hb hp
    | some r =>
      obtain ⟨np, nn⟩ := r
      rw [href] at h
      simp only at h
      by_cases hb : shouldRecurseNestedPackage np cur.PkgPath rm = true
      · by_cases hvis : (np ++ "." ++ nn) ∈ st.visited
        · simp only [hb, Bool.not_true, Bool.false_eq_true, if_false, hvis, if_true] at h
          obtain ⟨hd, hv⟩ := ih st st1 hfs1 h P
          refine ⟨hd, ?_⟩
          intro g hg ref Y hr hb1 hp
          rcases List.mem_cons.mp hg with rfl | hg1
          · rw [href] at hr
            simp only [Option.some.injEq] at hr
            subst hr
            rw [key_of_ref hrefs hcur hf href hp]
            exact hd.1.1 _ hvis
          · exact hv g hg1 ref Y hr hb1 hp
        · simp only [hb, Bool.not_true, Bool.false_eq_true, if_false, hvis] at h
          cases hcall : recurse np nn st with
          | none => simp [hcall] at h
          | some out =>
            obtain ⟨res, st2⟩ := out
            obtain ⟨hd2, hv2⟩ := hrec np nn st res st2 hcall P
            have hd2' : Dfs W T U k rm P (RefersTo W T U k rm cur) st st2 :=
              Dfs_origin hd2 (fun X o ho hreach =>
                ⟨o, ⟨f, hf, (np, nn), href, hb, ho⟩, hreach⟩)
            rw [hcall] at h
            cases res with
            | error e =>
              simp only at h
              obtain ⟨hd, hv⟩ := ih _ st1 hfs1 h P
              refine ⟨Dfs_trans (Dfs_warn hd2' _) hd, ?_⟩
              intro g hg ref Y hr hb1 hp
              rcases List.mem_cons.mp hg with rfl | hg1
              · rw [href] at hr
                simp only [Option.some.injEq] at hr
                subst hr
                exact hd.1.1 _ (hv2 Y hp)
              · exact hv g hg1 ref Y hr hb1 hp
            | ok u =>
              simp only at h
              obtain ⟨hd, hv⟩ := ih _ st1 hfs1 h P
              refine ⟨Dfs_trans hd2' hd, ?_⟩
              intro g hg ref Y hr hb1 hp
              rcases List.mem_cons.mp hg with rfl | hg1
              · rw [href] at hr
                simp only [Option.some.injEq] at hr
                subst hr
                exact hd.1.1 _ (hv2 Y hp)
              · exact hv g hg1 ref Y hr hb1 hp
      · simp only [hb, Bool.not_false, if_true] at h
        obtain ⟨hd, hv⟩ := ih st st1 hfs1 h P
        refine ⟨hd, ?_⟩
        intro g hg ref Y hr hb1 hp
        rcases List.mem_cons.mp hg with rfl | hg1
        · rw [href] at hr
          simp only [Option.some.injEq] at hr
          subst hr
          exact absurd hb1 hb
        · exact hv g hg1 ref Y hr hb1 hp

/-- A returning run of `parseRec` is a depth-first traversal: it appends the
records newly reached from the requested one, each well placed, the
requested record last, and leaves the key of the requested record visited. -/
theorem parseRec_dfs {W : Loader} {T : GoTypes} {U : Unicode} {k : Nat} {rm : String}
    (hrefs : RefsCanonical W T U k) :
    ∀ (fuel : Nat) (p n : String) (st : ParseState) (res : Except ParseError Unit)
      (st1 : ParseState),
      parseRec W T U k rm fuel p n st = some (res, st1) → ∀ P,
      Dfs W T U k rm P (fun o => parseWithCache W T U k p n = some (.ok o)) st st1 ∧
      ∀ info, parseWithCache W T U k p n = some (.ok info) → info.key ∈ st1.visited := by
  intro fuel
  induction fuel with
  | zero => intro p n st res st1 h; simp [parseRec_zero] at h
  | succ m ih =>
    intro p n st res st1 h P
    cases hparse : parseWithCache W T U k p n with
    | none => simp [parseRec_diverged m st hparse] at h
    | some r =>
      cases r with
      | error e =>
        rw [parseRec_error m st hparse] at h
        simp only [Option.some.injEq, Prod.mk.injEq] at h
        obtain ⟨_, rfl⟩ := h
        exact ⟨Dfs_refl W T U k rm P _ st, fun info hi => by simp at hi⟩
      | ok info =>
        by_cases hvis : info.key ∈ st.visited
        · rw [parseRec_visited m hparse hvis] at h
          simp only [Option.some.injEq, Prod.mk.injEq] at h
          obtain ⟨_, rfl⟩ := h
          refine ⟨Dfs_refl W T U k rm P _ st, fun info1 hi => ?_⟩
          simp only [Option.some.injEq, Except.ok.injEq] at hi
          subst hi
          exact hvis
        · rw [parseRec_new m hparse hvis] at h
          cases hloop : parseRec.loop (parseRec W T U k rm m) info.PkgPath rm info.Fields
              { st with visited := info.key :: st.visited } with
          | none => simp [hloop] at h
          | some st2 =>
            simp only [hloop, Option.map_some', Option.some.injEq, Prod.mk.injEq] at h
            obtain ⟨_, rfl⟩ := h
            obtain ⟨hd, hv⟩ := parseRec_loop_dfs hrefs (parseRec W T U k rm m) ih info
              ⟨p, n, hparse⟩ info.Fields _ st2 (fun f hf => hf) hloop (info.key :: P)
            obtain ⟨hstep, seg2, hres, horig, hgood⟩ := hd
            simp only at hres
            have hreach : ∀ X ∈ seg2, Reaches W T U k rm info X := by
              intro X hX
              obtain ⟨o, ho, hr⟩ := horig X hX
              exact Relation.ReflTransGen.head ho hr
            refine ⟨⟨Step_close hvis hstep, seg2 ++ [info], ?_, ?_, ?_⟩, ?_⟩
            · simp only [hres, List.append_assoc]
            · intro X hX
              rcases List.mem_append.mp hX with h1 | h1
              · exact ⟨info, rfl, hreach X h1⟩
              · rw [List.mem_singleton] at h1
                subst h1
                exact ⟨X, rfl, Relation.ReflTransGen.refl⟩
            · intro hvinv
              have hvinv0 : VisInv (info.key :: P)
                  { st with visited := info.key :: st.visited } := by
                intro x hx
                rcases List.mem_cons.mp hx with rfl | hx1
                · exact Or.inl (List.mem_cons_self _ _)
                · rcases hvinv x hx1 with h1 | h1
                  · exact Or.inl (List.mem_cons_of_mem _ h1)
                  · exact Or.inr h1
              obtain ⟨hvinv2, hg2⟩ := hgood hvinv0
              constructor
              · intro x hx
                rcases hvinv2 x hx with h1 | ⟨Z, hZ, hk⟩
                · rcases List.mem_cons.mp h1 with rfl | h2
                  · exact Or.inr ⟨info, by simp, rfl⟩
                  · exact Or.inl h2
                · exact Or.inr ⟨Z, List.mem_append_left _ hZ, hk⟩
              · apply GoodList_close info seg2 st.result hg2 hreach
                intro Y hY
                obtain ⟨f, hf, ref, href, hb, hp⟩ := hY
                have hYvis := hv f hf ref Y href hb hp
                rcases hvinv2 _ hYvis with h1 | ⟨Z, hZ, hk⟩
                · rcases List.mem_cons.mp h1 with h2 | h2
                  · exact Or.inr (Or.inr ⟨info, List.mem_cons_self _ _, h2.symm,
                      Relation.ReflTransGen.refl⟩)
                  · exact Or.inr (Or.inl h2)
                · rw [hres] at hZ
                  exact Or.inl ⟨Z, hZ, hk⟩
            · intro info1 hi
              simp only [Option.some.injEq, Except.ok.injEq] at hi
              subst hi
              exact hstep.1 _ (List.mem_cons_self _ _)

/-! ## C11: leaf-first order -/

theorem nestedStructRef_fst_ne (d : TypeDetail) :
    ∀ ref : String × String, nestedStructRef d = some ref → ref.1 ≠ "" := by
  induction d using nestedStructRef.induct with
  | case1 a a1 a2 a3 a4 a5 a6 hh =>
    intro ref h
    simp [nestedStructRef, hh] at h
  | case2 a a1 a2 a3 a4 a5 a6 hh =>
    intro ref h
    simp only [nestedStructRef, hh, if_false, Option.some.injEq] at h
    subst h
    exact fun h0 => hh (Or.inl h0)
  | case3 a a1 a2 a3 a4 a5 =>
    intro ref h
    simp [nestedStructRef] at h
  | case4 a a1 a2 a3 a4 a5 typeInfo ih =>
    intro ref h
    simp only [nestedStructRef] at h
    exact ih ref h
  | case5 a a1 a2 a3 a4 a5 =>
    intro ref h
    simp [nestedStructRef] at h
  | case6 a a1 a2 a3 a4 a5 typeInfo ih =>
    intro ref h
    simp only [nestedStructRef] at h
    exact ih ref h
  | case7 a a1 a2 a3 a4 a5 a6 x h1 h2 h3 =>
    intro ref h
    cases x <;> simp_all [nestedStructRef]

/-- What a successful `ParseRecursive` returns, as a traversal from the
root: the keys are pairwise different, every record is well placed with no
record pending, and every record is reached from the root. -/
theorem ParseRecursive_traversal {W : Loader} {T : GoTypes} {U : Unicode} {k fuel : Nat}
    {pkgPath typeName : String} {infos : List StructInfo}
    (hrefs : RefsCanonical W T U k)
    (h : ParseRecursive W T U k fuel pkgPath typeName = some (.ok infos)) :
    ∃ root, parseWithCache W T U k pkgPath typeName = some (.ok root) ∧
      (infos.map StructInfo.key).Nodup ∧
      GoodList W T U k (rootModulePath W pkgPath) [] [] infos ∧
      ∀ X ∈ infos, Reaches W T U k (rootModulePath W pkgPath) root X := by
  obtain ⟨init, root, hinfos, hroot⟩ := ParseRecursive_ok_split h
  refine ⟨root, hroot, ?_⟩
  unfold ParseRecursive at h
  unfold rootModulePath
  cases hload : loadPackage W pkgPath with
  | error e => simp [hload] at h
  | ok rootPkg =>
    simp only [hload] at h ⊢
    cases hrec : parseRec W T U k
        (match rootPkg.Module with
          | some m => m.Path
          | none => "") fuel pkgPath typeName
        { visited := [], result := [], warnings := [] } with
    | none => simp [hrec] at h
    | some out =>
      obtain ⟨res, st1⟩ := out
      rw [hrec] at h
      cases res with
      | error e => simp at h
      | ok u =>
        simp only [Option.some.injEq, Except.ok.injEq] at h
        obtain ⟨⟨hstep, seg, hres, horig, hgood⟩, _⟩ :=
          parseRec_dfs hrefs fuel pkgPath typeName _ _ st1 hrec []
        simp only [List.nil_append] at hres
        have hseg : seg = infos := by rw [← hres, h]
        subst hseg
        have hinv : st1.Inv := hstep.2.1 ⟨List.nodup_nil, fun _ hx => by simp at hx⟩
        obtain ⟨_, hg⟩ := hgood (fun x hx => by simp at hx)
        refine ⟨?_, hg, ?_⟩
        · rw [← h]
          exact hinv.1
        · intro X hX
          obtain ⟨o, ho, hr⟩ := horig X hX
          rw [hroot] at ho
          simp only [Option.some.injEq, Except.ok.injEq] at ho
          subst ho
          exact hr

/-- A record reached from a parsed record is a parsed record. -/
theorem Reaches_parsed {W : Loader} {T : GoTypes} {U : Unicode} {k : Nat} {rm : String}
    {root X : StructInfo} (h : Reaches W T U k rm root X)
    (hroot : ∃ p n, parseWithCache W T U k p n = some (.ok root)) :
    ∃ p n, parseWithCache W T U k p n = some (.ok X) := by
  induction h with
  | refl => exact hroot
  | tail _ hlast _ =>
    obtain ⟨f, _, ref, _, _, hp⟩ := hlast
    exact ⟨ref.1, ref.2, hp⟩

/-- A record that a parsed record refers to is what the provider returns for
its own namespace and name. -/
theorem parsed_of_RefersTo {W : Loader} {T : GoTypes} {U : Unicode} {k : Nat} {rm : String}
    (hrefs : RefsCanonical W T U k) {Y Z : StructInfo}
    (hY : ∃ p n, parseWithCache W T U k p n = some (.ok Y))
    (h : RefersTo W T U k rm Y Z) :
    parseWithCache W T U k Z.PkgPath Z.Name = some (.ok Z) := by
  obtain ⟨f, hf, ref, href, _, hp⟩ := h
  obtain ⟨p, n, hYp⟩ := hY
  rw [hrefs p n Y hYp f hf ref Z href hp, parseWithCache_Name hp]
  exact hp

/-- A record reached from the root is the root or is what the provider
returns for its own namespace and name. -/
theorem parsed_of_Reaches {W : Loader} {T : GoTypes} {U : Unicode} {k : Nat} {rm : String}
    (hrefs : RefsCanonical W T U k) {root X : StructInfo}
    (hroot : ∃ p n, parseWithCache W T U k p n = some (.ok root))
    (h : Reaches W T U k rm root X) :
    X = root ∨ parseWithCache W T U k X.PkgPath X.Name = some (.ok X) := by
  rcases Relation.ReflTransGen.cases_tail h with h1 | ⟨Y, hY, hlast⟩
  · exact Or.inl h1
  · exact Or.inr (parsed_of_RefersTo hrefs (Reaches_parsed hY hroot) hlast)

/-- References inside the boundary keep a traversal inside the module of
the root (or, without a module, inside the namespace of the root). -/
theorem Inside_of_Reaches {W : Loader} {T : GoTypes} {U : Unicode} {k : Nat}
    {rm rootPath : String} (hrefs : RefsCanonical W T U k) {root X : StructInfo}
    (hparsed : ∃ p n, parseWithCache W T U k p n = some (.ok root))
    (h : Reaches W T U k rm root X) (hroot : Inside rm rootPath root.PkgPath) :
    Inside rm rootPath X.PkgPath := by
  induction h with
  | refl => exact hroot
  | @tail Y Z hY hlast ih =>
    obtain ⟨f, hf, ref, href, hb, hp⟩ := hlast
    obtain ⟨p0, n0, hYp⟩ := Reaches_parsed hY hparsed
    have hZ : Z.PkgPath = ref.1 := hrefs p0 n0 Y hYp f hf ref Z href hp
    rw [hZ]
    unfold shouldRecurseNestedPackage at hb
    split_ifs at hb with h1 h2 h3
    · rcases ih with ⟨hrm, hY⟩ | ⟨hrm, hY⟩
      · exact Or.inl ⟨hrm, by rw [h2, hY]⟩
      · exact Or.inr ⟨hrm, by rw [h2]; exact hY⟩
    · refine Or.inr ⟨h3, ?_⟩
      simp only [Bool.or_eq_true, decide_eq_true_eq] at hb
      exact hb

theorem boundary_of_Inside {rm rootPath a b : String} (ha : Inside rm rootPath a)
    (hb : Inside rm rootPath b) (hne : a ≠ "") :
    shouldRecurseNestedPackage a b rm = true := by
  unfold shouldRecurseNestedPackage
  rcases ha with ⟨hrm, ha1⟩ | ⟨hrm, ha1⟩
  · rcases hb with ⟨_, hb1⟩ | ⟨hrm2, _⟩
    · subst ha1
      subst hb1
      simp [hne]
    · exact absurd hrm hrm2
  · simp only [hne, if_false, hrm]
    split_ifs
    · rfl
    · simpa using ha1

theorem eq_of_key_eq_of_mem {infos : List StructInfo}
    (hnodup : (infos.map StructInfo.key).Nodup) {a b : StructInfo}
    (ha : a ∈ infos) (hb : b ∈ infos) (hk : a.key = b.key) : a = b :=
  List.inj_on_of_nodup_map hnodup ha hb hk

/-- C11, as the code has it. In every list returned by `ParseRecursive`, a
record that is referenced by a record of the list precedes the referencing
record, unless the referencing record is itself reached from the referenced
one through references (the two lie on a reference cycle, or are the same
record). Of the provider the theorem assumes what go/packages guarantees,
whether the root is requested by an import path or by a relative pattern:
the namespaces that field descriptors name are import paths, and the package
of the root lies in its module when it has one. -/
theorem ParseRecursive_leaf_first_unless_cycle (W : Loader) (T : GoTypes) (U : Unicode)
    (k fuel : Nat) (pkgPath typeName : String) (infos : List StructInfo)
    (hrefs : RefsCanonical W T U k)
    (hmod : ∀ root, parseWithCache W T U k pkgPath typeName = some (.ok root) →
      Inside (rootModulePath W pkgPath) root.PkgPath root.PkgPath)
    (h : ParseRecursive W T U k fuel pkgPath typeName = some (.ok infos)) :
    ∀ l1 b l2, infos = l1 ++ b :: l2 → ∀ a ∈ infos, References b a →
      a ∈ l1 ∨ Reaches W T U k (rootModulePath W pkgPath) a b := by
  obtain ⟨root, hroot, hnodup, hgood, hreach⟩ := ParseRecursive_traversal hrefs h
  intro l1 b l2 hsplit a ha href
  have hb : b ∈ infos := by rw [hsplit]; simp
  have hrootp : ∃ p n, parseWithCache W T U k p n = some (.ok root) := ⟨_, _, hroot⟩
  have hinside : ∀ X ∈ infos, Inside (rootModulePath W pkgPath) root.PkgPath X.PkgPath :=
    fun X hX => Inside_of_Reaches hrefs hrootp (hreach X hX) (hmod root hroot)
  rcases parsed_of_Reaches hrefs hrootp (hreach a ha) with hroota | hpa
  · right
    rw [hroota]
    exact hreach b hb
  · obtain ⟨f, hf, hfref⟩ := href
    have hrefers : RefersTo W T U k (rootModulePath W pkgPath) b a :=
      ⟨f, hf, (a.PkgPath, a.Name), hfref,
        boundary_of_Inside (hinside a ha) (hinside b hb) (nestedStructRef_fst_ne _ _ hfref),
        hpa⟩
    have hat : GoodAt W T U k (rootModulePath W pkgPath) [] ([] ++ l1) b l2 :=
      GoodList_at l1 [] b l2 (hsplit ▸ hgood)
    rcases hat a hrefers with ⟨Z, hZ, hk⟩ | hP | ⟨Z, hZ, hk, hr⟩
    · left
      have hZi : Z ∈ infos := by
        rw [hsplit]
        exact List.mem_append_left _ (by simpa using hZ)
      have := eq_of_key_eq_of_mem hnodup hZi ha hk
      subst this
      simpa using hZ
    · simp at hP
    · right
      have hZi : Z ∈ infos := by
        rw [hsplit]
        exact List.mem_append_right _ hZ
      have := eq_of_key_eq_of_mem hnodup hZi ha hk
      subst this
      exact hr

/-- A canonical provider resolves references in the namespace they name. -/
theorem RefsCanonical_of_Canonical {W : Loader} {T : GoTypes} {U : Unicode} {k : Nat}
    (h : Canonical W T U k) : RefsCanonical W T U k :=
  fun _ _ _ _ _ _ ref Y _ hY => h ref.1 ref.2 Y hY

/-- A provider whose packages carry the path they were loaded for is
canonical. -/
theorem Canonical_of_loadPackage {W : Loader} (T : GoTypes) (U : Unicode) (k : Nat)
    (hW : ∀ p pkg, loadPackage W p = .ok pkg → ∀ types, pkg.Types = some types →
      types.Path = p) : Canonical W T U k := by
  intro p n info h
  unfold parseWithCache at h
  cases hload : loadPackage W p with
  | error e => simp [hload] at h
  | ok pkg =>
    simp only [hload] at h
    cases htypes : pkg.Types with
    | none => simp [htypes] at h
    | some types =>
      simp only [htypes] at h
      have hpath := hW p pkg hload types htypes
      cases hscope : types.Scope with
      | none => simp [hscope] at h
      | some lookup =>
        simp only [hscope] at h
        cases hl : lookup n with
        | none => simp [hl] at h
        | some objType =>
          simp only [hl] at h
          cases hex : extractStructType T objType with
          | none => simp [hex] at h
          | some st =>
            simp only [hex] at h
            cases hfl : flattenFields T U k st (parseQualifier pkg) with
            | none => simp [hfl] at h
            | some fields =>
              simp only [hfl, Option.some.injEq, Except.ok.injEq] at h
              rw [← h]
              exact hpath

theorem exampleLoader_loadPackage (p : String) (pkg : Package)
    (h : loadPackage exampleLoader p = .ok pkg) :
    ∀ types, pkg.Types = some types → types.Path = p := by
  unfold loadPackage exampleLoader at h
  simp only at h
  split_ifs at h with h1 h2 h3 h4 h5 <;>
    simp only [List.map, List.sum_cons, List.sum_nil, nestedPackage, nodePackage,
      examplePackage, Nat.lt_irrefl, gt_iff_lt, add_zero, if_false, Except.ok.injEq,
      reduceCtorEq] at h <;>
    subst h <;> intro types ht <;>
    simp only [Option.some.injEq] at ht <;> subst ht <;> simp only <;> first
      | exact h1.symm | exact h2.symm | exact h3.symm | exact h4.symm | exact h5.symm

theorem exampleLoader_canonical (k : Nat) :
    Canonical exampleLoader exampleTypes asciiUnicode k :=
  Canonical_of_loadPackage _ _ k exampleLoader_loadPackage


theorem References_of_mem_map {b a : StructInfo}
    (h : some (a.PkgPath, a.Name) ∈ b.Fields.map (fun f => nestedStructRef f.TypeInfo)) :
    References b a := by
  obtain ⟨f, hf, href⟩ := List.mem_map.mp h
  exact ⟨f, hf, href⟩

theorem pongInfo_References : References pongInfo pingInfo := by
  apply References_of_mem_map
  have h : pongInfo.Fields.map (fun f => nestedStructRef f.TypeInfo) =
      [some (pingInfo.PkgPath, pingInfo.Name)] := rfl
  rw [h]
  exact List.mem_singleton.mpr rfl

theorem relativeLoader_cycle (p : String) (h : p = "./cycle" ∨ p = pkgCycle.Path) :
    loadPackage relativeLoader p = .ok (examplePackage pkgCycle ["Ping", "Pong"]) := by
  unfold loadPackage relativeLoader
  simp only [h, if_true]
  rfl

theorem relativeLoader_holder (p : String) (h : p = "./holder" ∨ p = pkgHolder.Path) :
    loadPackage relativeLoader p = .ok (examplePackage pkgHolder ["Holder"]) := by
  have hne : ¬ (p = "./cycle" ∨ p = pkgCycle.Path) := by
    rcases h with h | h <;> subst h <;> decide
  unfold loadPackage relativeLoader
  simp only [hne, h, if_true, if_false]
  rfl

theorem relativeLoader_other (p : String) (h1 : ¬ (p = "./cycle" ∨ p = pkgCycle.Path))
    (h2 : ¬ (p = "./holder" ∨ p = pkgHolder.Path)) :
    loadPackage relativeLoader p = .error (.loadFailed p "no such package") := by
  unfold loadPackage relativeLoader
  simp only [h1, h2, if_false]

/-- What the provider `relativeLoader` resolves: the records Ping and Pong of
`testdata/cycle` and the record Holder of `testdata/holder`, each carrying
its import path, whatever the pattern it was requested by. -/
theorem relativeLoader_parsed (p n : String) (info : StructInfo)
    (h : parseWithCache relativeLoader exampleTypes asciiUnicode 10 p n = some (.ok info)) :
    (n = "Ping" ∧ info = pingInfo) ∨ (n = "Pong" ∧ info = pongInfo) ∨
      (n = "Holder" ∧ info = holderInfo) := by
  by_cases hc : p = "./cycle" ∨ p = pkgCycle.Path
  · have hload := relativeLoader_cycle p hc
    by_cases hn : n ∈ ["Ping", "Pong"]
    · simp only [List.mem_cons, List.mem_singleton, List.not_mem_nil, or_false] at hn
      rcases hn with hn | hn
      · subst hn
        have h2 : parseWithCache relativeLoader exampleTypes asciiUnicode 10 p "Ping" =
            some (.ok pingInfo) := by
          simp only [parseWithCache, hload]
          rfl
        rw [h2] at h
        simp only [Option.some.injEq, Except.ok.injEq] at h
        exact Or.inl ⟨rfl, h.symm⟩
      · subst hn
        have h2 : parseWithCache relativeLoader exampleTypes asciiUnicode 10 p "Pong" =
            some (.ok pongInfo) := by
          simp only [parseWithCache, hload]
          rfl
        rw [h2] at h
        simp only [Option.some.injEq, Except.ok.injEq] at h
        exact Or.inr (Or.inl ⟨rfl, h.symm⟩)
    · simp only [parseWithCache, hload, examplePackage, hn, if_false] at h
      simp at h
  · by_cases hh : p = "./holder" ∨ p = pkgHolder.Path
    · have hload := relativeLoader_holder p hh
      by_cases hn : n ∈ ["Holder"]
      · simp only [List.mem_singleton] at hn
        subst hn
        have h2 : parseWithCache relativeLoader exampleTypes asciiUnicode 10 p "Holder" =
            some (.ok holderInfo) := by
          simp only [parseWithCache, hload]
          rfl
        rw [h2] at h
        simp only [Option.some.injEq, Except.ok.injEq] at h
        exact Or.inr (Or.inr ⟨rfl, h.symm⟩)
      · simp only [parseWithCache, hload, examplePackage, hn, if_false] at h
        simp at h
    · rw [parseWithCache_of_load_error 10 n (relativeLoader_other p hc hh)] at h
      simp at h

theorem relativeLoader_refs :
    RefsCanonical relativeLoader exampleTypes asciiUnicode 10 := by
  intro p n info hp f hf ref Y href hY
  have hYcases := relativeLoader_parsed ref.1 ref.2 Y hY
  rcases relativeLoader_parsed p n info hp with ⟨_, hi⟩ | ⟨_, hi⟩ | ⟨_, hi⟩
  · subst hi
    have hrefs : pingInfo.Fields.map (fun f => nestedStructRef f.TypeInfo) =
        [some (pkgCycle.Path, "Pong")] := rfl
    have hmem : some ref ∈ pingInfo.Fields.map (fun f => nestedStructRef f.TypeInfo) :=
      List.mem_map.mpr ⟨f, hf, href⟩
    rw [hrefs, List.mem_singleton, Option.some.injEq] at hmem
    subst hmem
    rcases hYcases with ⟨hn, _⟩ | ⟨_, hy⟩ | ⟨hn, _⟩
    · exact absurd hn (by decide)
    · rw [hy]; rfl
    · exact absurd hn (by decide)
  · subst hi
    have hrefs : pongInfo.Fields.map (fun f => nestedStructRef f.TypeInfo) =
        [some (pkgCycle.Path, "Ping")] := rfl
    have hmem : some ref ∈ pongInfo.Fields.map (fun f => nestedStructRef f.TypeInfo) :=
      List.mem_map.mpr ⟨f, hf, href⟩
    rw [hrefs, List.mem_singleton, Option.some.injEq] at hmem
    subst hmem
    rcases hYcases with ⟨_, hy⟩ | ⟨hn, _⟩ | ⟨hn, _⟩
    · rw [hy]; rfl
    · exact absurd hn (by decide)
    · exact absurd hn (by decide)
  · subst hi
    have hrefs : holderInfo.Fields.map (fun f => nestedStructRef f.TypeInfo) =
        [some (pkgMissing.Path, "Thing"), none] := rfl
    have hmem : some ref ∈ holderInfo.Fields.map (fun f => nestedStructRef f.TypeInfo) :=
      List.mem_map.mpr ⟨f, hf, href⟩
    rw [hrefs] at hmem
    simp only [List.mem_cons, Option.some.injEq, reduceCtorEq, List.mem_singleton,
      List.not_mem_nil, or_false] at hmem
    subst hmem
    rcases hYcases with ⟨hn, _⟩ | ⟨hn, _⟩ | ⟨hn, _⟩ <;> exact absurd hn (by decide)

/-- C11, witness. The root `Ping` is requested by the relative pattern
`./cycle`; its field has the type `*Pong` while `Pong` has a field of type
`*Ping`. The list is Pong, Ping: Pong refers to Ping, which does not
precede it, and Pong is reached from Ping. For `parsernested.Root`,
requested by its import path, the list is Leaf, Child, Root, and every
referenced record precedes the referencing one or is reached from it. -/
theorem ParseRecursive_leaf_first_unless_cycle_witness :
    (ParseRecursive relativeLoader exampleTypes asciiUnicode 10 4 "./cycle" "Ping" =
      some (.ok ([] ++ pongInfo :: [pingInfo])) ∧
     pingInfo.PkgPath = "github.com/seitarof/gen-dto/testdata/cycle" ∧
     References pongInfo pingInfo ∧
     (pingInfo ∈ ([] : List StructInfo) ∨
      Reaches relativeLoader exampleTypes asciiUnicode 10
        (rootModulePath relativeLoader "./cycle") pingInfo pongInfo)) ∧
    (nestedInfos.map (fun info => info.Name) = ["Leaf", "Child", "Root"] ∧
     ∀ l1 b l2, nestedInfos = l1 ++ b :: l2 → ∀ a ∈ nestedInfos, References b a →
      a ∈ l1 ∨ Reaches exampleLoader exampleTypes asciiUnicode 10
        (rootModulePath exampleLoader pkgNested.Path) a b) :=
  ⟨⟨rfl, rfl, pongInfo_References,
    ParseRecursive_leaf_first_unless_cycle relativeLoader exampleTypes asciiUnicode 10 4
      "./cycle" "Ping" [pongInfo, pingInfo] relativeLoader_refs
      (fun root hroot => by
        have h : root = pingInfo := by
          have h2 : parseWithCache relativeLoader exampleTypes asciiUnicode 10 "./cycle"
              "Ping" = some (.ok pingInfo) := rfl
          rw [h2] at hroot
          simpa using hroot.symm
        subst h
        exact Or.inr ⟨by decide, Or.inr rfl⟩)
      rfl [] pongInfo [pingInfo] rfl pingInfo (by simp)
      pongInfo_References⟩,
   ⟨rfl,
    ParseRecursive_leaf_first_unless_cycle exampleLoader exampleTypes asciiUnicode 10 4
      pkgNested.Path "Root" nestedInfos
      (RefsCanonical_of_Canonical (exampleLoader_canonical 10))
      (fun root hroot => by
        have h : root.PkgPath = pkgNested.Path := exampleLoader_canonical 10 _ _ _ hroot
        rw [h]
        exact Or.inr ⟨by decide, Or.inr rfl⟩)
      rfl⟩⟩

/-- C11, counterexample. `cycle.Ping` has a field of type `*Pong` and
`cycle.Pong` a field of type `*Ping`. `ParseRecursive` for Ping returns the
list Pong, Ping: the record Ping is referenced by the record Pong of the
same list and comes after it, so the list is not leaf-first. -/
theorem ParseRecursive_leaf_first_counterexample :
    ParseRecursive exampleLoader exampleTypes asciiUnicode 10 4 pkgCycle.Path "Ping" =
      some (.ok [pongInfo, pingInfo]) ∧
    pongInfo.Fields.map (fun f => nestedStructRef f.TypeInfo) =
      [some (pingInfo.PkgPath, pingInfo.Name)] ∧
    (pingInfo.Name, pongInfo.Name) = ("Ping", "Pong") ∧
    ¬ LeafFirst [pongInfo, pingInfo] := by
  refine ⟨rfl, rfl, rfl, ?_⟩
  intro h
  have hne : pingInfo ≠ pongInfo := by
    intro heq
    have hn : pingInfo.Name = pongInfo.Name := by rw [heq]
    have h1 : pingInfo.Name = "Ping" := rfl
    have h2 : pongInfo.Name = "Pong" := rfl
    rw [h1, h2] at hn
    exact absurd hn (by decide)
  have := h [] pongInfo [pingInfo] rfl pingInfo (by simp) hne
    pongInfo_References
  simp at this

/-! ## C13: errors come from the root only -/

/-- With fuel for at least the root, `ParseRecursive` returns an error
exactly when the parse of the root does, and it is that error. -/
theorem ParseRecursive_error_iff {W : Loader} {T : GoTypes} {U : Unicode} {k fuel : Nat}
    {pkgPath typeName : String} (hfuel : 0 < fuel) (e : ParseError) :
    ParseRecursive W T U k fuel pkgPath typeName = some (.error e) ↔
      parseWithCache W T U k pkgPath typeName = some (.error e) := by
  unfold ParseRecursive
  cases hload : loadPackage W pkgPath with
  | error e1 =>
    rw [parseWithCache_of_load_error k typeName hload]
    simp
  | ok rootPkg =>
    simp only
    obtain ⟨n, rfl⟩ : ∃ n, fuel = n + 1 := ⟨fuel - 1, by omega⟩
    cases hparse : parseWithCache W T U k pkgPath typeName with
    | none => simp [parseRec_diverged n _ hparse]
    | some r =>
      cases r with
      | error e1 => simp [parseRec_error n _ hparse]
      | ok info =>
        cases hrec : parseRec W T U k
            (match rootPkg.Module with
              | some m => m.Path
              | none => "") (n + 1) pkgPath typeName
            { visited := [], result := [], warnings := [] } with
        | none => simp
        | some out =>
          obtain ⟨res, st1⟩ := out
          have hres := parseRec_result_of_root_ok (n + 1) _ hparse hrec
          subst hres
          simp

theorem append_dot_inj :
    ∀ (a c b d : List Char), '.' ∉ b → '.' ∉ d → a ++ '.' :: b = c ++ '.' :: d →
      a = c ∧ b = d := by
  intro a
  induction a with
  | nil =>
    intro c b d hb hd h
    cases c with
    | nil => simpa using h
    | cons y c1 =>
      simp only [List.nil_append, List.cons_append, List.cons.injEq] at h
      exact absurd (h.2 ▸ (by simp : '.' ∈ c1 ++ '.' :: d)) hb
  | cons x a1 ih =>
    intro c b d hb hd h
    cases c with
    | nil =>
      simp only [List.nil_append, List.cons_append, List.cons.injEq] at h
      exact absurd (h.2 ▸ (by simp : '.' ∈ a1 ++ '.' :: b)) hd
    | cons y c1 =>
      simp only [List.cons_append, List.cons.injEq] at h
      obtain ⟨h1, h2⟩ := ih c1 b d hb hd h.2
      exact ⟨by rw [h.1, h1], h2⟩

/-- Records whose names contain no dot and whose keys agree have the same
namespace and the same name. -/
theorem key_inj {A B : StructInfo} (hA : '.' ∉ A.Name.data) (hB : '.' ∉ B.Name.data)
    (h : A.key = B.key) : A.PkgPath = B.PkgPath ∧ A.Name = B.Name := by
  have hd := congrArg String.data h
  simp only [StructInfo.key, String.data_append] at hd
  rw [List.append_assoc, List.append_assoc] at hd
  obtain ⟨h1, h2⟩ := append_dot_inj _ _ _ _ hA hB hd
  exact ⟨String.ext h1, String.ext h2⟩

/-- Two parsed records with the same key are the same record. -/
theorem parsed_eq_of_key_eq {W : Loader} {T : GoTypes} {U : Unicode} {k : Nat}
    (hnodot : NoDot W T U k) {A B : StructInfo}
    (hA : parseWithCache W T U k A.PkgPath A.Name = some (.ok A))
    (hB : parseWithCache W T U k B.PkgPath B.Name = some (.ok B))
    (h : A.key = B.key) : A = B := by
  obtain ⟨h1, h2⟩ := key_inj (hnodot _ _ _ hA) (hnodot _ _ _ hB) h
  rw [h1, h2, hB] at hA
  simpa using hA.symm

/-- C13. Let `ParseRecursive` have fuel for at least the root. It returns
an error exactly when the parse of the root record returns one, and then it
is that error: a nested reference that cannot be resolved never makes it
fail. When the parse of the root record returns a record, on a finite set of
records that is closed under reference and each of whose per-record parses
returns, `ParseRecursive` returns a list for every bound above the number of
records, and the list holds the root. Of the provider the last part assumes
what go/packages guarantees, whether the root is requested by an import path
or by a relative pattern: the namespaces that field descriptors name are
the import paths of their packages, the root is the same record when it is
requested by its import path, and declared names hold no dot. Then a record
is in the list exactly when it is reached from the root through references
that resolve inside the recursion boundary: the root and all resolvable
records are returned, and the references that do not resolve are skipped. -/
theorem ParseRecursive_error_iff_root_unresolved (W : Loader) (T : GoTypes) (U : Unicode)
    (k fuel : Nat) (pkgPath typeName : String) (hfuel : 0 < fuel) :
    (∀ e, ParseRecursive W T U k fuel pkgPath typeName = some (.error e) ↔
      parseWithCache W T U k pkgPath typeName = some (.error e)) ∧
    (∀ univ : List (String × String), (pkgPath, typeName) ∈ univ →
      (∀ pn ∈ univ, parseWithCache W T U k pn.1 pn.2 ≠ none) →
      (∀ pn ∈ univ, ∀ info, parseWithCache W T U k pn.1 pn.2 = some (.ok info) →
        ∀ f ∈ info.Fields, ∀ ref, nestedStructRef f.TypeInfo = some ref → ref ∈ univ) →
      univ.length < fuel →
      ∀ root, parseWithCache W T U k pkgPath typeName = some (.ok root) →
        ∃ infos, ParseRecursive W T U k fuel pkgPath typeName = some (.ok infos) ∧
          root ∈ infos ∧
          (RefsCanonical W T U k → RootCoherent W T U k pkgPath typeName → NoDot W T U k →
            ∀ X, X ∈ infos ↔ Reaches W T U k (rootModulePath W pkgPath) root X)) := by
  refine ⟨fun e => ParseRecursive_error_iff hfuel e, ?_⟩
  intro univ hmemu hret hclosed hlen root hroot
  obtain ⟨r, hr, _⟩ :=
    ParseRecursive_returns_once W T U k univ pkgPath typeName hmemu hret hclosed fuel hlen
  cases r with
  | error e =>
    have herr := (ParseRecursive_error_iff hfuel e).mp hr
    rw [hroot] at herr
    simp at herr
  | ok infos =>
    obtain ⟨init, root1, hsplit, hroot1⟩ := ParseRecursive_ok_split hr
    rw [hroot] at hroot1
    simp only [Option.some.injEq, Except.ok.injEq] at hroot1
    subst hroot1
    have hmem : root ∈ infos := by rw [hsplit]; simp
    refine ⟨infos, hr, hmem, ?_⟩
    intro hrefs hcoh hnodot
    obtain ⟨root2, hroot2, hnodup, hgood, hreach⟩ := ParseRecursive_traversal hrefs hr
    rw [hroot] at hroot2
    simp only [Option.some.injEq, Except.ok.injEq] at hroot2
    subst hroot2
    have hrootp : ∃ p n, parseWithCache W T U k p n = some (.ok root) := ⟨_, _, hroot⟩
    have hself : parseWithCache W T U k root.PkgPath root.Name = some (.ok root) := by
      rw [parseWithCache_Name hroot]
      exact hcoh root hroot
    have hparsed : ∀ X ∈ infos, parseWithCache W T U k X.PkgPath X.Name = some (.ok X) := by
      intro X hX
      rcases parsed_of_Reaches hrefs hrootp (hreach X hX) with hX1 | hX1
      · rw [hX1]
        exact hself
      · exact hX1
    refine fun X => ⟨hreach X, ?_⟩
    intro hr1
    induction hr1 with
    | refl => exact hmem
    | @tail Y Z hY hlast ih =>
      obtain ⟨l1, l2, hl⟩ := List.append_of_mem ih
      have hat : GoodAt W T U k (rootModulePath W pkgPath) [] ([] ++ l1) Y l2 :=
        GoodList_at l1 [] Y l2 (hl ▸ hgood)
      have hZ : parseWithCache W T U k Z.PkgPath Z.Name = some (.ok Z) :=
        parsed_of_RefersTo hrefs (Reaches_parsed hY hrootp) hlast
      have hfound : ∃ Z1 ∈ infos, Z1.key = Z.key := by
        rcases hat Z hlast with ⟨Z1, hZ1, hk⟩ | hP | ⟨Z1, hZ1, hk, _⟩
        · exact ⟨Z1, by rw [hl]; exact List.mem_append_left _ (by simpa using hZ1), hk⟩
        · simp at hP
        · exact ⟨Z1, by rw [hl]; exact List.mem_append_right _ hZ1, hk⟩
      obtain ⟨Z1, hZ1, hk⟩ := hfound
      have := parsed_eq_of_key_eq hnodot (hparsed Z1 hZ1) hZ hk
      subst this
      exact hZ1

/-- A provider whose scopes declare only names without a dot resolves only
such names. -/
theorem NoDot_of_loadPackage {W : Loader} (T : GoTypes) (U : Unicode) (k : Nat)
    (hW : ∀ p pkg, loadPackage W p = .ok pkg → ∀ types, pkg.Types = some types →
      ∀ lookup, types.Scope = some lookup → ∀ n t, lookup n = some t → '.' ∉ n.data) :
    NoDot W T U k := by
  intro p n info h
  unfold parseWithCache at h
  cases hload : loadPackage W p with
  | error e => simp [hload] at h
  | ok pkg =>
    simp only [hload] at h
    cases htypes : pkg.Types with
    | none => simp [htypes] at h
    | some types =>
      simp only [htypes] at h
      cases hscope : types.Scope with
      | none => simp [hscope] at h
      | some lookup =>
        simp only [hscope] at h
        cases hl : lookup n with
        | none => simp [hl] at h
        | some objType => exact hW p pkg hload types htypes lookup hscope n objType hl

theorem nodot_of_mem (names : List String) (hall : ∀ x ∈ names, '.' ∉ x.data)
    (f : String → GoType) (n : String) (t : GoType)
    (hn : (if n ∈ names then some (f n) else none) = some t) : '.' ∉ n.data := by
  split_ifs at hn with hc
  exact hall n hc

theorem examplePackage_scope (pkg : Pkg) (names : List String)
    (hall : ∀ x ∈ names, '.' ∉ x.data) :
    ∀ types, (examplePackage pkg names).Types = some types →
      ∀ lookup, types.Scope = some lookup → ∀ n t, lookup n = some t → '.' ∉ n.data := by
  intro types ht lookup hs n t hn
  simp only [examplePackage, Option.some.injEq] at ht
  subst ht
  simp only [Option.some.injEq] at hs
  subst hs
  exact nodot_of_mem names hall (fun name => GoType.Named { Pkg := some pkg, Name := name })
    n t hn

theorem exampleLoader_scope (p : String) (pkg : Package)
    (h : loadPackage exampleLoader p = .ok pkg) :
    ∀ types, pkg.Types = some types → ∀ lookup, types.Scope = some lookup →
      ∀ n t, lookup n = some t → '.' ∉ n.data := by
  unfold loadPackage exampleLoader at h
  simp only at h
  split_ifs at h with h1 h2 h3 h4 h5
  · simp only at h
    rw [if_neg (by decide)] at h
    simp only [Except.ok.injEq] at h
    subst h
    intro types ht lookup hs n t hn
    simp only [nestedPackage, Option.some.injEq] at ht
    subst ht
    simp only [Option.some.injEq] at hs
    subst hs
    simp only at hn
    split_ifs at hn with hc
    rcases hc with rfl | rfl | rfl <;> decide
  · simp only at h
    rw [if_neg (by decide)] at h
    simp only [Except.ok.injEq] at h
    subst h
    intro types ht lookup hs n t hn
    simp only [nodePackage, Option.some.injEq] at ht
    subst ht
    simp only [Option.some.injEq] at hs
    subst hs
    simp only at hn
    split_ifs at hn with hc
    subst hc
    decide
  · simp only at h
    rw [if_neg (by decide)] at h
    simp only [Except.ok.injEq] at h
    subst h
    exact examplePackage_scope _ _ (by decide)
  · simp only at h
    rw [if_neg (by decide)] at h
    simp only [Except.ok.injEq] at h
    subst h
    exact examplePackage_scope _ _ (by decide)
  · simp only at h
    rw [if_neg (by decide)] at h
    simp only [Except.ok.injEq] at h
    subst h
    exact examplePackage_scope _ _ (by decide)

theorem exampleLoader_nodot (k : Nat) : NoDot exampleLoader exampleTypes asciiUnicode k :=
  NoDot_of_loadPackage _ _ k exampleLoader_scope

theorem relativeLoader_nodot : NoDot relativeLoader exampleTypes asciiUnicode 10 := by
  apply NoDot_of_loadPackage
  intro p pkg h
  by_cases hc : p = "./cycle" ∨ p = pkgCycle.Path
  · rw [relativeLoader_cycle p hc] at h
    simp only [Except.ok.injEq] at h
    subst h
    exact examplePackage_scope _ _ (by decide)
  · by_cases hh : p = "./holder" ∨ p = pkgHolder.Path
    · rw [relativeLoader_holder p hh] at h
      simp only [Except.ok.injEq] at h
      subst h
      exact examplePackage_scope _ _ (by decide)
    · rw [relativeLoader_other p hc hh] at h
      simp at h

theorem relativeLoader_holder_coherent :
    RootCoherent relativeLoader exampleTypes asciiUnicode 10 "./holder" "Holder" := by
  intro root hroot
  have h2 : parseWithCache relativeLoader exampleTypes asciiUnicode 10 "./holder" "Holder" =
      some (.ok holderInfo) := rfl
  rw [h2] at hroot
  simp only [Option.some.injEq, Except.ok.injEq] at hroot
  subst hroot
  rfl

/-- C13, witness. The provider resolves the relative pattern `./holder` to
the package `testdata/holder`. The name `Nope` is not declared in it:
`ParseRecursive` returns the error of the root parse. The record
`holder.Holder` has a field of type `missing.Thing`, which the provider
cannot load: `ParseRecursive` returns a list, the list holds Holder, and its
records are the records reached from Holder. -/
theorem ParseRecursive_error_iff_root_unresolved_witness :
    (ParseRecursive relativeLoader exampleTypes asciiUnicode 10 4 "./holder" "Nope" =
        some (.error (.structNotFound "Nope" "./holder")) ↔
      parseWithCache relativeLoader exampleTypes asciiUnicode 10 "./holder" "Nope" =
        some (.error (.structNotFound "Nope" "./holder"))) ∧
    holderInfo.PkgPath = "github.com/seitarof/gen-dto/testdata/holder" ∧
    ∃ infos, ParseRecursive relativeLoader exampleTypes asciiUnicode 10 4 "./holder"
        "Holder" = some (.ok infos) ∧ holderInfo ∈ infos ∧
      ∀ X, X ∈ infos ↔ Reaches relativeLoader exampleTypes asciiUnicode 10
        (rootModulePath relativeLoader "./holder") holderInfo X :=
  ⟨(ParseRecursive_error_iff_root_unresolved relativeLoader exampleTypes asciiUnicode 10 4
      "./holder" "Nope" (by decide)).1 _,
   rfl,
   match (ParseRecursive_error_iff_root_unresolved relativeLoader exampleTypes asciiUnicode
      10 4 "./holder" "Holder" (by decide)).2 holderUniverse (List.mem_cons_self _ _)
      (recordsClosed_spec (by rfl : recordsClosed relativeLoader exampleTypes asciiUnicode 10
        holderUniverse = true)).1
      (recordsClosed_spec (by rfl : recordsClosed relativeLoader exampleTypes asciiUnicode 10
        holderUniverse = true)).2
      (by decide) holderInfo rfl with
   | ⟨infos, h, hmem, hiff⟩ =>
     ⟨infos, h, hmem, hiff relativeLoader_refs relativeLoader_holder_coherent
       relativeLoader_nodot⟩⟩

/-! ## C19, C20: field matching -/

theorem GoMap.get_set {α : Type} (m : GoMap α) (k key : String) (v : α) :
    (m.set k v).get key = if k = key then some v else m.get key := by
  unfold GoMap.set GoMap.get
  cases hfind : List.find? (fun e => e.1 == k) m with
  | none =>
    simp only [Option.isSome_none, Bool.false_eq_true, if_false, List.append_eq,
      List.find?_append]
    by_cases hk : k = key
    · subst hk
      simp [hfind]
    · simp [hk]
  | some e0 =>
    simp only [Option.isSome_some, if_true, List.find?_map]
    have hcomp : ((fun e : String × α => e.1 == key) ∘
        fun e : String × α => if (e.1 == k) = true then (k, v) else e) =
        fun e => e.1 == key := by
      funext e
      simp only [Function.comp]
      split_ifs with h
      · rw [beq_iff_eq] at h
        rw [h]
      · rfl
    rw [hcomp]
    have h0 : e0.1 = k := by simpa using List.find?_some hfind
    by_cases hk : k = key
    · subst hk
      simp [hfind, h0]
    · simp only [hk, if_false]
      cases hf2 : List.find? (fun e => e.1 == key) m with
      | none => rfl
      | some e1 =>
        have h1 : e1.1 = key := by simpa using List.find?_some hf2
        have hne : ¬ e1.1 = k := by
          rw [h1]
          exact fun h => hk h.symm
        simp [hne]

theorem GoMap.get_nil {α : Type} (key : String) : GoMap.get ([] : List (String × α)) key = none :=
  rfl

/-- The index built from the destination fields maps a lower-cased name to
the last field with that name. -/
theorem dstMap_get (U : Unicode) (key : String) :
    ∀ (fields : List FieldInfo) (m : GoMap FieldInfo),
      (fields.foldl (fun m f => GoMap.set m (strings.ToLower U f.Name) f) m).get key =
        match (fields.filter (fun f => strings.ToLower U f.Name = key)).getLast? with
        | some f => some f
        | none => m.get key := by
  intro fields
  induction fields with
  | nil => intro m; rfl
  | cons x rest ih =>
    intro m
    rw [List.foldl_cons, ih, GoMap.get_set]
    by_cases hx : strings.ToLower U x.Name = key
    · simp only [hx, if_true, List.filter_cons, decide_True]
      cases hl : (rest.filter (fun f => strings.ToLower U f.Name = key)).getLast? with
      | none =>
        have : rest.filter (fun f => strings.ToLower U f.Name = key) = [] := by
          simpa using hl
        simp [this]
      | some f =>
        rw [List.getLast?_cons, hl]
        rfl
    · simp only [hx, if_false, List.filter_cons, decide_False, Bool.false_eq_true]

/-- The ignore set holds exactly the ignored names. -/
theorem toIgnoreSet_get (U : Unicode) (key : String) :
    ∀ (ignoreFields : List String) (set : GoMap Bool),
      ((ignoreFields.foldl (fun set f =>
          if strings.TrimSpace U (strings.ToLower U f) = "" then set
          else GoMap.set set (strings.TrimSpace U (strings.ToLower U f)) true) set).get
        key).getD false =
        (decide (key ∈ ignoredNames U ignoreFields) || (set.get key).getD false) := by
  intro ignoreFields
  induction ignoreFields with
  | nil => intro set; simp [ignoredNames]
  | cons x rest ih =>
    intro set
    rw [List.foldl_cons, ih]
    by_cases hx : strings.TrimSpace U (strings.ToLower U x) = ""
    · simp [hx, ignoredNames]
    · simp only [hx, if_false, GoMap.get_set]
      by_cases hk : strings.TrimSpace U (strings.ToLower U x) = key
      · simp [hk, ignoredNames, hx]
        subst hk
        simp [hx]
      · have hk2 : ¬ key = strings.TrimSpace U (strings.ToLower U x) := fun h => hk h.symm
        simp [hk, hk2, ignoredNames, hx]

theorem foldl_append_filterMap {α β : Type} (f : α → Option β) :
    ∀ (l : List α) (init : List β),
      l.foldl (fun acc x => acc ++ (f x).toList) init = init ++ l.filterMap f := by
  intro l
  induction l with
  | nil => intro init; simp
  | cons x rest ih =>
    intro init
    rw [List.foldl_cons, ih]
    cases hf : f x with
    | none => simp [List.filterMap_cons, hf]
    | some y => simp [List.filterMap_cons, hf]

/-- The loop of `Match` computes the pairs of `MatchSpec`. -/
theorem Match_eq_filterMap (U : Unicode) (src dst : StructInfo)
    (ignoreFields : List String) :
    fieldMatcherImpl.Match U src dst ignoreFields = MatchSpec U src dst ignoreFields := by
  unfold fieldMatcherImpl.Match MatchSpec
  simp only
  have hstep : (fun (pairs : List FieldPair) (sf : FieldInfo) =>
      if (GoMap.get (toIgnoreSet U ignoreFields) (strings.ToLower U sf.Name)).getD false = true
      then pairs
      else
        match GoMap.get (List.foldl (fun m f => GoMap.set m (strings.ToLower U f.Name) f)
            ([] : List (String × FieldInfo)) dst.Fields) (strings.ToLower U sf.Name) with
        | none => pairs
        | some df => pairs ++ [{ SrcField := sf, DstField := df }]) =
      fun pairs sf =>
        pairs ++ (if strings.ToLower U sf.Name ∈ ignoredNames U ignoreFields then none
          else (lastNamed U dst (strings.ToLower U sf.Name)).map
            (fun df => ({ SrcField := sf, DstField := df } : FieldPair))).toList := by
    funext pairs sf
    have hig := toIgnoreSet_get U (strings.ToLower U sf.Name) ignoreFields []
    simp only [GoMap.get_nil, Option.getD_none, Bool.or_false] at hig
    unfold toIgnoreSet
    simp only
    rw [hig, dstMap_get, GoMap.get_nil]
    unfold lastNamed
    by_cases hin : strings.ToLower U sf.Name ∈ ignoredNames U ignoreFields
    · simp [hin]
    · simp only [hin, decide_False, Bool.false_eq_true, if_false]
      cases (List.filter (fun f => decide (strings.ToLower U f.Name = strings.ToLower U sf.Name))
        dst.Fields).getLast? <;> simp
  rw [hstep]
  exact (foldl_append_filterMap
    (fun sf => if strings.ToLower U sf.Name ∈ ignoredNames U ignoreFields then none
      else (lastNamed U dst (strings.ToLower U sf.Name)).map
        (fun df => ({ SrcField := sf, DstField := df } : FieldPair)))
    src.Fields []).trans (List.nil_append _)

/-- C19. For every source record, destination record and ignore list,
`Match` returns, in source-field order, exactly one pair for each source
field whose lower-cased name is not in the ignore set (entries lower-cased
and trimmed, blank entries dropped) and is the lower-cased name of some
destination field, paired with the last destination field of that name;
the other source fields yield no pair. -/
theorem Match_refines_MatchSpec (U : Unicode) (src dst : StructInfo)
    (ignoreFields : List String) :
    fieldMatcherImpl.Match U src dst ignoreFields = MatchSpec U src dst ignoreFields :=
  Match_eq_filterMap U src dst ignoreFields

theorem lastNamed_lower {U : Unicode} {dst : StructInfo} {lower : String} {df : FieldInfo}
    (h : lastNamed U dst lower = some df) : strings.ToLower U df.Name = lower := by
  unfold lastNamed at h
  have hmem := List.mem_of_getLast?_eq_some h
  simpa using (List.mem_filter.mp hmem).2

/-- The lower-cased destination names of the pairs form a sublist of the
lower-cased source names. -/
theorem MatchSpec_sublist (U : Unicode) (dst : StructInfo) (ignoreFields : List String) :
    ∀ fields : List FieldInfo,
      ((fields.filterMap (fun sf =>
          if strings.ToLower U sf.Name ∈ ignoredNames U ignoreFields then none
          else (lastNamed U dst (strings.ToLower U sf.Name)).map
            (fun df => ({ SrcField := sf, DstField := df } : FieldPair)))).map
        (fun p => strings.ToLower U p.DstField.Name)).Sublist
      (fields.map (fun f => strings.ToLower U f.Name)) := by
  intro fields
  induction fields with
  | nil => simp
  | cons x rest ih =>
    rw [List.filterMap_cons]
    by_cases hin : strings.ToLower U x.Name ∈ ignoredNames U ignoreFields
    · simp only [hin, if_true, List.map_cons]
      exact List.Sublist.cons _ ih
    · simp only [hin, if_false]
      cases hl : lastNamed U dst (strings.ToLower U x.Name) with
      | none =>
        simp only [Option.map_none', List.map_cons]
        exact List.Sublist.cons _ ih
      | some df =>
        simp only [Option.map_some', List.map_cons, lastNamed_lower hl]
        exact List.Sublist.cons₂ _ ih

/-- C20, as the code has it. When the lower-cased names of the source
fields are pairwise different, the destination fields of the pairs of
`Match` have pairwise different lower-cased names, and no destination field
occurs in two pairs. -/
theorem Match_no_multi_match (U : Unicode) (src dst : StructInfo) (ignoreFields : List String)
    (hsrc : (src.Fields.map (fun f => strings.ToLower U f.Name)).Nodup) :
    ((fieldMatcherImpl.Match U src dst ignoreFields).map
      (fun p => strings.ToLower U p.DstField.Name)).Nodup ∧
    NoMultiMatch (fieldMatcherImpl.Match U src dst ignoreFields) := by
  have hnodup : ((fieldMatcherImpl.Match U src dst ignoreFields).map
      (fun p => strings.ToLower U p.DstField.Name)).Nodup := by
    rw [Match_eq_filterMap]
    exact (MatchSpec_sublist U dst ignoreFields src.Fields).nodup hsrc
  refine ⟨hnodup, ?_⟩
  unfold NoMultiMatch
  have hp := List.pairwise_map.mp hnodup
  exact hp.imp (fun hne heq => hne (by rw [heq]))

/-- C20, witness: the records of `TestFieldMatcher_Match_CaseInsensitiveAndIgnore`
(`ID`, `Name`, `Password` against `id`, `NAME`, `Email`, ignoring
`password`): the pairs are ID with id and Name with NAME. -/
theorem Match_no_multi_match_witness :
    (matchTestSource.Fields.map (fun f => strings.ToLower asciiUnicode f.Name)).Nodup ∧
    (fieldMatcherImpl.Match asciiUnicode matchTestSource matchTestDest ["password"]).map
      (fun p => (p.SrcField.Name, p.DstField.Name)) = [("ID", "id"), ("Name", "NAME")] ∧
    ((fieldMatcherImpl.Match asciiUnicode matchTestSource matchTestDest ["password"]).map
      (fun p => strings.ToLower asciiUnicode p.DstField.Name)).Nodup ∧
    NoMultiMatch (fieldMatcherImpl.Match asciiUnicode matchTestSource matchTestDest
      ["password"]) :=
  have hsrc : (matchTestSource.Fields.map
      (fun f => strings.ToLower asciiUnicode f.Name)).Nodup := by
    have h : matchTestSource.Fields.map (fun f => strings.ToLower asciiUnicode f.Name) =
        ["id", "name", "password"] := rfl
    rw [h]
    decide
  ⟨hsrc, rfl,
    Match_no_multi_match asciiUnicode matchTestSource matchTestDest ["password"] hsrc⟩

/-- C20, counterexample. A source record with the fields `ID` and `Id` and
a destination record with the field `ID`: `Match` pairs both source fields
with the one destination field. -/
theorem Match_multi_match_counterexample :
    (fieldMatcherImpl.Match asciiUnicode twoCaseSource oneFieldDest []).map
      (fun p => (p.SrcField.Name, p.DstField.Name)) = [("ID", "ID"), ("Id", "ID")] ∧
    oneFieldDest.Fields.length = 1 ∧
    ¬ NoMultiMatch (fieldMatcherImpl.Match asciiUnicode twoCaseSource oneFieldDest []) := by
  refine ⟨rfl, rfl, ?_⟩
  have h : fieldMatcherImpl.Match asciiUnicode twoCaseSource oneFieldDest [] =
      [{ SrcField := exampleField "ID" "int" (.Basic "int"),
         DstField := exampleField "ID" "int" (.Basic "int") },
       { SrcField := exampleField "Id" "int" (.Basic "int"),
         DstField := exampleField "ID" "int" (.Basic "int") }] := rfl
  rw [h]
  unfold NoMultiMatch
  simp

/-! ## Flattening as a sequence of offers -/

theorem applyOffers_append (U : Unicode) (acc : Candidates × Nat) (a b : List Offer) :
    applyOffers U acc (a ++ b) = applyOffers U (applyOffers U acc a) b := by
  unfold applyOffers
  rw [List.foldl_append]

theorem collectFlattenedFields_loop_eq (T : GoTypes) (U : Unicode)
    (recurse : Nat → List String → String → Candidates × Nat → Option (Candidates × Nat))
    (recurseO : Nat → List String → String → Option (List Offer))
    (analyze : GoType → Option TypeDetail) (owner : Nat)
    (pfx : List String) (embedFrom : String) (depth : Nat) (q : Qualifier)
    (hrec : ∀ s p e acc, recurse s p e acc = (recurseO s p e).map (applyOffers U acc)) :
    ∀ (fs : List Var) (acc : Candidates × Nat),
      collectFlattenedFields.loop T U recurse analyze pfx embedFrom depth q fs acc =
        (collectOffers.loop T recurseO analyze owner pfx embedFrom depth q fs).map
          (applyOffers U acc) := by
  intro fs
  induction fs with
  | nil => intro acc; rfl
  | cons f rest ih =>
    intro acc
    unfold collectFlattenedFields.loop collectOffers.loop
    by_cases hemb : f.Embedded = true
    · simp only [hemb, if_true]
      cases hres : resolveEmbeddedStruct T f.Type_ with
      | none => exact ih acc
      | some r =>
        obtain ⟨embeddedStruct, embeddedName⟩ := r
        simp only [hrec]
        cases hro : recurseO embeddedStruct (appendPath pfx f.Name)
            (if embeddedName = "" then f.Name else embeddedName) with
        | none => rfl
        | some os1 =>
          simp only [Option.map_some', ih, Option.map_map]
          congr 1
          funext os
          simp only [Function.comp, applyOffers_append]
    · simp only [hemb, Bool.false_eq_true, if_false]
      by_cases hexp : f.Exported = true
      · simp only [hexp, Bool.not_true, Bool.false_eq_true, if_false]
        cases han : analyze f.Type_ with
        | none => rfl
        | some typeInfo =>
          simp only [ih, Option.map_map]
          congr 1
      · have hne : (!f.Exported) = true := by simpa using hexp
        simp only [hne, if_true]
        exact ih acc

/-- What `collectFlattenedFields` does to the candidate map and the counter
is to run the recorded calls of `addCandidate`; it returns exactly when the
record of the calls does. -/
theorem collectFlattenedFields_eq (T : GoTypes) (U : Unicode) (q : Qualifier) :
    ∀ (fuel st : Nat) (pfx : List String) (embedFrom : String) (depth : Nat)
      (acc : Candidates × Nat),
      collectFlattenedFields T U q fuel st pfx embedFrom depth acc =
        (collectOffers T U q fuel st pfx embedFrom depth).map (applyOffers U acc) := by
  intro fuel
  induction fuel with
  | zero => intro st pfx embedFrom depth acc; rfl
  | succ n ih =>
    intro st pfx embedFrom depth acc
    unfold collectFlattenedFields collectOffers
    exact collectFlattenedFields_loop_eq T U _ _ _ st pfx embedFrom depth q
      (fun s p e acc1 => ih s p e (depth + 1) acc1) (T.Fields st) acc

/-! ## The candidate map after a sequence of offers -/

theorem candidates_get_set (out : Candidates) (k key : String) (v : fieldCandidate) :
    (out.set k v).get key = if k = key then some v else out.get key :=
  GoMap.get_set out k key v

theorem candidates_get_set_some {out : Candidates} {k k2 : String} {v c : fieldCandidate}
    (h : (out.set k v).get k2 = some c) :
    (k2 = k ∧ c = v) ∨ (k2 ≠ k ∧ out.get k2 = some c) := by
  rw [candidates_get_set] at h
  by_cases hk : k = k2
  · simp only [hk, if_true, Option.some.injEq] at h
    exact Or.inl ⟨hk.symm, h.symm⟩
  · simp only [hk, if_false] at h
    exact Or.inr ⟨fun h2 => hk h2.symm, h⟩

theorem candidates_keys_set {out : Candidates} (k : String) (v : fieldCandidate)
    (h : (out.map (fun e => e.1)).Nodup) : ((out.set k v).map (fun e => e.1)).Nodup := by
  unfold Candidates.set
  cases hfind : out.find? (fun e => e.1 == k) with
  | none =>
    simp only [Option.isSome_none, Bool.false_eq_true, if_false, List.map_append, List.map_cons,
      List.map_nil]
    rw [List.find?_eq_none] at hfind
    refine List.Nodup.append h (List.nodup_singleton _) ?_
    intro x hx hx2
    rw [List.mem_singleton] at hx2
    subst hx2
    obtain ⟨e, he, rfl⟩ := List.mem_map.mp hx
    exact hfind e he (by simp)
  | some e0 =>
    simp only [Option.isSome_some, if_true, List.map_map]
    have hcomp : ((fun e : String × fieldCandidate => e.1) ∘
        fun e : String × fieldCandidate => if (e.1 == k) = true then (k, v) else e) =
        fun e => e.1 := by
      funext e
      simp only [Function.comp]
      split_ifs with h1
      · rw [beq_iff_eq] at h1
        exact h1.symm
      · rfl
    rw [hcomp]
    exact h

theorem candidates_get_of_mem {out : Candidates} (h : (out.map (fun e => e.1)).Nodup)
    {e : String × fieldCandidate} (he : e ∈ out) : out.get e.1 = some e.2 := by
  unfold Candidates.get
  induction out with
  | nil => simp at he
  | cons x rest ih =>
    rw [List.map_cons, List.nodup_cons] at h
    rcases List.mem_cons.mp he with rfl | he1
    · simp
    · have hne : ¬ x.1 = e.1 := by
        intro heq
        exact h.1 (heq ▸ List.mem_map_of_mem (fun e => e.1) he1)
      have hb : (x.1 == e.1) = false := by simpa using hne
      simp only [List.find?_cons, hb]
      exact ih h.2 he1

theorem candidates_mem_of_get {out : Candidates} {k : String} {c : fieldCandidate}
    (h : out.get k = some c) : (k, c) ∈ out := by
  unfold Candidates.get at h
  cases hf : out.find? (fun e => e.1 == k) with
  | none => simp [hf] at h
  | some e =>
    simp only [hf, Option.map_some', Option.some.injEq] at h
    have h1 : e.1 = k := by simpa using List.find?_some hf
    have hmem := List.mem_of_find?_eq_some hf
    have he : e = (k, c) := Prod.ext h1 h
    rw [← he]
    exact hmem

theorem seenAt_congr (U : Unicode) (os : List Offer) {c c0 : fieldCandidate}
    (hf : c0.field = c.field) (hd : c0.depth = c.depth) : seenAt U os c = seenAt U os c0 := by
  unfold seenAt
  rw [hf, hd]

theorem seenAt_append_old (U : Unicode) {os : List Offer} {c : fieldCandidate} (o : Offer)
    (h : seenAt U os c < os.length) : seenAt U (os ++ [o]) c = seenAt U os c := by
  unfold seenAt at h ⊢
  rw [List.findIdx_append, if_pos h]

theorem seenAt_append_new (U : Unicode) {os : List Offer} {c : fieldCandidate} (o : Offer)
    (hnone : ∀ o1 ∈ os, ¬ (o1.key U = strings.ToLower U c.field.Name ∧ o1.depth = c.depth))
    (ho : o.key U = strings.ToLower U c.field.Name ∧ o.depth = c.depth) :
    seenAt U (os ++ [o]) c = os.length := by
  unfold seenAt
  have h1 : List.findIdx (fun o => decide (o.key U = strings.ToLower U c.field.Name ∧
      o.depth = c.depth)) os = os.length :=
    List.findIdx_eq_length_of_false (fun x hx => decide_eq_false (hnone x hx))
  rw [List.findIdx_append, h1, if_neg (Nat.lt_irrefl _), List.findIdx_cons]
  simp [ho]

theorem Tracks.seen_lt {U : Unicode} {os : List Offer} {acc : Candidates × Nat}
    (h : Tracks U os acc) {k : String} {c : fieldCandidate} (hc : acc.1.get k = some c) :
    seenAt U os c < os.length := by
  obtain ⟨o, ho, _⟩ := h.seen k c hc
  exact (List.getElem?_eq_some.mp ho).1

theorem Tracks.nil (U : Unicode) : Tracks U [] ([], 0) where
  keys := List.nodup_nil
  offered := fun o ho => by simp at ho
  key_eq := fun k c hc => by simp [Candidates.get] at hc
  below := fun k c hc => by simp [Candidates.get] at hc
  seen := fun k c hc => by simp [Candidates.get] at hc
  shallowest := fun k c hc => by simp [Candidates.get] at hc
  conflict := fun k c hc => by simp [Candidates.get] at hc
  ordered := fun k1 c1 k2 c2 hc => by simp [Candidates.get] at hc

/-- An offer that leaves the map as it is. -/
theorem Tracks.snoc_same {U : Unicode} {os : List Offer} {acc : Candidates × Nat}
    (h : Tracks U os acc) (o : Offer) (cand : fieldCandidate)
    (hget : acc.1.get (o.key U) = some cand) (hle : cand.depth ≤ o.depth)
    (hamb : o.depth = cand.depth → o.field.AccessPath ≠ cand.field.AccessPath →
      cand.ambiguous = true) : Tracks U (os ++ [o]) acc where
  keys := h.keys
  offered := by
    intro o1 ho1
    rcases List.mem_append.mp ho1 with h1 | h1
    · exact h.offered o1 h1
    · rw [List.mem_singleton] at h1
      subst h1
      exact ⟨cand, hget⟩
  key_eq := h.key_eq
  below := h.below
  seen := by
    intro k c hc
    obtain ⟨o1, ho1, hf⟩ := h.seen k c hc
    have hlt := h.seen_lt hc
    rw [seenAt_append_old U o hlt, List.getElem?_append_left hlt]
    exact ⟨o1, ho1, hf⟩
  shallowest := by
    intro k c hc o1 ho1 hk
    rcases List.mem_append.mp ho1 with h1 | h1
    · exact h.shallowest k c hc o1 h1 hk
    · rw [List.mem_singleton] at h1
      subst h1
      rw [hk, hc] at hget
      simp only [Option.some.injEq] at hget
      subst hget
      exact hle
  conflict := by
    intro k c hc o1 ho1 hk hd hp
    rcases List.mem_append.mp ho1 with h1 | h1
    · exact h.conflict k c hc o1 h1 hk hd hp
    · rw [List.mem_singleton] at h1
      subst h1
      rw [hk, hc] at hget
      simp only [Option.some.injEq] at hget
      subst hget
      exact hamb hd hp
  ordered := by
    intro k1 c1 k2 c2 h1 h2
    rw [seenAt_append_old U o (h.seen_lt h1), seenAt_append_old U o (h.seen_lt h2)]
    exact h.ordered k1 c1 k2 c2 h1 h2

/-- Marking the candidate of a key as ambiguous. -/
theorem Tracks.mark {U : Unicode} {os : List Offer} {acc : Candidates × Nat}
    (h : Tracks U os acc) (k : String) (cand : fieldCandidate)
    (hget : acc.1.get k = some cand) :
    Tracks U os (acc.1.set k { cand with ambiguous := true }, acc.2) := by
  have hold : ∀ k2 c, (acc.1.set k { cand with ambiguous := true }).get k2 = some c →
      ∃ c0, acc.1.get k2 = some c0 ∧ c0.field = c.field ∧ c0.depth = c.depth ∧
        c0.order = c.order ∧ (c0.ambiguous = true → c.ambiguous = true) := by
    intro k2 c hc
    rcases candidates_get_set_some hc with ⟨hk, hcv⟩ | ⟨_, hc0⟩
    · subst hk
      subst hcv
      exact ⟨cand, hget, rfl, rfl, rfl, fun _ => rfl⟩
    · exact ⟨c, hc0, rfl, rfl, rfl, fun hh => hh⟩
  constructor
  · exact candidates_keys_set _ _ h.keys
  · intro o ho
    obtain ⟨c, hc⟩ := h.offered o ho
    show ∃ c, (acc.1.set k { cand with ambiguous := true }).get (o.key U) = some c
    rw [candidates_get_set]
    split_ifs
    · exact ⟨_, rfl⟩
    · exact ⟨c, hc⟩
  · intro k2 c hc
    obtain ⟨c0, hc0, hf, _, _, _⟩ := hold k2 c hc
    rw [← hf]
    exact h.key_eq k2 c0 hc0
  · intro k2 c hc
    obtain ⟨c0, hc0, _, _, ho, _⟩ := hold k2 c hc
    show c.order < acc.2
    rw [← ho]
    exact h.below k2 c0 hc0
  · intro k2 c hc
    obtain ⟨c0, hc0, hf, hd, _, _⟩ := hold k2 c hc
    rw [seenAt_congr U os hf hd, ← hf]
    exact h.seen k2 c0 hc0
  · intro k2 c hc
    obtain ⟨c0, hc0, _, hd, _, _⟩ := hold k2 c hc
    rw [← hd]
    exact h.shallowest k2 c0 hc0
  · intro k2 c hc o ho hk hdep hp
    obtain ⟨c0, hc0, hf, hd, _, ha⟩ := hold k2 c hc
    exact ha (h.conflict k2 c0 hc0 o ho hk (by rw [hd]; exact hdep) (by rw [hf]; exact hp))
  · intro k1 c1 k2 c2 h1 h2
    obtain ⟨a1, ha1, hf1, hd1, ho1, _⟩ := hold k1 c1 h1
    obtain ⟨a2, ha2, hf2, hd2, ho2, _⟩ := hold k2 c2 h2
    rw [seenAt_congr U os hf1 hd1, seenAt_congr U os hf2 hd2, ← ho1, ← ho2]
    exact h.ordered k1 a1 k2 a2 ha1 ha2

/-- An offer that enters the map: its key is new, or it is shallower than
the candidate of its key. -/
theorem Tracks.snoc_new {U : Unicode} {os : List Offer} {acc : Candidates × Nat}
    (h : Tracks U os acc) (o : Offer)
    (hnew : ∀ cand, acc.1.get (o.key U) = some cand → o.depth < cand.depth) :
    Tracks U (os ++ [o])
      (acc.1.set (o.key U)
        { field := o.field, depth := o.depth, order := acc.2, ambiguous := false },
        acc.2 + 1) := by
  have hdeeper : ∀ o1 ∈ os, o1.key U = o.key U → o.depth < o1.depth := by
    intro o1 ho1 hk
    obtain ⟨c, hc⟩ := h.offered o1 ho1
    have h1 := h.shallowest _ c hc o1 ho1 rfl
    rw [hk] at hc
    have h2 := hnew c hc
    omega
  have hnone : ∀ o1 ∈ os, ¬ (o1.key U = strings.ToLower U o.field.Name ∧ o1.depth = o.depth) := by
    intro o1 ho1 hh
    have := hdeeper o1 ho1 hh.1
    omega
  have hseenNew : seenAt U (os ++ [o])
      { field := o.field, depth := o.depth, order := acc.2, ambiguous := false } = os.length :=
    seenAt_append_new U o hnone ⟨rfl, rfl⟩
  constructor
  · exact candidates_keys_set _ _ h.keys
  · intro o1 ho1
    show ∃ c, (acc.1.set (o.key U) _).get (o1.key U) = some c
    rw [candidates_get_set]
    split_ifs with hk
    · exact ⟨_, rfl⟩
    · rcases List.mem_append.mp ho1 with h1 | h1
      · exact h.offered o1 h1
      · rw [List.mem_singleton] at h1
        subst h1
        exact absurd rfl hk
  · intro k2 c hc
    rcases candidates_get_set_some hc with ⟨hk, hcv⟩ | ⟨_, hc0⟩
    · subst hk
      subst hcv
      rfl
    · exact h.key_eq k2 c hc0
  · intro k2 c hc
    show c.order < acc.2 + 1
    rcases candidates_get_set_some hc with ⟨hk, hcv⟩ | ⟨_, hc0⟩
    · subst hcv
      exact Nat.lt_succ_self _
    · exact Nat.lt_succ_of_lt (h.below k2 c hc0)
  · intro k2 c hc
    rcases candidates_get_set_some hc with ⟨hk, hcv⟩ | ⟨_, hc0⟩
    · subst hcv
      rw [hseenNew, List.getElem?_concat_length]
      exact ⟨o, rfl, rfl⟩
    · obtain ⟨o1, ho1, hf⟩ := h.seen k2 c hc0
      have hlt := h.seen_lt hc0
      rw [seenAt_append_old U o hlt, List.getElem?_append_left hlt]
      exact ⟨o1, ho1, hf⟩
  · intro k2 c hc o1 ho1 hk1
    rcases candidates_get_set_some hc with ⟨hk, hcv⟩ | ⟨hne, hc0⟩
    · subst hcv
      subst hk
      rcases List.mem_append.mp ho1 with h1 | h1
      · exact Nat.le_of_lt (hdeeper o1 h1 hk1)
      · rw [List.mem_singleton] at h1
        subst h1
        exact Nat.le_refl _
    · rcases List.mem_append.mp ho1 with h1 | h1
      · exact h.shallowest k2 c hc0 o1 h1 hk1
      · rw [List.mem_singleton] at h1
        subst h1
        exact absurd hk1.symm hne
  · intro k2 c hc o1 ho1 hk1 hdep hp
    rcases candidates_get_set_some hc with ⟨hk, hcv⟩ | ⟨hne, hc0⟩
    · subst hcv
      subst hk
      rcases List.mem_append.mp ho1 with h1 | h1
      · have := hdeeper o1 h1 hk1
        simp only at hdep
        omega
      · rw [List.mem_singleton] at h1
        subst h1
        exact absurd rfl hp
    · rcases List.mem_append.mp ho1 with h1 | h1
      · exact h.conflict k2 c hc0 o1 h1 hk1 hdep hp
      · rw [List.mem_singleton] at h1
        subst h1
        exact absurd hk1.symm hne
  · intro k1 c1 k2 c2 h1 h2
    rcases candidates_get_set_some h1 with ⟨hk1, hcv1⟩ | ⟨_, hc1⟩
    · subst hcv1
      rw [hseenNew]
      rcases candidates_get_set_some h2 with ⟨hk2, hcv2⟩ | ⟨_, hc2⟩
      · subst hcv2
        rw [hseenNew]
        simp
      · have hb := h.below k2 c2 hc2
        have hs := h.seen_lt hc2
        rw [seenAt_append_old U o hs]
        simp only
        omega
    · rw [seenAt_append_old U o (h.seen_lt hc1)]
      rcases candidates_get_set_some h2 with ⟨hk2, hcv2⟩ | ⟨_, hc2⟩
      · subst hcv2
        rw [hseenNew]
        have hb := h.below k1 c1 hc1
        have hs := h.seen_lt hc1
        simp only
        omega
      · rw [seenAt_append_old U o (h.seen_lt hc2)]
        exact h.ordered k1 c1 k2 c2 hc1 hc2

/-- One call of `addCandidate` keeps the map in step with the offers. -/
theorem Tracks.step {U : Unicode} {os : List Offer} {acc : Candidates × Nat}
    (h : Tracks U os acc) (o : Offer) :
    Tracks U (os ++ [o]) (addCandidate U acc.1 o.field o.depth acc.2) := by
  unfold addCandidate
  simp only
  cases hget : acc.1.get (strings.ToLower U o.field.Name) with
  | none =>
    exact h.snoc_new o (fun cand hc => by
      have : acc.1.get (strings.ToLower U o.field.Name) = some cand := hc
      rw [hget] at this
      simp at this)
  | some cand =>
    simp only
    have hcand : ∀ c, acc.1.get (o.key U) = some c → c = cand := by
      intro c hc
      have : acc.1.get (strings.ToLower U o.field.Name) = some c := hc
      rw [hget] at this
      simpa using this.symm
    split_ifs with h1 h2 h3
    · exact h.snoc_new o (fun c hc => by rw [hcand c hc]; exact h1)
    · exact h.snoc_same o cand hget (by omega) (fun hd => by omega)
    · have hm := h.mark (o.key U) cand hget
      refine hm.snoc_same o { cand with ambiguous := true } ?_ ?_ ?_
      · show (acc.1.set (o.key U) { cand with ambiguous := true }).get (o.key U) = some _
        rw [candidates_get_set, if_pos rfl]
      · show cand.depth ≤ o.depth
        omega
      · intro _ _
        rfl
    · refine h.snoc_same o cand hget (by omega) (fun _ hp => ?_)
      exact absurd (fun heq => hp heq.symm) h3

theorem Tracks.run {U : Unicode} :
    ∀ (os pre : List Offer) (acc : Candidates × Nat), Tracks U pre acc →
      Tracks U (pre ++ os) (applyOffers U acc os) := by
  intro os
  induction os with
  | nil =>
    intro pre acc h
    simpa [applyOffers] using h
  | cons o rest ih =>
    intro pre acc h
    have h1 := ih (pre ++ [o]) _ (h.step o)
    simpa [applyOffers] using h1

/-! ## C15 to C18: what `flattenFields` keeps -/

theorem finish_eq (candidates : Candidates) :
    flattenFields.finish candidates =
      ((keptCandidates candidates).insertionSort
        (fun a b => candidateLess b a = false)).map (fun cand => cand.field) := rfl

theorem Tracks.seen_offer {U : Unicode} {os : List Offer} {acc : Candidates × Nat}
    (h : Tracks U os acc) {k : String} {c : fieldCandidate} (hc : acc.1.get k = some c) :
    ∃ o ∈ os, o.field = c.field ∧ o.depth = c.depth ∧ o.key U = k := by
  obtain ⟨o, ho, hf⟩ := h.seen k c hc
  obtain ⟨hlt, hget⟩ := List.getElem?_eq_some.mp ho
  have hp : (fun o : Offer => decide (o.key U = strings.ToLower U c.field.Name ∧
      o.depth = c.depth)) (os[seenAt U os c]) = true :=
    @List.findIdx_getElem _ _ _ hlt
  rw [hget] at hp
  simp only [decide_eq_true_eq] at hp
  refine ⟨o, ?_, hf, hp.2, ?_⟩
  · rw [← hget]
    exact List.getElem_mem _
  · rw [hp.1]
    exact h.key_eq k c hc

/-- A flattening that returns has run the recorded offers on the empty
map. -/
theorem flattenFields_tracks {T : GoTypes} {U : Unicode} {fuel st : Nat} {q : Qualifier}
    {fields : List FieldInfo} (h : flattenFields T U fuel st q = some fields) :
    ∃ os cands n, collectOffers T U q fuel st [] "" 0 = some os ∧
      collectFlattenedFields T U q fuel st [] "" 0 ([], 0) = some (cands, n) ∧
      Tracks U os (cands, n) ∧ fields = flattenFields.finish cands := by
  unfold flattenFields at h
  have heq := collectFlattenedFields_eq T U q fuel st [] "" 0 ([], 0)
  cases hos : collectOffers T U q fuel st [] "" 0 with
  | none =>
    rw [hos] at heq
    simp only [Option.map_none'] at heq
    rw [heq] at h
    simp at h
  | some os =>
    rw [hos] at heq
    simp only [Option.map_some'] at heq
    rw [heq] at h
    simp only [Option.some.injEq] at h
    refine ⟨os, (applyOffers U ([], 0) os).1, (applyOffers U ([], 0) os).2, rfl, heq, ?_, h.symm⟩
    have := Tracks.run os [] ([], 0) (Tracks.nil U)
    simpa using this

/-- The fields of the output are the fields of the kept candidates. -/
theorem mem_finish {candidates : Candidates} {f : FieldInfo}
    (h : f ∈ flattenFields.finish candidates) :
    ∃ e ∈ candidates, e.2.ambiguous = false ∧ e.2.field = f := by
  rw [finish_eq] at h
  obtain ⟨c, hc, hf⟩ := List.mem_map.mp h
  rw [List.mem_insertionSort] at hc
  unfold keptCandidates at hc
  obtain ⟨hc1, hc2⟩ := List.mem_filter.mp hc
  obtain ⟨e, he, rfl⟩ := List.mem_map.mp hc1
  exact ⟨e, he, by simpa using hc2, hf⟩

theorem mem_finish_get {U : Unicode} {os : List Offer} {cands : Candidates} {n : Nat}
    (ht : Tracks U os (cands, n)) {f : FieldInfo} (h : f ∈ flattenFields.finish cands) :
    ∃ c, cands.get (strings.ToLower U f.Name) = some c ∧ c.ambiguous = false ∧ c.field = f := by
  obtain ⟨e, he, hamb, hf⟩ := mem_finish h
  have hget : cands.get e.1 = some e.2 := candidates_get_of_mem ht.keys he
  have hk := ht.key_eq e.1 e.2 hget
  rw [hf] at hk
  rw [hk]
  exact ⟨e.2, hget, hamb, hf⟩

/-- C15. Whenever `flattenFields` returns, every field of its output was
offered, and at a depth that is least among the depths of all offers of the
same lower-cased name: of the candidates offered for a name at different
embedding depths the shallowest is kept, whatever the order of the fields
and embeds. -/
theorem flattenFields_shallowest_wins (T : GoTypes) (U : Unicode) (fuel st : Nat)
    (q : Qualifier) (fields : List FieldInfo)
    (h : flattenFields T U fuel st q = some fields) :
    ∃ os, collectOffers T U q fuel st [] "" 0 = some os ∧
      ∀ f ∈ fields, ∃ o ∈ os, o.field = f ∧
        ∀ o1 ∈ os, o1.key U = o.key U → o.depth ≤ o1.depth := by
  obtain ⟨os, cands, n, hos, _, ht, hfin⟩ := flattenFields_tracks h
  refine ⟨os, hos, ?_⟩
  intro f hf
  rw [hfin] at hf
  obtain ⟨c, hget, _, hcf⟩ := mem_finish_get ht hf
  obtain ⟨o, ho, hof, hod, hok⟩ := ht.seen_offer hget
  refine ⟨o, ho, hof.trans hcf, ?_⟩
  intro o1 ho1 hk
  rw [hod]
  exact ht.shallowest _ c hget o1 ho1 (hk.trans hok)

/-- C16. Whenever `flattenFields` returns: if two offers of the same
lower-cased name are made at the same depth with different access paths,
then every field of that name in the output was offered at a strictly
smaller depth, so neither of the two is in the output; and when no offer of
that name is shallower, no field of that name is in the output. -/
theorem flattenFields_same_depth_conflict (T : GoTypes) (U : Unicode) (fuel st : Nat)
    (q : Qualifier) (fields : List FieldInfo)
    (h : flattenFields T U fuel st q = some fields) :
    ∃ os, collectOffers T U q fuel st [] "" 0 = some os ∧
      ∀ o1 ∈ os, ∀ o2 ∈ os, o1.key U = o2.key U → o1.depth = o2.depth →
        o1.field.AccessPath ≠ o2.field.AccessPath →
        (∀ f ∈ fields, strings.ToLower U f.Name = o1.key U →
          ∃ o ∈ os, o.field = f ∧ o.depth < o1.depth) ∧
        ((∀ o ∈ os, o.key U = o1.key U → o1.depth ≤ o.depth) →
          ∀ f ∈ fields, strings.ToLower U f.Name ≠ o1.key U) := by
  obtain ⟨os, cands, n, hos, _, ht, hfin⟩ := flattenFields_tracks h
  refine ⟨os, hos, ?_⟩
  intro o1 ho1 o2 ho2 hkey hdep hpath
  have hfirst : ∀ f ∈ fields, strings.ToLower U f.Name = o1.key U →
      ∃ o ∈ os, o.field = f ∧ o.depth < o1.depth := by
    intro f hf hfk
    rw [hfin] at hf
    obtain ⟨c, hget, hamb, hcf⟩ := mem_finish_get ht hf
    rw [hfk] at hget
    obtain ⟨o, ho, hof, hod, _⟩ := ht.seen_offer hget
    refine ⟨o, ho, hof.trans hcf, ?_⟩
    have hle := ht.shallowest _ c hget o1 ho1 rfl
    rcases Nat.lt_or_ge c.depth o1.depth with hlt | hge
    · omega
    · exfalso
      have heq : o1.depth = c.depth := by omega
      by_cases hp1 : o1.field.AccessPath = c.field.AccessPath
      · have hp2 : o2.field.AccessPath ≠ c.field.AccessPath := by
          rw [← hp1]
          exact fun hh => hpath hh.symm
        have := ht.conflict _ c hget o2 ho2 hkey.symm (by omega) hp2
        rw [hamb] at this
        exact absurd this (by decide)
      · have := ht.conflict _ c hget o1 ho1 rfl heq hp1
        rw [hamb] at this
        exact absurd this (by decide)
  refine ⟨hfirst, ?_⟩
  intro hmin f hf hfk
  obtain ⟨o, ho, hof, hlt⟩ := hfirst f hf hfk
  have hk : o.key U = o1.key U := by
    unfold Offer.key
    rw [hof]
    exact hfk
  have := hmin o ho hk
  omega

/-- C15, witness: `parserembed.User` embeds Base (with ID and Name), InnerA
and InnerB (each with Code) and then declares Name, Email and hidden. The
offers are ID, Name, Code, Code at depth 1 and then Name, Email at depth 0;
the output is ID with path `Base.ID`, Name with path `Name`, and Email. -/
theorem flattenFields_shallowest_wins_witness :
    userOffers.map (fun o => (o.field.AccessPath, o.depth)) =
      [("Base.ID", 1), ("Base.Name", 1), ("InnerA.Code", 1), ("InnerB.Code", 1), ("Name", 0),
        ("Email", 0)] ∧
    userFields.map (fun f => (f.Name, f.AccessPath)) =
      [("ID", "Base.ID"), ("Name", "Name"), ("Email", "Email")] ∧
    ∃ os, collectOffers exampleTypes asciiUnicode
        (parseQualifier (examplePackage pkgEmbed ["Base", "InnerA", "InnerB", "User"]))
        10 53 [] "" 0 = some os ∧
      ∀ f ∈ userFields, ∃ o ∈ os, o.field = f ∧
        ∀ o1 ∈ os, o1.key asciiUnicode = o.key asciiUnicode → o.depth ≤ o1.depth :=
  ⟨rfl, rfl, flattenFields_shallowest_wins exampleTypes asciiUnicode 10 53 _ userFields rfl⟩

/-- C16, witness: in `parserembed.User` the offers `InnerA.Code` and
`InnerB.Code` have the same key and depth and different access paths, and no
offer of that key is shallower: no field of the output is named Code, while
ID is kept with the access path `Base.ID`. -/
theorem flattenFields_same_depth_conflict_witness :
    userOffers.map (fun o => (o.key asciiUnicode, o.field.AccessPath, o.depth)) =
      [("id", "Base.ID", 1), ("name", "Base.Name", 1), ("code", "InnerA.Code", 1),
        ("code", "InnerB.Code", 1), ("name", "Name", 0), ("email", "Email", 0)] ∧
    userFields.map (fun f => (f.Name, f.AccessPath)) =
      [("ID", "Base.ID"), ("Name", "Name"), ("Email", "Email")] ∧
    ∃ os, collectOffers exampleTypes asciiUnicode
        (parseQualifier (examplePackage pkgEmbed ["Base", "InnerA", "InnerB", "User"]))
        10 53 [] "" 0 = some os ∧
      ∀ o1 ∈ os, ∀ o2 ∈ os, o1.key asciiUnicode = o2.key asciiUnicode → o1.depth = o2.depth →
        o1.field.AccessPath ≠ o2.field.AccessPath →
        (∀ f ∈ userFields, strings.ToLower asciiUnicode f.Name = o1.key asciiUnicode →
          ∃ o ∈ os, o.field = f ∧ o.depth < o1.depth) ∧
        ((∀ o ∈ os, o.key asciiUnicode = o1.key asciiUnicode → o1.depth ≤ o.depth) →
          ∀ f ∈ userFields, strings.ToLower asciiUnicode f.Name ≠ o1.key asciiUnicode) :=
  ⟨rfl, rfl,
    flattenFields_same_depth_conflict exampleTypes asciiUnicode 10 53 _ userFields rfl⟩

theorem collectOffers_loop_sound (T : GoTypes)
    (recurse : Nat → List String → String → Option (List Offer))
    (analyze : GoType → Option TypeDetail) (owner : Nat)
    (pfx : List String) (embedFrom : String) (depth : Nat) (q : Qualifier)
    (hrec : ∀ s p e os1, recurse s p e = some os1 → ∀ o ∈ os1, o.Sound T s) :
    ∀ (fs : List Var) (os : List Offer), (∀ v ∈ fs, v ∈ T.Fields owner) →
      collectOffers.loop T recurse analyze owner pfx embedFrom depth q fs = some os →
      ∀ o ∈ os, o.Sound T owner := by
  intro fs
  induction fs with
  | nil =>
    intro os _ h o ho
    simp only [collectOffers.loop, Option.some.injEq] at h
    subst h
    simp at ho
  | cons f rest ih =>
    intro os hfs h o ho
    have hrest : ∀ v ∈ rest, v ∈ T.Fields owner := fun v hv => hfs v (List.mem_cons_of_mem _ hv)
    have hf : f ∈ T.Fields owner := hfs f (List.mem_cons_self _ _)
    unfold collectOffers.loop at h
    by_cases hemb : f.Embedded = true
    · simp only [hemb, if_true] at h
      cases hres : resolveEmbeddedStruct T f.Type_ with
      | none =>
        simp only [hres] at h
        exact ih os hrest h o ho
      | some r =>
        obtain ⟨s, name⟩ := r
        simp only [hres] at h
        cases hro : recurse s (appendPath pfx f.Name) (if name = "" then f.Name else name) with
        | none => simp [hro] at h
        | some os1 =>
          simp only [hro, Option.map_eq_some'] at h
          obtain ⟨os2, hos2, rfl⟩ := h
          rcases List.mem_append.mp ho with h1 | h2
          · obtain ⟨a1, a2, a3, a4, a5, a6, a7⟩ := hrec _ _ _ _ hro o h1
            exact ⟨a1, a2, a3, a4, a5, a6,
              Relation.ReflTransGen.head ⟨f, hf, hemb, name, hres⟩ a7⟩
          · exact ih os2 hrest hos2 o h2
    · simp only [hemb, Bool.false_eq_true, if_false] at h
      by_cases hexp : f.Exported = true
      · simp only [hexp, Bool.not_true, Bool.false_eq_true, if_false] at h
        cases han : analyze f.Type_ with
        | none => simp [han] at h
        | some typeInfo =>
          simp only [han, Option.map_eq_some'] at h
          obtain ⟨os2, hos2, rfl⟩ := h
          rcases List.mem_cons.mp ho with h1 | h2
          · subst h1
            exact ⟨hf, hexp, by simpa using hemb, rfl, rfl, rfl, Relation.ReflTransGen.refl⟩
          · exact ih os2 hrest hos2 o h2
      · have hne : (!f.Exported) = true := by simpa using hexp
        simp only [hne, if_true] at h
        exact ih os hrest h o ho

/-- Every recorded offer comes from an exported, not embedded field of the
struct or of a struct it embeds. -/
theorem collectOffers_sound (T : GoTypes) (U : Unicode) (q : Qualifier) :
    ∀ (fuel st : Nat) (pfx : List String) (embedFrom : String) (depth : Nat) (os : List Offer),
      collectOffers T U q fuel st pfx embedFrom depth = some os → ∀ o ∈ os, o.Sound T st := by
  intro fuel
  induction fuel with
  | zero =>
    intro st pfx embedFrom depth os h
    simp [collectOffers] at h
  | succ n ih =>
    intro st pfx embedFrom depth os h
    unfold collectOffers at h
    exact collectOffers_loop_sound T _ _ st pfx embedFrom depth q
      (fun s p e os1 h1 => ih s p e (depth + 1) os1 h1) (T.Fields st) os (fun _ hv => hv) h

/-- C17. Whenever `flattenFields` returns, every field of its output has
`IsExported = true` and was built from an exported, not embedded field of
the struct or of a struct reached from it through embedded fields: a field
that is not exported never appears, at any embedding depth. -/
theorem flattenFields_only_exported (T : GoTypes) (U : Unicode) (fuel st : Nat)
    (q : Qualifier) (fields : List FieldInfo)
    (h : flattenFields T U fuel st q = some fields) :
    ∀ f ∈ fields, f.IsExported = true ∧
      ∃ owner, Relation.ReflTransGen (Embeds T) st owner ∧
        ∃ v ∈ T.Fields owner, v.Exported = true ∧ v.Embedded = false ∧
          f.Name = v.Name ∧ f.Type_ = v.Type_ := by
  obtain ⟨os, cands, n, hos, _, ht, hfin⟩ := flattenFields_tracks h
  intro f hf
  rw [hfin] at hf
  obtain ⟨c, hget, _, hcf⟩ := mem_finish_get ht hf
  obtain ⟨o, ho, hof, _, _⟩ := ht.seen_offer hget
  obtain ⟨a1, a2, a3, a4, a5, a6, a7⟩ := collectOffers_sound T U q fuel st [] "" 0 os hos o ho
  have hfo : o.field = f := hof.trans hcf
  rw [hfo] at a4 a5 a6
  exact ⟨a6, o.owner, a7, o.var, a1, a2, a3, a4, a5⟩

/-- C17, witness: `parserembed.User` declares the fields Name, Email and
hidden after its three embedded structs; hidden is not exported. The output
of `flattenFields` has the fields ID, Name and Email, all exported. -/
theorem flattenFields_only_exported_witness :
    (exampleTypes.Fields 53).map (fun v => (v.Name, v.Embedded, v.Exported)) =
      [("Base", true, true), ("InnerA", true, true), ("InnerB", true, true),
        ("Name", false, true), ("Email", false, true), ("hidden", false, false)] ∧
    userFields.map (fun f => f.Name) = ["ID", "Name", "Email"] ∧
    ∀ f ∈ userFields, f.IsExported = true ∧
      ∃ owner, Relation.ReflTransGen (Embeds exampleTypes) 53 owner ∧
        ∃ v ∈ exampleTypes.Fields owner, v.Exported = true ∧ v.Embedded = false ∧
          f.Name = v.Name ∧ f.Type_ = v.Type_ :=
  ⟨rfl, rfl,
    flattenFields_only_exported exampleTypes asciiUnicode 10 53
      (parseQualifier (examplePackage pkgEmbed ["Base", "InnerA", "InnerB", "User"]))
      userFields rfl⟩

/-! ## C18: the order of the output -/

theorem Tracks.seen_at {U : Unicode} {os : List Offer} {acc : Candidates × Nat}
    (h : Tracks U os acc) {k : String} {c : fieldCandidate} (hc : acc.1.get k = some c) :
    ∃ o, os[seenAt U os c]? = some o ∧ o.field = c.field ∧ o.depth = c.depth ∧ o.key U = k := by
  obtain ⟨o, ho, hf⟩ := h.seen k c hc
  obtain ⟨hlt, hget⟩ := List.getElem?_eq_some.mp ho
  have hp : (fun o : Offer => decide (o.key U = strings.ToLower U c.field.Name ∧
      o.depth = c.depth)) (os[seenAt U os c]) = true :=
    @List.findIdx_getElem _ _ _ hlt
  rw [hget] at hp
  simp only [decide_eq_true_eq] at hp
  exact ⟨o, ho, hf, hp.2, hp.1.trans (h.key_eq k c hc)⟩

/-- Candidates of different keys have different order indices. -/
theorem Tracks.order_inj {U : Unicode} {os : List Offer} {acc : Candidates × Nat}
    (h : Tracks U os acc) {k1 k2 : String} {c1 c2 : fieldCandidate}
    (h1 : acc.1.get k1 = some c1) (h2 : acc.1.get k2 = some c2)
    (heq : c1.order = c2.order) : k1 = k2 := by
  have ha := h.ordered k1 c1 k2 c2 h1 h2
  have hb := h.ordered k2 c2 k1 c1 h2 h1
  have hs : seenAt U os c1 = seenAt U os c2 := by
    have n1 : ¬ seenAt U os c1 < seenAt U os c2 := fun hh => by
      have := ha.mpr hh
      omega
    have n2 : ¬ seenAt U os c2 < seenAt U os c1 := fun hh => by
      have := hb.mpr hh
      omega
    omega
  obtain ⟨o1, ho1, _, _, hk1⟩ := h.seen_at h1
  obtain ⟨o2, ho2, _, _, hk2⟩ := h.seen_at h2
  rw [hs, ho2] at ho1
  simp only [Option.some.injEq] at ho1
  subst ho1
  exact hk1.symm.trans hk2

theorem mem_keptCandidates {cands : Candidates} {c : fieldCandidate}
    (hkeys : (cands.map (fun e => e.1)).Nodup) (hc : c ∈ keptCandidates cands) :
    ∃ k, cands.get k = some c := by
  unfold keptCandidates at hc
  obtain ⟨e, he, rfl⟩ := List.mem_map.mp (List.mem_filter.mp hc).1
  exact ⟨e.1, candidates_get_of_mem hkeys he⟩

theorem Tracks.orders_nodup {U : Unicode} {os : List Offer} {cands : Candidates} {n : Nat}
    (h : Tracks U os (cands, n)) : (cands.map (fun e => e.2.order)).Nodup := by
  refine List.Nodup.map_on ?_ (List.Nodup.of_map _ h.keys)
  intro e1 he1 e2 he2 heq
  have g1 : cands.get e1.1 = some e1.2 := candidates_get_of_mem h.keys he1
  have g2 : cands.get e2.1 = some e2.2 := candidates_get_of_mem h.keys he2
  have hk : e1.1 = e2.1 := h.order_inj g1 g2 heq
  rw [hk, g2] at g1
  simp only [Option.some.injEq] at g1
  exact Prod.ext hk g1.symm

theorem keptCandidates_orders_nodup {cands : Candidates}
    (h : (cands.map (fun e => e.2.order)).Nodup) :
    ((keptCandidates cands).map (fun c => c.order)).Nodup := by
  unfold keptCandidates
  have hsub : (((cands.map (fun e => e.2)).filter (fun cand => !cand.ambiguous)).map
      (fun c => c.order)).Sublist ((cands.map (fun e => e.2)).map (fun c => c.order)) :=
    (List.filter_sublist _).map _
  rw [List.map_map] at hsub
  exact hsub.nodup h

theorem candidateLess_false_le {a b : fieldCandidate} (h : candidateLess b a = false) :
    a.order ≤ b.order := by
  unfold candidateLess at h
  split_ifs at h with heq
  · omega
  · simp only [decide_eq_false_iff_not] at h
    omega

theorem orderedInsert_pairwise (a : fieldCandidate) :
    ∀ l : List fieldCandidate, l.Pairwise (fun x y => x.order < y.order) →
      (∀ b ∈ l, a.order ≠ b.order) →
      (l.orderedInsert (fun x y => candidateLess y x = false) a).Pairwise
        (fun x y => x.order < y.order) := by
  intro l
  induction l with
  | nil => intro _ _; simp
  | cons b rest ih =>
    intro hp hne
    rw [List.pairwise_cons] at hp
    have hab : a.order ≠ b.order := hne b (List.mem_cons_self _ _)
    simp only [List.orderedInsert]
    split_ifs with hr
    · have hle := candidateLess_false_le hr
      have hlt : a.order < b.order := by omega
      refine List.pairwise_cons.mpr ⟨?_, List.pairwise_cons.mpr hp⟩
      intro c hc
      rcases List.mem_cons.mp hc with rfl | hc1
      · exact hlt
      · exact Nat.lt_trans hlt (hp.1 c hc1)
    · have hlt : b.order < a.order := by
        unfold candidateLess at hr
        have hba : ¬ b.order = a.order := fun hh => hab hh.symm
        simp only [hba, if_false, decide_eq_false_iff_not, not_not] at hr
        exact hr
      refine List.pairwise_cons.mpr ⟨?_, ih hp.2 (fun c hc => hne c (List.mem_cons_of_mem _ hc))⟩
      intro c hc
      rcases (List.mem_orderedInsert _).mp hc with rfl | hc1
      · exact hlt
      · exact hp.1 c hc1

/-- Sorting candidates with pairwise different order indices lists them by
increasing index. -/
theorem insertionSort_pairwise :
    ∀ l : List fieldCandidate, (l.map (fun c => c.order)).Nodup →
      (l.insertionSort (fun x y => candidateLess y x = false)).Pairwise
        (fun x y => x.order < y.order) := by
  intro l
  induction l with
  | nil => intro _; simp
  | cons a rest ih =>
    intro hnd
    rw [List.map_cons, List.nodup_cons] at hnd
    rw [List.insertionSort]
    refine orderedInsert_pairwise a _ (ih hnd.2) ?_
    intro b hb heq
    rw [List.mem_insertionSort] at hb
    exact hnd.1 (heq ▸ List.mem_map_of_mem (fun c => c.order) hb)

/-- C18. Whenever `flattenFields` returns, the order indices of the
candidates are pairwise different; whatever the order in which the
candidate map is visited and whatever sorted permutation `sort.Slice`
produces, the output is the same list; and it lists the kept candidates by
increasing order index, which is the order of the positions at which the
winning candidates were first seen in the traversal. -/
theorem flattenFields_order_deterministic (T : GoTypes) (U : Unicode) (fuel st : Nat)
    (q : Qualifier) (fields : List FieldInfo)
    (h : flattenFields T U fuel st q = some fields) :
    ∃ os cands n, collectOffers T U q fuel st [] "" 0 = some os ∧
      collectFlattenedFields T U q fuel st [] "" 0 ([], 0) = some (cands, n) ∧
      (cands.map (fun e => e.2.order)).Nodup ∧
      (∀ (visit : Candidates) (sorted : List fieldCandidate), visit.Perm cands → sorted.Perm (keptCandidates visit) →
        sorted.Pairwise (fun a b => candidateLess b a = false) →
        sorted.map (fun c => c.field) = fields) ∧
      ∃ ks : List fieldCandidate, ks.Perm (keptCandidates cands) ∧ fields = ks.map (fun c => c.field) ∧
        ks.Pairwise (fun a b => a.order < b.order) ∧
        ks.Pairwise (fun a b => seenAt U os a < seenAt U os b) ∧
        ∀ c ∈ ks, ∃ o, os[seenAt U os c]? = some o ∧ o.field = c.field := by
  obtain ⟨os, cands, n, hos, hcol, ht, hfin⟩ := flattenFields_tracks h
  have hnd := ht.orders_nodup
  have hknd := keptCandidates_orders_nodup hnd
  have hsorted := insertionSort_pairwise (keptCandidates cands) hknd
  have hperm := List.perm_insertionSort (fun x y : fieldCandidate => candidateLess y x = false)
    (keptCandidates cands)
  have hget : ∀ c ∈ List.insertionSort (fun x y : fieldCandidate => candidateLess y x = false)
      (keptCandidates cands), ∃ k, cands.get k = some c :=
    fun c hc => mem_keptCandidates ht.keys (hperm.mem_iff.mp hc)
  refine ⟨os, cands, n, hos, hcol, hnd, ?_, _, hperm, hfin.trans (finish_eq cands), hsorted, ?_, ?_⟩
  · intro visit sorted hvisit hsp hspw
    have hk : (keptCandidates visit).Perm (keptCandidates cands) := by
      unfold keptCandidates
      exact (hvisit.map _).filter _
    have hall : sorted.Perm (List.insertionSort
        (fun x y : fieldCandidate => candidateLess y x = false) (keptCandidates cands)) :=
      (hsp.trans hk).trans hperm.symm
    have hle1 : sorted.Pairwise (fun a b => a.order ≤ b.order) :=
      hspw.imp (fun hr => candidateLess_false_le hr)
    have hle2 : (List.insertionSort (fun x y : fieldCandidate => candidateLess y x = false)
        (keptCandidates cands)).Pairwise (fun a b => a.order ≤ b.order) :=
      hsorted.imp (fun hr => Nat.le_of_lt hr)
    have heq : sorted = List.insertionSort
        (fun x y : fieldCandidate => candidateLess y x = false) (keptCandidates cands) := by
      refine List.Perm.eq_of_sorted ?_ hle1 hle2 hall
      intro a b ha hb hab hba
      have ha1 : a ∈ keptCandidates cands := (hsp.trans hk).mem_iff.mp ha
      have hb1 : b ∈ keptCandidates cands := hperm.mem_iff.mp hb
      exact List.inj_on_of_nodup_map hknd ha1 hb1 (Nat.le_antisymm hab hba)
    rw [heq, hfin, finish_eq]
  · refine hsorted.imp_of_mem ?_
    intro a b ha hb hab
    obtain ⟨k1, g1⟩ := hget a ha
    obtain ⟨k2, g2⟩ := hget b hb
    exact (ht.ordered k1 a k2 b g1 g2).mp hab
  · intro c hc
    obtain ⟨k, g⟩ := hget c hc
    exact ht.seen k c g

/-- C18, witness: flattening `parserembed.User` leaves the candidates id
(index 0), name (index 3, the direct field that replaced Base.Name), code
(index 2, ambiguous) and email (index 4); the output is ID, Name, Email. -/
theorem flattenFields_order_deterministic_witness :
    userCandidates.map (fun e => (e.1, e.2.order, e.2.ambiguous)) =
      [("id", 0, false), ("name", 3, false), ("code", 2, true), ("email", 4, false)] ∧
    userFields.map (fun f => f.Name) = ["ID", "Name", "Email"] ∧
    ∃ os cands n, collectOffers exampleTypes asciiUnicode
        (parseQualifier (examplePackage pkgEmbed ["Base", "InnerA", "InnerB", "User"]))
        10 53 [] "" 0 = some os ∧
      collectFlattenedFields exampleTypes asciiUnicode
        (parseQualifier (examplePackage pkgEmbed ["Base", "InnerA", "InnerB", "User"]))
        10 53 [] "" 0 ([], 0) = some (cands, n) ∧
      (cands.map (fun e => e.2.order)).Nodup ∧
      (∀ (visit : Candidates) (sorted : List fieldCandidate), visit.Perm cands → sorted.Perm (keptCandidates visit) →
        sorted.Pairwise (fun a b => candidateLess b a = false) →
        sorted.map (fun c => c.field) = userFields) ∧
      ∃ ks : List fieldCandidate, ks.Perm (keptCandidates cands) ∧ userFields = ks.map (fun c => c.field) ∧
        ks.Pairwise (fun a b => a.order < b.order) ∧
        ks.Pairwise (fun a b => seenAt asciiUnicode os a < seenAt asciiUnicode os b) ∧
        ∀ c ∈ ks, ∃ o, os[seenAt asciiUnicode os c]? = some o ∧ o.field = c.field :=
  ⟨rfl, rfl,
    flattenFields_order_deterministic exampleTypes asciiUnicode 10 53
      (parseQualifier (examplePackage pkgEmbed ["Base", "InnerA", "InnerB", "User"]))
      userFields rfl⟩

/-- The fields that `flattenFields` returns have pairwise different
lower-cased names. -/
theorem flattenFields_lower_nodup {T : GoTypes} {U : Unicode} {fuel st : Nat} {q : Qualifier}
    {fields : List FieldInfo} (h : flattenFields T U fuel st q = some fields) :
    (fields.map (fun f => strings.ToLower U f.Name)).Nodup := by
  obtain ⟨os, cands, n, _, _, ht, hfin⟩ := flattenFields_tracks h
  rw [hfin, finish_eq, List.map_map]
  have hperm := (List.perm_insertionSort (fun x y : fieldCandidate => candidateLess y x = false)
    (keptCandidates cands)).map
      ((fun f : FieldInfo => strings.ToLower U f.Name) ∘ fun cand : fieldCandidate => cand.field)
  rw [hperm.nodup_iff]
  unfold keptCandidates
  have hsub : (((cands.map (fun e => e.2)).filter (fun cand => !cand.ambiguous)).map
      ((fun f : FieldInfo => strings.ToLower U f.Name) ∘
        fun cand : fieldCandidate => cand.field)).Sublist
      ((cands.map (fun e => e.2)).map
        ((fun f : FieldInfo => strings.ToLower U f.Name) ∘
          fun cand : fieldCandidate => cand.field)) :=
    (List.filter_sublist _).map _
  refine hsub.nodup ?_
  rw [List.map_map]
  have hcongr : cands.map (((fun f : FieldInfo => strings.ToLower U f.Name) ∘
      fun cand : fieldCandidate => cand.field) ∘ fun e => e.2) = cands.map (fun e => e.1) := by
    apply List.map_congr_left
    intro e he
    exact ht.key_eq e.1 e.2 (candidates_get_of_mem ht.keys he)
  rw [hcongr]
  exact ht.keys

/-! ## C25 to C27: converter names -/

/-- C25. For names that differ, `DefaultConverterName` is
`Convert` + srcName + `To` + dstName, whatever the two namespaces. -/
theorem DefaultConverterName_of_names_differ (U : Unicode)
    (srcPkgPath srcName dstPkgPath dstName : String) (h : srcName ≠ dstName) :
    DefaultConverterName U srcPkgPath srcName dstPkgPath dstName =
      "Convert" ++ srcName ++ "To" ++ dstName ∧
    ∀ p q, DefaultConverterName U p srcName q dstName =
      DefaultConverterName U srcPkgPath srcName dstPkgPath dstName := by
  unfold DefaultConverterName
  simp only [h, ne_eq, not_false_eq_true, if_true, implies_true, and_self]

/-- C25, witness: `example.com/src.User` to `example.com/dst.UserResponse`
gives `ConvertUserToUserResponse`. -/
theorem DefaultConverterName_of_names_differ_witness :
    DefaultConverterName asciiUnicode "example.com/src" "User" "example.com/dst"
      "UserResponse" = "ConvertUserToUserResponse" ∧
    ∀ p q, DefaultConverterName asciiUnicode p "User" q "UserResponse" =
      DefaultConverterName asciiUnicode "example.com/src" "User" "example.com/dst"
        "UserResponse" :=
  DefaultConverterName_of_names_differ asciiUnicode "example.com/src" "User" "example.com/dst"
    "UserResponse" (by decide)

theorem FieldsFunc_go_pieces (f : Char → Bool) :
    ∀ (cs cur : List Char), (∀ c ∈ cur, f c = false) →
      ∀ piece ∈ strings.FieldsFunc.go f cs cur,
        piece.data ≠ [] ∧ ∀ c ∈ piece.data, f c = false := by
  intro cs
  induction cs with
  | nil =>
    intro cur hcur piece hp
    unfold strings.FieldsFunc.go at hp
    split_ifs at hp with he
    · simp at hp
    · rw [List.mem_singleton] at hp
      subst hp
      refine ⟨?_, ?_⟩
      · simpa using he
      · intro c hc
        exact hcur c (by simpa using hc)
  | cons c rest ih =>
    intro cur hcur piece hp
    unfold strings.FieldsFunc.go at hp
    split_ifs at hp with hf he
    · exact ih [] (fun _ h => by simp at h) piece hp
    · rcases List.mem_cons.mp hp with h1 | h2
      · subst h1
        refine ⟨?_, ?_⟩
        · simpa using he
        · intro x hx
          exact hcur x (by simpa using hx)
      · exact ih [] (fun _ h => by simp at h) piece h2
    · refine ih (c :: cur) ?_ piece hp
      intro x hx
      rcases List.mem_cons.mp hx with rfl | h3
      · simpa using hf
      · exact hcur x h3

theorem FieldsFunc_pieces (s : String) (f : Char → Bool) :
    ∀ piece ∈ strings.FieldsFunc s f, piece.data ≠ [] ∧ ∀ c ∈ piece.data, f c = false :=
  FieldsFunc_go_pieces f s.data [] (fun _ h => by simp at h)

theorem capitalize_data (U : Unicode) (piece : String) :
    (capitalize U piece).data =
      match piece.data with
      | [] => []
      | first :: rest => U.ToUpper first :: rest := by
  unfold capitalize
  cases piece.data <;> rfl

/-- One step of the loop of `toExportedToken` appends the capitalised
piece. -/
theorem toExportedToken_step (U : Unicode) (b part : String) :
    (if part = "" then b
      else
        match part.data with
        | [] => b
        | first :: rest =>
          if 1 + rest.length > 1 then b ++ String.mk [U.ToUpper first] ++ String.mk rest
          else b ++ String.mk [U.ToUpper first]) = b ++ capitalize U part := by
  obtain ⟨cs⟩ := part
  cases cs with
  | nil =>
    have h : (⟨[]⟩ : String) = "" := rfl
    simp only [h, if_true]
    apply String.ext
    simp [capitalize]
  | cons first rest =>
    have hne : (⟨first :: rest⟩ : String) ≠ "" := by
      intro h
      have := congrArg String.data h
      simp at this
    simp only [hne, if_false]
    apply String.ext
    cases rest with
    | nil => simp [capitalize]
    | cons r rs => simp [capitalize]

theorem foldl_append_join (g : String → String) :
    ∀ (parts : List String) (b : String),
      parts.foldl (fun b part => b ++ g part) b = b ++ String.join (parts.map g) := by
  intro parts
  induction parts with
  | nil =>
    intro b
    apply String.ext
    simp [String.join]
  | cons p rest ih =>
    intro b
    rw [List.foldl_cons, ih, List.map_cons]
    have hj : String.join (g p :: rest.map g) = g p ++ String.join (rest.map g) := by
      unfold String.join
      rw [List.foldl_cons]
      have hgen : ∀ (l : List String) (a : String),
          l.foldl (fun r s => r ++ s) a = a ++ l.foldl (fun r s => r ++ s) "" := by
        intro l
        induction l with
        | nil => intro a; apply String.ext; simp
        | cons x xs ihx =>
          intro a
          rw [List.foldl_cons, List.foldl_cons, ihx (a ++ x), ihx ("" ++ x)]
          apply String.ext
          simp
      rw [hgen]
      apply String.ext
      simp
    rw [hj]
    apply String.ext
    simp

theorem join_data (parts : List String) :
    (String.join parts).data = (parts.map String.data).flatten := by
  have hgen : ∀ (l : List String) (a : String),
      (l.foldl (fun r s => r ++ s) a).data = a.data ++ (l.map String.data).flatten := by
    intro l
    induction l with
    | nil => intro a; simp
    | cons x xs ih =>
      intro a
      rw [List.foldl_cons, ih]
      simp
  unfold String.join
  rw [hgen]
  simp

theorem capitalize_ne_empty (U : Unicode) {piece : String} (h : piece.data ≠ []) :
    (capitalize U piece).data ≠ [] := by
  rw [capitalize_data]
  cases hd : piece.data with
  | nil => exact absurd hd h
  | cons first rest => simp

/-- The loop of `toExportedToken` concatenates the capitalised pieces; the
placeholder stands for no piece. -/
theorem toExportedToken_eq (U : Unicode) (s : String) :
    toExportedToken U s =
      if strings.FieldsFunc s (fun r => !U.IsLetter r && !U.IsDigit r) = [] then "Pkg"
      else String.join
        ((strings.FieldsFunc s (fun r => !U.IsLetter r && !U.IsDigit r)).map (capitalize U)) := by
  unfold toExportedToken
  simp only
  have hstep : (fun (b part : String) =>
      if part = "" then b
      else
        match part.data with
        | [] => b
        | first :: rest =>
          if 1 + rest.length > 1 then b ++ String.mk [U.ToUpper first] ++ String.mk rest
          else b ++ String.mk [U.ToUpper first]) = fun b part => b ++ capitalize U part := by
    funext b part
    exact toExportedToken_step U b part
  rw [hstep, foldl_append_join]
  cases hp : strings.FieldsFunc s (fun r => !U.IsLetter r && !U.IsDigit r) with
  | nil => simp
  | cons p rest =>
    have hpiece := (FieldsFunc_pieces s (fun r => !U.IsLetter r && !U.IsDigit r) p
      (by rw [hp]; exact List.mem_cons_self _ _)).1
    have hne : ("" ++ String.join ((p :: rest).map (capitalize U))).length ≠ 0 := by
      rw [String.length, String.data_append, join_data]
      have := capitalize_ne_empty U hpiece
      cases hc : (capitalize U p).data with
      | nil => exact absurd hc this
      | cons x xs => simp [hc]
    simp only [List.length_cons, Nat.add_one_ne_zero, if_false, hne, reduceCtorEq]
    apply String.ext
    simp

theorem FieldsFunc_of_all_sep (f : Char → Bool) :
    ∀ cs : List Char, (∀ c ∈ cs, f c = true) → strings.FieldsFunc.go f cs [] = [] := by
  intro cs
  induction cs with
  | nil => intro _; rfl
  | cons c rest ih =>
    intro h
    unfold strings.FieldsFunc.go
    have hc := h c (List.mem_cons_self _ _)
    simp only [hc, if_true, List.isEmpty_nil]
    exact ih (fun x hx => h x (List.mem_cons_of_mem _ hx))

/-- The token that `packageToken` computes is the token in the words of
C26. -/
theorem packageToken_eq_tokenSpec (U : Unicode) (hU : U.Sane) (ns : String) :
    packageToken U ns = tokenSpec U ns := by
  unfold packageToken tokenSpec tokenPieces
  simp only
  by_cases hb : path.Base (strings.TrimSpace U ns) = "" ∨
      path.Base (strings.TrimSpace U ns) = "." ∨ path.Base (strings.TrimSpace U ns) = "/"
  · simp only [hb, if_true]
    have hnil : strings.FieldsFunc (path.Base (strings.TrimSpace U ns))
        (fun r => !U.IsLetter r && !U.IsDigit r) = [] := by
      unfold strings.FieldsFunc
      apply FieldsFunc_of_all_sep
      intro c hc
      rcases hb with h | h | h <;> rw [h] at hc
      · simp at hc
      · have : c = '.' := by simpa using hc
        subst this
        simp [hU.dot.1, hU.dot.2]
      · have : c = '/' := by simpa using hc
        subst this
        simp [hU.slash.1, hU.slash.2]
    simp [hnil]
  · simp only [hb, if_false]
    exact toExportedToken_eq U _

/-- The token is never empty and consists of letters and digits. -/
theorem tokenSpec_alnum (U : Unicode) (hU : U.Sane) (ns : String) :
    tokenSpec U ns ≠ "" ∧
      ∀ c ∈ (tokenSpec U ns).data, U.IsLetter c = true ∨ U.IsDigit c = true := by
  unfold tokenSpec
  by_cases hp : tokenPieces U ns = []
  · simp only [hp, if_true]
    refine ⟨by decide, ?_⟩
    intro c hc
    have : c = 'P' ∨ c = 'k' ∨ c = 'g' := by simpa using hc
    rcases this with rfl | rfl | rfl
    · exact Or.inl hU.placeholder.1
    · exact Or.inl hU.placeholder.2.1
    · exact Or.inl hU.placeholder.2.2
  · simp only [hp, if_false]
    have hpieces : ∀ piece ∈ tokenPieces U ns, piece.data ≠ [] ∧
        ∀ c ∈ piece.data, (!U.IsLetter c && !U.IsDigit c) = false :=
      FieldsFunc_pieces _ _
    constructor
    · intro h
      have hd := congrArg String.data h
      rw [join_data] at hd
      cases hl : tokenPieces U ns with
      | nil => exact hp hl
      | cons p rest =>
        rw [hl] at hd
        have hne := capitalize_ne_empty U (hpieces p (by rw [hl]; exact List.mem_cons_self _ _)).1
        cases hc : (capitalize U p).data with
        | nil => exact hne hc
        | cons x xs => simp [hc] at hd
    · intro c hc
      rw [join_data, List.mem_flatten] at hc
      obtain ⟨l, hl, hcl⟩ := hc
      rw [List.map_map] at hl
      obtain ⟨piece, hpiece, rfl⟩ := List.mem_map.mp hl
      obtain ⟨_, hall⟩ := hpieces piece hpiece
      have halnum : ∀ x ∈ piece.data, U.IsLetter x = true ∨ U.IsDigit x = true := by
        intro x hx
        have := hall x hx
        cases h1 : U.IsLetter x <;> cases h2 : U.IsDigit x <;> simp_all
      simp only [Function.comp, capitalize_data] at hcl
      cases hd : piece.data with
      | nil => simp [hd] at hcl
      | cons first rest =>
        rw [hd] at hcl halnum
        rcases List.mem_cons.mp hcl with rfl | hr
        · exact hU.upper first (halnum first (List.mem_cons_self _ _))
        · exact halnum c (List.mem_cons_of_mem _ hr)

/-- C26. For equal names, `DefaultConverterName` is `Convert` +
token(srcNamespace) + name + `To` + token(dstNamespace) + name, where the
token of a namespace is built from the last path segment of the trimmed
namespace, split at every rune that is neither a letter nor a digit, each
piece with its first rune upper-cased, and is `Pkg` when there is no piece;
the token is never empty and consists of letters and digits only. -/
theorem DefaultConverterName_of_same_name (U : Unicode) (hU : U.Sane)
    (srcPkgPath dstPkgPath name : String) :
    DefaultConverterName U srcPkgPath name dstPkgPath name =
      "Convert" ++ tokenSpec U srcPkgPath ++ name ++ "To" ++ tokenSpec U dstPkgPath ++ name ∧
    ∀ ns, tokenSpec U ns ≠ "" ∧
      ∀ c ∈ (tokenSpec U ns).data, U.IsLetter c = true ∨ U.IsDigit c = true := by
  refine ⟨?_, tokenSpec_alnum U hU⟩
  unfold DefaultConverterName
  simp only [ne_eq, not_true_eq_false, if_false, packageToken_eq_tokenSpec U hU]

theorem asciiUnicode_upper (c : Char) (h : c.isAlpha = true ∨ c.isDigit = true) :
    c.toUpper.isAlpha = true ∨ c.toUpper.isDigit = true := by
  by_cases hl : c.toNat ≥ 97 ∧ c.toNat ≤ 122
  · left
    have hup : c.toUpper = Char.ofNat (c.toNat - 32) := by
      unfold Char.toUpper
      simp only [hl, and_self, if_true]
    obtain ⟨h1, h2⟩ := hl
    rw [hup]
    generalize c.toNat = n at h1 h2
    interval_cases n <;> decide
  · have hup : c.toUpper = c := by
      unfold Char.toUpper
      simp only [hl, if_false]
    rw [hup]
    exact h

theorem asciiUnicode_sane : asciiUnicode.Sane where
  upper := asciiUnicode_upper
  placeholder := by decide
  dot := by decide
  slash := by decide

/-- C26, witness: `example.com/domain-model` has the pieces `domain` and
`model` and the token `DomainModel`; with `example.com/dto` and the name
`User` the converter is `ConvertDomainModelUserToDtoUser`. -/
theorem DefaultConverterName_of_same_name_witness :
    tokenPieces asciiUnicode "example.com/domain-model" = ["domain", "model"] ∧
    "Convert" ++ tokenSpec asciiUnicode "example.com/domain-model" ++ "User" ++ "To" ++
      tokenSpec asciiUnicode "example.com/dto" ++ "User" = "ConvertDomainModelUserToDtoUser" ∧
    DefaultConverterName asciiUnicode "example.com/domain-model" "User" "example.com/dto"
      "User" =
      "Convert" ++ tokenSpec asciiUnicode "example.com/domain-model" ++ "User" ++ "To" ++
        tokenSpec asciiUnicode "example.com/dto" ++ "User" ∧
    ∀ ns, tokenSpec asciiUnicode ns ≠ "" ∧
      ∀ c ∈ (tokenSpec asciiUnicode ns).data,
        asciiUnicode.IsLetter c = true ∨ asciiUnicode.IsDigit c = true :=
  ⟨by decide, by decide,
    DefaultConverterName_of_same_name asciiUnicode asciiUnicode_sane
      "example.com/domain-model" "example.com/dto" "User"⟩

/-- The characters of the name of a same-name pair: `Convert`, the source
token, the name, `To`, the destination token, the name. -/
theorem DefaultConverterName_same_data (U : Unicode) (p q n : String) :
    (DefaultConverterName U p n q n).data =
      "Convert".data ++ ((packageToken U p).data ++
        (n.data ++ ("To".data ++ ((packageToken U q).data ++ n.data)))) := by
  unfold DefaultConverterName
  simp only [ne_eq, not_true_eq_false, if_false, String.data_append, List.append_assoc]

/-- C27, as the code has it. For records of the same name the converter
name depends on the two namespaces only through their tokens: pairs of
namespaces with the same tokens get the same name; the names differ when
the source tokens agree and the destination tokens differ, and when neither
source token is a prefix of the other. -/
theorem DefaultConverterName_collides_on_tokens (U : Unicode) (n p q p' q' : String) :
    (packageToken U p = packageToken U p' → packageToken U q = packageToken U q' →
      DefaultConverterName U p n q n = DefaultConverterName U p' n q' n) ∧
    (packageToken U p = packageToken U p' → packageToken U q ≠ packageToken U q' →
      DefaultConverterName U p n q n ≠ DefaultConverterName U p' n q' n) ∧
    (¬ (packageToken U p).data <+: (packageToken U p').data →
      ¬ (packageToken U p').data <+: (packageToken U p).data →
      DefaultConverterName U p n q n ≠ DefaultConverterName U p' n q' n) := by
  refine ⟨?_, ?_, ?_⟩
  · intro h1 h2
    unfold DefaultConverterName
    rw [h1, h2]
  · intro h1 h2 heq
    have hd := congrArg String.data heq
    rw [DefaultConverterName_same_data, DefaultConverterName_same_data, h1] at hd
    have h3 := List.append_cancel_left (List.append_cancel_left (List.append_cancel_left
      (List.append_cancel_left hd)))
    exact h2 (String.ext (List.append_cancel_right h3))
  · intro h1 h2 heq
    have hd := congrArg String.data heq
    rw [DefaultConverterName_same_data, DefaultConverterName_same_data] at hd
    have h3 := List.append_cancel_left hd
    have ha : (packageToken U p).data <+: (packageToken U p).data ++
        (n.data ++ ("To".data ++ ((packageToken U q).data ++ n.data))) :=
      List.prefix_append _ _
    have hb : (packageToken U p').data <+: (packageToken U p).data ++
        (n.data ++ ("To".data ++ ((packageToken U q).data ++ n.data))) := by
      rw [h3]
      exact List.prefix_append _ _
    rcases List.prefix_or_prefix_of_prefix ha hb with h | h
    · exact h1 h
    · exact h2 h

/-- C27, witness: with the name `User`, the namespaces `example.com/src`
and `example.com/dst` have the tokens `Src` and `Dst`, neither a prefix of
the other, so the forward and the reverse name differ; `example.com/a/model`
and `example.com/b/model` have the same token and give the same names. -/
theorem DefaultConverterName_collides_on_tokens_witness :
    DefaultConverterName asciiUnicode "example.com/src" "User" "example.com/dst" "User" ≠
      DefaultConverterName asciiUnicode "example.com/dst" "User" "example.com/src" "User" ∧
    DefaultConverterName asciiUnicode "example.com/a/model" "User" "example.com/dto" "User" =
      DefaultConverterName asciiUnicode "example.com/b/model" "User" "example.com/dto" "User" :=
  ⟨(DefaultConverterName_collides_on_tokens asciiUnicode "User" "example.com/src"
      "example.com/dst" "example.com/dst" "example.com/src").2.2 (by decide) (by decide),
   (DefaultConverterName_collides_on_tokens asciiUnicode "User" "example.com/a/model"
      "example.com/dto" "example.com/b/model" "example.com/dto").1 (by decide) rfl⟩

/-- C27, counterexample. The namespaces `example.com/a/model` and
`example.com/b/model` are different and have the same last path segment:
for the record name `User` the forward and the reverse converter both get
the name `ConvertModelUserToModelUser`. -/
theorem DefaultConverterName_collision_counterexample :
    "example.com/a/model" ≠ "example.com/b/model" ∧
    DefaultConverterName asciiUnicode "example.com/a/model" "User" "example.com/b/model"
      "User" = "ConvertModelUserToModelUser" ∧
    DefaultConverterName asciiUnicode "example.com/b/model" "User" "example.com/a/model"
      "User" = "ConvertModelUserToModelUser" := by
  refine ⟨by decide, by decide, by decide⟩

/-! ## C30: the nullable shapes -/

theorem NullableRule_Try_toValue {src dst : FieldInfo} {m : nullableMeta}
    (h1 : nullableTypeMeta src.TypeInfo = some m)
    (h2 : typeMatchesCanonical dst.TypeInfo m.valueType = true) :
    NullableRule.Try src dst = some (newPlan src dst StrategyNullableToValue
      ("if " ++ srcSelector src ++ ".Valid \x7b\n" ++ dstSelector dst ++ " = " ++
        srcSelector src ++ "." ++ m.valueField ++ "\n\x7d")) := by
  unfold NullableRule.Try
  simp only [h1, Option.filter, h2, if_true]

theorem NullableRule_Try_toNullable {src dst : FieldInfo} {m : nullableMeta}
    (h0 : (nullableTypeMeta src.TypeInfo).filter
      (fun m => typeMatchesCanonical dst.TypeInfo m.valueType) = none)
    (h1 : nullableTypeMeta dst.TypeInfo = some m)
    (h2 : typeMatchesCanonical src.TypeInfo m.valueType = true) :
    NullableRule.Try src dst = some (newPlan src dst StrategyValueToNullable
      (dstSelector dst ++ " = " ++ dst.TypeStr ++ "\x7b" ++ m.valueField ++ ": " ++
        srcSelector src ++ ", Valid: " ++ m.validExpr (srcSelector src) ++ "\x7d")) := by
  unfold NullableRule.Try
  simp only
  rw [h0]
  simp only [h1, Option.filter, h2, if_true]

theorem NullableRule_Try_declines {src dst : FieldInfo}
    (h0 : (nullableTypeMeta src.TypeInfo).filter
      (fun m => typeMatchesCanonical dst.TypeInfo m.valueType) = none)
    (h1 : (nullableTypeMeta dst.TypeInfo).filter
      (fun m => typeMatchesCanonical src.TypeInfo m.valueType) = none) :
    NullableRule.Try src dst = none := by
  unfold NullableRule.Try
  simp only [h0, h1]

/-- The table entry of a shape. -/
theorem shape_meta {d : TypeDetail} {s : NullableShape} (hs : s ∈ nullableShapes)
    (h : IsShape d s) :
    ∃ m, nullableTypeMeta d = some m ∧ m.valueType = s.payload ∧ m.valueField = s.field ∧
      m.validExpr = validitySpec s := by
  obtain ⟨hk, hp, hn⟩ := h
  unfold nullableTypeMeta
  rw [hk, hp, hn]
  simp only [nullableShapes, List.mem_cons, List.mem_singleton, List.not_mem_nil, or_false] at hs
  rcases hs with rfl | rfl | rfl | rfl | rfl | rfl | rfl | rfl <;>
    exact ⟨_, rfl, rfl, rfl, by funext e; simp [validitySpec]⟩

/-- The test of `typeMatchesCanonical` on the payload of a shape. -/
theorem payload_matches (d : TypeDetail) {s : NullableShape} (hs : s ∈ nullableShapes) :
    typeMatchesCanonical d s.payload = true ↔ HasPayloadKind d s := by
  simp only [nullableShapes, List.mem_cons, List.mem_singleton, List.not_mem_nil, or_false] at hs
  have hsplit : strings.SplitN2 "time.Time" "." = ["time", "Time"] := by decide
  rcases hs with rfl | rfl | rfl | rfl | rfl | rfl | rfl | rfl
  all_goals
    unfold typeMatchesCanonical HasPayloadKind
    first
    | (rw [if_pos (by decide)]
       simp only [hsplit]
       simp [and_assoc])
    | (rw [if_neg (by decide)]
       simp)

theorem split_key (P0 S0 : String) {P S : String} (h0 : '.' ∉ P0.data) (h1 : '.' ∉ S0.data)
    (h : P ++ "." ++ S = P0 ++ "." ++ S0) : P = P0 ∧ S = S0 := by
  have hd := congrArg String.data h
  simp only [String.data_append] at hd
  rw [List.append_assoc, List.append_assoc] at hd
  have hc := congrArg (List.count '.') hd
  simp only [List.count_append, List.count_eq_zero_of_not_mem h0,
    List.count_eq_zero_of_not_mem h1] at hc
  have hone : List.count '.' ".".data = 1 := by decide
  rw [hone] at hc
  have hP : '.' ∉ P.data := by
    intro hm
    have := List.count_pos_iff.mpr hm
    omega
  have hS : '.' ∉ S.data := by
    intro hm
    have := List.count_pos_iff.mpr hm
    omega
  obtain ⟨a, b⟩ := append_dot_inj _ _ _ _ hS h1 hd
  exact ⟨String.ext a, String.ext b⟩

/-- Only the eight shapes have an entry in the table. -/
theorem meta_shape {d : TypeDetail} {m : nullableMeta} (h : nullableTypeMeta d = some m) :
    ∃ s ∈ nullableShapes, IsShape d s ∧ m.valueType = s.payload := by
  unfold nullableTypeMeta at h
  split_ifs at h with hc
  have hk : d.Kind = TypeKindStruct := by
    by_contra hne
    exact hc (Or.inl hne)
  unfold nullableMapping at h
  split_ifs at h with k1 k2 k3 k4 k5 k6 k7 k8 <;>
    simp only [Option.some.injEq] at h <;> subst h
  · obtain ⟨a, b⟩ := split_key "database/sql" "NullString" (by decide)
      (by decide) k1
    exact ⟨_, List.mem_cons_self _ _, ⟨hk, a, b⟩, rfl⟩
  · obtain ⟨a, b⟩ := split_key "database/sql" "NullInt64" (by decide)
      (by decide) k2
    exact ⟨{ name := "NullInt64", payload := "int64", field := "Int64" }, by simp [nullableShapes],
      ⟨hk, a, b⟩, rfl⟩
  · obtain ⟨a, b⟩ := split_key "database/sql" "NullInt32" (by decide)
      (by decide) k3
    exact ⟨{ name := "NullInt32", payload := "int32", field := "Int32" }, by simp [nullableShapes],
      ⟨hk, a, b⟩, rfl⟩
  · obtain ⟨a, b⟩ := split_key "database/sql" "NullInt16" (by decide)
      (by decide) k4
    exact ⟨{ name := "NullInt16", payload := "int16", field := "Int16" }, by simp [nullableShapes],
      ⟨hk, a, b⟩, rfl⟩
  · obtain ⟨a, b⟩ := split_key "database/sql" "NullFloat64" (by decide)
      (by decide) k5
    exact ⟨{ name := "NullFloat64", payload := "float64", field := "Float64" },
      by simp [nullableShapes], ⟨hk, a, b⟩, rfl⟩
  · obtain ⟨a, b⟩ := split_key "database/sql" "NullBool" (by decide)
      (by decide) k6
    exact ⟨{ name := "NullBool", payload := "bool", field := "Bool" }, by simp [nullableShapes],
      ⟨hk, a, b⟩, rfl⟩
  · obtain ⟨a, b⟩ := split_key "database/sql" "NullByte" (by decide)
      (by decide) k7
    exact ⟨{ name := "NullByte", payload := "byte", field := "Byte" }, by simp [nullableShapes],
      ⟨hk, a, b⟩, rfl⟩
  · obtain ⟨a, b⟩ := split_key "database/sql" "NullTime" (by decide)
      (by decide) k8
    exact ⟨{ name := "NullTime", payload := "time.Time", field := "Time" },
      by simp [nullableShapes], ⟨hk, a, b⟩, rfl⟩

/-- A destination of a nullable shape that is not marked basic never has
the payload kind of a shape. -/
theorem filter_none_of_shape {src dst : FieldInfo} {s : NullableShape}
    (hd : IsShape dst.TypeInfo s) (hb : dst.TypeInfo.IsBasic = false) :
    (nullableTypeMeta src.TypeInfo).filter
      (fun m => typeMatchesCanonical dst.TypeInfo m.valueType) = none := by
  cases hm : nullableTypeMeta src.TypeInfo with
  | none => rfl
  | some m =>
    obtain ⟨s1, hs1, _, hv⟩ := meta_shape hm
    have hno : ¬ typeMatchesCanonical dst.TypeInfo m.valueType = true := by
      rw [hv, payload_matches _ hs1]
      rintro (⟨_, _, hp, _⟩ | ⟨_, hbb, _⟩ | ⟨_, _, hbb, _⟩)
      · rw [hd.2.1] at hp
        exact absurd hp (by decide)
      · rw [hb] at hbb
        exact absurd hbb (by decide)
      · rw [hb] at hbb
        exact absurd hbb (by decide)
    simp [Option.filter, hno]

/-- C30. For each of the eight nullable shapes: a source of that shape and
a destination of its payload kind get the plan NullableToValue, which copies
the payload field under a guard on the `Valid` flag of the source; a source
of the payload kind and a destination of that shape (a struct descriptor,
not marked basic) get the plan ValueToNullable, whose validity expression
is a non-empty-string test for NullString, `!src.IsZero()` for NullTime and
`true` for every other shape; for every other pair the rule declines. -/
theorem NullableRule_Try_shapes (src dst : FieldInfo) :
    (∀ s ∈ nullableShapes, IsShape src.TypeInfo s → HasPayloadKind dst.TypeInfo s →
      NullableRule.Try src dst = some (newPlan src dst StrategyNullableToValue
        ("if " ++ srcSelector src ++ ".Valid \x7b\n" ++ dstSelector dst ++ " = " ++
          srcSelector src ++ "." ++ s.field ++ "\n\x7d"))) ∧
    (∀ s ∈ nullableShapes, IsShape dst.TypeInfo s → dst.TypeInfo.IsBasic = false →
      HasPayloadKind src.TypeInfo s →
      NullableRule.Try src dst = some (newPlan src dst StrategyValueToNullable
        (dstSelector dst ++ " = " ++ dst.TypeStr ++ "\x7b" ++ s.field ++ ": " ++
          srcSelector src ++ ", Valid: " ++ validitySpec s (srcSelector src) ++ "\x7d"))) ∧
    ((∀ s ∈ nullableShapes, ¬ (IsShape src.TypeInfo s ∧ HasPayloadKind dst.TypeInfo s) ∧
        ¬ (IsShape dst.TypeInfo s ∧ HasPayloadKind src.TypeInfo s)) →
      NullableRule.Try src dst = none) := by
  refine ⟨?_, ?_, ?_⟩
  · intro s hs hshape hpay
    obtain ⟨m, hm, hv, hf, _⟩ := shape_meta hs hshape
    rw [← hf]
    exact NullableRule_Try_toValue hm (by rw [hv]; exact (payload_matches _ hs).mpr hpay)
  · intro s hs hshape hb hpay
    obtain ⟨m, hm, hv, hf, he⟩ := shape_meta hs hshape
    rw [← hf, ← he]
    exact NullableRule_Try_toNullable (filter_none_of_shape hshape hb) hm
      (by rw [hv]; exact (payload_matches _ hs).mpr hpay)
  · intro hnone
    apply NullableRule_Try_declines
    · cases hm : nullableTypeMeta src.TypeInfo with
      | none => rfl
      | some m =>
        obtain ⟨s, hs, hshape, hv⟩ := meta_shape hm
        have hno : ¬ typeMatchesCanonical dst.TypeInfo m.valueType = true := by
          rw [hv, payload_matches _ hs]
          exact fun hp => (hnone s hs).1 ⟨hshape, hp⟩
        simp [Option.filter, hno]
    · cases hm : nullableTypeMeta dst.TypeInfo with
      | none => rfl
      | some m =>
        obtain ⟨s, hs, hshape, hv⟩ := meta_shape hm
        have hno : ¬ typeMatchesCanonical src.TypeInfo m.valueType = true := by
          rw [hv, payload_matches _ hs]
          exact fun hp => (hnone s hs).2 ⟨hshape, hp⟩
        simp [Option.filter, hno]

/-- C30, witness: the pair of `TestResolver_NullableToValue`, a source
`sql.NullString` and a destination `string`, and the pair in the other
direction. -/
theorem NullableRule_Try_shapes_witness :
    NullableRule.Try nullStringField stringField =
      some (newPlan nullStringField stringField StrategyNullableToValue
        "if src.Name.Valid \x7b\ndst.Name = src.Name.String\n\x7d") ∧
    NullableRule.Try stringField nullStringField =
      some (newPlan stringField nullStringField StrategyValueToNullable
        "dst.Name = sql.NullString\x7bString: src.Name, Valid: src.Name != \"\"\x7d") ∧
    NullableRule.Try stringField stringField = none :=
  ⟨(NullableRule_Try_shapes nullStringField stringField).1
      { name := "NullString", payload := "string", field := "String" }
      (List.mem_cons_self _ _) ⟨rfl, rfl, rfl⟩
      (Or.inr (Or.inr ⟨by decide, by decide, rfl, rfl⟩)),
   (NullableRule_Try_shapes stringField nullStringField).2.1
      { name := "NullString", payload := "string", field := "String" }
      (List.mem_cons_self _ _) ⟨rfl, rfl, rfl⟩ rfl
      (Or.inr (Or.inr ⟨by decide, by decide, rfl, rfl⟩)),
   (NullableRule_Try_shapes stringField stringField).2.2 (by
      intro s _
      exact ⟨fun h => absurd h.1.1 (by decide), fun h => absurd h.1.1 (by decide)⟩)⟩

/-! ## C21: matching records by name -/

/-- An index built by setting `k x` to `x` for the elements in order maps a
key to the last element with that key. -/
theorem GoMap.foldl_set_get {α : Type} (k : α → String) (key : String) :
    ∀ (l : List α) (m : GoMap α),
      (l.foldl (fun m x => GoMap.set m (k x) x) m).get key =
        match (l.filter (fun x => k x = key)).getLast? with
        | some x => some x
        | none => m.get key := by
  intro l
  induction l with
  | nil => intro m; rfl
  | cons x rest ih =>
    intro m
    rw [List.foldl_cons, ih, GoMap.get_set]
    by_cases hx : k x = key
    · simp only [hx, if_true, List.filter_cons, decide_True]
      cases hl : (rest.filter (fun y => k y = key)).getLast? with
      | none =>
        have : rest.filter (fun y => k y = key) = [] := by simpa using hl
        simp [this]
      | some f =>
        rw [List.getLast?_cons, hl]
        rfl
    · simp only [hx, if_false, List.filter_cons, decide_False, Bool.false_eq_true]

/-- The loop of `MatchStructs` computes the pairs of `MatchStructsSpec`. -/
theorem MatchStructs_eq (srcInfos dstInfos : List StructInfo) :
    structMatcherImpl.MatchStructs srcInfos dstInfos = MatchStructsSpec srcInfos dstInfos := by
  unfold structMatcherImpl.MatchStructs MatchStructsSpec
  simp only
  congr 1
  have hstep : (fun (pairs : List StructPair) (s : StructInfo) =>
      match GoMap.get (List.foldl (fun m d => GoMap.set m d.Name d)
          ([] : List (String × StructInfo)) dstInfos) s.Name with
      | some d => pairs ++ [{ Src := s, Dst := d }]
      | none => pairs) =
      fun pairs s => pairs ++ ((lastRecordNamed dstInfos s.Name).map
        (fun d => ({ Src := s, Dst := d } : StructPair))).toList := by
    funext pairs s
    rw [GoMap.foldl_set_get (fun d : StructInfo => d.Name), GoMap.get_nil]
    unfold lastRecordNamed
    cases (List.filter (fun d : StructInfo => decide (d.Name = s.Name)) dstInfos).getLast? <;>
      simp
  rw [hstep]
  exact (foldl_append_filterMap
    (fun s => (lastRecordNamed dstInfos s.Name).map
      (fun d => ({ Src := s, Dst := d } : StructPair))) srcInfos []).trans (List.nil_append _)

theorem lastRecordNamed_some {dstInfos : List StructInfo} {name : String} {d : StructInfo}
    (h : lastRecordNamed dstInfos name = some d) : d ∈ dstInfos ∧ d.Name = name := by
  unfold lastRecordNamed at h
  have hmem := List.mem_of_getLast?_eq_some h
  obtain ⟨h1, h2⟩ := List.mem_filter.mp hmem
  exact ⟨h1, by simpa using h2⟩

theorem lastRecordNamed_isSome (dstInfos : List StructInfo) (name : String) :
    (lastRecordNamed dstInfos name).isSome = true ↔ ∃ d ∈ dstInfos, d.Name = name := by
  unfold lastRecordNamed
  constructor
  · intro h
    obtain ⟨d, hd⟩ := Option.isSome_iff_exists.mp h
    have := List.mem_of_getLast?_eq_some hd
    obtain ⟨h1, h2⟩ := List.mem_filter.mp this
    exact ⟨d, h1, by simpa using h2⟩
  · rintro ⟨d, hd, hn⟩
    have hmem : d ∈ dstInfos.filter (fun d => d.Name = name) :=
      List.mem_filter.mpr ⟨hd, by simpa using hn⟩
    cases hl : (dstInfos.filter (fun d => d.Name = name)).getLast? with
    | none =>
      have : dstInfos.filter (fun d => d.Name = name) = [] := by simpa using hl
      rw [this] at hmem
      simp at hmem
    | some x => rfl

theorem filterMap_sources (dstInfos : List StructInfo) :
    ∀ srcInfos : List StructInfo,
      (srcInfos.filterMap (fun s =>
        (lastRecordNamed dstInfos s.Name).map
          (fun d => ({ Src := s, Dst := d } : StructPair)))).map (fun p => p.Src) =
        srcInfos.filter (fun s => (lastRecordNamed dstInfos s.Name).isSome) := by
  intro srcInfos
  induction srcInfos with
  | nil => rfl
  | cons s rest ih =>
    rw [List.filterMap_cons, List.filter_cons]
    cases hl : lastRecordNamed dstInfos s.Name with
    | none => simpa using ih
    | some d => simpa using ih

/-- C21. For all lists of source and destination records, `MatchStructs`
returns one pair for each source record that has a destination record of
exactly the same name, and none for the others: the sources of the pairs are
the matching source records in the reverse of the source order, every pair
holds a destination record of the same name as its source (namespaces are
not compared), and when the last source record matches its pair is the
first. -/
theorem MatchStructs_exact_name_reversed (srcInfos dstInfos : List StructInfo) :
    structMatcherImpl.MatchStructs srcInfos dstInfos = MatchStructsSpec srcInfos dstInfos ∧
    (structMatcherImpl.MatchStructs srcInfos dstInfos).map (fun p => p.Src) =
      (srcInfos.filter (fun s => (lastRecordNamed dstInfos s.Name).isSome)).reverse ∧
    (∀ s : StructInfo, (lastRecordNamed dstInfos s.Name).isSome = true ↔
      ∃ d ∈ dstInfos, d.Name = s.Name) ∧
    (∀ p ∈ structMatcherImpl.MatchStructs srcInfos dstInfos,
      p.Src ∈ srcInfos ∧ p.Dst ∈ dstInfos ∧ p.Dst.Name = p.Src.Name) ∧
    (∀ (init : List StructInfo) (root : StructInfo), srcInfos = init ++ [root] →
      (∃ d ∈ dstInfos, d.Name = root.Name) →
      ((structMatcherImpl.MatchStructs srcInfos dstInfos).head?).map (fun p => p.Src) =
        some root) := by
  have hsrc : (structMatcherImpl.MatchStructs srcInfos dstInfos).map (fun p => p.Src) =
      (srcInfos.filter (fun s => (lastRecordNamed dstInfos s.Name).isSome)).reverse := by
    rw [MatchStructs_eq]
    unfold MatchStructsSpec
    rw [List.map_reverse, filterMap_sources]
  refine ⟨MatchStructs_eq srcInfos dstInfos, hsrc,
    fun s => lastRecordNamed_isSome dstInfos s.Name, ?_, ?_⟩
  · intro p hp
    rw [MatchStructs_eq] at hp
    unfold MatchStructsSpec at hp
    rw [List.mem_reverse, List.mem_filterMap] at hp
    obtain ⟨s, hs, hsome⟩ := hp
    cases hl : lastRecordNamed dstInfos s.Name with
    | none => simp [hl] at hsome
    | some d =>
      simp only [hl, Option.map_some', Option.some.injEq] at hsome
      subst hsome
      obtain ⟨h1, h2⟩ := lastRecordNamed_some hl
      exact ⟨hs, h1, h2⟩
  · intro init root hsplit hex
    have hroot : (lastRecordNamed dstInfos root.Name).isSome = true :=
      (lastRecordNamed_isSome dstInfos root.Name).mpr hex
    have hh : ((structMatcherImpl.MatchStructs srcInfos dstInfos).map (fun p => p.Src)).head? =
        some root := by
      rw [hsrc, hsplit, List.filter_append]
      simp [List.filter_cons, hroot]
    rw [List.head?_map] at hh
    exact hh

/-- C21, witness: the lists of `TestStructMatcher_MatchStructs_ExactName`,
sources Address, User and destinations User, Tag: the one pair is User with
User, and it is first. -/
theorem MatchStructs_exact_name_reversed_witness :
    (structMatcherImpl.MatchStructs
        [emptyRecord "example.com/src" "src" "Address", emptyRecord "example.com/src" "src" "User"]
        [emptyRecord "example.com/dst" "dst" "User", emptyRecord "example.com/dst" "dst" "Tag"]).map
      (fun p => (p.Src.PkgPath, p.Src.Name, p.Dst.PkgPath, p.Dst.Name)) =
      [("example.com/src", "User", "example.com/dst", "User")] ∧
    ((structMatcherImpl.MatchStructs
        [emptyRecord "example.com/src" "src" "Address", emptyRecord "example.com/src" "src" "User"]
        [emptyRecord "example.com/dst" "dst" "User",
          emptyRecord "example.com/dst" "dst" "Tag"]).head?).map (fun p => p.Src) =
      some (emptyRecord "example.com/src" "src" "User") :=
  ⟨rfl,
    (MatchStructs_exact_name_reversed
      [emptyRecord "example.com/src" "src" "Address", emptyRecord "example.com/src" "src" "User"]
      [emptyRecord "example.com/dst" "dst" "User",
        emptyRecord "example.com/dst" "dst" "Tag"]).2.2.2.2
      [emptyRecord "example.com/src" "src" "Address"] (emptyRecord "example.com/src" "src" "User")
      rfl ⟨emptyRecord "example.com/dst" "dst" "User", by simp, rfl⟩⟩

/-! ## The runner -/

theorem reverseStructPairs_eq (forwardPairs : List StructPair) :
    reverseStructPairs forwardPairs = reversePairsSpec forwardPairs := by
  unfold reverseStructPairs reversePairsSpec
  have hgen : ∀ (l : List StructPair) (init : List StructPair),
      l.foldl (fun (reverse : List StructPair) p =>
        if p.Src.PkgPath = p.Dst.PkgPath ∧ p.Src.Name = p.Dst.Name then reverse
        else reverse ++ [{ Src := p.Dst, Dst := p.Src }]) init =
        init ++ (l.filter (fun p => !sameRecord p)).map swapPair := by
    intro l
    induction l with
    | nil => intro init; simp
    | cons p rest ih =>
      intro init
      rw [List.foldl_cons, ih]
      by_cases hs : p.Src.PkgPath = p.Dst.PkgPath ∧ p.Src.Name = p.Dst.Name
      · have hb : sameRecord p = true := by simp [sameRecord, hs.1, hs.2]
        simp [hs, hb, List.filter_cons]
      · have hb : sameRecord p = false := by
          unfold sameRecord
          rw [Bool.and_eq_false_iff]
          by_cases h1 : p.Src.PkgPath = p.Dst.PkgPath
          · right
            exact decide_eq_false (fun h2 => hs ⟨h1, h2⟩)
          · left
            exact decide_eq_false h1
        simp [hs, hb, List.filter_cons, swapPair]
  split_ifs with h0
  · have : forwardPairs = [] := List.length_eq_zero.mp h0
    subst this
    rfl
  · rw [hgen]
    simp

/-- The plans `appendPlans` appends: one per pair, in order, each with the
records of the pair and the name `planName`. -/
theorem appendPlans_pairs {σ ε : Type} (T : GoTypes) (U : Unicode) (r : runnerImpl σ ε)
    (cfg : Config) (rootSrcType rootDstType rootFuncName outputPkgPath : String)
    (all : List StructPair) :
    ∀ (l : List StructPair) (acc : List StructConversionPlan × σ),
      (l.foldl (appendPlans.step T U r all cfg rootSrcType rootDstType rootFuncName
          outputPkgPath) acc).1.map (fun p => (p.Src, p.Dst, p.FuncName)) =
        acc.1.map (fun p => (p.Src, p.Dst, p.FuncName)) ++
          l.map (fun sp => (sp.Src, sp.Dst,
            planName U rootSrcType rootDstType rootFuncName sp)) := by
  intro l
  induction l with
  | nil => intro acc; simp
  | cons sp rest ih =>
    intro acc
    rw [List.foldl_cons, ih]
    simp [appendPlans.step, planName]

theorem planName_default (U : Unicode) (a b : String) (sp : StructPair) :
    planName U a b "" sp =
      DefaultConverterName U sp.Src.PkgPath sp.Src.Name sp.Dst.PkgPath sp.Dst.Name := by
  simp [planName]

/-- A run whose discovery succeeds is the rest of `Run` on what was
discovered. -/
theorem Run_of_Discovers {σ ε : Type} (T : GoTypes) (U : Unicode) {r : runnerImpl σ ε}
    {st : σ} {cfg : Config} {srcInfos dstInfos : List StructInfo}
    {matched : List StructPair × σ} (h : Discovers r st cfg srcInfos dstInfos matched) :
    r.Run T U st cfg = some (r.finish T U cfg srcInfos dstInfos matched) := by
  obtain ⟨st1, st2, h1, h2, h3⟩ := h
  unfold runnerImpl.Run
  simp only [h1, h2, h3]

/-- A run that ends otherwise than with a parse error has discovered both
lists. -/
theorem Discovers_of_Run {σ ε : Type} (T : GoTypes) (U : Unicode) {r : runnerImpl σ ε}
    {st st' : σ} {cfg : Config} {out : RunOutcome ε}
    (h : r.Run T U st cfg = some (out, st'))
    (hsrc : ∀ e, out ≠ .failed (.parseSrc e)) (hdst : ∀ e, out ≠ .failed (.parseDst e)) :
    ∃ srcInfos dstInfos matched, Discovers r st cfg srcInfos dstInfos matched ∧
      r.finish T U cfg srcInfos dstInfos matched = (out, st') := by
  unfold runnerImpl.Run at h
  cases h1 : r.parser st cfg.SrcPath cfg.SrcType with
  | none => simp [h1] at h
  | some res1 =>
    obtain ⟨x1, st1⟩ := res1
    cases x1 with
    | error e =>
      simp only [h1, Option.some.injEq, Prod.mk.injEq] at h
      exact absurd h.1.symm (hsrc e)
    | ok srcInfos =>
      simp only [h1] at h
      cases h2 : r.parser st1 cfg.DstPath cfg.DstType with
      | none => simp [h2] at h
      | some res2 =>
        obtain ⟨x2, st2⟩ := res2
        cases x2 with
        | error e =>
          simp only [h2, Option.some.injEq, Prod.mk.injEq] at h
          exact absurd h.1.symm (hdst e)
        | ok dstInfos =>
          simp only [h2, Option.some.injEq] at h
          exact ⟨srcInfos, dstInfos, _, ⟨st1, st2, h1, h2, rfl⟩, h⟩

/-- The plan list built from the forward pairs: the plans of the forward
pairs, named by `planName` with the configured root name, followed by the
plans of the reverse pairs, named by `DefaultConverterName`. -/
theorem allPlans_pairs {σ ε : Type} (T : GoTypes) (U : Unicode) (r : runnerImpl σ ε) (st : σ)
    (forwardPairs : List StructPair) (cfg : Config) (outputPkgPath : String) :
    (r.allPlans T U st forwardPairs cfg outputPkgPath).1.map
        (fun p => (p.Src, p.Dst, p.FuncName)) =
      forwardPairs.map (fun sp => (sp.Src, sp.Dst,
        planName U cfg.SrcType cfg.DstType cfg.FuncName sp)) ++
      (reversePairsSpec forwardPairs).map (fun sp => (sp.Src, sp.Dst,
        DefaultConverterName U sp.Src.PkgPath sp.Src.Name sp.Dst.PkgPath sp.Dst.Name)) := by
  unfold runnerImpl.allPlans
  simp only
  rw [← reverseStructPairs_eq]
  split_ifs with hrev
  · unfold runnerImpl.appendPlans
    rw [appendPlans_pairs, appendPlans_pairs]
    simp [planName_default]
  · have hnil : reverseStructPairs forwardPairs = [] := by
      apply List.length_eq_zero.mp
      omega
    unfold runnerImpl.appendPlans
    rw [hnil, appendPlans_pairs]
    simp

/-- When the rest of `Run` calls the generator, the forward pairs are not
empty and the plan list is `allPlans` of them. -/
theorem finish_generated {σ ε : Type} (T : GoTypes) (U : Unicode) (r : runnerImpl σ ε)
    (cfg : Config) (srcInfos dstInfos : List StructInfo) (matched : List StructPair × σ)
    (plans : List StructConversionPlan) (err : Option ε) (st' : σ)
    (h : r.finish T U cfg srcInfos dstInfos matched = (.generated plans err, st')) :
    ensureRootPair cfg srcInfos dstInfos matched.1 ≠ [] ∧
    ∃ last, srcInfos.getLast? = some last ∧
      plans = (r.allPlans T U matched.2 (ensureRootPair cfg srcInfos dstInfos matched.1) cfg
        (outputPkgPathOf cfg srcInfos last)).1 := by
  unfold runnerImpl.finish at h
  simp only at h
  by_cases h0 : (ensureRootPair cfg srcInfos dstInfos matched.1).length = 0
  · rw [if_pos h0] at h
    simp at h
  · rw [if_neg h0] at h
    cases hl : srcInfos.getLast? with
    | none => simp [hl] at h
    | some last =>
      simp only [hl, Prod.mk.injEq, RunOutcome.generated.injEq] at h
      exact ⟨fun hnil => h0 (by rw [hnil]; rfl), last, rfl, h.1.1.symm⟩

/-! ## C23 and C29: the plan list handed to the generator -/

/-- A run that calls the generator has discovered both lists; the forward
pairs are not empty, and the plans are those of the forward pairs followed
by those of the reverse pairs, with their names. -/
theorem Run_generated {σ ε : Type} (T : GoTypes) (U : Unicode) {r : runnerImpl σ ε}
    {st st' : σ} {cfg : Config} {plans : List StructConversionPlan} {err : Option ε}
    (h : r.Run T U st cfg = some (.generated plans err, st')) :
    ∃ srcInfos dstInfos matched, Discovers r st cfg srcInfos dstInfos matched ∧
      ensureRootPair cfg srcInfos dstInfos matched.1 ≠ [] ∧
      plans.map (fun p => (p.Src, p.Dst, p.FuncName)) =
        (ensureRootPair cfg srcInfos dstInfos matched.1).map (fun sp => (sp.Src, sp.Dst,
          planName U cfg.SrcType cfg.DstType cfg.FuncName sp)) ++
        (reversePairsSpec (ensureRootPair cfg srcInfos dstInfos matched.1)).map
          (fun sp => (sp.Src, sp.Dst,
            DefaultConverterName U sp.Src.PkgPath sp.Src.Name sp.Dst.PkgPath sp.Dst.Name)) := by
  obtain ⟨srcInfos, dstInfos, matched, hd, hfin⟩ :=
    Discovers_of_Run T U h (fun e => by simp) (fun e => by simp)
  obtain ⟨hne, last, _, hplans⟩ := finish_generated T U r cfg srcInfos dstInfos matched plans
    err st' hfin
  refine ⟨srcInfos, dstInfos, matched, hd, hne, ?_⟩
  rw [hplans]
  exact allPlans_pairs T U r matched.2 _ cfg _

/-- C23. The plan list that `Run` hands to the generator holds one plan per
forward pair, in forward-pair order, followed by one plan per reverse pair;
the reverse pairs are the forward pairs with source and destination
swapped, in the same order, without the pairs whose source and destination
have the same namespace and name. -/
theorem Run_plans_forward_then_reverse {σ ε : Type} (T : GoTypes) (U : Unicode)
    (r : runnerImpl σ ε) (st st' : σ) (cfg : Config) (plans : List StructConversionPlan)
    (err : Option ε) (h : r.Run T U st cfg = some (.generated plans err, st')) :
    ∃ srcInfos dstInfos matched, Discovers r st cfg srcInfos dstInfos matched ∧
      plans.map (fun p => ({ Src := p.Src, Dst := p.Dst } : StructPair)) =
        ensureRootPair cfg srcInfos dstInfos matched.1 ++
          reverseStructPairs (ensureRootPair cfg srcInfos dstInfos matched.1) ∧
      reverseStructPairs (ensureRootPair cfg srcInfos dstInfos matched.1) =
        ((ensureRootPair cfg srcInfos dstInfos matched.1).filter
          (fun p => !(decide (p.Src.PkgPath = p.Dst.PkgPath) &&
            decide (p.Src.Name = p.Dst.Name)))).map
          (fun p => { Src := p.Dst, Dst := p.Src }) := by
  obtain ⟨srcInfos, dstInfos, matched, hd, _, hplans⟩ := Run_generated T U h
  refine ⟨srcInfos, dstInfos, matched, hd, ?_, reverseStructPairs_eq _⟩
  have h2 := congrArg (List.map (fun t : StructInfo × StructInfo × String =>
    ({ Src := t.1, Dst := t.2.1 } : StructPair))) hplans
  have hid : ∀ l : List StructPair,
      l.map (fun sp => ({ Src := sp.Src, Dst := sp.Dst } : StructPair)) = l := by
    intro l
    induction l with
    | nil => rfl
    | cons x rest ih => rw [List.map_cons, ih]
  simp only [List.map_append, List.map_map, Function.comp_def] at h2
  rw [h2, hid, hid, reverseStructPairs_eq]

/-- C29. In the plan list that `Run` hands to the generator, the plan of a
forward pair is named by the configured root function name when that name
is not empty, the source name of the pair is the requested source type and
its destination name the requested destination type; the plan of every
other forward pair and of every reverse pair, the reverse of the root pair
included, is named by `DefaultConverterName`. -/
theorem Run_root_func_name_forward_only {σ ε : Type} (T : GoTypes) (U : Unicode)
    (r : runnerImpl σ ε) (st st' : σ) (cfg : Config) (plans : List StructConversionPlan)
    (err : Option ε) (h : r.Run T U st cfg = some (.generated plans err, st')) :
    ∃ srcInfos dstInfos matched, Discovers r st cfg srcInfos dstInfos matched ∧
      plans.map (fun p => (p.Src, p.Dst, p.FuncName)) =
        (ensureRootPair cfg srcInfos dstInfos matched.1).map (fun sp => (sp.Src, sp.Dst,
          if sp.Src.Name = cfg.SrcType ∧ sp.Dst.Name = cfg.DstType ∧ cfg.FuncName ≠ "" then
            cfg.FuncName
          else DefaultConverterName U sp.Src.PkgPath sp.Src.Name sp.Dst.PkgPath sp.Dst.Name)) ++
        (reverseStructPairs (ensureRootPair cfg srcInfos dstInfos matched.1)).map
          (fun sp => (sp.Src, sp.Dst,
            DefaultConverterName U sp.Src.PkgPath sp.Src.Name sp.Dst.PkgPath sp.Dst.Name)) := by
  obtain ⟨srcInfos, dstInfos, matched, hd, _, hplans⟩ := Run_generated T U h
  refine ⟨srcInfos, dstInfos, matched, hd, ?_⟩
  rw [hplans, reverseStructPairs_eq]
  rfl

theorem rootPairRunner_Run :
    rootPairRunner.Run exampleTypes asciiUnicode
        { parserCalls := 0, fieldMatchCalls := 0, generatorCalls := 0 } rootPairCfg =
      some (.generated rootPairPlans none,
        { parserCalls := 1, fieldMatchCalls := 4, generatorCalls := 1 }) :=
  rfl

/-- C23, witness: in `TestRunner_Run_IncludesRootPairAndCustomFuncName` the
generator receives the plans of User to UserResponse and Address to
AddressResponse, then those of UserResponse to User and AddressResponse to
Address; and the pair of a record with itself has no reverse pair
(`TestReverseStructPairs_SkipsSameTypePair`). -/
theorem Run_plans_forward_then_reverse_witness :
    rootPairPlans.map (fun p => (p.Src.Name, p.Dst.Name)) =
      [("User", "UserResponse"), ("Address", "AddressResponse"), ("UserResponse", "User"),
        ("AddressResponse", "Address")] ∧
    reverseStructPairs [{ Src := emptyRecord "example.com/model" "" "User",
                          Dst := emptyRecord "example.com/model" "" "User" }] = [] ∧
    ∃ srcInfos dstInfos matched,
      Discovers rootPairRunner { parserCalls := 0, fieldMatchCalls := 0, generatorCalls := 0 }
        rootPairCfg srcInfos dstInfos matched ∧
      rootPairPlans.map (fun p => ({ Src := p.Src, Dst := p.Dst } : StructPair)) =
        ensureRootPair rootPairCfg srcInfos dstInfos matched.1 ++
          reverseStructPairs (ensureRootPair rootPairCfg srcInfos dstInfos matched.1) ∧
      reverseStructPairs (ensureRootPair rootPairCfg srcInfos dstInfos matched.1) =
        ((ensureRootPair rootPairCfg srcInfos dstInfos matched.1).filter
          (fun p => !(decide (p.Src.PkgPath = p.Dst.PkgPath) &&
            decide (p.Src.Name = p.Dst.Name)))).map
          (fun p => { Src := p.Dst, Dst := p.Src }) :=
  ⟨rfl, rfl,
    Run_plans_forward_then_reverse exampleTypes asciiUnicode rootPairRunner _ _ rootPairCfg
      rootPairPlans none rootPairRunner_Run⟩

/-- C29, witness: in `TestRunner_Run_IncludesRootPairAndCustomFuncName`,
with the root function name `BuildUserResponse`, the forward root plan is
named BuildUserResponse, the nested forward plan
ConvertAddressToAddressResponse, the reverse root plan
ConvertUserResponseToUser and the nested reverse plan
ConvertAddressResponseToAddress. -/
theorem Run_root_func_name_forward_only_witness :
    rootPairPlans.map (fun p => p.FuncName) =
      ["BuildUserResponse", "ConvertAddressToAddressResponse", "ConvertUserResponseToUser",
        "ConvertAddressResponseToAddress"] ∧
    ∃ srcInfos dstInfos matched,
      Discovers rootPairRunner { parserCalls := 0, fieldMatchCalls := 0, generatorCalls := 0 }
        rootPairCfg srcInfos dstInfos matched ∧
      rootPairPlans.map (fun p => (p.Src, p.Dst, p.FuncName)) =
        (ensureRootPair rootPairCfg srcInfos dstInfos matched.1).map (fun sp => (sp.Src, sp.Dst,
          if sp.Src.Name = rootPairCfg.SrcType ∧ sp.Dst.Name = rootPairCfg.DstType ∧
              rootPairCfg.FuncName ≠ "" then
            rootPairCfg.FuncName
          else DefaultConverterName asciiUnicode sp.Src.PkgPath sp.Src.Name sp.Dst.PkgPath
            sp.Dst.Name)) ++
        (reverseStructPairs (ensureRootPair rootPairCfg srcInfos dstInfos matched.1)).map
          (fun sp => (sp.Src, sp.Dst,
            DefaultConverterName asciiUnicode sp.Src.PkgPath sp.Src.Name sp.Dst.PkgPath
              sp.Dst.Name)) :=
  ⟨rfl,
    Run_root_func_name_forward_only exampleTypes asciiUnicode rootPairRunner _ _ rootPairCfg
      rootPairPlans none rootPairRunner_Run⟩

/-! ## C22 and C24: the root pair -/

theorem dedupePairs_loop_prefix :
    ∀ (l : List StructPair) (acc : GoMap Bool × List StructPair),
      ∃ tail, (l.foldl (fun (acc : GoMap Bool × List StructPair) p =>
        if (acc.1.get (dedupeKey p)).getD false then acc
        else (acc.1.set (dedupeKey p) true, acc.2 ++ [p])) acc).2 = acc.2 ++ tail ∧
        tail.Sublist l := by
  intro l
  induction l with
  | nil => intro acc; exact ⟨[], by simp, List.Sublist.refl _⟩
  | cons p rest ih =>
    intro acc
    rw [List.foldl_cons]
    split_ifs with hseen
    · obtain ⟨tail, h1, h2⟩ := ih acc
      exact ⟨tail, h1, h2.cons p⟩
    · obtain ⟨tail, h1, h2⟩ := ih (acc.1.set (dedupeKey p) true, acc.2 ++ [p])
      refine ⟨p :: tail, ?_, h2.cons₂ p⟩
      rw [h1]
      simp

/-- The first pair survives `dedupePairs` at index 0, and the pairs that
follow it are pairs of the rest, in their order. -/
theorem dedupePairs_cons (p : StructPair) (rest : List StructPair) :
    ∃ tail, dedupePairs (p :: rest) = p :: tail ∧ tail.Sublist rest := by
  unfold dedupePairs
  rw [List.foldl_cons]
  have hfirst : (GoMap.get ([] : List (String × Bool)) (dedupeKey p)).getD false = false := rfl
  simp only [hfirst, Bool.false_eq_true, if_false]
  obtain ⟨tail, h1, h2⟩ := dedupePairs_loop_prefix rest
    (GoMap.set ([] : List (String × Bool)) (dedupeKey p) true, [] ++ [p])
  exact ⟨tail, by rw [h1]; rfl, h2⟩

/-- The list after `ensureRootPair` is empty exactly when the matcher
returned no pair and one of the two roots is not found by name. -/
theorem ensureRootPair_eq_nil (cfg : Config) (srcInfos dstInfos : List StructInfo)
    (pairs : List StructPair) :
    ensureRootPair cfg srcInfos dstInfos pairs = [] ↔
      pairs = [] ∧ (findStructByName srcInfos cfg.SrcType = none ∨
        findStructByName dstInfos cfg.DstType = none) := by
  unfold ensureRootPair
  cases hs : findStructByName srcInfos cfg.SrcType with
  | none => simp
  | some srcRoot =>
    cases hd : findStructByName dstInfos cfg.DstType with
    | none => simp
    | some dstRoot =>
      simp only
      split_ifs with hfound
      · obtain ⟨tail, h1, _⟩ := dedupePairs_cons { Src := srcRoot, Dst := dstRoot } pairs
        rw [h1]
        simp
      · constructor
        · intro hnil
          rw [hnil] at hfound
          simp at hfound
        · rintro ⟨_, h | h⟩ <;> simp at h

/-- C24, as the code has it. After a discovery that succeeds, the pair list
that `Run` works with is the output of the struct matcher completed by
`ensureRootPair`; it is empty exactly when the matcher returns no pair and
the requested source root or destination root is not found by name. In that
case `Run` fails with the error `no matching structs found` and its result
does not depend on the generator, which is not called; in the other case
`Run` does not fail with that error. -/
theorem Run_no_matching_structs {σ ε : Type} (T : GoTypes) (U : Unicode)
    (r : runnerImpl σ ε) (st : σ) (cfg : Config) (srcInfos dstInfos : List StructInfo)
    (matched : List StructPair × σ) (hd : Discovers r st cfg srcInfos dstInfos matched) :
    (ensureRootPair cfg srcInfos dstInfos matched.1 = [] ↔
      matched.1 = [] ∧ (findStructByName srcInfos cfg.SrcType = none ∨
        findStructByName dstInfos cfg.DstType = none)) ∧
    (ensureRootPair cfg srcInfos dstInfos matched.1 = [] →
      r.Run T U st cfg =
        some (.failed (.noMatchingStructs cfg.SrcType cfg.DstType), matched.2) ∧
      ∀ g, runnerImpl.Run T U { r with generator := g } st cfg = r.Run T U st cfg) ∧
    (ensureRootPair cfg srcInfos dstInfos matched.1 ≠ [] →
      ∀ out st', r.Run T U st cfg = some (out, st') →
        out ≠ .failed (.noMatchingStructs cfg.SrcType cfg.DstType)) := by
  refine ⟨ensureRootPair_eq_nil cfg srcInfos dstInfos matched.1, ?_, ?_⟩
  · intro hnil
    have hfin : ∀ r1 : runnerImpl σ ε, r1.finish T U cfg srcInfos dstInfos matched =
        (.failed (.noMatchingStructs cfg.SrcType cfg.DstType), matched.2) := by
      intro r1
      unfold runnerImpl.finish
      simp only [hnil, List.length_nil, if_true]
    refine ⟨by rw [Run_of_Discovers T U hd, hfin], ?_⟩
    intro g
    have hd2 : Discovers { r with generator := g } st cfg srcInfos dstInfos matched := hd
    rw [Run_of_Discovers T U hd, Run_of_Discovers T U hd2, hfin, hfin]
  · intro hne out st' hrun
    rw [Run_of_Discovers T U hd] at hrun
    simp only [Option.some.injEq] at hrun
    unfold runnerImpl.finish at hrun
    have h0 : ¬ (ensureRootPair cfg srcInfos dstInfos matched.1).length = 0 :=
      fun h => hne (List.length_eq_zero.mp h)
    simp only [h0, if_false] at hrun
    cases hl : srcInfos.getLast? with
    | none =>
      simp only [hl, Prod.mk.injEq] at hrun
      rw [← hrun.1]
      simp
    | some last =>
      simp only [hl, Prod.mk.injEq] at hrun
      rw [← hrun.1]
      simp

/-- C24, witness: in `TestRunner_Run_NoMatchingStructs` the sources hold
User, the destinations hold Other, the requested destination type is
UserResponse and the struct matcher returns no pair: `Run` fails with the
error `no matching structs found`, and the generator is not called. -/
theorem Run_no_matching_structs_witness :
    (mockRunner [emptyRecord "example.com/src" "" "User"]
        [emptyRecord "example.com/dst" "" "Other"] []).Run exampleTypes asciiUnicode
        { parserCalls := 0, fieldMatchCalls := 0, generatorCalls := 0 } noMatchCfg =
      some (.failed (.noMatchingStructs "User" "UserResponse"),
        { parserCalls := 1, fieldMatchCalls := 0, generatorCalls := 0 }) :=
  ((Run_no_matching_structs exampleTypes asciiUnicode
    (mockRunner [emptyRecord "example.com/src" "" "User"]
      [emptyRecord "example.com/dst" "" "Other"] [])
    { parserCalls := 0, fieldMatchCalls := 0, generatorCalls := 0 } noMatchCfg
    [emptyRecord "example.com/src" "" "User"] [emptyRecord "example.com/dst" "" "Other"]
    ([], { parserCalls := 1, fieldMatchCalls := 0, generatorCalls := 0 })
    ⟨_, _, rfl, rfl, rfl⟩).2.1 rfl).1

/-- C24, counterexample. The sources hold User and the destinations hold
UserResponse; the names differ, so `MatchStructs` yields zero pairs. `Run`
for the source type User and the destination type UserResponse does not
fail: `ensureRootPair` pairs the two roots and the generator is called with
the plans of User to UserResponse and of UserResponse to User. -/
theorem Run_zero_matches_counterexample :
    structMatcherImpl.MatchStructs [emptyRecord "example.com/src" "" "User"]
      [emptyRecord "example.com/dst" "" "UserResponse"] = [] ∧
    ∃ plans, (nameMatchRunner [emptyRecord "example.com/src" "" "User"]
        [emptyRecord "example.com/dst" "" "UserResponse"]).Run exampleTypes asciiUnicode
        { parserCalls := 0, fieldMatchCalls := 0, generatorCalls := 0 } noMatchCfg =
      some (.generated plans none,
        { parserCalls := 1, fieldMatchCalls := 2, generatorCalls := 1 }) ∧
      plans.map (fun p => (p.Src.Name, p.Dst.Name, p.FuncName)) =
        [("User", "UserResponse", "ConvertUserToUserResponse"),
         ("UserResponse", "User", "ConvertUserResponseToUser")] :=
  ⟨rfl, _, rfl, rfl⟩

theorem findStructByName_some :
    ∀ (infos : List StructInfo) (name : String) (root : StructInfo),
      findStructByName infos name = some root → root ∈ infos ∧ root.Name = name := by
  intro infos
  induction infos with
  | nil => intro name root h; simp [findStructByName] at h
  | cons info rest ih =>
    intro name root h
    unfold findStructByName at h
    split_ifs at h with hname
    · simp only [Option.some.injEq] at h
      subst h
      exact ⟨List.mem_cons_self _ _, hname⟩
    · obtain ⟨h1, h2⟩ := ih name root h
      exact ⟨List.mem_cons_of_mem _ h1, h2⟩

theorem dedupePairs_loop_keys :
    ∀ (l : List StructPair) (acc : GoMap Bool × List StructPair),
      (acc.2.map dedupeKey).Nodup →
      (∀ k, (acc.1.get k).getD false = true ↔ k ∈ acc.2.map dedupeKey) →
      ((l.foldl (fun (acc : GoMap Bool × List StructPair) p =>
        if (acc.1.get (dedupeKey p)).getD false then acc
        else (acc.1.set (dedupeKey p) true, acc.2 ++ [p])) acc).2.map dedupeKey).Nodup ∧
      ∀ k, k ∈ (l.foldl (fun (acc : GoMap Bool × List StructPair) p =>
        if (acc.1.get (dedupeKey p)).getD false then acc
        else (acc.1.set (dedupeKey p) true, acc.2 ++ [p])) acc).2.map dedupeKey ↔
        (k ∈ acc.2.map dedupeKey ∨ k ∈ l.map dedupeKey) := by
  intro l
  induction l with
  | nil => intro acc hnd _; exact ⟨hnd, by simp⟩
  | cons p rest ih =>
    intro acc hnd hseen
    rw [List.foldl_cons]
    split_ifs with hp
    · obtain ⟨h1, h2⟩ := ih acc hnd hseen
      refine ⟨h1, fun k => ?_⟩
      rw [h2 k]
      have hmem : dedupeKey p ∈ acc.2.map dedupeKey := (hseen _).mp hp
      constructor
      · rintro (h | h)
        · exact Or.inl h
        · exact Or.inr (by simp only [List.map_cons, List.mem_cons]; exact Or.inr h)
      · rintro (h | h)
        · exact Or.inl h
        · simp only [List.map_cons, List.mem_cons] at h
          rcases h with h | h
          · exact Or.inl (h ▸ hmem)
          · exact Or.inr h
    · have hnot : dedupeKey p ∉ acc.2.map dedupeKey := fun h => hp ((hseen _).mpr h)
      obtain ⟨h1, h2⟩ := ih (acc.1.set (dedupeKey p) true, acc.2 ++ [p])
        (by
          simp only [List.map_append, List.map_cons, List.map_nil]
          rw [List.nodup_append]
          refine ⟨hnd, List.nodup_singleton _, ?_⟩
          intro a ha hb
          simp only [List.mem_singleton] at hb
          exact hnot (hb ▸ ha))
        (by
          intro k
          simp only [GoMap.get_set, List.map_append, List.map_cons, List.map_nil,
            List.mem_append, List.mem_singleton]
          by_cases hk : dedupeKey p = k
          · simp [hk]
          · simp only [hk, if_false]
            rw [hseen k]
            constructor
            · exact Or.inl
            · rintro (h | h)
              · exact h
              · exact absurd h.symm hk)
      refine ⟨h1, fun k => ?_⟩
      rw [h2 k]
      simp only [List.map_append, List.map_cons, List.map_nil, List.mem_append,
        List.mem_singleton, List.mem_cons]
      tauto

/-- The keys of the output of `dedupePairs` are pairwise different and are
the keys of its input. -/
theorem dedupePairs_keys (pairs : List StructPair) :
    ((dedupePairs pairs).map dedupeKey).Nodup ∧
    ∀ k, k ∈ (dedupePairs pairs).map dedupeKey ↔ k ∈ pairs.map dedupeKey := by
  obtain ⟨h1, h2⟩ := dedupePairs_loop_keys pairs (([] : List (String × Bool)), [])
    (by simp) (by intro k; simp [GoMap.get])
  refine ⟨h1, fun k => ?_⟩
  have := h2 k
  simpa [dedupePairs] using this

/-- What `ensureRootPair` does with the records that `findStructByName`
returns for the two requested names. When some pair of the list carries the
two names, the list is returned as it is. When no pair does, the pair of the
two records is placed at index 0, the pairs that follow are pairs of the list
in their order, the keys of the result are pairwise different and every key
of the list is kept. -/
theorem ensureRootPair_by_name (cfg : Config) (srcInfos dstInfos : List StructInfo)
    (pairs : List StructPair) (srcRoot dstRoot : StructInfo)
    (hs : findStructByName srcInfos cfg.SrcType = some srcRoot)
    (hd : findStructByName dstInfos cfg.DstType = some dstRoot) :
    (∃ p ∈ ensureRootPair cfg srcInfos dstInfos pairs,
      p.Src.Name = cfg.SrcType ∧ p.Dst.Name = cfg.DstType) ∧
    ((∃ p ∈ pairs, p.Src.Name = cfg.SrcType ∧ p.Dst.Name = cfg.DstType) →
      ensureRootPair cfg srcInfos dstInfos pairs = pairs) ∧
    ((∀ p ∈ pairs, ¬ (p.Src.Name = cfg.SrcType ∧ p.Dst.Name = cfg.DstType)) →
      ∃ tail, ensureRootPair cfg srcInfos dstInfos pairs =
          { Src := srcRoot, Dst := dstRoot } :: tail ∧
        tail.Sublist pairs ∧
        ((ensureRootPair cfg srcInfos dstInfos pairs).map dedupeKey).Nodup ∧
        ∀ p ∈ pairs, dedupeKey p ∈ (ensureRootPair cfg srcInfos dstInfos pairs).map
          dedupeKey) := by
  have hsn := (findStructByName_some _ _ _ hs).2
  have hdn := (findStructByName_some _ _ _ hd).2
  have hyes : (∃ p ∈ pairs, p.Src.Name = cfg.SrcType ∧ p.Dst.Name = cfg.DstType) →
      ensureRootPair cfg srcInfos dstInfos pairs = pairs := by
    rintro ⟨p, hp, h1, h2⟩
    unfold ensureRootPair
    simp only [hs, hd]
    have hany : pairs.any (fun p =>
        decide (p.Src.Name = srcRoot.Name) && decide (p.Dst.Name = dstRoot.Name)) = true := by
      rw [List.any_eq_true]
      exact ⟨p, hp, by simp [h1, h2, hsn, hdn]⟩
    simp [hany]
  have hno : (∀ p ∈ pairs, ¬ (p.Src.Name = cfg.SrcType ∧ p.Dst.Name = cfg.DstType)) →
      ensureRootPair cfg srcInfos dstInfos pairs =
        dedupePairs ({ Src := srcRoot, Dst := dstRoot } :: pairs) := by
    intro hall
    unfold ensureRootPair
    simp only [hs, hd]
    have hany : pairs.any (fun p =>
        decide (p.Src.Name = srcRoot.Name) && decide (p.Dst.Name = dstRoot.Name)) = false := by
      rw [List.any_eq_false]
      intro p hp
      have := hall p hp
      simp only [hsn, hdn, Bool.and_eq_true, decide_eq_true_eq]
      exact this
    simp [hany]
  refine ⟨?_, hyes, ?_⟩
  · by_cases h : ∃ p ∈ pairs, p.Src.Name = cfg.SrcType ∧ p.Dst.Name = cfg.DstType
    · rw [hyes h]
      exact h
    · have hall : ∀ p ∈ pairs, ¬ (p.Src.Name = cfg.SrcType ∧ p.Dst.Name = cfg.DstType) :=
        fun p hp hc => h ⟨p, hp, hc⟩
      rw [hno hall]
      obtain ⟨tail, h1, _⟩ := dedupePairs_cons { Src := srcRoot, Dst := dstRoot } pairs
      rw [h1]
      exact ⟨_, List.mem_cons_self _ _, hsn, hdn⟩
  · intro hall
    rw [hno hall]
    obtain ⟨tail, h1, h2⟩ := dedupePairs_cons { Src := srcRoot, Dst := dstRoot } pairs
    obtain ⟨h3, h4⟩ := dedupePairs_keys ({ Src := srcRoot, Dst := dstRoot } :: pairs)
    refine ⟨tail, h1, h2, h3, ?_⟩
    intro p hp
    rw [h4]
    exact List.mem_map_of_mem _ (List.mem_cons_of_mem _ hp)

/-- C22, failing input. The requested root is `User` of `example.com/model`;
discovery returns the record `User` of `example.com/legacy` before it and the
root last. The destination root `UserDTO` has another name, so
`MatchStructs` yields no pair. `ensureRootPair` takes the first record named
`User` for the source root: the list it returns is the single pair of
`legacy.User` and `UserDTO`, and no pair of the requested root
`example.com/model.User` is in it, and `Run` generates the converters of
`legacy.User` in the place of the converters of the requested root. -/
theorem ensureRootPair_first_name_shadows_root :
    shadowedRootSrc.getLast?.map (fun s => (s.PkgPath, s.Name)) =
      some ("example.com/model", "User") ∧
    structMatcherImpl.MatchStructs shadowedRootSrc shadowedRootDst = [] ∧
    (ensureRootPair shadowedRootCfg shadowedRootSrc shadowedRootDst
      (structMatcherImpl.MatchStructs shadowedRootSrc shadowedRootDst)).map pairIdentity =
      [("example.com/legacy", "User", "example.com/dto", "UserDTO")] ∧
    ∃ plans, (nameMatchRunner shadowedRootSrc shadowedRootDst).Run exampleTypes asciiUnicode
        { parserCalls := 0, fieldMatchCalls := 0, generatorCalls := 0 } shadowedRootCfg =
      some (.generated plans none,
        { parserCalls := 1, fieldMatchCalls := 2, generatorCalls := 1 }) ∧
      plans.map (fun p => (p.Src.PkgPath, p.Src.Name, p.Dst.PkgPath, p.Dst.Name, p.FuncName)) =
        [("example.com/legacy", "User", "example.com/dto", "UserDTO", "ConvertUserToUserDTO"),
         ("example.com/dto", "UserDTO", "example.com/legacy", "User", "ConvertUserDTOToUser")] :=
  ⟨rfl, rfl, rfl, _, rfl, rfl⟩

/-! ## C28: the name of a converter and the name it is called by -/

/-- The names of the plans that `Run` hands to the generator: every plan is
named by `DefaultConverterName` of its pair, except a plan that carries the
two requested root names when a root function name is configured, which is
named by that name. With no root function name configured every plan is
named by `DefaultConverterName`. -/
theorem Run_plan_names {σ ε : Type} (T : GoTypes) (U : Unicode) {r : runnerImpl σ ε}
    {st st' : σ} {cfg : Config} {plans : List StructConversionPlan} {err : Option ε}
    (h : r.Run T U st cfg = some (.generated plans err, st')) :
    ∀ p ∈ plans,
      p.FuncName = DefaultConverterName U p.Src.PkgPath p.Src.Name p.Dst.PkgPath p.Dst.Name ∨
      (cfg.FuncName ≠ "" ∧ p.Src.Name = cfg.SrcType ∧ p.Dst.Name = cfg.DstType ∧
        p.FuncName = cfg.FuncName) := by
  obtain ⟨srcInfos, dstInfos, matched, _, _, hplans⟩ := Run_generated T U h
  intro p hp
  have hmem : (p.Src, p.Dst, p.FuncName) ∈
      plans.map (fun p => (p.Src, p.Dst, p.FuncName)) :=
    List.mem_map.mpr ⟨p, hp, rfl⟩
  rw [hplans, List.mem_append] at hmem
  rcases hmem with hmem | hmem
  · obtain ⟨sp, _, hsp⟩ := List.mem_map.mp hmem
    simp only [Prod.mk.injEq] at hsp
    obtain ⟨h1, h2, h3⟩ := hsp
    rw [← h3, ← h1, ← h2]
    unfold planName
    split_ifs with hroot
    · exact Or.inr ⟨hroot.2.2, hroot.1, hroot.2.1, rfl⟩
    · exact Or.inl rfl
  · obtain ⟨sp, _, hsp⟩ := List.mem_map.mp hmem
    simp only [Prod.mk.injEq] at hsp
    obtain ⟨h1, h2, h3⟩ := hsp
    rw [← h3, ← h1, ← h2]
    exact Or.inl rfl



/-- C28, failing input. The root `Node` of `example.com/src` has the field
`Next *Node`, the root `NodeDTO` of `example.com/dst` the field
`Next *NodeDTO`, and the requested function name is `BuildNodeDTO`. `Run`
hands the generator the plan of Node to NodeDTO under the name
`BuildNodeDTO`, while the nested-struct rule makes the field plan of `Next`
in that same plan call `ConvertNodeToNodeDTO`, the `DefaultConverterName` of
the pair: a name under which no plan of the run is defined. -/
theorem Run_custom_name_not_called :
    customNamePlans.map (fun p => (p.Src.PkgPath, p.Src.Name, p.Dst.PkgPath, p.Dst.Name,
        p.FuncName, p.Plans.map (fun f => (f.Strategy, f.Expression)))) =
      [("example.com/src", "Node", "example.com/dst", "NodeDTO", "BuildNodeDTO",
          [(StrategyNestedStructPtr, "dst.Next = ConvertNodeToNodeDTO(src.Next)")]),
       ("example.com/dst", "NodeDTO", "example.com/src", "Node", "ConvertNodeDTOToNode",
          [(StrategyNestedStructPtr, "dst.Next = ConvertNodeDTOToNode(src.Next)")])] ∧
    DefaultConverterName asciiUnicode "example.com/src" "Node" "example.com/dst" "NodeDTO" =
      "ConvertNodeToNodeDTO" ∧
    "ConvertNodeToNodeDTO" ∉ customNamePlans.map (fun p => p.FuncName) := by
  refine ⟨by rfl, by rfl, by decide⟩

/-! ## C31: the pointer rule -/

/-- C31. `PointerRule` accepts only when exactly one side is a pointer, with
the strategy PointerUnwrap when the source is the pointer and PointerWrap
when the destination is. From a pointer to a value whose type is identical
to the pointee, the plan is PointerUnwrap and copies the dereferenced source
under the guard `src.<path> != nil`; when the pointee is not identical and
its descriptor is of kind Struct the rule declines. From a value to a
pointer whose pointee is identical to the value type, the plan is
PointerWrap with the expression `dst.<path> = &src.<path>`; when the pointee
is not identical and its descriptor is of kind Struct the rule declines.
When both sides are pointers, or neither is, the rule declines. -/
theorem PointerRule_Try_one_pointer (T : GoTypes) (src dst : FieldInfo) :
    (∀ p, PointerRule.Try T src dst = some p →
      ((pointerElem T src.Type_).isSome ∧ pointerElem T dst.Type_ = none ∧
        p.Strategy = StrategyPointerUnwrap) ∨
      (pointerElem T src.Type_ = none ∧ (pointerElem T dst.Type_).isSome ∧
        p.Strategy = StrategyPointerWrap)) ∧
    (∀ srcElem, pointerElem T src.Type_ = some srcElem → pointerElem T dst.Type_ = none →
      (isIdenticalType T (some srcElem) (some dst.Type_) = true →
        PointerRule.Try T src dst = some (newPlan src dst StrategyPointerUnwrap
          ("if src." ++ src.AccessPath ++ " != nil \x7b\ndst." ++ dst.AccessPath ++
            " = *src." ++ src.AccessPath ++ "\n\x7d"))) ∧
      (isIdenticalType T (some srcElem) (some dst.Type_) = false →
        (∃ elem, src.TypeInfo.ElemType = some elem ∧ elem.Kind = TypeKindStruct) →
        PointerRule.Try T src dst = none)) ∧
    (∀ dstElem, pointerElem T src.Type_ = none → pointerElem T dst.Type_ = some dstElem →
      (isIdenticalType T (some src.Type_) (some dstElem) = true →
        PointerRule.Try T src dst = some (newPlan src dst StrategyPointerWrap
          ("dst." ++ dst.AccessPath ++ " = &src." ++ src.AccessPath))) ∧
      (isIdenticalType T (some src.Type_) (some dstElem) = false →
        (∃ elem, dst.TypeInfo.ElemType = some elem ∧ elem.Kind = TypeKindStruct) →
        PointerRule.Try T src dst = none)) ∧
    ((pointerElem T src.Type_).isSome = (pointerElem T dst.Type_).isSome →
      PointerRule.Try T src dst = none) := by
  refine ⟨?_, ?_, ?_, ?_⟩
  · intro p h
    unfold PointerRule.Try at h
    split at h
    · rename_i srcElem hs hd
      left
      refine ⟨by simp [hs], hd, ?_⟩
      split_ifs at h <;> simp only [Option.some.injEq, reduceCtorEq] at h <;> subst h <;> rfl
    · rename_i dstElem hs hd
      right
      refine ⟨hs, by simp [hd], ?_⟩
      split_ifs at h <;> simp only [Option.some.injEq, reduceCtorEq] at h <;> subst h <;> rfl
    · simp at h
  · intro srcElem hs hd
    constructor
    · intro hid
      simp only [PointerRule.Try, hs, hd, hid, srcSelector, dstSelector, if_true]
      congr 2
      apply String.ext
      simp [String.data_append]
    · rintro hid ⟨elem, he, hk⟩
      simp [PointerRule.Try, hs, hd, hid, elemIsStruct, he, hk]
  · intro dstElem hs hd
    constructor
    · intro hid
      simp only [PointerRule.Try, hs, hd, hid, srcSelector, dstSelector, assign, if_true]
      congr 2
      apply String.ext
      simp [String.data_append]
    · rintro hid ⟨elem, he, hk⟩
      simp [PointerRule.Try, hs, hd, hid, elemIsStruct, he, hk]
  · intro h
    cases hs : pointerElem T src.Type_ with
    | none =>
      cases hd : pointerElem T dst.Type_ with
      | none => simp [PointerRule.Try, hs, hd]
      | some e => simp [hs, hd] at h
    | some e =>
      cases hd : pointerElem T dst.Type_ with
      | none => simp [hs, hd] at h
      | some e2 => simp [PointerRule.Try, hs, hd]

/-- C31, witness: in `TestResolver_PointerConversions` the pair of
`Name *string` and `Name string` is unwrapped under the guard
`src.Name != nil`. -/
theorem PointerRule_Try_one_pointer_witness :
    PointerRule.Try exampleTypes stringPtrField stringField =
      some (newPlan stringPtrField stringField StrategyPointerUnwrap
        "if src.Name != nil \x7b\ndst.Name = *src.Name\n\x7d") :=
  ((PointerRule_Try_one_pointer exampleTypes stringPtrField stringField).2.1
    (.Basic "string") rfl rfl).1 (by decide)
/-! ## C32: the slice rule -/

/-- C32. `SliceConvertRule` accepts a pair exactly when both types are
slices, both element descriptors are present and neither is of kind Struct,
and the element types are identical or the source element is convertible to
the destination element. The plan of an accepted pair has the strategy
DirectAssign when the element types are identical and SliceConvert when they
are not, and its expression, under the guard `src.<path> != nil`, makes the
destination of the destination type with the length of the source and fills
it element by element, by a copy when the element types are identical and by
a cast to the destination element type when they are not. -/
theorem SliceConvertRule_Try_accepts_iff (T : GoTypes) (src dst : FieldInfo) :
    ((SliceConvertRule.Try T src dst).isSome = true ↔
      ∃ srcElemType dstElemType srcElem dstElem,
        sliceElem T src.Type_ = some srcElemType ∧ sliceElem T dst.Type_ = some dstElemType ∧
        src.TypeInfo.ElemType = some srcElem ∧ dst.TypeInfo.ElemType = some dstElem ∧
        srcElem.Kind ≠ TypeKindStruct ∧ dstElem.Kind ≠ TypeKindStruct ∧
        (T.Identical srcElemType dstElemType = true ∨
          T.ConvertibleTo srcElemType dstElemType = true)) ∧
    (∀ p, SliceConvertRule.Try T src dst = some p →
      ∃ srcElemType dstElemType,
        sliceElem T src.Type_ = some srcElemType ∧ sliceElem T dst.Type_ = some dstElemType ∧
        p.SrcField = src ∧ p.DstField = dst ∧
        p.Strategy = (if T.Identical srcElemType dstElemType = true then StrategyDirectAssign
          else StrategySliceConvert) ∧
        p.Expression = "if src." ++ src.AccessPath ++ " != nil \x7b\ndst." ++ dst.AccessPath ++
          " = make(" ++ dst.TypeStr ++ ", len(src." ++ src.AccessPath ++
          "))\nfor i := range src." ++ src.AccessPath ++ " \x7b\n" ++
          (if T.Identical srcElemType dstElemType = true then
            "dst." ++ dst.AccessPath ++ "[i] = src." ++ src.AccessPath ++ "[i]"
          else "dst." ++ dst.AccessPath ++ "[i] = " ++ strings.TrimPrefix dst.TypeStr "[]" ++
            "(src." ++ src.AccessPath ++ "[i])") ++ "\n\x7d\n\x7d") := by
  constructor
  · unfold SliceConvertRule.Try
    cases hs : sliceElem T src.Type_ with
    | none => simp
    | some srcElemType =>
      cases hd : sliceElem T dst.Type_ with
      | none => simp
      | some dstElemType =>
        cases hse : src.TypeInfo.ElemType with
        | none => simp [hse]
        | some srcElem =>
          cases hde : dst.TypeInfo.ElemType with
          | none => simp [hse, hde]
          | some dstElem =>
            simp only [hse, hde, elemIsStruct, Option.isNone_some, Bool.or_self,
              Bool.false_eq_true, if_false, Option.some.injEq, exists_and_left, exists_eq_left']
            by_cases hks : srcElem.Kind = TypeKindStruct
            · simp [hks]
            · by_cases hkd : dstElem.Kind = TypeKindStruct
              · simp [hkd]
              · by_cases hok : (T.Identical srcElemType dstElemType ||
                    T.ConvertibleTo srcElemType dstElemType) = true
                · have hok2 := hok
                  simp only [Bool.or_eq_true] at hok2
                  simp [hks, hkd, hok, hok2]
                · have hok2 := hok
                  simp only [Bool.or_eq_true] at hok2
                  simp [hks, hkd, hok, hok2]
  · intro p h
    unfold SliceConvertRule.Try at h
    cases hs : sliceElem T src.Type_ with
    | none => simp [hs] at h
    | some srcElemType =>
      cases hd : sliceElem T dst.Type_ with
      | none => simp [hs, hd] at h
      | some dstElemType =>
        refine ⟨srcElemType, dstElemType, rfl, rfl, ?_⟩
        simp only [hs, hd] at h
        split_ifs at h with h1 h2 h3 h4
        · simp only [Option.some.injEq] at h
          subst h
          have hid : ¬ T.Identical srcElemType dstElemType = true := by simpa using h4
          refine ⟨rfl, rfl, ?_, ?_⟩
          · simp [newPlan, hid]
          · simp only [newPlan, hid, if_false, srcSelector, dstSelector]
            apply String.ext
            simp [String.data_append]
        · simp only [Option.some.injEq] at h
          subst h
          have hid : T.Identical srcElemType dstElemType = true := by simpa using h4
          refine ⟨rfl, rfl, ?_, ?_⟩
          · simp [newPlan, hid]
          · simp only [newPlan, hid, if_true, srcSelector, dstSelector]
            apply String.ext
            simp [String.data_append]

/-- C32, witness: in `TestResolver_SliceConvert` the pair of `IDs []int` and
`IDs []int64` is accepted with the strategy SliceConvert, the element types
not being identical. -/
theorem SliceConvertRule_Try_accepts_iff_witness :
    ∃ p, SliceConvertRule.Try exampleTypes intSliceField int64SliceField = some p ∧
      p.Strategy = StrategySliceConvert ∧
      p.Expression = "if src.IDs != nil \x7b\ndst.IDs = make([]int64, len(src.IDs))\n" ++
        "for i := range src.IDs \x7b\ndst.IDs[i] = int64(src.IDs[i])\n\x7d\n\x7d" ∧
      ∃ srcElemType dstElemType,
        sliceElem exampleTypes intSliceField.Type_ = some srcElemType ∧
        sliceElem exampleTypes int64SliceField.Type_ = some dstElemType ∧
        p.SrcField = intSliceField ∧ p.DstField = int64SliceField ∧
        p.Strategy = (if exampleTypes.Identical srcElemType dstElemType = true then
          StrategyDirectAssign else StrategySliceConvert) ∧
        p.Expression = "if src." ++ intSliceField.AccessPath ++ " != nil \x7b\ndst." ++
          int64SliceField.AccessPath ++
          " = make(" ++ int64SliceField.TypeStr ++ ", len(src." ++ intSliceField.AccessPath ++
          "))\nfor i := range src." ++ intSliceField.AccessPath ++ " \x7b\n" ++
          (if exampleTypes.Identical srcElemType dstElemType = true then
            "dst." ++ int64SliceField.AccessPath ++ "[i] = src." ++ intSliceField.AccessPath ++
              "[i]"
          else "dst." ++ int64SliceField.AccessPath ++ "[i] = " ++
            strings.TrimPrefix int64SliceField.TypeStr "[]" ++
            "(src." ++ intSliceField.AccessPath ++ "[i])") ++ "\n\x7d\n\x7d" :=
  ⟨_, rfl, rfl, by decide,
    (SliceConvertRule_Try_accepts_iff exampleTypes intSliceField int64SliceField).2 _ rfl⟩

/-! ## C33: the namespaces that discovery enters -/

theorem HasPrefix_iff (s pre : String) :
    strings.HasPrefix s pre = true ↔ ∃ rest : String, s = pre ++ rest := by
  unfold strings.HasPrefix
  rw [List.isPrefixOf_iff_prefix]
  constructor
  · rintro ⟨t, ht⟩
    exact ⟨String.mk t, String.ext (by simp [String.data_append, ht])⟩
  · rintro ⟨rest, h⟩
    exact ⟨rest.data, by rw [h, String.data_append]⟩

/-- C33. `shouldRecurseNestedPackage(nested, current, rootModule)` is true
exactly when `nested` is not empty and either equals `current`, or
`rootModule` is not empty and `nested` equals `rootModule` or is
`rootModule`, a slash and a rest. So a namespace other than the current one
that is neither the root module nor the root module followed by a slash and
a rest is not entered, and with an empty root module only the current
namespace is entered. -/
theorem shouldRecurseNestedPackage_iff (nested current rootModule : String) :
    (shouldRecurseNestedPackage nested current rootModule = true ↔
      nested ≠ "" ∧ (nested = current ∨
        (rootModule ≠ "" ∧
          (nested = rootModule ∨ ∃ rest : String, nested = rootModule ++ "/" ++ rest)))) ∧
    (nested ≠ current → nested ≠ rootModule →
      (¬ ∃ rest : String, nested = rootModule ++ "/" ++ rest) →
      shouldRecurseNestedPackage nested current rootModule = false) ∧
    (rootModule = "" →
      (shouldRecurseNestedPackage nested current rootModule = true ↔
        nested ≠ "" ∧ nested = current)) := by
  have hiff : shouldRecurseNestedPackage nested current rootModule = true ↔
      nested ≠ "" ∧ (nested = current ∨
        (rootModule ≠ "" ∧
          (nested = rootModule ∨ ∃ rest : String, nested = rootModule ++ "/" ++ rest))) := by
    unfold shouldRecurseNestedPackage
    by_cases h1 : nested = ""
    · simp [h1]
    · by_cases h2 : nested = current
      · simp [h1, h2]
      · by_cases h3 : rootModule = ""
        · simp [h1, h2, h3]
        · simp only [h1, h2, h3, if_false, Bool.or_eq_true, decide_eq_true_eq, HasPrefix_iff,
            ne_eq, not_false_eq_true, true_and, false_or]
  refine ⟨hiff, ?_, ?_⟩
  · intro h1 h2 h3
    cases hv : shouldRecurseNestedPackage nested current rootModule with
    | false => rfl
    | true =>
      obtain ⟨_, h | ⟨_, h | h⟩⟩ := hiff.mp hv
      · exact absurd h h1
      · exact absurd h h2
      · exact absurd h h3
  · intro hroot
    rw [hiff]
    constructor
    · rintro ⟨h1, h | ⟨h, _⟩⟩
      · exact ⟨h1, h⟩
      · exact absurd hroot h
    · rintro ⟨h1, h2⟩
      exact ⟨h1, Or.inl h2⟩

/-- C33, witness: the rows of `TestShouldRecurseNestedPackage`, and a
namespace that shares a prefix with the root module without the slash. The
namespace `example.com/mod/b` is entered from `example.com/mod/a` in the
module `example.com/mod`; `time` and `example.com/module` are not. -/
theorem shouldRecurseNestedPackage_iff_witness :
    shouldRecurseNestedPackage "example.com/mod/b" "example.com/mod/a" "example.com/mod" = true ∧
    shouldRecurseNestedPackage "time" "example.com/mod/a" "example.com/mod" = false ∧
    shouldRecurseNestedPackage "example.com/module" "example.com/mod/a" "example.com/mod" =
      false ∧
    shouldRecurseNestedPackage "example.com/other" "example.com/mod/a" "" = false :=
  ⟨(shouldRecurseNestedPackage_iff "example.com/mod/b" "example.com/mod/a"
      "example.com/mod").1.mpr
      ⟨by decide, Or.inr ⟨by decide, Or.inr ⟨"b", by decide⟩⟩⟩,
    by decide, by decide, by decide⟩

/-! ## C34, C35 and C40: the analysis of a type -/

/-- More nested calls do not change what `analyzeType` returns. -/
theorem analyzeType_mono (T : GoTypes) (U : Unicode) :
    ∀ (fuel : Nat) (t : GoType) (d : TypeDetail), analyzeType T U fuel t = some d →
      analyzeType T U (fuel + 1) t = some d := by
  intro fuel
  induction fuel with
  | zero => intro t d h; simp [analyzeType] at h
  | succ n ih =>
    intro t d h
    have step : ∀ e, (analyzeType T U n e).isSome = true →
        analyzeType T U (n + 1) e = analyzeType T U n e := by
      intro e he
      obtain ⟨x, hx⟩ := Option.isSome_iff_exists.mp he
      rw [hx, ih e x hx]
    cases t with
    | Alias obj rhs =>
      rw [analyzeType] at h ⊢
      exact ih rhs d h
    | Basic name =>
      rw [analyzeType] at h ⊢
      exact h
    | Interface id =>
      rw [analyzeType] at h ⊢
      exact h
    | Struct id =>
      simp only [analyzeType] at h ⊢
      exact h
    | Other repr =>
      simp only [analyzeType] at h ⊢
      exact h
    | Pointer e =>
      rw [analyzeType] at h ⊢
      cases he : analyzeType T U n e with
      | none => simp [he] at h
      | some x => rw [step e (by simp [he])]; exact h
    | Slice e =>
      rw [analyzeType] at h ⊢
      cases he : analyzeType T U n e with
      | none => simp [he] at h
      | some x => rw [step e (by simp [he])]; exact h
    | Map k e =>
      rw [analyzeType] at h ⊢
      cases hk : analyzeType T U n k with
      | none => simp [hk] at h
      | some x =>
        cases he : analyzeType T U n e with
        | none => simp [hk, he] at h
        | some y => rw [step k (by simp [hk]), step e (by simp [he])]; exact h
    | Named obj =>
      rw [analyzeType] at h ⊢
      cases hu : T.Underlying obj with
      | Pointer e =>
        simp only [hu] at h ⊢
        cases he : analyzeType T U n e with
        | none => simp [he] at h
        | some x => rw [step e (by simp [he])]; exact h
      | Slice e =>
        simp only [hu] at h ⊢
        cases he : analyzeType T U n e with
        | none => simp [he] at h
        | some x => rw [step e (by simp [he])]; exact h
      | Map k e =>
        simp only [hu] at h ⊢
        cases hk : analyzeType T U n k with
        | none => simp [hk] at h
        | some x =>
          cases he : analyzeType T U n e with
          | none => simp [hk, he] at h
          | some y => rw [step k (by simp [hk]), step e (by simp [he])]; exact h
      | _ =>
        simp only [hu] at h ⊢
        exact h

theorem analyzeType_mono_le (T : GoTypes) (U : Unicode) (t : GoType) (d : TypeDetail) :
    ∀ (m n : Nat), m ≤ n → analyzeType T U m t = some d → analyzeType T U n t = some d := by
  intro m n hmn h
  induction hmn with
  | refl => exact h
  | step _ ih => exact analyzeType_mono T U _ t d ih

/-- The descriptor of a type does not depend on the number of nested calls
allowed, as far as the analysis returns. -/
theorem analyzeType_unique (T : GoTypes) (U : Unicode) (t : GoType) (d1 d2 : TypeDetail)
    (m n : Nat) (h1 : analyzeType T U m t = some d1) (h2 : analyzeType T U n t = some d2) :
    d1 = d2 := by
  have a := analyzeType_mono_le T U t d1 m (max m n) (le_max_left _ _) h1
  have b := analyzeType_mono_le T U t d2 n (max m n) (le_max_right _ _) h2
  rw [a] at b
  exact Option.some.inj b
theorem analyzeType_alias_step (T : GoTypes) (U : Unicode) (obj : TypeName) (t : GoType)
    (d : TypeDetail) :
    (∃ fuel, analyzeType T U fuel (.Alias obj t) = some d) ↔
      (∃ fuel, analyzeType T U fuel t = some d) := by
  constructor
  · rintro ⟨fuel, h⟩
    cases fuel with
    | zero => simp [analyzeType] at h
    | succ n =>
      rw [analyzeType] at h
      exact ⟨n, h⟩
  · rintro ⟨fuel, h⟩
    refine ⟨fuel + 1, ?_⟩
    rw [analyzeType]
    exact h

theorem analyzeType_Unalias (T : GoTypes) (U : Unicode) (d : TypeDetail) :
    ∀ t : GoType, (∃ fuel, analyzeType T U fuel t = some d) ↔
      (∃ fuel, analyzeType T U fuel (Unalias t) = some d) := by
  intro t
  induction t with
  | Alias obj rhs ih =>
    rw [analyzeType_alias_step, ih]
    simp only [Unalias]
  | _ => simp only [Unalias]

theorem analyzeType_named_struct (T : GoTypes) (U : Unicode) (target : TypeName) (id : Nat)
    (hu : T.Underlying target = .Struct id) (fuel : Nat) :
    analyzeType T U (fuel + 1) (.Named target) =
      some (.mk TypeKindStruct (match target.Pkg with | some pkg => pkg.Path | none => "")
        none none false "" target.Name
        (match target.Pkg with
          | some pkg => pkg.Path ++ "." ++ target.Name
          | none => target.Name)) := by
  rw [analyzeType]
  simp only [hu]

/-- C34. `analyzeType` returns on an alias of a type exactly the descriptors
it returns on the type itself. In particular, on an alias whose aliased type
is a named struct it returns a descriptor of kind Struct that carries the
name and the namespace of the aliased struct, and no other descriptor. -/
theorem analyzeType_alias (T : GoTypes) (U : Unicode) (obj : TypeName) (t : GoType) :
    (∀ d, (∃ fuel, analyzeType T U fuel (.Alias obj t) = some d) ↔
      (∃ fuel, analyzeType T U fuel t = some d)) ∧
    (∀ (target : TypeName) (id : Nat), Unalias t = .Named target →
      T.Underlying target = .Struct id →
      ∃ d, (∃ fuel, analyzeType T U fuel (.Alias obj t) = some d) ∧
        d.Kind = TypeKindStruct ∧ d.StructName = target.Name ∧
        d.PkgPath = (match target.Pkg with | some pkg => pkg.Path | none => "") ∧
        ∀ fuel d2, analyzeType T U fuel (.Alias obj t) = some d2 → d2 = d) := by
  refine ⟨fun d => analyzeType_alias_step T U obj t d, ?_⟩
  intro target id hun hu
  have hret : ∃ fuel, analyzeType T U fuel (.Alias obj t) = some
      (.mk TypeKindStruct (match target.Pkg with | some pkg => pkg.Path | none => "")
        none none false "" target.Name
        (match target.Pkg with
          | some pkg => pkg.Path ++ "." ++ target.Name
          | none => target.Name)) := by
    rw [analyzeType_alias_step, analyzeType_Unalias, hun]
    exact ⟨1, analyzeType_named_struct T U target id hu 0⟩
  obtain ⟨fuel0, h0⟩ := hret
  refine ⟨_, ⟨fuel0, h0⟩, rfl, rfl, rfl, ?_⟩
  intro fuel d2 h2
  exact analyzeType_unique T U _ _ _ fuel fuel0 h2 h0

/-- C34, witness: a field of the type `AddressAlias`, an alias of
`model.Address`, is classified as the struct `Address` of
`example.com/model`. -/
theorem analyzeType_alias_witness :
    analyzeType exampleTypes asciiUnicode 2 addressAlias = some addressDetail ∧
    ∃ d, (∃ fuel, analyzeType exampleTypes asciiUnicode fuel addressAlias = some d) ∧
      d.Kind = TypeKindStruct ∧ d.StructName = "Address" ∧
      d.PkgPath = "example.com/model" ∧
      ∀ fuel d2, analyzeType exampleTypes asciiUnicode fuel addressAlias = some d2 → d2 = d :=
  ⟨rfl, (analyzeType_alias exampleTypes asciiUnicode { Pkg := some pkgDto, Name := "AddressAlias" }
    (.Named { Pkg := some pkgModel, Name := "Address" })).2
    { Pkg := some pkgModel, Name := "Address" } 1 rfl rfl⟩

theorem subDescriptors_self (d : TypeDetail) : d ∈ subDescriptors d := by
  cases d
  rw [subDescriptors.eq_def]
  simp

theorem mem_subDescriptors_mk {kind : TypeKind} {pkgPath : String}
    {elemType keyType : Option TypeDetail} {isBasic : Bool}
    {basicKind structName typeName : String} {s : TypeDetail}
    (h : s ∈ subDescriptors
      (.mk kind pkgPath elemType keyType isBasic basicKind structName typeName)) :
    s = .mk kind pkgPath elemType keyType isBasic basicKind structName typeName ∨
    (∃ e, elemType = some e ∧ s ∈ subDescriptors e) ∨
    (∃ k, keyType = some k ∧ s ∈ subDescriptors k) := by
  rw [subDescriptors.eq_def] at h
  simp only [List.mem_cons, List.mem_append] at h
  rcases h with h | h | h
  · exact Or.inl h
  · cases elemType with
    | none => simp at h
    | some e => exact Or.inr (Or.inl ⟨e, rfl, h⟩)
  · cases keyType with
    | none => simp at h
    | some k => exact Or.inr (Or.inr ⟨k, rfl, h⟩)

/-- Every descriptor of kind Struct in a result of `analyzeType` carries the
namespace and the name of a declared struct. -/
theorem analyzeType_struct_named (T : GoTypes) (U : Unicode) (hT : T.StructsDeclared) :
    ∀ (fuel : Nat) (t : GoType) (d : TypeDetail), analyzeType T U fuel t = some d →
      ∀ s ∈ subDescriptors d, s.Kind = TypeKindStruct → s.PkgPath ≠ "" ∧ s.StructName ≠ "" := by
  intro fuel
  induction fuel with
  | zero => intro t d h; simp [analyzeType] at h
  | succ n ih =>
    intro t d h s hs hk
    cases t with
    | Alias obj rhs =>
      rw [analyzeType] at h
      exact ih rhs d h s hs hk
    | Basic name =>
      rw [analyzeType] at h
      simp only [Option.some.injEq] at h
      subst h
      rcases mem_subDescriptors_mk hs with h1 | ⟨e, h1, _⟩ | ⟨k, h1, _⟩
      · subst h1; simp [TypeDetail.Kind] at hk
      · simp at h1
      · simp at h1
    | Interface id =>
      rw [analyzeType] at h
      simp only [Option.some.injEq] at h
      subst h
      rcases mem_subDescriptors_mk hs with h1 | ⟨e, h1, _⟩ | ⟨k, h1, _⟩
      · subst h1; simp [TypeDetail.Kind] at hk
      · simp at h1
      · simp at h1
    | Struct id =>
      simp only [analyzeType, Option.some.injEq] at h
      subst h
      rcases mem_subDescriptors_mk hs with h1 | ⟨e, h1, _⟩ | ⟨k, h1, _⟩
      · subst h1; simp [TypeDetail.Kind] at hk
      · simp at h1
      · simp at h1
    | Other repr =>
      simp only [analyzeType, Option.some.injEq] at h
      subst h
      rcases mem_subDescriptors_mk hs with h1 | ⟨e, h1, _⟩ | ⟨k, h1, _⟩
      · subst h1; simp [TypeDetail.Kind] at hk
      · simp at h1
      · simp at h1
    | Pointer e =>
      rw [analyzeType] at h
      cases he : analyzeType T U n e with
      | none => simp [he] at h
      | some x =>
        simp only [he, Option.some.injEq] at h
        subst h
        rcases mem_subDescriptors_mk hs with h1 | ⟨e1, h1, h2⟩ | ⟨k, h1, _⟩
        · subst h1; simp [TypeDetail.Kind] at hk
        · simp only [Option.some.injEq] at h1
          subst h1
          exact ih e _ he s h2 hk
        · simp at h1
    | Slice e =>
      rw [analyzeType] at h
      cases he : analyzeType T U n e with
      | none => simp [he] at h
      | some x =>
        simp only [he, Option.some.injEq] at h
        subst h
        rcases mem_subDescriptors_mk hs with h1 | ⟨e1, h1, h2⟩ | ⟨k, h1, _⟩
        · subst h1; simp [TypeDetail.Kind] at hk
        · simp only [Option.some.injEq] at h1
          subst h1
          exact ih e _ he s h2 hk
        · simp at h1
    | Map k e =>
      rw [analyzeType] at h
      cases hkk : analyzeType T U n k with
      | none => simp [hkk] at h
      | some y =>
        cases he : analyzeType T U n e with
        | none => simp [hkk, he] at h
        | some x =>
          simp only [hkk, he, Option.some.injEq] at h
          subst h
          rcases mem_subDescriptors_mk hs with h1 | ⟨e1, h1, h2⟩ | ⟨k1, h1, h2⟩
          · subst h1; simp [TypeDetail.Kind] at hk
          · simp only [Option.some.injEq] at h1
            subst h1
            exact ih e _ he s h2 hk
          · simp only [Option.some.injEq] at h1
            subst h1
            exact ih k _ hkk s h2 hk
    | Named obj =>
      rw [analyzeType] at h
      cases hu : T.Underlying obj with
      | Struct id =>
        simp only [hu, Option.some.injEq] at h
        subst h
        obtain ⟨hname, pkg, hpkg, hpath⟩ := hT obj id hu
        rcases mem_subDescriptors_mk hs with h1 | ⟨e, h1, _⟩ | ⟨k, h1, _⟩
        · subst h1
          simp only [TypeDetail.PkgPath, TypeDetail.StructName, hpkg]
          exact ⟨hpath, hname⟩
        · simp at h1
        · simp at h1
      | Pointer e =>
        simp only [hu] at h
        cases he : analyzeType T U n e with
        | none => simp [he] at h
        | some x =>
          simp only [he, Option.some.injEq] at h
          subst h
          rcases mem_subDescriptors_mk hs with h1 | ⟨e1, h1, h2⟩ | ⟨k, h1, _⟩
          · subst h1; simp [TypeDetail.Kind] at hk
          · simp only [Option.some.injEq] at h1
            subst h1
            exact ih e _ he s h2 hk
          · simp at h1
      | Slice e =>
        simp only [hu] at h
        cases he : analyzeType T U n e with
        | none => simp [he] at h
        | some x =>
          simp only [he, Option.some.injEq] at h
          subst h
          rcases mem_subDescriptors_mk hs with h1 | ⟨e1, h1, h2⟩ | ⟨k, h1, _⟩
          · subst h1; simp [TypeDetail.Kind] at hk
          · simp only [Option.some.injEq] at h1
            subst h1
            exact ih e _ he s h2 hk
          · simp at h1
      | Map k e =>
        simp only [hu] at h
        cases hkk : analyzeType T U n k with
        | none => simp [hkk] at h
        | some y =>
          cases he : analyzeType T U n e with
          | none => simp [hkk, he] at h
          | some x =>
            simp only [hkk, he, Option.some.injEq] at h
            subst h
            rcases mem_subDescriptors_mk hs with h1 | ⟨e1, h1, h2⟩ | ⟨k1, h1, h2⟩
            · subst h1; simp [TypeDetail.Kind] at hk
            · simp only [Option.some.injEq] at h1
              subst h1
              exact ih e _ he s h2 hk
            · simp only [Option.some.injEq] at h1
              subst h1
              exact ih k _ hkk s h2 hk
      | _ =>
        simp only [hu, Option.some.injEq] at h
        subst h
        rcases mem_subDescriptors_mk hs with h1 | ⟨e, h1, _⟩ | ⟨k, h1, _⟩
        · subst h1; simp [TypeDetail.Kind] at hk
        · simp at h1
        · simp at h1

/-- C35. Over declarations as go/types holds them (a named struct type has a
package with a non-empty path and a non-empty name), every descriptor of
kind Struct in a result of `analyzeType`, the result itself or a descriptor
nested in it at any level, carries a namespace path and a struct name that
are both non-empty or both empty. -/
theorem analyzeType_struct_paired (T : GoTypes) (U : Unicode) (hT : T.StructsDeclared)
    (fuel : Nat) (t : GoType) (d : TypeDetail) (h : analyzeType T U fuel t = some d) :
    ∀ s ∈ subDescriptors d, s.Kind = TypeKindStruct →
      (s.PkgPath ≠ "" ∧ s.StructName ≠ "") ∨ (s.PkgPath = "" ∧ s.StructName = "") :=
  fun s hs hk => Or.inl (analyzeType_struct_named T U hT fuel t d h s hs hk)

theorem declaredTypes_StructsDeclared : declaredTypes.StructsDeclared := by
  intro obj id h
  have h2 : declaredUnderlying obj = .Struct id := h
  unfold declaredUnderlying at h2
  cases hp : obj.Pkg with
  | none => simp [hp] at h2
  | some pkg =>
    simp only [hp] at h2
    split_ifs at h2 with hc
    exact ⟨hc.2, pkg, rfl, hc.1⟩

/-- C35, witness: the descriptor of `[]*model.Address`, a slice of pointers
to a declared struct; the struct descriptor nested at the second level
carries the namespace `example.com/model` and the name `Address`. -/
theorem analyzeType_struct_paired_witness :
    analyzeType declaredTypes asciiUnicode 3
        (.Slice (.Pointer (.Named { Pkg := some pkgModel, Name := "Address" }))) =
      some (.mk TypeKindSlice "" (some (.mk TypeKindPointer "" (some addressDetail) none false ""
        "" "*example.com/model.Address")) none false "" "" "[]*example.com/model.Address") ∧
    ∀ s ∈ subDescriptors (.mk TypeKindSlice "" (some (.mk TypeKindPointer ""
        (some addressDetail) none false "" "" "*example.com/model.Address")) none false "" ""
        "[]*example.com/model.Address"),
      s.Kind = TypeKindStruct →
        (s.PkgPath ≠ "" ∧ s.StructName ≠ "") ∨ (s.PkgPath = "" ∧ s.StructName = "") :=
  ⟨rfl, analyzeType_struct_paired declaredTypes asciiUnicode declaredTypes_StructsDeclared 3
    (.Slice (.Pointer (.Named { Pkg := some pkgModel, Name := "Address" }))) _ rfl⟩

/-! ## C36: the rendering of a Skip plan -/

theorem cutChars_infix (sep : List Char) :
    ∀ (a b : List Char), (strings.cutChars sep (a ++ (sep ++ b))).isSome = true := by
  intro a
  induction a with
  | nil =>
    intro b
    cases hl : sep ++ b with
    | nil =>
      have hsep : sep = [] := (List.append_eq_nil.mp hl).1
      simp [strings.cutChars, hsep]
    | cons c cs =>
      have hpre : sep.isPrefixOf (c :: cs) = true := by
        rw [← hl, List.isPrefixOf_iff_prefix]
        exact List.prefix_append _ _
      simp [strings.cutChars, hpre]
  | cons c rest ih =>
    intro b
    simp only [List.cons_append, strings.cutChars]
    split_ifs with hpre
    · rfl
    · have := ih b
      obtain ⟨x, hx⟩ := Option.isSome_iff_exists.mp this
      have hx2 : strings.cutChars sep (rest.append (sep ++ b)) = some x := hx
      rw [hx2]
      rfl

theorem Contains_infix (a sep b : String) : strings.Contains (a ++ sep ++ b) sep = true := by
  unfold strings.Contains
  have := cutChars_infix sep.data a.data b.data
  simpa [String.data_append, List.append_assoc] using this

theorem cutChars_length (sep : List Char) (hsep : sep ≠ []) :
    ∀ (s before after : List Char), strings.cutChars sep s = some (before, after) →
      after.length < s.length := by
  intro s
  induction s with
  | nil =>
    intro before after h
    have : sep.isEmpty = false := by
      cases sep with
      | nil => exact absurd rfl hsep
      | cons _ _ => rfl
    simp [strings.cutChars, this] at h
  | cons c cs ih =>
    intro before after h
    simp only [strings.cutChars] at h
    split_ifs at h with hpre
    · simp only [Option.some.injEq, Prod.mk.injEq] at h
      rw [← h.2]
      have hlen : 0 < sep.length := List.length_pos.mpr hsep
      simp only [List.length_drop, List.length_cons]
      omega
    · cases hrec : strings.cutChars sep cs with
      | none => simp [hrec] at h
      | some ab =>
        obtain ⟨a1, b1⟩ := ab
        simp only [hrec, Option.some.injEq, Prod.mk.injEq] at h
        have := ih a1 b1 hrec
        rw [← h.2]
        simp only [List.length_cons]
        omega

/-- The loop of `renderPlan` does not use up the iterations it is given: any
number of iterations above the length of the text gives the same result. -/
theorem renderPlan_loop_fuel (U : Unicode) :
    ∀ (fuel : Nat) (remaining b : String), remaining.length < fuel →
      renderPlan.loop U fuel remaining b =
        renderPlan.loop U (remaining.length + 1) remaining b := by
  have key : ∀ (n : Nat) (fuel1 fuel2 : Nat) (remaining b : String),
      remaining.length < n → remaining.length < fuel1 → remaining.length < fuel2 →
      renderPlan.loop U fuel1 remaining b = renderPlan.loop U fuel2 remaining b := by
    intro n
    induction n with
    | zero => intro _ _ _ _ h; omega
    | succ n ih =>
      intro fuel1 fuel2 remaining b hn h1 h2
      cases fuel1 with
      | zero => omega
      | succ f1 =>
        cases fuel2 with
        | zero => omega
        | succ f2 =>
          simp only [renderPlan.loop]
          cases hcut : strings.cutChars "\n".data remaining.data with
          | none => simp [strings.Cut, hcut]
          | some ab =>
            obtain ⟨before, after⟩ := ab
            have hlen := cutChars_length "\n".data (by decide) remaining.data before after hcut
            have hlen2 : (String.mk after).length < remaining.length := hlen
            simp only [strings.Cut, hcut, Bool.not_true, Bool.false_eq_true, if_false]
            exact ih f1 f2 _ _ (by omega) (by omega) (by omega)
  intro fuel remaining b h
  exact key (remaining.length + 1) fuel (remaining.length + 1) remaining b (by omega) h
    (by omega)

theorem renderPlan_of_skip (U : Unicode) (plan : ConversionPlan)
    (h : plan.Strategy = StrategySkip) :
    renderPlan U plan =
      "\t// " ++ skipCommentName plan ++ ": //TODO: couldn't auto-generate\n" := by
  unfold renderPlan renderSkipComment skipCommentName
  simp only [h, if_true]
  by_cases hd : plan.DstField.Name = ""
  · by_cases hs : plan.SrcField.Name = ""
    · simp [hd, hs]
    · simp [hd, hs]
  · simp [hd]

/-- C36. For every plan with the strategy Skip, whatever its expression,
`renderPlan` returns the comment line made of a tab, `// `, the name,
`: //TODO: couldn't auto-generate` and a line break, where the name is the
destination field's name, or the source field's name if that is empty, or
`unknown` if both are; the line is not empty and contains `TODO`. -/
theorem renderPlan_skip_comment (U : Unicode) (plan : ConversionPlan)
    (h : plan.Strategy = StrategySkip) :
    renderPlan U plan =
      "\t// " ++ skipCommentName plan ++ ": //TODO: couldn't auto-generate\n" ∧
    renderPlan U plan ≠ "" ∧
    strings.Contains (renderPlan U plan) "TODO" = true := by
  have heq := renderPlan_of_skip U plan h
  refine ⟨heq, ?_, ?_⟩
  · rw [heq]
    intro hc
    have := congrArg String.length hc
    simp only [String.length_append] at this
    have h4 : "\t// ".length = 4 := by decide
    have h0 : "".length = 0 := by decide
    omega
  · rw [heq]
    have hsplit : "\t// " ++ skipCommentName plan ++ ": //TODO: couldn't auto-generate\n" =
        ("\t// " ++ skipCommentName plan ++ ": //") ++ "TODO" ++ ": couldn't auto-generate\n" := by
      apply String.ext
      simp [String.data_append]
    rw [hsplit]
    exact Contains_infix _ _ _

/-- C36, witness: the Skip plan of
`TestGenerate_WritesSkipCommentForUnsupportedConversion` renders as the
comment line of `Metadata`. -/
theorem renderPlan_skip_comment_witness :
    renderPlan asciiUnicode metadataSkipPlan =
      "\t// Metadata: //TODO: couldn't auto-generate\n" ∧
    renderPlan asciiUnicode metadataSkipPlan ≠ "" ∧
    strings.Contains (renderPlan asciiUnicode metadataSkipPlan) "TODO" = true :=
  renderPlan_skip_comment asciiUnicode metadataSkipPlan rfl

/-! ## C37: the struct reference of a descriptor -/

theorem nestedStructRef_eq_core (d : TypeDetail) :
    nestedStructRef d =
      if (indirectionCore d).Kind = TypeKindStruct ∧ (indirectionCore d).PkgPath ≠ "" ∧
          (indirectionCore d).StructName ≠ "" then
        some ((indirectionCore d).PkgPath, (indirectionCore d).StructName)
      else none := by
  induction d using nestedStructRef.induct with
  | case1 a a1 a2 a3 a4 a5 a6 hh =>
    rw [indirectionCore.eq_def]
    simp only [nestedStructRef, hh, if_true, TypeDetail.Kind, TypeDetail.PkgPath,
      TypeDetail.StructName]
    rw [if_neg]
    rintro ⟨_, h1, h2⟩
    rcases hh with hh | hh
    · exact h1 hh
    · exact h2 hh
  | case2 a a1 a2 a3 a4 a5 a6 hh =>
    rw [indirectionCore.eq_def]
    simp only [nestedStructRef, hh, if_false, TypeDetail.Kind, TypeDetail.PkgPath,
      TypeDetail.StructName]
    rw [if_pos]
    exact ⟨trivial, fun h => hh (Or.inl h), fun h => hh (Or.inr h)⟩
  | case3 a a1 a2 a3 a4 a5 =>
    rw [indirectionCore.eq_def]
    simp [nestedStructRef, TypeDetail.Kind]
  | case4 a a1 a2 a3 a4 a5 typeInfo ih =>
    rw [indirectionCore.eq_def]
    simp only [nestedStructRef]
    exact ih
  | case5 a a1 a2 a3 a4 a5 =>
    rw [indirectionCore.eq_def]
    simp [nestedStructRef, TypeDetail.Kind]
  | case6 a a1 a2 a3 a4 a5 typeInfo ih =>
    rw [indirectionCore.eq_def]
    simp only [nestedStructRef]
    exact ih
  | case7 a a1 a2 a3 a4 a5 a6 x h1 h2 h3 =>
    rw [indirectionCore.eq_def]
    cases x <;> simp_all [nestedStructRef, TypeDetail.Kind]

/-- C37, as the code has it. `nestedStructRef` reports a struct reference if
and only if the descriptor found under all the pointer and slice levels of
the descriptor, however many, is a Struct with non-empty namespace and name,
and the reference is that namespace and name. So it reports a reference for
a Struct with non-empty namespace and name and for a pointer or a slice
whose element has a reference, and none for a descriptor of any other
kind. -/
theorem nestedStructRef_iff_core (d : TypeDetail) :
    (∀ ref : String × String, nestedStructRef d = some ref ↔
      ((indirectionCore d).Kind = TypeKindStruct ∧ (indirectionCore d).PkgPath ≠ "" ∧
        (indirectionCore d).StructName ≠ "" ∧
        ref = ((indirectionCore d).PkgPath, (indirectionCore d).StructName))) ∧
    (d.Kind = TypeKindStruct → d.PkgPath ≠ "" → d.StructName ≠ "" →
      nestedStructRef d = some (d.PkgPath, d.StructName)) ∧
    (∀ elem, (d.Kind = TypeKindPointer ∨ d.Kind = TypeKindSlice) → d.ElemType = some elem →
      nestedStructRef d = nestedStructRef elem) ∧
    (d.Kind ≠ TypeKindStruct → d.Kind ≠ TypeKindPointer → d.Kind ≠ TypeKindSlice →
      nestedStructRef d = none) := by
  refine ⟨?_, ?_, ?_, ?_⟩
  · intro ref
    rw [nestedStructRef_eq_core]
    split_ifs with h
    · simp only [Option.some.injEq]
      constructor
      · intro h1
        exact ⟨h.1, h.2.1, h.2.2, h1.symm⟩
      · rintro ⟨_, _, _, h1⟩
        exact h1.symm
    · simp only [reduceCtorEq, false_iff]
      rintro ⟨h1, h2, h3, _⟩
      exact h ⟨h1, h2, h3⟩
  · intro hk hp hn
    cases d with
    | mk kind pkgPath elemType keyType isBasic basicKind structName typeName =>
      simp only [TypeDetail.Kind, TypeDetail.PkgPath, TypeDetail.StructName] at hk hp hn ⊢
      subst hk
      simp [nestedStructRef, hp, hn]
  · intro elem hk he
    cases d with
    | mk kind pkgPath elemType keyType isBasic basicKind structName typeName =>
      simp only [TypeDetail.Kind, TypeDetail.ElemType] at hk he
      subst he
      rcases hk with hk | hk <;> subst hk <;> simp only [nestedStructRef]
  · intro h1 h2 h3
    cases d with
    | mk kind pkgPath elemType keyType isBasic basicKind structName typeName =>
      simp only [TypeDetail.Kind] at h1 h2 h3
      cases kind <;> simp_all [nestedStructRef]

/-- C37, witness: under the slice level and the pointer level of the
descriptor of `[]*model.Address` lies the struct `Address` of
`example.com/model`, which is the reference reported. -/
theorem nestedStructRef_iff_core_witness :
    nestedStructRef addressPtrSliceDetail = some ("example.com/model", "Address") :=
  ((nestedStructRef_iff_core addressPtrSliceDetail).1 ("example.com/model", "Address")).mpr
    ⟨by decide, by decide, by decide, by decide⟩

/-- C37, counterexample. The descriptor that `analyzeType` returns for a
field of the type `[]*model.Address` is a slice whose element is a pointer,
not a struct: the struct lies under two levels of indirection. For it
`nestedStructRef` reports the reference to `Address` of `example.com/model`,
where the claim has none. -/
theorem nestedStructRef_two_levels_counterexample :
    analyzeType exampleTypes asciiUnicode 3
        (.Slice (.Pointer (.Named { Pkg := some pkgModel, Name := "Address" }))) =
      some addressPtrSliceDetail ∧
    addressPtrSliceDetail.Kind = TypeKindSlice ∧
    addressPtrSliceDetail.ElemType.map TypeDetail.Kind = some TypeKindPointer ∧
    nestedStructRef addressPtrSliceDetail = some ("example.com/model", "Address") :=
  ⟨rfl, rfl, rfl, rfl⟩

/-! ## C38: the strategy NestedSlice -/

theorem trySlice_refs {U : Unicode} {s : NestedSet} {src dst : FieldInfo}
    {p : ConversionPlan} (h : NestedStructRule.trySlice U s src dst = some p) :
    p.Strategy = StrategyNestedSlice ∧
    ∃ srcRef dstRef, sliceStructRef src.TypeInfo = some srcRef ∧
      sliceStructRef dst.TypeInfo = some dstRef ∧ s.has (pairKey srcRef dstRef) = true := by
  unfold NestedStructRule.trySlice at h
  split at h
  · rename_i srcRef dstRef hs hd
    split_ifs at h with hhas
    simp only [Option.some.injEq] at h
    subst h
    exact ⟨rfl, srcRef, dstRef, hs, hd, by simpa using hhas⟩
  · simp at h

theorem sliceStructRef_shape {d : TypeDetail} {ref : structRef}
    (h : sliceStructRef d = some ref) :
    d.Kind = TypeKindSlice ∧ ∃ elem, d.ElemType = some elem ∧
      ((elem.Kind = TypeKindStruct ∧ elem.PkgPath = ref.pkgPath ∧
          elem.StructName = ref.name) ∨
        (elem.Kind = TypeKindPointer ∧ ∃ inner, elem.ElemType = some inner ∧
          inner.Kind = TypeKindStruct ∧ inner.PkgPath = ref.pkgPath ∧
          inner.StructName = ref.name)) := by
  unfold sliceStructRef at h
  split_ifs at h with hc
  have hk : d.Kind = TypeKindSlice := by
    by_contra hne
    exact hc (Or.inl hne)
  refine ⟨hk, ?_⟩
  cases he : d.ElemType with
  | none => simp [he] at h
  | some elem =>
    refine ⟨elem, rfl, ?_⟩
    simp only [he] at h
    cases hsr : structRefFromDetail elem with
    | some r =>
      simp only [hsr, Option.some.injEq] at h
      subst h
      unfold structRefFromDetail at hsr
      split_ifs at hsr with hc2
      simp only [Option.some.injEq] at hsr
      subst hsr
      left
      refine ⟨?_, rfl, rfl⟩
      by_contra hne
      exact hc2 (Or.inl hne)
    | none =>
      simp only [hsr] at h
      unfold ptrStructRef at h
      split_ifs at h with hc3
      have hkp : elem.Kind = TypeKindPointer := by
        by_contra hne
        exact hc3 (Or.inl hne)
      cases hie : elem.ElemType with
      | none => simp [hie] at h
      | some inner =>
        simp only [hie] at h
        unfold structRefFromDetail at h
        split_ifs at h with hc4
        simp only [Option.some.injEq] at h
        subst h
        right
        refine ⟨hkp, inner, rfl, ?_, rfl, rfl⟩
        by_contra hne
        exact hc4 (Or.inl hne)

/-- What the strategy NestedSlice guarantees of the two descriptors: both are
slices, and the element of each is a Struct or a pointer to a Struct. -/
theorem NestedStructRule_Try_NestedSlice {U : Unicode} {s : NestedSet} {src dst : FieldInfo}
    {p : ConversionPlan} (h : NestedStructRule.Try U s src dst = some p)
    (hp : p.Strategy = StrategyNestedSlice) :
    (src.TypeInfo.Kind = TypeKindSlice ∧ ∃ elem, src.TypeInfo.ElemType = some elem ∧
      (elem.Kind = TypeKindStruct ∨ (elem.Kind = TypeKindPointer ∧
        ∃ inner, elem.ElemType = some inner ∧ inner.Kind = TypeKindStruct))) ∧
    (dst.TypeInfo.Kind = TypeKindSlice ∧ ∃ elem, dst.TypeInfo.ElemType = some elem ∧
      (elem.Kind = TypeKindStruct ∨ (elem.Kind = TypeKindPointer ∧
        ∃ inner, elem.ElemType = some inner ∧ inner.Kind = TypeKindStruct))) := by
  have hslice : NestedStructRule.trySlice U s src dst = some p := by
    unfold NestedStructRule.Try at h
    split_ifs at h
    split at h
    · split_ifs at h
      simp only [Option.some.injEq] at h
      subst h
      simp [newPlan] at hp
    · unfold NestedStructRule.tryPtrPtr at h
      split at h
      · split_ifs at h
        simp only [Option.some.injEq] at h
        subst h
        simp [newPlan] at hp
      · unfold NestedStructRule.tryPtrStruct at h
        split at h
        · split_ifs at h
          simp only [Option.some.injEq] at h
          subst h
          simp [newPlan] at hp
        · unfold NestedStructRule.tryStructPtr at h
          split at h
          · split_ifs at h
            simp only [Option.some.injEq] at h
            subst h
            simp [newPlan] at hp
          · exact h
  obtain ⟨_, srcRef, dstRef, h1, h2, _⟩ := trySlice_refs hslice
  obtain ⟨hk1, e1, he1, hs1⟩ := sliceStructRef_shape h1
  obtain ⟨hk2, e2, he2, hs2⟩ := sliceStructRef_shape h2
  refine ⟨⟨hk1, e1, he1, ?_⟩, ⟨hk2, e2, he2, ?_⟩⟩
  · rcases hs1 with ⟨h, _⟩ | ⟨h, inner, hi, hik, _⟩
    · exact Or.inl h
    · exact Or.inr ⟨h, inner, hi, hik⟩
  · rcases hs2 with ⟨h, _⟩ | ⟨h, inner, hi, hik, _⟩
    · exact Or.inl h
    · exact Or.inr ⟨h, inner, hi, hik⟩

/-- C38, failing input. The fields `Items []*model.Address` and
`Items []*dto.AddressDTO` are slices whose elements are pointers, not
structs. With the pair of Address and AddressDTO among the struct pairs, the
default resolver gives their pair the strategy NestedSlice, by
`NestedStructRule`: the expression passes the address of the pointer
`src.Items[i]` to the converter of Address and assigns the dereferenced
result to the pointer `dst.Items[i]`. -/
theorem Resolve_slice_of_pointers_NestedSlice :
    addressPtrSliceField.TypeInfo.ElemType.map TypeDetail.Kind = some TypeKindPointer ∧
    addressDTOPtrSliceField.TypeInfo.ElemType.map TypeDetail.Kind = some TypeKindPointer ∧
    ((New (DefaultRules exampleTypes asciiUnicode)).Resolve
        [{ SrcField := addressPtrSliceField, DstField := addressDTOPtrSliceField }]
        [addressStructPair]).1.map (fun p => (p.Strategy, p.Expression)) =
      [(StrategyNestedSlice,
        "if src.Items != nil \x7b\ndst.Items = make([]*dto.AddressDTO, len(src.Items))\n" ++
        "for i := range src.Items \x7b\n" ++
        "if v := ConvertAddressToAddressDTO(&src.Items[i]); v != nil \x7b\n" ++
        "dst.Items[i] = *v\n\x7d\n\x7d\n\x7d")] := by
  refine ⟨by rfl, by rfl, by rfl⟩

/-! ## The types on which the analysis returns -/

theorem Analyzable_of_returns (T : GoTypes) (U : Unicode) :
    ∀ (fuel : Nat) (t : GoType) (d : TypeDetail), analyzeType T U fuel t = some d →
      Analyzable T t := by
  intro fuel
  induction fuel with
  | zero => intro t d h; simp [analyzeType] at h
  | succ n ih =>
    intro t d h
    cases t with
    | Alias obj rhs =>
      rw [analyzeType] at h
      exact .ofAlias obj rhs (ih rhs d h)
    | Basic name => exact .ofBasic name
    | Interface id => exact .ofInterface id
    | Struct id => exact .ofStruct id
    | Other repr => exact .ofOther repr
    | Pointer e =>
      rw [analyzeType] at h
      cases he : analyzeType T U n e with
      | none => simp [he] at h
      | some x => exact .ofPointer e (ih e x he)
    | Slice e =>
      rw [analyzeType] at h
      cases he : analyzeType T U n e with
      | none => simp [he] at h
      | some x => exact .ofSlice e (ih e x he)
    | Map k e =>
      rw [analyzeType] at h
      cases hk : analyzeType T U n k with
      | none => simp [hk] at h
      | some y =>
        cases he : analyzeType T U n e with
        | none => simp [hk, he] at h
        | some x => exact .ofMap k e (ih k y hk) (ih e x he)
    | Named obj =>
      rw [analyzeType] at h
      cases hu : T.Underlying obj with
      | Pointer e =>
        simp only [hu] at h
        cases he : analyzeType T U n e with
        | none => simp [he] at h
        | some x => exact .namedPointer obj e hu (ih e x he)
      | Slice e =>
        simp only [hu] at h
        cases he : analyzeType T U n e with
        | none => simp [he] at h
        | some x => exact .namedSlice obj e hu (ih e x he)
      | Map k e =>
        simp only [hu] at h
        cases hk : analyzeType T U n k with
        | none => simp [hk] at h
        | some y =>
          cases he : analyzeType T U n e with
          | none => simp [hk, he] at h
          | some x => exact .namedMap obj k e hu (ih k y hk) (ih e x he)
      | _ =>
        exact .namedLeaf obj (by simp [hu]) (by simp [hu]) (by simp [hu])

theorem isSome_of_Analyzable (T : GoTypes) (U : Unicode) (t : GoType)
    (h : Analyzable T t) : ∃ fuel, (analyzeType T U fuel t).isSome = true := by
  induction h with
  | ofAlias obj rhs _ ih =>
    obtain ⟨fuel, hd⟩ := ih
    exact ⟨fuel + 1, by rw [analyzeType]; exact hd⟩
  | ofBasic name => exact ⟨1, by rw [analyzeType]; rfl⟩
  | ofStruct id => exact ⟨1, by simp only [analyzeType]; rfl⟩
  | ofInterface id => exact ⟨1, by rw [analyzeType]; rfl⟩
  | ofOther repr => exact ⟨1, by simp only [analyzeType]; rfl⟩
  | ofPointer e _ ih =>
    obtain ⟨fuel, hd⟩ := ih
    obtain ⟨d, hd⟩ := Option.isSome_iff_exists.mp hd
    exact ⟨fuel + 1, by rw [analyzeType]; simp only [hd]; rfl⟩
  | ofSlice e _ ih =>
    obtain ⟨fuel, hd⟩ := ih
    obtain ⟨d, hd⟩ := Option.isSome_iff_exists.mp hd
    exact ⟨fuel + 1, by rw [analyzeType]; simp only [hd]; rfl⟩
  | ofMap k e _ _ ihk ihe =>
    obtain ⟨f1, h1⟩ := ihk
    obtain ⟨f2, h2⟩ := ihe
    obtain ⟨d1, h1⟩ := Option.isSome_iff_exists.mp h1
    obtain ⟨d2, h2⟩ := Option.isSome_iff_exists.mp h2
    have a := analyzeType_mono_le T U k d1 f1 (max f1 f2) (le_max_left _ _) h1
    have b := analyzeType_mono_le T U e d2 f2 (max f1 f2) (le_max_right _ _) h2
    exact ⟨max f1 f2 + 1, by rw [analyzeType]; simp only [a, b]; rfl⟩
  | namedPointer obj e hu _ ih =>
    obtain ⟨fuel, hd⟩ := ih
    obtain ⟨d, hd⟩ := Option.isSome_iff_exists.mp hd
    exact ⟨fuel + 1, by rw [analyzeType]; simp only [hu, hd]; rfl⟩
  | namedSlice obj e hu _ ih =>
    obtain ⟨fuel, hd⟩ := ih
    obtain ⟨d, hd⟩ := Option.isSome_iff_exists.mp hd
    exact ⟨fuel + 1, by rw [analyzeType]; simp only [hu, hd]; rfl⟩
  | namedMap obj k e hu _ _ ihk ihe =>
    obtain ⟨f1, h1⟩ := ihk
    obtain ⟨f2, h2⟩ := ihe
    obtain ⟨d1, h1⟩ := Option.isSome_iff_exists.mp h1
    obtain ⟨d2, h2⟩ := Option.isSome_iff_exists.mp h2
    have a := analyzeType_mono_le T U k d1 f1 (max f1 f2) (le_max_left _ _) h1
    have b := analyzeType_mono_le T U e d2 f2 (max f1 f2) (le_max_right _ _) h2
    exact ⟨max f1 f2 + 1, by rw [analyzeType]; simp only [hu, a, b]; rfl⟩
  | namedLeaf obj hp hs hm =>
    refine ⟨1, ?_⟩
    rw [analyzeType]
    cases hu : T.Underlying obj with
    | Pointer e => exact absurd hu (hp e)
    | Slice e => exact absurd hu (hs e)
    | Map k e => exact absurd hu (hm k e)
    | _ => rfl

theorem returns_of_Analyzable (T : GoTypes) (U : Unicode) (t : GoType)
    (h : Analyzable T t) : ∃ fuel d, analyzeType T U fuel t = some d := by
  obtain ⟨fuel, hf⟩ := isSome_of_Analyzable T U t h
  obtain ⟨d, hd⟩ := Option.isSome_iff_exists.mp hf
  exact ⟨fuel, d, hd⟩

/-- `analyzeType` returns a descriptor on a type exactly when its recursion
on the type is finite; the descriptor is then unique. -/
theorem analyzeType_returns_iff (T : GoTypes) (U : Unicode) (t : GoType) :
    (∃ fuel d, analyzeType T U fuel t = some d) ↔ Analyzable T t :=
  ⟨fun ⟨fuel, d, h⟩ => Analyzable_of_returns T U fuel t d h, returns_of_Analyzable T U t⟩

/-! ## C39: flattening does not return on an embedding cycle -/

theorem collectFlattenedFields_loop_none (T : GoTypes) (U : Unicode)
    (recurse : Nat → List String → String → Candidates × Nat → Option (Candidates × Nat))
    (analyze : GoType → Option TypeDetail) (pfx : List String) (embedFrom : String)
    (depth : Nat) (q : Qualifier) (v : Var) (b : Nat) (name : String)
    (hemb : v.Embedded = true) (hres : resolveEmbeddedStruct T v.Type_ = some (b, name))
    (hrec : ∀ nextPfx nextEmbedFrom acc, recurse b nextPfx nextEmbedFrom acc = none) :
    ∀ (fs : List Var) (acc : Candidates × Nat), v ∈ fs →
      collectFlattenedFields.loop T U recurse analyze pfx embedFrom depth q fs acc = none := by
  intro fs
  induction fs with
  | nil => intro acc h; simp at h
  | cons f rest ih =>
    intro acc hmem
    rw [collectFlattenedFields.loop]
    by_cases hf : f = v
    · subst hf
      simp only [hemb, if_true, hres, hrec]
    · have hrest : v ∈ rest := by
        rcases List.mem_cons.mp hmem with h | h
        · exact absurd h.symm hf
        · exact h
      by_cases h1 : f.Embedded = true
      · simp only [h1, if_true]
        cases hr : resolveEmbeddedStruct T f.Type_ with
        | none => exact ih _ hrest
        | some p =>
          obtain ⟨b1, name1⟩ := p
          simp only []
          cases hrc : recurse b1 (appendPath pfx f.Name)
              (if name1 = "" then f.Name else name1) acc with
          | none => rfl
          | some acc1 => exact ih _ hrest
      · simp only [h1, Bool.false_eq_true, if_false]
        by_cases h2 : f.Exported = true
        · simp only [h2, Bool.not_true, Bool.false_eq_true, if_false]
          cases han : analyze f.Type_ with
          | none => rfl
          | some typeInfo => exact ih _ hrest
        · have h2f : f.Exported = false := by simpa using h2
          simp only [h2f, Bool.not_false, if_true]
          exact ih _ hrest

/-- The recursion of `collectFlattenedFields` does not return on a struct of
a set in which every struct embeds a struct of the set: a struct on an
embedding cycle, or one that embeds, directly or through other embedded
structs, a struct on such a cycle. -/
theorem collectFlattenedFields_cycle (T : GoTypes) (U : Unicode) (q : Qualifier)
    (S : Nat → Prop) (hS : ∀ a, S a → ∃ b, Embeds T a b ∧ S b) :
    ∀ (fuel : Nat) (a : Nat), S a → ∀ (pfx : List String) (embedFrom : String) (depth : Nat)
      (acc : Candidates × Nat),
      collectFlattenedFields T U q fuel a pfx embedFrom depth acc = none := by
  intro fuel
  induction fuel with
  | zero => intro a _ pfx embedFrom depth acc; rfl
  | succ n ih =>
    intro a ha pfx embedFrom depth acc
    obtain ⟨b, ⟨v, hv, hemb, name, hres⟩, hb⟩ := hS a ha
    rw [collectFlattenedFields]
    exact collectFlattenedFields_loop_none T U _ _ pfx embedFrom depth q v b name hemb hres
      (fun nextPfx nextEmbedFrom acc1 => ih b hb nextPfx nextEmbedFrom (depth + 1) acc1)
      (T.Fields a) acc hv

theorem flattenFields_cycle (T : GoTypes) (U : Unicode) (q : Qualifier)
    (S : Nat → Prop) (hS : ∀ a, S a → ∃ b, Embeds T a b ∧ S b) (fuel : Nat) (a : Nat)
    (ha : S a) : flattenFields T U fuel a q = none := by
  unfold flattenFields
  rw [collectFlattenedFields_cycle T U q S hS fuel a ha]

/-- C39, failing input. `flattenFields` returns for no number of nested
calls on the struct of `type Node struct { *Node; Val int }`, which embeds a
pointer to itself, nor on the structs of
`type Left struct { Name string; *Right }` and `type Right struct { *Left }`,
each of which embeds a pointer to the other. -/
theorem flattenFields_embedding_cycle_diverges (fuel : Nat) (q : Qualifier) :
    resolveEmbeddedStruct exampleTypes
        (.Pointer (.Named { Pkg := some pkgNode, Name := "Node" })) = some (20, "Node") ∧
    resolveEmbeddedStruct exampleTypes
        (.Pointer (.Named { Pkg := some pkgMutual, Name := "Right" })) = some (71, "Right") ∧
    resolveEmbeddedStruct exampleTypes
        (.Pointer (.Named { Pkg := some pkgMutual, Name := "Left" })) = some (70, "Left") ∧
    flattenFields exampleTypes asciiUnicode fuel 20 q = none ∧
    flattenFields exampleTypes asciiUnicode fuel 70 q = none ∧
    flattenFields exampleTypes asciiUnicode fuel 71 q = none := by
  have hS : ∀ a, (a = 20 ∨ a = 70 ∨ a = 71) →
      ∃ b, Embeds exampleTypes a b ∧ (b = 20 ∨ b = 70 ∨ b = 71) := by
    rintro a (h | h | h)
    · subst h
      refine ⟨20, ⟨⟨"Node", true, true, .Pointer (.Named ⟨some pkgNode, "Node"⟩)⟩, ?_, rfl,
        "Node", rfl⟩, Or.inl rfl⟩
      decide
    · subst h
      refine ⟨71, ⟨⟨"Right", true, true, .Pointer (.Named ⟨some pkgMutual, "Right"⟩)⟩, ?_, rfl,
        "Right", rfl⟩, Or.inr (Or.inr rfl)⟩
      decide
    · subst h
      refine ⟨70, ⟨⟨"Left", true, true, .Pointer (.Named ⟨some pkgMutual, "Left"⟩)⟩, ?_, rfl,
        "Left", rfl⟩, Or.inr (Or.inl rfl)⟩
      decide
  exact ⟨rfl, rfl, rfl,
    flattenFields_cycle exampleTypes asciiUnicode q _ hS fuel 20 (Or.inl rfl),
    flattenFields_cycle exampleTypes asciiUnicode q _ hS fuel 70 (Or.inr (Or.inl rfl)),
    flattenFields_cycle exampleTypes asciiUnicode q _ hS fuel 71 (Or.inr (Or.inr rfl))⟩

theorem collectFlattenedFields_loop_returns (T : GoTypes) (U : Unicode) (q : Qualifier)
    (a : Nat)
    (hsub : ∀ b, Embeds T a b → ∃ N, ∀ n, N ≤ n → ∀ pfx embedFrom depth acc,
      (collectFlattenedFields T U q n b pfx embedFrom depth acc).isSome = true)
    (han : ∀ v ∈ T.Fields a, v.Embedded = false → v.Exported = true → Analyzable T v.Type_) :
    ∀ fs : List Var, (∀ v ∈ fs, v ∈ T.Fields a) →
      ∃ N, ∀ n, N ≤ n → ∀ pfx embedFrom depth acc,
        (collectFlattenedFields.loop T U
          (fun embeddedStruct nextPfx nextEmbedFrom acc1 =>
            collectFlattenedFields T U q n embeddedStruct nextPfx nextEmbedFrom (depth + 1) acc1)
          (analyzeType T U n) pfx embedFrom depth q fs acc).isSome = true := by
  intro fs
  induction fs with
  | nil =>
    intro _
    exact ⟨0, fun n _ pfx embedFrom depth acc => by rw [collectFlattenedFields.loop]; rfl⟩
  | cons f rest ih =>
    intro hfs
    obtain ⟨Nr, hNr⟩ := ih (fun v hv => hfs v (List.mem_cons_of_mem _ hv))
    have hf : f ∈ T.Fields a := hfs f (List.mem_cons_self _ _)
    by_cases h1 : f.Embedded = true
    · cases hr : resolveEmbeddedStruct T f.Type_ with
      | none =>
        refine ⟨Nr, fun n hn pfx embedFrom depth acc => ?_⟩
        rw [collectFlattenedFields.loop]
        simp only [h1, if_true, hr]
        exact hNr n hn pfx embedFrom depth acc
      | some p =>
        obtain ⟨b, name⟩ := p
        obtain ⟨Nb, hNb⟩ := hsub b ⟨f, hf, h1, name, hr⟩
        refine ⟨max Nb Nr, fun n hn pfx embedFrom depth acc => ?_⟩
        rw [collectFlattenedFields.loop]
        simp only [h1, if_true, hr]
        have hb := hNb n (le_trans (le_max_left _ _) hn) (appendPath pfx f.Name)
          (if name = "" then f.Name else name) (depth + 1) acc
        obtain ⟨acc1, hacc1⟩ := Option.isSome_iff_exists.mp hb
        simp only [hacc1]
        exact hNr n (le_trans (le_max_right _ _) hn) pfx embedFrom depth acc1
    · have h1f : f.Embedded = false := by simpa using h1
      by_cases h2 : f.Exported = true
      · obtain ⟨f0, hf0⟩ := isSome_of_Analyzable T U f.Type_ (han f hf h1f h2)
        obtain ⟨d, hd⟩ := Option.isSome_iff_exists.mp hf0
        refine ⟨max f0 Nr, fun n hn pfx embedFrom depth acc => ?_⟩
        rw [collectFlattenedFields.loop]
        have hdn := analyzeType_mono_le T U f.Type_ d f0 n (le_trans (le_max_left _ _) hn) hd
        simp only [h1f, Bool.false_eq_true, if_false, h2, Bool.not_true, hdn]
        exact hNr n (le_trans (le_max_right _ _) hn) pfx embedFrom depth _
      · have h2f : f.Exported = false := by simpa using h2
        refine ⟨Nr, fun n hn pfx embedFrom depth acc => ?_⟩
        rw [collectFlattenedFields.loop]
        simp only [h1f, Bool.false_eq_true, if_false, h2f, Bool.not_false, if_true]
        exact hNr n hn pfx embedFrom depth acc

/-- The recursion of `collectFlattenedFields` returns, for every sufficient
number of nested calls, on a struct from which no chain of embeddings goes
on for ever, when `analyzeType` returns on the types of the exported fields
of the structs met. -/
theorem collectFlattenedFields_returns (T : GoTypes) (U : Unicode) (q : Qualifier) :
    ∀ st : Nat, Acc (fun b a => Embeds T a b) st →
      (∀ a, Relation.ReflTransGen (Embeds T) st a → ∀ v ∈ T.Fields a, v.Embedded = false →
        v.Exported = true → Analyzable T v.Type_) →
      ∃ N, ∀ n, N ≤ n → ∀ pfx embedFrom depth acc,
        (collectFlattenedFields T U q n st pfx embedFrom depth acc).isSome = true := by
  intro st hacc
  induction hacc with
  | intro a _ ih =>
    intro han
    have hsub : ∀ b, Embeds T a b → ∃ N, ∀ n, N ≤ n → ∀ pfx embedFrom depth acc,
        (collectFlattenedFields T U q n b pfx embedFrom depth acc).isSome = true := by
      intro b hab
      exact ih b hab (fun c hbc => han c (Relation.ReflTransGen.head hab hbc))
    obtain ⟨N, hN⟩ := collectFlattenedFields_loop_returns T U q a hsub
      (han a Relation.ReflTransGen.refl) (T.Fields a) (fun v hv => hv)
    refine ⟨N + 1, fun n hn pfx embedFrom depth acc => ?_⟩
    obtain ⟨m, rfl⟩ : ∃ m, n = m + 1 := ⟨n - 1, by omega⟩
    rw [collectFlattenedFields]
    exact hN m (by omega) pfx embedFrom depth acc

/-- `flattenFields` returns, for every sufficient number of nested calls, on
a struct from which no chain of embeddings goes on for ever, when
`analyzeType` returns on the types of the exported fields of the structs
met. -/
theorem flattenFields_returns (T : GoTypes) (U : Unicode) (q : Qualifier) (st : Nat)
    (hacc : Acc (fun b a => Embeds T a b) st)
    (han : ∀ a, Relation.ReflTransGen (Embeds T) st a → ∀ v ∈ T.Fields a,
      v.Embedded = false → v.Exported = true → Analyzable T v.Type_) :
    ∃ N, ∀ n, N ≤ n → (flattenFields T U n st q).isSome = true := by
  obtain ⟨N, hN⟩ := collectFlattenedFields_returns T U q st hacc han
  refine ⟨N, fun n hn => ?_⟩
  unfold flattenFields
  obtain ⟨x, hx⟩ := Option.isSome_iff_exists.mp (hN n hn [] "" 0 ([], 0))
  rw [hx]
  rfl

/-! ## C40: the analysis does not return on a recursive named type -/

theorem analyzeType_Tree_diverges (fuel : Nat) :
    analyzeType exampleTypes asciiUnicode fuel (.Named ⟨some pkgRec, "Tree"⟩) = none := by
  induction fuel with
  | zero => rfl
  | succ n ih =>
    rw [analyzeType]
    have hu : exampleTypes.Underlying ⟨some pkgRec, "Tree"⟩ =
        .Slice (.Named ⟨some pkgRec, "Tree"⟩) := by decide
    simp only [hu, ih]

theorem analyzeType_M_diverges (fuel : Nat) :
    analyzeType exampleTypes asciiUnicode fuel (.Named ⟨some pkgRec, "M"⟩) = none := by
  induction fuel with
  | zero => rfl
  | succ n ih =>
    rw [analyzeType]
    have hu : exampleTypes.Underlying ⟨some pkgRec, "M"⟩ =
        .Map (.Basic "string") (.Named ⟨some pkgRec, "M"⟩) := by decide
    simp only [hu, ih]
    cases analyzeType exampleTypes asciiUnicode n (.Basic "string") <;> rfl

theorem analyzeType_P_diverges (fuel : Nat) :
    analyzeType exampleTypes asciiUnicode fuel (.Named ⟨some pkgRec, "P"⟩) = none := by
  induction fuel with
  | zero => rfl
  | succ n ih =>
    rw [analyzeType]
    have hu : exampleTypes.Underlying ⟨some pkgRec, "P"⟩ =
        .Pointer (.Named ⟨some pkgRec, "P"⟩) := by decide
    simp only [hu, ih]

/-- C40, failing input. `analyzeType` returns for no number of nested calls
on the named types `type Tree []Tree`, `type M map[string]M` and
`type P *P`: for each of them the case of a named type calls `analyzeType`
on the element type of the underlying type, which is the named type
again. -/
theorem analyzeType_recursive_named_diverges (fuel : Nat) :
    exampleTypes.Underlying ⟨some pkgRec, "Tree"⟩ = .Slice (.Named ⟨some pkgRec, "Tree"⟩) ∧
    exampleTypes.Underlying ⟨some pkgRec, "M"⟩ =
      .Map (.Basic "string") (.Named ⟨some pkgRec, "M"⟩) ∧
    exampleTypes.Underlying ⟨some pkgRec, "P"⟩ = .Pointer (.Named ⟨some pkgRec, "P"⟩) ∧
    analyzeType exampleTypes asciiUnicode fuel (.Named ⟨some pkgRec, "Tree"⟩) = none ∧
    analyzeType exampleTypes asciiUnicode fuel (.Named ⟨some pkgRec, "M"⟩) = none ∧
    analyzeType exampleTypes asciiUnicode fuel (.Named ⟨some pkgRec, "P"⟩) = none :=
  ⟨by decide, by decide, by decide, analyzeType_Tree_diverges fuel, analyzeType_M_diverges fuel,
    analyzeType_P_diverges fuel⟩

end GenDto
